import Mathlib

/-!
# Semantic analysis of Empirical: type equality, the symbol table and the visitors

A shallow embedding of the type utilities, the symbol-resolution table and
the visitors of `src/sema.cpp` (class `SemaVisitor`), with the properties the
specification states about them.

Pointers of the source are modelled as follows.

* `datatype_t` is a nullable pointer to a type node; the constructor `null`
  is `nullptr`.
* A `UDT` node holds a reference to a `DataRef`, which points to a `DataDef`
  statement whose body is assigned after the node is built.  The chain
  `UDT -> DataRef -> DataDef` is modelled by the address of the `DataDef` in a
  heap; the heap maps an address to the current contents of the definition.
* Recursion of the source that follows such addresses has no structural
  bound, so it is given a recursion budget (`fuel`); the value `none` means
  that the budget was used up before the function returned.
* The visitors pass the state of the analyzer along (`SemaState`) and return
  a `Result`: a value with the state after the visit, the failure thrown by
  `nyi` with the state at the throw, or no result when a budget is used up
  or the source would read through a null pointer or outside a vector.  The
  nesting of the visits is bounded by a second budget (`depth`).
-/

namespace Sema

/-! ## Data model -/

/-- Modelled from the spec: the header that declares the HIR nodes is not
among the sources; the tags are the cases of the switches of `sema.cpp` over
`HIR::datatype_::DatatypeKind`. -/
inductive DatatypeKind where
  | kVVMType | kUDT | kArray | kFuncType | kKind | kVoid
  deriving DecidableEq, Repr

/-- Modelled from the spec: the declaration of `HIR::datatype_t` is not among
the sources; the constructors and their fields are the ones `sema.cpp` reads
and the specification lists.  `null` is the null pointer; `UDT s ref` holds
the address `ref` of the data definition that declares the fields. -/
inductive datatype_t where
  | null
  | VVMType (t : Nat)
  | UDT (s : String) (ref : Nat)
  | Array (type : datatype_t)
  | FuncType (argtypes : List datatype_t) (rettype : datatype_t)
  | Kind (type : datatype_t)
  | Void
  deriving Repr

mutual
/-- Boolean equality test on type nodes. -/
def datatype_t.beq : datatype_t → datatype_t → Bool
  | .null, .null => true
  | .VVMType a, .VVMType b => a == b
  | .UDT s a, .UDT t b => s == t && a == b
  | .Array a, .Array b => datatype_t.beq a b
  | .FuncType la lr, .FuncType ra rr => datatype_t.beqList la ra && datatype_t.beq lr rr
  | .Kind a, .Kind b => datatype_t.beq a b
  | .Void, .Void => true
  | _, _ => false
/-- Boolean equality test on lists of type nodes. -/
def datatype_t.beqList : List datatype_t → List datatype_t → Bool
  | [], [] => true
  | a :: as, b :: bs => datatype_t.beq a b && datatype_t.beqList as bs
  | _, _ => false
end

mutual
theorem datatype_t.eq_of_beq : ∀ (a b : datatype_t), datatype_t.beq a b = true → a = b
  | .null, b, h => by cases b <;> simp [datatype_t.beq] at h ⊢
  | .VVMType a, b, h => by cases b <;> simp [datatype_t.beq] at h ⊢; exact h
  | .UDT s a, b, h => by cases b <;> simp [datatype_t.beq] at h ⊢; exact h
  | .Array a, b, h => by
      cases b <;> simp [datatype_t.beq] at h ⊢
      exact datatype_t.eq_of_beq _ _ h
  | .FuncType la lr, b, h => by
      cases b <;> simp [datatype_t.beq] at h ⊢
      exact ⟨datatype_t.eq_of_beqList _ _ h.1, datatype_t.eq_of_beq _ _ h.2⟩
  | .Kind a, b, h => by
      cases b <;> simp [datatype_t.beq] at h ⊢
      exact datatype_t.eq_of_beq _ _ h
  | .Void, b, h => by cases b <;> simp [datatype_t.beq] at h ⊢
theorem datatype_t.eq_of_beqList :
    ∀ (a b : List datatype_t), datatype_t.beqList a b = true → a = b
  | [], b, h => by cases b <;> simp [datatype_t.beqList] at h ⊢
  | a :: as, b, h => by
      cases b <;> simp [datatype_t.beqList] at h ⊢
      exact ⟨datatype_t.eq_of_beq _ _ h.1, datatype_t.eq_of_beqList _ _ h.2⟩
end

mutual
theorem datatype_t.beq_self : ∀ (a : datatype_t), datatype_t.beq a a = true
  | .null => by simp [datatype_t.beq]
  | .VVMType a => by simp [datatype_t.beq]
  | .UDT s a => by simp [datatype_t.beq]
  | .Array a => by simp [datatype_t.beq, datatype_t.beq_self a]
  | .FuncType la lr => by
      simp [datatype_t.beq, datatype_t.beqList_self la, datatype_t.beq_self lr]
  | .Kind a => by simp [datatype_t.beq, datatype_t.beq_self a]
  | .Void => by simp [datatype_t.beq]
theorem datatype_t.beqList_self : ∀ (a : List datatype_t), datatype_t.beqList a a = true
  | [] => by simp [datatype_t.beqList]
  | a :: as => by simp [datatype_t.beqList, datatype_t.beq_self a, datatype_t.beqList_self as]
end

instance : DecidableEq datatype_t := fun a b =>
  if h : datatype_t.beq a b = true then isTrue (datatype_t.eq_of_beq a b h)
  else isFalse (fun e => h (e ▸ datatype_t.beq_self a))

/-- Tag of a non-null type node; `none` for the null pointer. -/
def datatype_t.datatype_kind : datatype_t → Option DatatypeKind
  | .null => none
  | .VVMType _ => some .kVVMType
  | .UDT _ _ => some .kUDT
  | .Array _ => some .kArray
  | .FuncType _ _ => some .kFuncType
  | .Kind _ => some .kKind
  | .Void => some .kVoid

/-- Null test on a type pointer (`node == nullptr`). -/
def datatype_t.is_null : datatype_t → Bool
  | .null => true
  | _ => false

/-- Modelled from the spec: the declaration of `HIR::declaration_t` is not
among the sources; these are the fields the type utilities and the symbol
table read. -/
structure declaration where
  name : String
  type : datatype_t
  offset : Nat
  deriving DecidableEq

/-- Modelled from the spec: the declaration of `HIR::DataDef` is not among the
sources; `body` holds the addresses of the field declarations. -/
structure DataDef where
  name : String
  body : List Nat
  scope : Nat
  deriving DecidableEq

/-- Modelled from the spec: the declaration of `HIR::FunctionDef` is not among
the sources; name, addresses of the argument declarations and return type. -/
structure FunctionDef where
  name : String
  args : List Nat
  rettype : datatype_t
  deriving DecidableEq

/-- Modelled from the spec: the declaration of `HIR::GenericFunctionDef` is not
among the sources; addresses of the original function and of its
instantiations. -/
structure GenericFunctionDef where
  original_func : Nat
  instantiated_funcs : List Nat
  deriving DecidableEq

/-- The heap of HIR nodes that are shared and assigned to after they are
built, by address. -/
structure Heap where
  decl : Nat → declaration
  datadef : Nat → DataDef
  funcdef : Nat → FunctionDef
  generic : Nat → GenericFunctionDef

/-- Modelled from the spec: the declaration of `HIR::resolved_t` is not among
the sources; the constructors are the cases of `get_type`.  A value is a
non-null pointer to a reference node; a reference to a declaration or
definition holds the address of what it refers to, and two references are
the same pointer when they are equal. -/
inductive resolved_t where
  | DeclRef (ref : Nat)
  | FuncRef (ref : Nat)
  | GenericFuncRef (ref : Nat)
  | DataRef (ref : Nat)
  | ModRef (ref : Nat)
  | VVMOpRef (opcode : Nat) (type : datatype_t)
  | VVMTypeRef (t : Nat)
  | CompilerRef (code : Nat) (type : datatype_t)
  deriving DecidableEq

/-- Modelled from the spec: the declaration of `HIR::expr_t` is not among the
sources; an expression as far as symbol resolution reads it. -/
structure expr_t where
  name : String
  type : datatype_t
  deriving DecidableEq

/-! ## Type utilities -/

/-- The type of a function definition (`get_type(HIR::FunctionDef_t)`). -/
def get_type_def (h : Heap) (node : FunctionDef) : datatype_t :=
  .FuncType (node.args.map (fun arg => (h.decl arg).type)) node.rettype

/-- The type of a resolved item (`get_type(HIR::resolved_t)`); `none` is the
null pointer argument. -/
def get_type (h : Heap) : Option resolved_t → datatype_t
  | none => .null
  | some (.DeclRef ref) => (h.decl ref).type
  | some (.FuncRef ref) => get_type_def h (h.funcdef ref)
  | some (.GenericFuncRef ref) =>
      get_type_def h (h.funcdef (h.generic ref).original_func)
  | some (.DataRef ref) => .Kind (.UDT (h.datadef ref).name ref)
  | some (.ModRef _) => .null
  | some (.VVMOpRef _ type) => type
  | some (.VVMTypeRef t) => .Kind (.VVMType t)
  | some (.CompilerRef _ type) => type

/-- The scope of a type (`get_scope(HIR::datatype_t)`): the field scope of
the data definition of a user-defined type, zero otherwise. -/
def get_scope (h : Heap) : datatype_t → Nat
  | .UDT _ ref => (h.datadef ref).scope
  | _ => 0

/-- The data definition behind a user-defined type (`get_data_def`). -/
def get_data_def (h : Heap) : datatype_t → Option DataDef
  | .UDT _ ref => some (h.datadef ref)
  | _ => none

/-- The field loop of the `kUDT` case of `is_same_type`: it stops with
`false` at the first position whose types differ or whose names differ; the
types are compared first. -/
def same_body (h : Heap) (rec : datatype_t → datatype_t → Option Bool) :
    List Nat → List Nat → Option Bool
  | l :: ls, r :: rs =>
      match rec (h.decl l).type (h.decl r).type with
      | none => none
      | some false => some false
      | some true =>
          if (h.decl l).name != (h.decl r).name then some false
          else same_body h rec ls rs
  | _, _ => some true

/-- The argument loop of the `kFuncType` case of `is_same_type`. -/
def same_args (rec : datatype_t → datatype_t → Option Bool) :
    List datatype_t → List datatype_t → Option Bool
  | l :: ls, r :: rs =>
      match rec l r with
      | none => none
      | some false => some false
      | some true => same_args rec ls rs
  | _, _ => some true

/-- Structural equality of two types (`is_same_type`), with a recursion
budget: every call, the outermost included, uses one unit. -/
def is_same_type (h : Heap) : Nat → datatype_t → datatype_t → Option Bool
  | 0, _, _ => none
  | fuel + 1, left, right =>
      if left.is_null || right.is_null then some true
      else if left.datatype_kind ≠ right.datatype_kind then some false
      else
        match left, right with
        | .VVMType l, .VVMType r => some (l == r)
        | .UDT _ l, .UDT _ r =>
            if (h.datadef l).body.length ≠ (h.datadef r).body.length then some false
            else same_body h (is_same_type h fuel) (h.datadef l).body (h.datadef r).body
        | .Array l, .Array r => is_same_type h fuel l r
        | .FuncType la lr, .FuncType ra rr =>
            if la.length ≠ ra.length then some false
            else
              match same_args (is_same_type h fuel) la ra with
              | none => none
              | some false => some false
              | some true => is_same_type h fuel lr rr
        | .Kind l, .Kind r => is_same_type h fuel l r
        | .Void, .Void => some true
        | _, _ => some true

/-- Whether `second` may join an overload list that holds `first`
(`is_overloadable`). -/
def is_overloadable (h : Heap) (fuel : Nat) (first second : resolved_t) : Option Bool :=
  match first with
  | .VVMTypeRef _ | .DataRef _ =>
      match second with
      | .VVMOpRef _ _ | .FuncRef _ => some true
      | _ => some false
  | .VVMOpRef _ _ | .FuncRef _ =>
      match second with
      | .VVMOpRef _ _ | .FuncRef _ =>
          match is_same_type h fuel (get_type h (some first)) (get_type h (some second)) with
          | none => none
          | some b => some (!b)
      | _ => some false
  | _ => some false

/-- Whether a reference may be replaced (`is_overridable`); `none` is the
null pointer. -/
def is_overridable : Option resolved_t → Bool
  | none => true
  | some (.VVMTypeRef _) => false
  | some (.VVMOpRef _ _) => false
  | some _ => true

/-! ## Symbol resolution -/

/-- An overload list (`Scope::Resolveds`). -/
abbrev Resolveds := List resolved_t

/-- The symbol map of a single scope (`struct Scope`). -/
structure Scope where
  map : String → Option Resolveds
  previous_scope : Nat

/-- The members of `SemaVisitor` that symbol resolution reads and writes. -/
structure SemaVisitor where
  symbol_table_ : List Scope
  current_scope_ : Nat
  preferred_scope_ : Option expr_t
  interactive_ : Bool

/-- Write a scope back at index `idx` of the table. -/
def SemaVisitor.set_scope (st : SemaVisitor) (idx : Nat) (scope : Scope) : SemaVisitor :=
  { st with symbol_table_ := st.symbol_table_.set idx scope }

/-- Search only the given scope (`find_symbol_in_scope`); `none` when `idx`
is outside the table. -/
def find_symbol_in_scope (st : SemaVisitor) (symbol : String) (idx : Nat) :
    Option Resolveds :=
  match st.symbol_table_[idx]? with
  | none => none
  | some scope =>
      match scope.map symbol with
      | some resolveds => some resolveds
      | none => some []

/-- The walk of `find_symbol` over the current and prior scopes, from scope
`i`; `fuel` bounds the number of scopes visited. -/
def find_symbol_walk (st : SemaVisitor) (symbol : String) : Nat → Nat → Option Resolveds
  | 0, _ => none
  | fuel + 1, i =>
      match st.symbol_table_[i]? with
      | none => none
      | some scope =>
          match scope.map symbol with
          | some resolveds => some resolveds
          | none =>
              if i ≠ 0 then find_symbol_walk st symbol fuel scope.previous_scope
              else some []

/-- Look a symbol up (`find_symbol`): the list found and the value written
to `in_preferred`. -/
def find_symbol (h : Heap) (st : SemaVisitor) (fuel : Nat) (symbol : String) :
    Option (Resolveds × Bool) :=
  let walk : Option (Resolveds × Bool) :=
    match find_symbol_walk st symbol fuel st.current_scope_ with
    | none => none
    | some resolveds => some (resolveds, false)
  match st.preferred_scope_ with
  | some e =>
      match find_symbol_in_scope st symbol (get_scope h e.type) with
      | none => none
      | some initial => if !initial.isEmpty then some (initial, true) else walk
  | none => walk

/-- The loop of `store_symbol` over an existing overload list, followed by
the `push_back`: the value returned and the list afterwards. -/
def store_loop (h : Heap) (fuel : Nat) (interactive_ : Bool) (ptr : resolved_t) :
    Resolveds → Option (Bool × Resolveds)
  | [] => some (true, [ptr])
  | r :: rs =>
      match is_overloadable h fuel r ptr with
      | none => none
      | some false =>
          if interactive_ && is_overridable (some r) then some (true, ptr :: rs)
          else some (false, r :: rs)
      | some true =>
          match store_loop h fuel interactive_ ptr rs with
          | none => none
          | some (b, rs') => some (b, r :: rs')

/-- Save a reference for a symbol in the current scope (`store_symbol`):
the value returned and the state afterwards. -/
def store_symbol (h : Heap) (fuel : Nat) (st : SemaVisitor) (symbol : String)
    (ptr : resolved_t) : Option (Bool × SemaVisitor) :=
  match st.symbol_table_[st.current_scope_]? with
  | none => none
  | some scope =>
      match scope.map symbol with
      | some resolveds =>
          match store_loop h fuel st.interactive_ ptr resolveds with
          | none => none
          | some (false, _) => some (false, st)
          | some (true, resolveds') =>
              some (true, st.set_scope st.current_scope_
                { scope with map := Function.update scope.map symbol (some resolveds') })
      | none =>
          some (true, st.set_scope st.current_scope_
            { scope with map := Function.update scope.map symbol (some [ptr]) })

/-- Remove a symbol from the current scope (`remove_symbol`). -/
def remove_symbol (st : SemaVisitor) (symbol : String) : Option (Bool × SemaVisitor) :=
  match st.symbol_table_[st.current_scope_]? with
  | none => none
  | some scope =>
      some ((scope.map symbol).isSome,
        st.set_scope st.current_scope_
          { scope with map := Function.update scope.map symbol none })

/-- Remove one reference of a symbol (`remove_symbol_ref`): the first entry
that is the pointer `ptr`. -/
def remove_symbol_ref (st : SemaVisitor) (symbol : String) (ptr : resolved_t) :
    Option SemaVisitor :=
  match st.symbol_table_[st.current_scope_]? with
  | none => none
  | some scope =>
      match scope.map symbol with
      | some resolveds =>
          some (st.set_scope st.current_scope_
            { scope with map := Function.update scope.map symbol (some (resolveds.erase ptr)) })
      | none => some st

/-- Activate a new scope (`push_scope`). -/
def push_scope (st : SemaVisitor) : SemaVisitor :=
  { st with
    symbol_table_ := st.symbol_table_ ++ [⟨fun _ => none, st.current_scope_⟩]
    current_scope_ := st.symbol_table_.length }

/-- Deactivate the current scope (`pop_scope`). -/
def pop_scope (st : SemaVisitor) : Option SemaVisitor :=
  match st.symbol_table_[st.current_scope_]? with
  | none => none
  | some scope => some { st with current_scope_ := scope.previous_scope }

/-! ## Specification-side notions -/

/-- `is_same_type` returns `true` on `left` and `right`. -/
def SameType (h : Heap) (left right : datatype_t) : Prop :=
  ∃ fuel, is_same_type h fuel left right = some true

/-- A type without a null component at any depth, reading through the
definitions of its record types.  The predicate is inductive, so it holds
only of types whose unfolding through the heap is finite: a record whose
definition refers back to itself is excluded. -/
inductive NullFree (h : Heap) : datatype_t → Prop where
  | VVMType (t : Nat) : NullFree h (.VVMType t)
  | UDT (s : String) (ref : Nat) :
      (∀ d ∈ (h.datadef ref).body, NullFree h (h.decl d).type) → NullFree h (.UDT s ref)
  | Array (type : datatype_t) : NullFree h type → NullFree h (.Array type)
  | FuncType (argtypes : List datatype_t) (rettype : datatype_t) :
      (∀ a ∈ argtypes, NullFree h a) → NullFree h rettype →
      NullFree h (.FuncType argtypes rettype)
  | Kind (type : datatype_t) : NullFree h type → NullFree h (.Kind type)
  | Void : NullFree h .Void

/-- `is_same_type` returns `false` on `left` and `right`. -/
def NotSameType (h : Heap) (left right : datatype_t) : Prop :=
  ∃ fuel, is_same_type h fuel left right = some false

/-- `is_overloadable` returns `true` on `first` and `second`. -/
def Overloadable (h : Heap) (first second : resolved_t) : Prop :=
  ∃ fuel, is_overloadable h fuel first second = some true

/-- `is_overloadable` returns `false` on `first` and `second`. -/
def NotOverloadable (h : Heap) (first second : resolved_t) : Prop :=
  ∃ fuel, is_overloadable h fuel first second = some false

/-- `store_symbol` returns `b` and leaves the state `st'`. -/
def StoreReturns (h : Heap) (st : SemaVisitor) (symbol : String) (ptr : resolved_t)
    (b : Bool) (st' : SemaVisitor) : Prop :=
  ∃ fuel, store_symbol h fuel st symbol ptr = some (b, st')

/-- What scope `idx` holds for `symbol`: `none` when the table has no such
scope, `some none` when the map of the scope has no entry for the symbol,
`some (some l)` when it maps the symbol to the overload list `l`. -/
def SemaVisitor.lookup (st : SemaVisitor) (idx : Nat) (symbol : String) :
    Option (Option Resolveds) :=
  match st.symbol_table_[idx]? with
  | none => none
  | some scope => some (scope.map symbol)

/-- The overload list scope `idx` holds for `symbol`, empty when it holds
none. -/
def SemaVisitor.entries (st : SemaVisitor) (idx : Nat) (symbol : String) : Resolveds :=
  match st.lookup idx symbol with
  | some (some resolveds) => resolveds
  | _ => []

/-- The parent link of scope `idx`. -/
def SemaVisitor.previous (st : SemaVisitor) (idx : Nat) : Option Nat :=
  match st.symbol_table_[idx]? with
  | none => none
  | some scope => some scope.previous_scope

/-- The states `st` and `st'` differ at most in what scope `idx` holds for
`symbol`: the same number of scopes with the same parent links, the same
current scope, preferred scope and mode, and the same entry for every other
scope or symbol. -/
def OnlyChanges (st st' : SemaVisitor) (idx : Nat) (symbol : String) : Prop :=
  st'.current_scope_ = st.current_scope_ ∧
  st'.preferred_scope_ = st.preferred_scope_ ∧
  st'.interactive_ = st.interactive_ ∧
  st'.symbol_table_.length = st.symbol_table_.length ∧
  (∀ i, st'.previous i = st.previous i) ∧
  (∀ i n, (i ≠ idx ∨ n ≠ symbol) → st'.lookup i n = st.lookup i n)

/-- Type-like references: built-in type names and data definitions. -/
def is_type_like : resolved_t → Bool
  | .VVMTypeRef _ => true
  | .DataRef _ => true
  | _ => false

/-- Function-like references: built-in operators and function definitions. -/
def is_function_like : resolved_t → Bool
  | .VVMOpRef _ _ => true
  | .FuncRef _ => true
  | _ => false

/-- Built-in references: primitive type names and VM operators. -/
def is_builtin : resolved_t → Bool
  | .VVMTypeRef _ => true
  | .VVMOpRef _ _ => true
  | _ => false

/-- A call of one of the operations of the symbol table. -/
inductive TableOp where
  | push_scope
  | pop_scope
  | store_symbol (symbol : String) (ptr : resolved_t)
  | remove_symbol_ref (symbol : String) (ptr : resolved_t)

/-- The state after one call; `none` when the call does not return. -/
def apply_op (h : Heap) (fuel : Nat) (st : SemaVisitor) : TableOp → Option SemaVisitor
  | .push_scope => some (push_scope st)
  | .pop_scope => pop_scope st
  | .store_symbol symbol ptr =>
      match store_symbol h fuel st symbol ptr with
      | none => none
      | some (_, st') => some st'
  | .remove_symbol_ref symbol ptr => remove_symbol_ref st symbol ptr

/-- The state after a sequence of calls. -/
def run_ops (h : Heap) (fuel : Nat) : SemaVisitor → List TableOp → Option SemaVisitor
  | st, [] => some st
  | st, op :: ops =>
      match apply_op h fuel st op with
      | none => none
      | some st' => run_ops h fuel st' ops

/-- The table before the first scope is pushed. -/
def empty_table (interactive_ : Bool) : SemaVisitor where
  symbol_table_ := []
  current_scope_ := 0
  preferred_scope_ := none
  interactive_ := interactive_

/-- The invariant of an overload list: at most one reference that is not
function-like, and no two function-like references at different positions
whose types are `is_same_type`; or a single reference that is neither
type-like nor function-like. -/
def OverloadSetInvariant (h : Heap) (l : Resolveds) : Prop :=
  ((l.filter (fun r => !is_function_like r)).length ≤ 1 ∧
    ∀ (i j : Nat) (a b : resolved_t), i < j → l[i]? = some a → l[j]? = some b →
      is_function_like a = true → is_function_like b = true →
      ¬ SameType h (get_type h (some a)) (get_type h (some b))) ∨
  (∃ r, l = [r] ∧ is_type_like r = false ∧ is_function_like r = false)

/-- The scopes `find_symbol` walks from scope `i`: `i`, its parent, and so
on up to the global scope 0; `fuel` bounds the length. -/
def scope_chain (st : SemaVisitor) : Nat → Nat → Option (List Nat)
  | 0, _ => none
  | fuel + 1, i =>
      match st.previous i with
      | none => none
      | some prev =>
          if i = 0 then some [0]
          else
            match scope_chain st fuel prev with
            | none => none
            | some rest => some (i :: rest)

/-- The overload list of the first scope of `chain` whose map has an entry
for `symbol`; the empty list when none has. -/
def nearest (st : SemaVisitor) (symbol : String) (chain : List Nat) : Resolveds :=
  (chain.findSome? (fun i => (st.lookup i symbol).join)).getD []

/-- A heap with three definitions of a function `f` of one argument of the
primitive type 1: the definition at address 0 returns the primitive type 1,
the one at address 1 returns the primitive type 2, and the one at address 2
has no return type yet (no explicit return type, body not yet analysed). -/
def overloadHeap : Heap where
  decl := fun _ => ⟨"x", .VVMType 1, 0⟩
  datadef := fun _ => ⟨"D", [], 0⟩
  funcdef := fun a =>
    match a with
    | 0 => ⟨"f", [0], .VVMType 1⟩
    | 1 => ⟨"f", [0], .VVMType 2⟩
    | _ => ⟨"f", [0], .null⟩
  generic := fun _ => ⟨0, []⟩

/-- The heap `overloadHeap` once the body of the third definition has been
analysed and its return type inferred: the primitive type 2. -/
def overloadHeapDone : Heap where
  decl := fun _ => ⟨"x", .VVMType 1, 0⟩
  datadef := fun _ => ⟨"D", [], 0⟩
  funcdef := fun a =>
    match a with
    | 0 => ⟨"f", [0], .VVMType 1⟩
    | _ => ⟨"f", [0], .VVMType 2⟩
  generic := fun _ => ⟨0, []⟩

/-- A table of three scopes: the global scope 0 binds `x` and `y`, scope 1
(inside scope 0) binds `x` again, scope 2 (inside scope 0) binds `z`; the
current scope is scope 1. -/
def nestedTable : SemaVisitor where
  symbol_table_ :=
    [⟨fun n => if n = "x" then some [.DeclRef 0] else if n = "y" then some [.DeclRef 1] else none, 0⟩,
     ⟨fun n => if n = "x" then some [.DeclRef 2] else none, 0⟩,
     ⟨fun n => if n = "z" then some [.DeclRef 3] else none, 0⟩]
  current_scope_ := 1
  preferred_scope_ := none
  interactive_ := false

/-- A table with the single scope 0 that holds the overload list `rs` for
the symbol `f` and nothing else. -/
def tableWith (interactive_ : Bool) (rs : Resolveds) : SemaVisitor where
  symbol_table_ := [⟨fun n => if n = "f" then some rs else none, 0⟩]
  current_scope_ := 0
  preferred_scope_ := none
  interactive_ := interactive_

/-- A heap with two record definitions of the same shape, `Point` at
address 0 and `Pair` at address 1, both with fields `x` and `y` of the
primitive type 3. -/
def pointHeap : Heap where
  decl := fun a =>
    match a with
    | 0 => ⟨"x", .VVMType 3, 0⟩
    | 1 => ⟨"y", .VVMType 3, 1⟩
    | 2 => ⟨"x", .VVMType 3, 0⟩
    | _ => ⟨"y", .VVMType 3, 1⟩
  datadef := fun a =>
    match a with
    | 0 => ⟨"Point", [0, 1], 2⟩
    | _ => ⟨"Pair", [2, 3], 3⟩
  funcdef := fun _ => ⟨"f", [], .Void⟩
  generic := fun _ => ⟨0, []⟩

/-- The heap after `data Node: next: Node end`: the definition at address 0
has one field, the declaration at address 0, whose type is the record
itself. -/
def nodeHeap : Heap where
  decl := fun _ => ⟨"next", .UDT "Node" 0, 0⟩
  datadef := fun _ => ⟨"Node", [0], 2⟩
  funcdef := fun _ => ⟨"f", [], .Void⟩
  generic := fun _ => ⟨0, []⟩

/-! ## Expressions, statements and the state of the visitor -/

/-- Modelled from the spec: `VVM/types.h` is not among the sources; the table
of display names of the primitive types and the identifiers of the primitive
types the analyzer names. -/
structure VVM where
  empirical_type_strings : Nat → String
  Ss : Nat
  i64s : Nat
  f64s : Nat
  b8s : Nat
  c8s : Nat

/-- Modelled from the spec: the header that declares the HIR nodes is not
among the sources; the tags are the cases `sema.cpp` tells apart in
`HIR::expr_::ExprKind`, for the expressions embedded here. -/
inductive ExprKind where
  | kId | kImpliedMember | kOverloadedId | kFunctionCall | kParen
  | kIntegerLiteral | kFloatingLiteral | kBoolLiteral | kStr | kChar
  | kMember | kList | kQuery | kBinOp
  deriving DecidableEq, Repr

/-- Modelled from the spec: the declaration of the HIR expression nodes is
not among the sources; the constructors and their fields follow the
constructor calls of `sema.cpp`.  The last two fields of every node are its
type and its display name. -/
inductive HIR.expr_t where
  | Id (s : String) (ref : Option resolved_t) (type : datatype_t) (name : String)
  | ImpliedMember (s : String) (ref : Option resolved_t) (implied_value : Sema.expr_t)
      (type : datatype_t) (name : String)
  | OverloadedId (s : String) (refs : List resolved_t) (type : datatype_t) (name : String)
  | FunctionCall (func : HIR.expr_t) (args : List HIR.expr_t) (type : datatype_t)
      (name : String)
  | Paren (subexpr : HIR.expr_t) (type : datatype_t) (name : String)
  | IntegerLiteral (n : Int) (type : datatype_t) (name : String)
  | FloatingLiteral (n : String) (type : datatype_t) (name : String)
  | BoolLiteral (b : Bool) (type : datatype_t) (name : String)
  | Str (s : String) (type : datatype_t) (name : String)
  | Char (c : Char) (type : datatype_t) (name : String)
  | Member (value : HIR.expr_t) (member : String) (ref : Option resolved_t)
      (type : datatype_t) (name : String)
  | List (values : List HIR.expr_t) (type : datatype_t) (name : String)
  | Query (table : HIR.expr_t) (qt : Nat) (cols : List (HIR.expr_t × String))
      (by_ : List (HIR.expr_t × String)) (where_ : Option HIR.expr_t)
      (by_type : datatype_t) (type : datatype_t) (name : String)
  | BinOp (left : HIR.expr_t) (op : String) (right : HIR.expr_t) (ref : Option resolved_t)
      (type : datatype_t) (name : String)

/-- The type of an expression node (`node->type`). -/
def HIR.expr_t.type : HIR.expr_t → datatype_t
  | .Id _ _ type _ => type
  | .ImpliedMember _ _ _ type _ => type
  | .OverloadedId _ _ type _ => type
  | .FunctionCall _ _ type _ => type
  | .Paren _ type _ => type
  | .IntegerLiteral _ type _ => type
  | .FloatingLiteral _ type _ => type
  | .BoolLiteral _ type _ => type
  | .Str _ type _ => type
  | .Char _ type _ => type
  | .Member _ _ _ type _ => type
  | .List _ type _ => type
  | .Query _ _ _ _ _ _ type _ => type
  | .BinOp _ _ _ _ type _ => type

/-- The display name of an expression node (`node->name`). -/
def HIR.expr_t.name : HIR.expr_t → String
  | .Id _ _ _ name => name
  | .ImpliedMember _ _ _ _ name => name
  | .OverloadedId _ _ _ name => name
  | .FunctionCall _ _ _ name => name
  | .Paren _ _ name => name
  | .IntegerLiteral _ _ name => name
  | .FloatingLiteral _ _ name => name
  | .BoolLiteral _ _ name => name
  | .Str _ _ name => name
  | .Char _ _ name => name
  | .Member _ _ _ _ name => name
  | .List _ _ name => name
  | .Query _ _ _ _ _ _ _ name => name
  | .BinOp _ _ _ _ _ name => name

/-- The tag of an expression node (`node->expr_kind`). -/
def HIR.expr_t.expr_kind : HIR.expr_t → ExprKind
  | .Id _ _ _ _ => .kId
  | .ImpliedMember _ _ _ _ _ => .kImpliedMember
  | .OverloadedId _ _ _ _ => .kOverloadedId
  | .FunctionCall _ _ _ _ => .kFunctionCall
  | .Paren _ _ _ => .kParen
  | .IntegerLiteral _ _ _ => .kIntegerLiteral
  | .FloatingLiteral _ _ _ => .kFloatingLiteral
  | .BoolLiteral _ _ _ => .kBoolLiteral
  | .Str _ _ _ => .kStr
  | .Char _ _ _ => .kChar
  | .Member _ _ _ _ _ => .kMember
  | .List _ _ _ => .kList
  | .Query _ _ _ _ _ _ _ _ => .kQuery
  | .BinOp _ _ _ _ _ _ => .kBinOp

/-- The summary of an expression that the preferred-scope slot keeps. -/
def HIR.expr_t.summary (e : HIR.expr_t) : Sema.expr_t := ⟨e.name, e.type⟩

/-- Modelled from the spec: the declaration of `HIR::declaration_t` is not
among the sources; a declaration node is the address `ref` of its record in
the heap together with the expressions of its annotation and initializer. -/
structure HIR.declaration_t where
  ref : Nat
  explicit_type : Option HIR.expr_t
  value : Option HIR.expr_t

/-- Modelled from the spec: the declaration of the HIR statement nodes is not
among the sources; a definition node is the address `ref` of its record in the
heap together with its sub-trees. -/
inductive HIR.stmt_t where
  | FunctionDef (ref : Nat) (args : List HIR.declaration_t)
      (explicit_rettype : Option HIR.expr_t) (body : List HIR.stmt_t)
  | GenericFunctionDef (ref : Nat) (args : List HIR.declaration_t)
      (explicit_rettype : Option HIR.expr_t) (body : List HIR.stmt_t)
  | DataDef (ref : Nat) (body : List HIR.declaration_t)
  | Return (value : Option HIR.expr_t)
  | If (test : HIR.expr_t) (body : List HIR.stmt_t) (orelse : List HIR.stmt_t)
  | While (test : HIR.expr_t) (body : List HIR.stmt_t)
  | Decl (dt : Nat) (decls : List HIR.declaration_t)
  | Assign (target : HIR.expr_t) (value : HIR.expr_t)
  | Del (target : List HIR.expr_t)
  | Expr (value : HIR.expr_t)

/-- Modelled from the spec: the AST node declarations are not among the
sources; the expression nodes whose visitors are embedded here, with the
fields the visitors read. -/
inductive AST.expr_t where
  | Id (s : String)
  | IntegerLiteral (n : Int)
  | FloatingLiteral (n : String)
  | BoolLiteral (b : Bool)
  | Str (s : String)
  | Char (c : Char)
  | Paren (subexpr : AST.expr_t)
  | FunctionCall (func : AST.expr_t) (args : List AST.expr_t)
  | Member (value : AST.expr_t) (member : String)
  | List (values : List AST.expr_t)
  | Query (table : AST.expr_t) (qt : Nat) (cols : List (AST.expr_t × String))
      (by_ : List (AST.expr_t × String)) (where_ : Option AST.expr_t)
  | BinOp (left : AST.expr_t) (op : String) (right : AST.expr_t)

/-- Modelled from the spec: an AST declaration, with the fields
`visitDeclaration` reads. -/
structure AST.declaration_t where
  name : String
  explicit_type : Option AST.expr_t
  value : Option AST.expr_t

/-- Modelled from the spec: the AST statement nodes whose visitors are
embedded here, with the fields the visitors read. -/
inductive AST.stmt_t where
  | FunctionDef (name : String) (args : List AST.declaration_t) (body : List AST.stmt_t)
      (explicit_rettype : Option AST.expr_t) (docstring : String)
  | DataDef (name : String) (body : List AST.declaration_t)
  | Return (value : Option AST.expr_t)
  | If (test : AST.expr_t) (body : List AST.stmt_t) (orelse : List AST.stmt_t)
  | While (test : AST.expr_t) (body : List AST.stmt_t)
  | Import
  | ImportFrom
  | Decl (dt : Nat) (decls : List AST.declaration_t)
  | Assign (target : AST.expr_t) (value : AST.expr_t)
  | Del (target : List AST.expr_t)
  | Expr (value : AST.expr_t)

/-- Modelled from the spec: an AST module. -/
structure AST.mod_t where
  body : List AST.stmt_t
  docstring : String

/-- Modelled from the spec: an HIR module. -/
structure HIR.mod_t where
  body : List HIR.stmt_t
  docstring : String

/-- Modelled from the spec: the collaborators of the analyzer that are not
among the sources: the tables of `VVM/types.h` and the parser, which
`create_datatype` calls on the text of a data definition (`none` when the
parser fails). -/
structure Env where
  vm : VVM
  parse : String → Option AST.mod_t

/-- The state of the visitor: the members of `SemaVisitor` for symbol
resolution (`table`), the heap of the nodes built so far with the next free
address of each kind, the stack of return-type lists (top first), the texts
written to `sema_err_` (one entry for each statement that writes to the
stream; none of them is empty, so the size of the stream grows exactly when an
entry is added), the counter of `anon_func_name` and the history. -/
structure SemaState where
  table : SemaVisitor
  heap : Heap
  next_decl : Nat
  next_datadef : Nat
  next_funcdef : Nat
  next_generic : Nat
  rettype_stack_ : List (List datatype_t)
  sema_err_ : List String
  counter : Nat
  history_ : List HIR.stmt_t

/-- What a visit leaves: a value and the state after it; or the exception
thrown by `nyi` with the state at the throw; or no result (`stuck`), when
the recursion budget is used up or the source would read outside the table
or through a null pointer. -/
inductive Result (α : Type) where
  | ok (value : α) (st : SemaState)
  | throw (msg : String) (st : SemaState)
  | stuck

mutual
/-- String-ify a datatype (`to_string`). -/
def to_string (vm : VVM) : datatype_t → String
  | .null => "_"
  | .VVMType t => vm.empirical_type_strings t
  | .UDT s _ => s
  | .Array type => "[" ++ to_string vm type ++ "]"
  | .FuncType argtypes rettype =>
      "(" ++ to_string_args vm argtypes ++ ") -> " ++ to_string vm rettype
  | .Kind type => "Kind(" ++ to_string vm type ++ ")"
  | .Void => "()"
/-- The argument types of a function type, the first without a separator. -/
def to_string_args (vm : VVM) : List datatype_t → String
  | [] => ""
  | a :: rest => to_string vm a ++ to_string_rest vm rest
/-- The argument types after the first, each after a separator. -/
def to_string_rest (vm : VVM) : List datatype_t → String
  | [] => ""
  | a :: rest => ", " ++ to_string vm a ++ to_string_rest vm rest
end

/-- Can call functions and types (`is_callable`). -/
def is_callable : datatype_t → Bool
  | .null => true
  | .FuncType _ _ => true
  | .Kind _ => true
  | _ => false

/-- Whether an expression is an overloaded identifier (`is_overloaded`). -/
def is_overloaded (node : HIR.expr_t) : Bool :=
  node.expr_kind = .kOverloadedId

/-- Whether a type is a kind (`is_kind_type`). -/
def is_kind_type : datatype_t → Bool
  | .Kind _ => true
  | _ => false

/-- Whether a type is void (`is_void_type`). -/
def is_void_type : datatype_t → Bool
  | .Void => true
  | _ => false

/-- Whether a type is an array (`is_array_type`). -/
def is_array_type : datatype_t → Bool
  | .Array _ => true
  | _ => false

/-- Whether a type is the boolean primitive type (`is_boolean_type`). -/
def is_boolean_type (vm : VVM) : datatype_t → Bool
  | .VVMType t => t = vm.b8s
  | _ => false

/-- Whether a type is a Dataframe: a UDT whose name starts with `!`
(`is_dataframe_type`). -/
def is_dataframe_type : datatype_t → Bool
  | .UDT s _ => s.data.head? = some '!'
  | _ => false

/-- Expressions are temporary if they do not outlive their immediate use
(`is_temporary`). -/
def is_temporary (node : HIR.expr_t) : Bool :=
  match node.expr_kind with
  | .kMember => false
  | .kId => false
  | .kImpliedMember => false
  | .kOverloadedId => false
  | _ => true

/-- The underlying type of an array or a kind, null otherwise
(`get_underlying_type`). -/
def get_underlying_type : datatype_t → datatype_t
  | .Array type => type
  | .Kind type => type
  | _ => .null

/-- The generic function an expression refers to, if it is an identifier
resolved to one (`get_generic`): the address of the generic definition. -/
def get_generic : HIR.expr_t → Option Nat
  | .Id _ (some (.GenericFuncRef ref)) _ _ => some ref
  | _ => none

/-- The argument types of a function type or of a kind (`get_argtypes`);
`none` for the kind of a null type, which the source dereferences. -/
def get_argtypes (h : Heap) : datatype_t → Option (List datatype_t)
  | .FuncType argtypes _ => some argtypes
  | .Kind type =>
      if type.is_null then none
      else
        match get_data_def h type with
        | some dd => some (dd.body.map (fun d => (h.decl d).type))
        | none => some []
  | _ => some []

/-- The return type of a function type or of a kind (`get_rettype`). -/
def get_rettype : datatype_t → datatype_t
  | .FuncType _ rettype => rettype
  | .Kind type => type
  | _ => .null

/-- The loop of `match_args` over the positions, from position `i`: the
explanation for the first position whose types are not `is_same_type`. -/
def match_args_loop (vm : VVM) (h : Heap) (fuel : Nat) :
    Nat → List datatype_t → List datatype_t → Option String
  | i, a :: as, t :: ts =>
      match is_same_type h fuel a t with
      | none => none
      | some false =>
          some ("argument type at position " ++ toString i ++ " does not match: " ++
            to_string vm a ++ " vs " ++ to_string vm t)
      | some true => match_args_loop vm h fuel (i + 1) as ts
  | _, _, _ => some ""

/-- Explanation of why function arguments did not match (`match_args`), the
empty string when they match; `args` holds the types of the argument
expressions. -/
def match_args (vm : VVM) (h : Heap) (fuel : Nat) (args : List datatype_t)
    (func_type : datatype_t) : Option String :=
  if func_type.is_null then some ""
  else
    match get_argtypes h func_type with
    | none => none
    | some argtypes =>
        if args.length ≠ argtypes.length then
          some ("wrong number of arguments; expected " ++ toString argtypes.length ++
            " but got " ++ toString args.length)
        else match_args_loop vm h fuel 0 args argtypes

/-- Append one text to the diagnostic stream (`sema_err_ << ...`). -/
def SemaState.error (st : SemaState) (msg : String) : SemaState :=
  { st with sema_err_ := st.sema_err_ ++ [msg] }

/-- Build a declaration node (`HIR::declaration(...)`): its address and the
state with the node in the heap. -/
def SemaState.new_declaration (st : SemaState) (d : declaration) : Nat × SemaState :=
  (st.next_decl,
    { st with
      heap := { st.heap with decl := Function.update st.heap.decl st.next_decl d }
      next_decl := st.next_decl + 1 })

/-- Build a data definition node (`HIR::DataDef(...)`). -/
def SemaState.new_DataDef (st : SemaState) (d : DataDef) : Nat × SemaState :=
  (st.next_datadef,
    { st with
      heap := { st.heap with datadef := Function.update st.heap.datadef st.next_datadef d }
      next_datadef := st.next_datadef + 1 })

/-- Build a function definition node (`HIR::FunctionDef(...)`). -/
def SemaState.new_FunctionDef (st : SemaState) (d : FunctionDef) : Nat × SemaState :=
  (st.next_funcdef,
    { st with
      heap := { st.heap with funcdef := Function.update st.heap.funcdef st.next_funcdef d }
      next_funcdef := st.next_funcdef + 1 })

/-- Build a generic function definition node
(`HIR::GenericFunctionDef(...)`). -/
def SemaState.new_GenericFunctionDef (st : SemaState) (d : GenericFunctionDef) :
    Nat × SemaState :=
  (st.next_generic,
    { st with
      heap := { st.heap with generic := Function.update st.heap.generic st.next_generic d }
      next_generic := st.next_generic + 1 })

/-- Assign to a declaration node through its pointer. -/
def SemaState.set_declaration (st : SemaState) (ref : Nat) (d : declaration) : SemaState :=
  { st with heap := { st.heap with decl := Function.update st.heap.decl ref d } }

/-- Assign to a data definition node through its pointer. -/
def SemaState.set_DataDef (st : SemaState) (ref : Nat) (d : DataDef) : SemaState :=
  { st with heap := { st.heap with datadef := Function.update st.heap.datadef ref d } }

/-- Assign to a function definition node through its pointer. -/
def SemaState.set_FunctionDef (st : SemaState) (ref : Nat) (d : FunctionDef) : SemaState :=
  { st with heap := { st.heap with funcdef := Function.update st.heap.funcdef ref d } }

/-- Assign to a generic function definition node through its pointer. -/
def SemaState.set_GenericFunctionDef (st : SemaState) (ref : Nat) (d : GenericFunctionDef) :
    SemaState :=
  { st with heap := { st.heap with generic := Function.update st.heap.generic ref d } }

/-- `store_symbol` on the state of the visitor. -/
def do_store_symbol (fuel : Nat) (st : SemaState) (symbol : String) (ptr : resolved_t) :
    Option (Bool × SemaState) :=
  match store_symbol st.heap fuel st.table symbol ptr with
  | none => none
  | some (b, table) => some (b, { st with table := table })

/-- `remove_symbol_ref` on the state of the visitor. -/
def do_remove_symbol_ref (st : SemaState) (symbol : String) (ptr : resolved_t) :
    Option SemaState :=
  match remove_symbol_ref st.table symbol ptr with
  | none => none
  | some table => some { st with table := table }

/-- `push_scope` on the state of the visitor. -/
def do_push_scope (st : SemaState) : SemaState :=
  { st with table := push_scope st.table }

/-- `pop_scope` on the state of the visitor. -/
def do_pop_scope (st : SemaState) : Option SemaState :=
  match pop_scope st.table with
  | none => none
  | some table => some { st with table := table }

/-- Assign to `current_scope_`. -/
def SemaState.set_current_scope (st : SemaState) (idx : Nat) : SemaState :=
  { st with table := { st.table with current_scope_ := idx } }

/-- Assign to `preferred_scope_`. -/
def SemaState.set_preferred_scope (st : SemaState) (e : Option Sema.expr_t) : SemaState :=
  { st with table := { st.table with preferred_scope_ := e } }

/-- The first character of a name (`name[0]`), the null character for the
empty string. -/
def first_char (s : String) : Char :=
  s.data.headD (Char.ofNat 0)

/-- The text the loop over the candidates of an overloaded call adds for one
candidate that does not match. -/
def candidate_text (vm : VVM) (func_type : datatype_t) (result : String) : String :=
  "\n  candidate: " ++ to_string vm func_type ++ "\n    " ++ result

/-- The loop of `visitFunctionCall` over the candidates of an overloaded
identifier (lines 1456-1472), from the count `counted_mismatch` and the text
`err_msg`: the candidate that matched, if any, the count and the text at the
end of the loop. -/
def overload_loop (vm : VVM) (h : Heap) (fuel : Nat) (args : List datatype_t) :
    List resolved_t → Nat → String → Option (Option resolved_t × Nat × String)
  | [], counted_mismatch, err_msg => some (none, counted_mismatch, err_msg)
  | ref :: rest, counted_mismatch, err_msg =>
      match match_args vm h fuel args (get_type h (some ref)) with
      | none => none
      | some result =>
          if result = "" then some (some ref, counted_mismatch, "")
          else
            overload_loop vm h fuel args rest (counted_mismatch + 1)
              (if counted_mismatch + 1 ≤ 3 then
                err_msg ++ candidate_text vm (get_type h (some ref)) result
              else err_msg)

/-- The branch of `visitFunctionCall` for an overloaded callee (lines
1451-1482): the callee afterwards and the diagnostic written, if any.  `s`
and `refs` are the fields of the overloaded identifier `func`. -/
def call_overloaded (vm : VVM) (h : Heap) (fuel : Nat) (s : String) (refs : List resolved_t)
    (func : HIR.expr_t) (args : List datatype_t) : Option (HIR.expr_t × Option String) :=
  match overload_loop vm h fuel args refs 0 "" with
  | none => none
  | some (found, counted_mismatch, err_msg) =>
      let func' :=
        match found with
        | some ref => HIR.expr_t.Id s (some ref) (get_type h (some ref)) s
        | none => func
      if err_msg ≠ "" then
        some (func', some ("Error: unable to match overloaded function " ++ s ++
          (if counted_mismatch > 3 then
            err_msg ++ "\n  ...\n  <" ++ toString (counted_mismatch - 3) ++ " others>"
          else err_msg) ++ "\n"))
      else some (func', none)

/-- The search of `visitFunctionCall` through the instantiations of a
generic function (lines 1402-1414): the address of the first one whose type
matches the arguments. -/
def find_instantiated (vm : VVM) (h : Heap) (fuel : Nat) (args : List datatype_t) :
    List Nat → Option (Option Nat)
  | [] => some none
  | inst :: rest =>
      match match_args vm h fuel args (get_type_def h (h.funcdef inst)) with
      | none => none
      | some result =>
          if result = "" then some (some inst)
          else find_instantiated vm h fuel args rest

/-- The loop that builds the arguments of a new instantiation (lines
1425-1430): a declared type that is null is filled in from the argument. -/
def fill_args : SemaState → List Nat → List datatype_t → List datatype_t →
    Option (List Nat × SemaState)
  | st, _, _, [] => some ([], st)
  | st, d :: ds, t :: ts, a :: as =>
      let type := if t.is_null then a else t
      let (new_arg, st₁) := st.new_declaration ⟨(st.heap.decl d).name, type, 0⟩
      match fill_args st₁ ds ts as with
      | none => none
      | some (new_args, st₂) => some (new_arg :: new_args, st₂)
  | _, _, _, _ :: _ => none

/-- The branch of `visitFunctionCall` for a generic callee (lines
1399-1447): the new callee, if the callee is replaced, and the state
afterwards.  `generic` is the address of the generic definition. -/
def call_generic (vm : VVM) (fuel : Nat) (st : SemaState) (generic : Nat)
    (args : List datatype_t) : Option (Option HIR.expr_t × SemaState) :=
  match find_instantiated vm st.heap fuel args (st.heap.generic generic).instantiated_funcs with
  | none => none
  | some (some inst) =>
      let d := st.heap.funcdef inst
      some (some (.Id d.name (some (.FuncRef inst)) (get_type_def st.heap d) d.name), st)
  | some none =>
      let d := st.heap.funcdef (st.heap.generic generic).original_func
      let func_type := get_type_def st.heap d
      match match_args vm st.heap fuel args func_type with
      | none => none
      | some err_msg =>
          if err_msg = "" then
            match get_argtypes st.heap func_type with
            | none => none
            | some argtypes =>
                match fill_args st d.args argtypes args with
                | none => none
                | some (new_args, st₁) =>
                    let (new_def, st₂) := st₁.new_FunctionDef ⟨d.name, new_args, d.rettype⟩
                    let g := st₂.heap.generic generic
                    let st₃ := st₂.set_GenericFunctionDef generic
                      { g with instantiated_funcs := g.instantiated_funcs ++ [new_def] }
                    some (some (.Id d.name (some (.FuncRef new_def))
                      (get_type_def st₃.heap (st₃.heap.funcdef new_def)) d.name), st₃)
          else some (none, st.error ("Error: " ++ err_msg ++ "\n"))

/-- The scalar definition behind a Dataframe name (`get_underlying_udt`):
`some none` is the null pointer, `some (some a)` the address of the data
definition. -/
def get_underlying_udt (fuel : Nat) (st : SemaState) (name : String) : Option (Option Nat) :=
  match find_symbol st.heap st.table fuel (name.drop 1) with
  | none => none
  | some ([], _) => some none
  | some (.DataRef ref :: _, _) => some (some ref)
  | some (_ :: _, _) => some none

/-- The loop of `is_dataframe_type_valid` over the fields. -/
def dataframe_valid_loop (h : Heap) (fuel : Nat) : List Nat → List Nat → Option Bool
  | l :: ls, r :: rs =>
      match is_same_type h fuel (.Array (h.decl l).type) (h.decl r).type with
      | none => none
      | some false => some false
      | some true =>
          if (h.decl l).name != (h.decl r).name then some false
          else dataframe_valid_loop h fuel ls rs
  | _, _ => some true

/-- Whether an instantiated structure reflects the array-ized underlying
structure (`is_dataframe_type_valid`); `left` is the address of the scalar
definition.  The source reads `ref` as a `DataRef`. -/
def is_dataframe_type_valid (h : Heap) (fuel : Nat) (left : Nat) (ref : resolved_t) :
    Option Bool :=
  match ref with
  | .DataRef right =>
      if (h.datadef left).body.length ≠ (h.datadef right).body.length then some false
      else dataframe_valid_loop h fuel (h.datadef left).body (h.datadef right).body
  | _ => none

/-- The loop of `make_dataframe` that declares the array-ized fields in the
new scope. -/
def make_dataframe_fields (fuel : Nat) : SemaState → List Nat → Option (List Nat × SemaState)
  | st, [] => some ([], st)
  | st, b :: bs =>
      let (d, st₁) := st.new_declaration
        ⟨(st.heap.decl b).name, .Array (st.heap.decl b).type, (st.heap.decl b).offset⟩
      match do_store_symbol fuel st₁ (st.heap.decl b).name (.DeclRef d) with
      | none => none
      | some (_, st₂) =>
          match make_dataframe_fields fuel st₂ bs with
          | none => none
          | some (body, st₃) => some (d :: body, st₃)

/-- The part of `make_dataframe` that makes a new definition (lines
439-451); `node` is the address of the scalar definition. -/
def new_dataframe (fuel : Nat) (st : SemaState) (name : String) (node : Nat) :
    Option (datatype_t × SemaState) :=
  let st₁ := do_push_scope st
  let scope := st₁.table.current_scope_
  match make_dataframe_fields fuel st₁ (st.heap.datadef node).body with
  | none => none
  | some (body, st₂) =>
      match do_pop_scope st₂ with
      | none => none
      | some st₃ =>
          let (new_node, st₄) := st₃.new_DataDef ⟨name, body, scope⟩
          match do_store_symbol fuel st₄ name (.DataRef new_node) with
          | none => none
          | some (_, st₅) => some (.UDT name new_node, st₅)

/-- The reference `make_dataframe` finds for the Dataframe name (lines
431-438): the first resolution, when it is valid for the scalar definition
at `node`; `some none` is the null pointer. -/
def existing_dataframe (h : Heap) (fuel : Nat) (node : Nat) :
    Resolveds → Option (Option resolved_t)
  | [] => some none
  | ref :: _ =>
      match is_dataframe_type_valid h fuel node ref with
      | none => none
      | some true => some (some ref)
      | some false => some none

/-- Attempt to make the Dataframe with the given type name
(`make_dataframe`). -/
def make_dataframe (fuel : Nat) (st : SemaState) (name : String) :
    Option (datatype_t × SemaState) :=
  match get_underlying_udt fuel st name with
  | none => none
  | some none => some (.null, st)
  | some (some node) =>
      match find_symbol st.heap st.table fuel name with
      | none => none
      | some (resolveds, _) =>
          match existing_dataframe st.heap fuel node resolveds with
          | none => none
          | some (some (.DataRef ref)) => some (.UDT name ref, st)
          | some (some _) => none
          | some none => new_dataframe fuel st name node

/-! ## The visitors -/

/-- Continue with the value and state of a visit that returned. -/
def Result.bind {α β : Type} (r : Result α) (f : α → SemaState → Result β) : Result β :=
  match r with
  | .ok value st => f value st
  | .throw msg st => .throw msg st
  | .stuck => .stuck

/-- Lift the result of a table operation. -/
def Result.ofOption {α : Type} : Option (α × SemaState) → Result α
  | some (value, st) => .ok value st
  | none => .stuck

/-- Visit the elements of a vector in order. -/
def visit_list {α β : Type} (f : SemaState → α → Result β) :
    SemaState → List α → Result (List β)
  | st, [] => .ok [] st
  | st, a :: as =>
      (f st a).bind fun b st₁ =>
        (visit_list f st₁ as).bind fun bs st₂ => .ok (b :: bs) st₂

/-- Visit an optional child (`node->child ? visit(node->child) : nullptr`). -/
def visit_option {α β : Type} (f : SemaState → α → Result β) :
    SemaState → Option α → Result (Option β)
  | st, none => .ok none st
  | st, some a => (f st a).bind fun b st₁ => .ok (some b) st₁

/-- Visit the aliases of a query (`visitAlias`, lines 1704-1711). -/
def visitAlias (f : SemaState → AST.expr_t → Result HIR.expr_t) (st : SemaState)
    (node : AST.expr_t × String) : Result (HIR.expr_t × String) :=
  let st₁ :=
    if node.2 ≠ "" ∧ (first_char node.2).isUpper then
      st.error ("Error: value name " ++ node.2 ++ " must begin with lower-case letter\n")
    else st
  (f st₁ node.1).bind fun value st₂ => .ok (value, node.2) st₂

/-- Dataframes need up-front attention (lines 1608-1611): a name that
begins with `!` is handed to `make_dataframe`, whose result is not used. -/
def dataframe_up_front (fuel : Nat) (st : SemaState) (s : String) : Option SemaState :=
  if first_char s = '!' then
    match make_dataframe fuel st s with
    | none => none
    | some (_, st₁) => some st₁
  else some st

/-- The node `visitId` builds for the resolutions of a name (lines
1620-1630). -/
def id_node (st : SemaState) (s : String) (resolveds : Resolveds) (in_preferred : Bool) :
    HIR.expr_t :=
  match resolveds with
  | [] =>
      match in_preferred, st.table.preferred_scope_ with
      | true, some p => .ImpliedMember s none p (get_type st.heap none) s
      | _, _ => .Id s none (get_type st.heap none) s
  | [ptr] =>
      match in_preferred, st.table.preferred_scope_ with
      | true, some p => .ImpliedMember s (some ptr) p (get_type st.heap (some ptr)) s
      | _, _ => .Id s (some ptr) (get_type st.heap (some ptr)) s
  | first :: _ :: _ => .OverloadedId s resolveds (get_type st.heap (some first)) s

/-- The visitor of an identifier (`visitId`, lines 1607-1631). -/
def visitId (fuel : Nat) (st : SemaState) (s : String) : Result HIR.expr_t :=
  match dataframe_up_front fuel st s with
  | none => .stuck
  | some st₁ =>
      match find_symbol st₁.heap st₁.table fuel s with
      | none => .stuck
      | some (resolveds, in_preferred) =>
          let st₂ :=
            if resolveds.length = 0 then
              st₁.error ("Error: symbol " ++ s ++ " was not found\n")
            else st₁
          .ok (id_node st₂ s resolveds in_preferred) st₂

/-- The type of a declaration (lines 1739-1741): the type of the annotation,
or the type of the initializer when that is null and there is one. -/
def declaration_type (type : datatype_t) : Option datatype_t → datatype_t
  | some vt => if type.is_null then vt else type
  | none => type

/-- The type of a declaration and the checks on it (lines 1739-1752):
`type` is the type of the annotation, null when there is none or it is not a
kind; `value` the type of the initializer, if there is one. -/
def declaration_checks (vm : VVM) (fuel : Nat) (st : SemaState) (type : datatype_t)
    (value : Option datatype_t) : Option (datatype_t × SemaState) :=
  let type₁ := declaration_type type value
  let checked : Option SemaState :=
    match value with
    | some vt =>
        match is_same_type st.heap fuel type₁ vt with
        | none => none
        | some true => some st
        | some false =>
            some (st.error ("Error: type of declaration does not match: " ++
              to_string vm type₁ ++ " vs " ++ to_string vm vt ++ "\n"))
    | none => some st
  match checked with
  | none => none
  | some st₁ =>
      let st₂ := if type₁.is_null then st₁.error "Error: unable to determine type\n" else st₁
      some (type₁,
        if is_void_type type₁ then st₂.error "Error: symbol cannot have a 'void' type\n"
        else st₂)

/-- The part of `visitDeclaration` after the annotation and the initializer
are visited (lines 1739-1762): the checks, the new node, and the store when
no diagnostic was written since `starting_err_length`. -/
def declaration_tail (env : Env) (fuel : Nat) (st : SemaState) (starting_err_length : Nat)
    (name : String) (type : datatype_t) (value : Option datatype_t) :
    Option (Nat × SemaState) :=
  match declaration_checks env.vm fuel st type value with
  | none => none
  | some (type₁, st₃) =>
      let (new_node, st₄) := st₃.new_declaration ⟨name, type₁, 0⟩
      if st₄.sema_err_.length = starting_err_length then
        match do_store_symbol fuel st₄ name (.DeclRef new_node) with
        | none => none
        | some (true, st₅) => some (new_node, st₅)
        | some (false, st₅) =>
            some (new_node, st₅.error ("Error: symbol " ++ name ++ " was already defined\n"))
      else some (new_node, st₄)

/-- The visitor of a declaration (`visitDeclaration`, lines 1713-1763);
`visit` is the visitor of expressions. -/
def visitDeclaration (env : Env) (fuel : Nat)
    (visit : SemaState → AST.expr_t → Result HIR.expr_t) (st : SemaState)
    (node : AST.declaration_t) : Result HIR.declaration_t :=
  let starting_err_length := st.sema_err_.length
  let st₁ :=
    if (first_char node.name).isUpper then
      st.error ("Error: value name " ++ node.name ++ " must begin with lower-case letter\n")
    else st
  (visit_option visit st₁ node.explicit_type).bind fun explicit_type st₂ =>
    let typed : datatype_t × SemaState :=
      match explicit_type with
      | some e =>
          if is_kind_type e.type then (get_underlying_type e.type, st₂)
          else
            (.null, st₂.error ("Error: declaration for " ++ node.name ++
              " has invalid type\n"))
      | none => (.null, st₂)
    (visit_option visit typed.2 node.value).bind fun value st₃ =>
      match declaration_tail env fuel st₃ starting_err_length node.name typed.1
          (value.map (fun v => v.type)) with
      | none => .stuck
      | some (new_node, st₄) => .ok ⟨new_node, explicit_type, value⟩ st₄

/-- The loop of `visitDataDef` over the fields (lines 975-979), from the
offset `offset`: each field is visited and then given its offset. -/
def visit_fields (env : Env) (fuel : Nat)
    (visit : SemaState → AST.expr_t → Result HIR.expr_t) :
    SemaState → Nat → List AST.declaration_t → Result (List HIR.declaration_t)
  | st, _, [] => .ok [] st
  | st, offset, b :: bs =>
      (visitDeclaration env fuel visit st b).bind fun d st₁ =>
        let st₂ := st₁.set_declaration d.ref { st₁.heap.decl d.ref with offset := offset }
        (visit_fields env fuel visit st₂ (offset + 1) bs).bind fun ds st₃ =>
          .ok (d :: ds) st₃

/-- The visitor of a data definition (`visitDataDef`, lines 958-990). -/
def visitDataDef (env : Env) (fuel : Nat)
    (visit : SemaState → AST.expr_t → Result HIR.expr_t) (st : SemaState)
    (name : String) (body : List AST.declaration_t) : Result HIR.stmt_t :=
  let starting_err_length := st.sema_err_.length
  let st₁ :=
    if (first_char name).isLower then
      st.error ("Error: type name " ++ name ++ " must begin with upper-case letter\n")
    else st
  let (new_node, st₂) := st₁.new_DataDef ⟨name, [], 0⟩
  match do_store_symbol fuel st₂ name (.DataRef new_node) with
  | none => .stuck
  | some (stored, st₃) =>
      let st₄ :=
        if stored then st₃
        else st₃.error ("Error: symbol " ++ name ++ " was already defined\n")
      let st₅ := do_push_scope st₄
      let scope := st₅.table.current_scope_
      (visit_fields env fuel visit st₅ 0 body).bind fun fields st₆ =>
        match do_pop_scope st₆ with
        | none => .stuck
        | some st₇ =>
            let removed : Option SemaState :=
              if st₇.sema_err_.length > starting_err_length then
                do_remove_symbol_ref st₇ name (.DataRef new_node)
              else some st₇
            match removed with
            | none => .stuck
            | some st₈ =>
                .ok (.DataDef new_node fields)
                  (st₈.set_DataDef new_node ⟨name, fields.map (fun d => d.ref), scope⟩)

/-- An anonymous name (`anon_func_name`): the name and the state with the
counter advanced. -/
def anon_func_name (st : SemaState) : String × SemaState :=
  ("Anon__" ++ toString st.counter, { st with counter := st.counter + 1 })

/-- The HIR node of a type definition string (`create_datatype`, lines
726-735): the parser is called on the text of a data definition, the name of
the parsed definition is replaced, and the definition is visited.  No result
when the parser fails or its first statement is not a data definition. -/
def create_datatype (env : Env) (fuel : Nat)
    (visit : SemaState → AST.expr_t → Result HIR.expr_t) (st : SemaState)
    (type_name : String) (type_def : String) : Result HIR.stmt_t :=
  match env.parse ("data Anon: " ++ type_def ++ " end") with
  | some ⟨.DataDef _ body :: _, _⟩ => visitDataDef env fuel visit st type_name body
  | _ => .stuck

/-- The loop of `get_type_string` over aliases (lines 738-754), from the
text built so far. -/
def get_type_string_aliases (vm : VVM) : String → List (HIR.expr_t × String) → String
  | result, [] => result
  | result, a :: rest =>
      let name := if a.2 = "" then a.1.name else a.2
      let dt := if is_array_type a.1.type then get_underlying_type a.1.type else a.1.type
      let new_item := name ++ ": " ++ to_string vm dt
      get_type_string_aliases vm (if result = "" then new_item else result ++ ", " ++ new_item)
        rest

/-- A sample of the tables of primitive types, for the examples: the
primitive types 1 to 5 with their display names. -/
def sampleVM : VVM where
  empirical_type_strings := fun t =>
    match t with
    | 1 => "Int64"
    | 2 => "Float64"
    | 3 => "Bool"
    | 4 => "String"
    | 5 => "Char"
    | _ => "?"
  Ss := 4
  i64s := 1
  f64s := 2
  b8s := 3
  c8s := 5

/-- The text of `get_type_string` for aliases (lines 738-754). -/
def get_type_string (vm : VVM) (aliases : List (HIR.expr_t × String)) : String :=
  get_type_string_aliases vm "" aliases

/-- The part of `visitFunctionCall` after the callee and the arguments are
visited (lines 1397-1492). -/
def function_call_tail (vm : VVM) (fuel : Nat) (st : SemaState) (func : HIR.expr_t)
    (args : List HIR.expr_t) : Result HIR.expr_t :=
  let argtypes := args.map (fun a => a.type)
  let resolved : Option (HIR.expr_t × SemaState) :=
    match get_generic func with
    | some generic =>
        match call_generic vm fuel st generic argtypes with
        | none => none
        | some (some func₁, st₁) => some (func₁, st₁)
        | some (none, st₁) => some (func, st₁)
    | none =>
        match func with
        | .OverloadedId s refs _ _ =>
            match call_overloaded vm st.heap fuel s refs func argtypes with
            | none => none
            | some (func₁, some msg) => some (func₁, st.error msg)
            | some (func₁, none) => some (func₁, st)
        | _ =>
            match match_args vm st.heap fuel argtypes func.type with
            | none => none
            | some err_msg =>
                some (func,
                  if err_msg = "" then st else st.error ("Error: " ++ err_msg ++ "\n"))
  match resolved with
  | none => .stuck
  | some (func₁, st₁) =>
      .ok (.FunctionCall func₁ args (get_rettype func₁.type)
        (match args with
          | a :: _ => a.name
          | [] => func₁.name)) st₁

/-- The part of `visitMember` after the value is visited (lines
1536-1550). -/
def member_tail (st : SemaState) (value : HIR.expr_t) (member : String) : Result HIR.expr_t :=
  let scope := get_scope st.heap value.type
  let st₁ := if scope = 0 then st.error "Error: value does not have members\n" else st
  match find_symbol_in_scope st₁.table member scope with
  | none => .stuck
  | some resolveds =>
      let st₂ :=
        if scope ≠ 0 ∧ resolveds.length = 0 then
          st₁.error ("Error: " ++ member ++ " is not a member\n")
        else st₁
      let ref : Option resolved_t :=
        match resolveds with
        | [r] => some r
        | _ => none
      let type := get_type st₂.heap ref
      let st₃ :=
        if ref.isSome ∧ type.is_null then st₂.error "Error: unable to resolve type\n"
        else st₂
      .ok (.Member value member ref type member) st₃

/-- The loop of `visitList` that compares the type of every element with the
expected type (lines 1641-1646). -/
def list_check (vm : VVM) (fuel : Nat) (expected : datatype_t) :
    SemaState → List HIR.expr_t → Option SemaState
  | st, [] => some st
  | st, e :: es =>
      match is_same_type st.heap fuel e.type expected with
      | none => none
      | some true => list_check vm fuel expected st es
      | some false =>
          list_check vm fuel expected
            (st.error ("Error: mismtach in list: " ++ to_string vm e.type ++ " vs " ++
              to_string vm expected ++ "\n")) es

/-- The part of `visitList` after the elements are visited (lines
1639-1659). -/
def list_tail (vm : VVM) (fuel : Nat) (st : SemaState) (values : List HIR.expr_t) :
    Result HIR.expr_t :=
  let expected : datatype_t :=
    match values with
    | v :: _ => v.type
    | [] => .null
  match list_check vm fuel expected st values with
  | none => .stuck
  | some st₁ =>
      let name :=
        match values with
        | v :: _ => v.name
        | [] => ""
      if is_kind_type expected then
        .ok (.List values (.Kind (.Array (get_underlying_type expected))) name)
          (if values.length ≥ 2 then st₁.error "Error: only one type allowed for lists\n"
           else st₁)
      else .ok (.List values (.Array expected) name) st₁

/-- The loop of `visitQuery` over the resulting columns (lines
1120-1130); `by_empty` tells whether the `by` list is empty. -/
def visit_cols (visit : SemaState → AST.expr_t → Result HIR.expr_t) (by_empty : Bool) :
    SemaState → List (AST.expr_t × String) → Result (List (HIR.expr_t × String))
  | st, [] => .ok [] st
  | st, c :: cs =>
      (visitAlias visit st c).bind fun col st₁ =>
        let is_array := is_array_type col.1.type
        let st₂ :=
          if by_empty && !is_array then
            st₁.error "Error: resulting column must be an array\n"
          else st₁
        let st₃ :=
          if !by_empty && is_array then
            st₂.error "Error: resulting column must be a scalar\n"
          else st₂
        (visit_cols visit by_empty st₃ cs).bind fun cols st₄ => .ok (col :: cols) st₄

/-- The anonymous Dataframe `visitQuery` makes for a type definition string
(lines 1113-1115 and 1135-1137): a fresh name, the scalar definition, and
the Dataframe of that name. -/
def anon_dataframe (env : Env) (fuel : Nat)
    (visit : SemaState → AST.expr_t → Result HIR.expr_t) (st : SemaState) (ts : String) :
    Result datatype_t :=
  let (type_name, st₁) := anon_func_name st
  (create_datatype env fuel visit st₁ type_name ts).bind fun _ st₂ =>
    Result.ofOption (make_dataframe fuel st₂ ("!" ++ type_name))

/-- The visitor of a query (`visitQuery`, lines 1093-1164); `visit` is the
visitor of expressions. -/
def visitQuery (env : Env) (fuel : Nat)
    (visit : SemaState → AST.expr_t → Result HIR.expr_t) (st : SemaState)
    (table : AST.expr_t) (qt : Nat) (cols by_ : List (AST.expr_t × String))
    (where_ : Option AST.expr_t) : Result HIR.expr_t :=
  (visit st table).bind fun table st₁ =>
    let st₂ :=
      if is_dataframe_type table.type then st₁
      else
        st₁.error ("Error: query must be on Dataframe, not " ++ to_string env.vm table.type ++
          "\n")
    let st₃ := st₂.set_preferred_scope (some table.summary)
    (visit_list (visitAlias visit) st₃ by_).bind fun by_ st₄ =>
      (if by_.isEmpty then Result.ok datatype_t.null st₄
        else anon_dataframe env fuel visit st₄ (get_type_string env.vm by_)).bind
        fun by_type st₅ =>
          (visit_cols visit by_.isEmpty st₅ cols).bind fun cols st₆ =>
            (if !cols.isEmpty then
                anon_dataframe env fuel visit st₆
                  ((if by_.isEmpty then "" else get_type_string env.vm by_ ++ ", ") ++
                    get_type_string env.vm cols)
              else
                Result.ok table.type
                  (if !by_.isEmpty then
                    st₆.error "Error: must express aggregation if 'by' is listed\n"
                   else st₆)).bind
              fun type st₇ =>
                (visit_option visit st₇ where_).bind fun where_ st₈ =>
                  let st₉ :=
                    match where_ with
                    | none => st₈
                    | some w =>
                        if is_array_type w.type && is_boolean_type env.vm
                            (get_underlying_type w.type) then st₈
                        else
                          st₈.error ("Error: 'where' must be a boolean array; got type " ++
                            to_string env.vm w.type ++ "\n")
                  .ok (.Query table qt cols by_ where_ by_type type table.name)
                    (st₉.set_preferred_scope none)

/-- The repacking of `visitBinOp` (lines 1372-1385): the call node of the
desugared expression becomes the operator node; `ref` is the reference of
the callee when the callee is an `Id`. -/
def repack_BinOp (op : String) : HIR.expr_t → Option HIR.expr_t
  | .FunctionCall func [left, right] type name =>
      let ref : Option resolved_t :=
        match func with
        | .Id _ ref _ _ => ref
        | _ => none
      some (.BinOp left op right ref type name)
  | _ => none

/-- The visitor of expressions: `depth` bounds the nesting of the visits,
`fuel` is the budget of the table operations. -/
def visit_expr (env : Env) (fuel : Nat) : Nat → SemaState → AST.expr_t → Result HIR.expr_t
  | 0, _, _ => .stuck
  | depth + 1, st, node =>
      match node with
      | .Id s => visitId fuel st s
      | .IntegerLiteral n => .ok (.IntegerLiteral n (.VVMType env.vm.i64s) "") st
      | .FloatingLiteral n => .ok (.FloatingLiteral n (.VVMType env.vm.f64s) "") st
      | .BoolLiteral b => .ok (.BoolLiteral b (.VVMType env.vm.b8s) "") st
      | .Str s => .ok (.Str s (.VVMType env.vm.Ss) "") st
      | .Char c => .ok (.Char c (.VVMType env.vm.c8s) "") st
      | .Paren subexpr =>
          (visit_expr env fuel depth st subexpr).bind fun subexpr st₁ =>
            .ok (.Paren subexpr subexpr.type subexpr.name) st₁
      | .FunctionCall func args =>
          (visit_expr env fuel depth st func).bind fun func st₁ =>
            let st₂ :=
              if is_callable func.type then st₁
              else
                st₁.error ("Error: type " ++ to_string env.vm func.type ++
                  " is not callable\n")
            (visit_list (visit_expr env fuel depth) st₂ args).bind fun args st₃ =>
              function_call_tail env.vm fuel st₃ func args
      | .Member value member =>
          (visit_expr env fuel depth st value).bind fun value st₁ =>
            member_tail st₁ value member
      | .List values =>
          (visit_list (visit_expr env fuel depth) st values).bind fun values st₁ =>
            list_tail env.vm fuel st₁ values
      | .Query table qt cols by_ where_ =>
          visitQuery env fuel (visit_expr env fuel depth) st table qt cols by_ where_
      | .BinOp left op right =>
          (visit_expr env fuel depth st (.FunctionCall (.Id op) [left, right])).bind
            fun result st₁ =>
              match repack_BinOp op result with
              | some node => .ok node st₁
              | none => .stuck

/-- The loop of `visitFunctionDef` that compares the collected return types
with the first one (lines 912-918), over the types after the first. -/
def check_rettypes (vm : VVM) (fuel : Nat) (name : String) (body_rettype : datatype_t) :
    SemaState → List datatype_t → Option SemaState
  | st, [] => some st
  | st, t :: ts =>
      match is_same_type st.heap fuel body_rettype t with
      | none => none
      | some true => check_rettypes vm fuel name body_rettype st ts
      | some false =>
          check_rettypes vm fuel name body_rettype
            (st.error ("Error: mismatched return types in function " ++ name ++ ": " ++
              to_string vm body_rettype ++ " vs " ++ to_string vm t ++ "\n")) ts

/-- The return type of the body (lines 904-919): the first collected return
type, null when the frame `rettypes` is empty, and the state with the
diagnostics of the comparison. -/
def body_return_type (vm : VVM) (fuel : Nat) (name : String) (st : SemaState)
    (rettypes : List datatype_t) : Option (datatype_t × SemaState) :=
  match rettypes with
  | [] => some (.null, st.error ("Error: function " ++ name ++ " has no return statements\n"))
  | body_rettype :: rest =>
      match check_rettypes vm fuel name body_rettype st rest with
      | none => none
      | some st₁ => some (body_rettype, st₁)

/-- The check of a cast definition (lines 934-948), for a name that begins
with an upper-case letter; no result when the name has no resolution, whose
first element the source reads. -/
def cast_check (fuel : Nat) (name : String) (st : SemaState) (rettype : datatype_t) :
    Option SemaState :=
  match find_symbol st.heap st.table fuel name with
  | none => none
  | some ([], _) => none
  | some (first :: _, _) =>
      let cast_type := get_type st.heap (some first)
      if is_kind_type cast_type then
        let expected := get_underlying_type cast_type
        match is_same_type st.heap fuel rettype expected with
        | none => none
        | some true => some st
        | some false =>
            match is_same_type st.heap fuel rettype (.Array expected) with
            | none => none
            | some true => some st
            | some false =>
                some (st.error ("Error: cast definition for " ++ name ++
                  " must return its own type\n"))
      else
        some (st.error ("Error: cast definition must be for a type, not " ++ name ++ "\n"))

/-- The return type of the definition and the two checks on it (lines
921-932): the explicit type `rettype`, or the return type of the body when
that is null. -/
def check_return_type (vm : VVM) (fuel : Nat) (name : String) (st : SemaState)
    (rettype body_rettype : datatype_t) : Option (datatype_t × SemaState) :=
  let rettype₁ := if rettype.is_null then body_rettype else rettype
  let st₁ :=
    if rettype₁.is_null then
      st.error ("Error: unable to determine return type for function " ++ name ++ "\n")
    else st
  match is_same_type st₁.heap fuel rettype₁ body_rettype with
  | none => none
  | some same =>
      some (rettype₁,
        if same then st₁
        else
          st₁.error ("Error: mismatched return types: " ++ to_string vm rettype₁ ++ " vs " ++
            to_string vm body_rettype ++ "\n"))

/-- The part of `visitFunctionDef` after the body is visited (lines
902-955): `rettype` is the type of the explicit return type, null when there
is none or it is not a kind; `new_node` the address of the definition and
`ref` the reference stored for it.  The result is the final return type and
the state. -/
def function_def_tail (vm : VVM) (fuel : Nat) (st : SemaState) (starting_err_length : Nat)
    (name : String) (rettype : datatype_t) (new_node : Nat) (ref : resolved_t) :
    Option (datatype_t × SemaState) :=
  match do_pop_scope st with
  | none => none
  | some st₁ =>
      match st₁.rettype_stack_ with
      | [] => none
      | rettypes :: stack =>
          match body_return_type vm fuel name st₁ rettypes with
          | none => none
          | some (body_rettype, st₂) =>
              match check_return_type vm fuel name { st₂ with rettype_stack_ := stack }
                  rettype body_rettype with
              | none => none
              | some (rettype₁, st₅) =>
                  let checked : Option SemaState :=
                    if (first_char name).isUpper then cast_check fuel name st₅ rettype₁
                    else some st₅
                  match checked with
                  | none => none
                  | some st₆ =>
                      let removed : Option SemaState :=
                        if st₆.sema_err_.length > starting_err_length then
                          do_remove_symbol_ref st₆ name ref
                        else some st₆
                      match removed with
                      | none => none
                      | some st₇ =>
                          some (rettype₁,
                            st₇.set_FunctionDef new_node
                              { st₇.heap.funcdef new_node with rettype := rettype₁ })

/-- The part of `visitReturn` after the value is visited (lines
997-1004): the type is added to the top frame. -/
def return_tail (st : SemaState) (e : Option HIR.expr_t) : SemaState :=
  match st.rettype_stack_ with
  | [] => st.error "Error: return statement is not in function body\n"
  | top :: stack =>
      let dt : datatype_t :=
        match e with
        | some v => v.type
        | none => .Void
      { st with rettype_stack_ := (top ++ [dt]) :: stack }

/-- The check of the test of `visitIf` and `visitWhile`. -/
def check_conditional (vm : VVM) (st : SemaState) (test : HIR.expr_t) : SemaState :=
  if is_boolean_type vm test.type then st
  else
    st.error ("Error: conditional must be a boolean, not " ++ to_string vm test.type ++ "\n")

/-- A block of statements visited in a scope of its own (`push_scope`, the
loop, `pop_scope`). -/
def visit_block (visit : SemaState → AST.stmt_t → Result HIR.stmt_t) (st : SemaState)
    (body : List AST.stmt_t) : Result (List HIR.stmt_t) :=
  (visit_list visit (do_push_scope st) body).bind fun body st₁ =>
    match do_pop_scope st₁ with
    | none => .stuck
    | some st₂ => .ok body st₂

/-- The part of `visitAssign` after the target and the value are visited
(lines 1066-1076). -/
def assign_tail (vm : VVM) (fuel : Nat) (st : SemaState) (target value : HIR.expr_t) :
    Option SemaState :=
  let st₁ :=
    if is_temporary target then st.error "Error: target of assignment cannot be temporary"
    else st
  match is_same_type st₁.heap fuel target.type value.type with
  | none => none
  | some same =>
      let st₂ :=
        if same then st₁
        else
          st₁.error ("Error: mismatched types in assignment: " ++ to_string vm target.type ++
            " vs " ++ to_string vm value.type ++ "\n")
      some (if is_void_type value.type then
        st₂.error "Error: type 'void' is not assignable\n" else st₂)

/-- The failure `nyi` raises. -/
def nyi {α : Type} (rule : String) (st : SemaState) : Result α :=
  .throw ("Not yet implemented: " ++ rule ++ "\n") st

/-- The type under the kind of an explicit return type (lines 854-863):
null, with a diagnostic, when the type of the expression is not a kind; null
when there is no expression. -/
def explicit_return_type (st : SemaState) (name : String) (e : Option HIR.expr_t) :
    datatype_t × SemaState :=
  match e with
  | some e =>
      if is_kind_type e.type then (get_underlying_type e.type, st)
      else (.null, st.error ("Error: return type for " ++ name ++ " has invalid type\n"))
  | none => (.null, st)

/-- The shell of a function definition (lines 872-888): the new definition,
the generic definition around it when some argument has no annotation, and
the reference to store. -/
def function_shell (st : SemaState) (name : String) (args : List Nat) (rettype : datatype_t)
    (is_generic : Bool) : Nat × resolved_t × Option Nat × SemaState :=
  let (new_node, st₁) := st.new_FunctionDef ⟨name, args, rettype⟩
  if is_generic then
    let (g, st₂) := st₁.new_GenericFunctionDef ⟨new_node, []⟩
    (new_node, .GenericFuncRef g, some g, st₂)
  else (new_node, .FuncRef new_node, none, st₁)

/-- The visitor of a function definition (`visitFunctionDef`, lines
847-956); `visit` is the visitor of expressions and `visit_body` the
visitor of statements. -/
def visitFunctionDef (env : Env) (fuel : Nat)
    (visit : SemaState → AST.expr_t → Result HIR.expr_t)
    (visit_body : SemaState → AST.stmt_t → Result HIR.stmt_t) (st : SemaState)
    (name : String) (args : List AST.declaration_t) (body : List AST.stmt_t)
    (explicit_rettype : Option AST.expr_t) : Result HIR.stmt_t :=
  let starting_err_length := st.sema_err_.length
  (visit_option visit st explicit_rettype).bind fun explicit_rettype st₁ =>
    let typed := explicit_return_type st₁ name explicit_rettype
    let outer_scope := typed.2.table.current_scope_
    let st₃ := do_push_scope typed.2
    let inner_scope := st₃.table.current_scope_
    (visit_list (visitDeclaration env fuel visit) st₃ args).bind fun hargs st₄ =>
      let shell := function_shell st₄ name (hargs.map (fun d => d.ref)) typed.1
        (args.any (fun a => a.explicit_type.isNone))
      match do_store_symbol fuel (shell.2.2.2.set_current_scope outer_scope) name
          shell.2.1 with
      | none => .stuck
      | some (stored, st₇) =>
          let st₈ :=
            if stored then st₇
            else st₇.error ("Error: symbol " ++ name ++ " was already defined\n")
          let st₉ : SemaState :=
            { st₈.set_current_scope inner_scope with
              rettype_stack_ := [] :: st₈.rettype_stack_ }
          (visit_list visit_body st₉ body).bind fun hbody st₁₀ =>
            match function_def_tail env.vm fuel st₁₀ starting_err_length name typed.1
                shell.1 shell.2.1 with
            | none => .stuck
            | some (_, st₁₁) =>
                match shell.2.2.1 with
                | some g => .ok (.GenericFunctionDef g hargs explicit_rettype hbody) st₁₁
                | none => .ok (.FunctionDef shell.1 hargs explicit_rettype hbody) st₁₁

/-- The visitor of statements: `depth` bounds the nesting of the visits,
`fuel` is the budget of the table operations. -/
def visit_stmt (env : Env) (fuel : Nat) : Nat → SemaState → AST.stmt_t → Result HIR.stmt_t
  | 0, _, _ => .stuck
  | depth + 1, st, node =>
      match node with
      | .FunctionDef name args body explicit_rettype _ =>
          visitFunctionDef env fuel (visit_expr env fuel depth) (visit_stmt env fuel depth) st
            name args body explicit_rettype
      | .DataDef name body => visitDataDef env fuel (visit_expr env fuel depth) st name body
      | .Return value =>
          (visit_option (visit_expr env fuel depth) st value).bind fun e st₁ =>
            .ok (.Return e) (return_tail st₁ e)
      | .If test body orelse =>
          (visit_expr env fuel depth st test).bind fun test st₁ =>
            (visit_block (visit_stmt env fuel depth) (check_conditional env.vm st₁ test)
              body).bind fun body st₂ =>
              (visit_block (visit_stmt env fuel depth) st₂ orelse).bind fun orelse st₃ =>
                .ok (.If test body orelse) st₃
      | .While test body =>
          (visit_expr env fuel depth st test).bind fun test st₁ =>
            (visit_block (visit_stmt env fuel depth) (check_conditional env.vm st₁ test)
              body).bind fun body st₂ => .ok (.While test body) st₂
      | .Import => nyi "Import" st
      | .ImportFrom => nyi "ImportFrom" st
      | .Decl dt decls =>
          (visit_list (visitDeclaration env fuel (visit_expr env fuel depth)) st decls).bind
            fun decls st₁ => .ok (.Decl dt decls) st₁
      | .Assign target value =>
          (visit_expr env fuel depth st target).bind fun target st₁ =>
            (visit_expr env fuel depth st₁ value).bind fun value st₂ =>
              match assign_tail env.vm fuel st₂ target value with
              | none => .stuck
              | some st₃ => .ok (.Assign target value) st₃
      | .Del target =>
          (visit_list (visit_expr env fuel depth) st target).bind fun target st₁ =>
            .ok (.Del target) st₁
      | .Expr value =>
          (visit_expr env fuel depth st value).bind fun value st₁ => .ok (.Expr value) st₁

/-- The visitor of a module (`visitModule`, lines 836-845): the stream is
emptied, the statements are visited, the results join the history. -/
def visitModule (env : Env) (fuel depth : Nat) (st : SemaState) (node : AST.mod_t) :
    Result HIR.mod_t :=
  (visit_list (visit_stmt env fuel depth) { st with sema_err_ := [] } node.body).bind
    fun results st₁ =>
      .ok ⟨results, node.docstring⟩ { st₁ with history_ := st₁.history_ ++ results }

/-- The state the constructor of `SemaVisitor` leaves (lines 1779-1787)
before the built-ins are saved: the single global scope 0, empty. -/
def initial_state : SemaState where
  table := push_scope ⟨[], 0, none, false⟩
  heap := ⟨fun _ => ⟨"", .null, 0⟩, fun _ => ⟨"", [], 0⟩, fun _ => ⟨"", [], .null⟩,
    fun _ => ⟨0, []⟩⟩
  next_decl := 0
  next_datadef := 0
  next_funcdef := 0
  next_generic := 0
  rettype_stack_ := []
  sema_err_ := []
  counter := 0
  history_ := []

/-- The loop of stores of `save_builtins` over a list of names and
references. -/
def store_all (fuel : Nat) : SemaState → List (String × resolved_t) → Option SemaState
  | st, [] => some st
  | st, (name, ref) :: rest =>
      match do_store_symbol fuel st name ref with
      | none => none
      | some (_, st₁) => store_all fuel st₁ rest

/-- Modelled from the spec: `VVM/builtins.h` and the enumeration
`CompilerCodes` are not among the sources; `save_builtins` stores `store`
first, with the compiler code `kStore`, and then what the header lists, here
the list `builtins`. -/
def save_builtins (vm : VVM) (fuel : Nat) (kStore : Nat) (st : SemaState)
    (builtins : List (String × resolved_t)) : Option SemaState :=
  store_all fuel st
    (("store", .CompilerRef kStore (.FuncType [.null, .VVMType vm.Ss] .Void)) :: builtins)

/-- A sample environment: the tables `sampleVM` and a parser that knows the
two texts the examples hand to it. -/
def sampleEnv : Env where
  vm := sampleVM
  parse := fun s =>
    if s = "data Anon: c: Int64 end" then
      some ⟨[.DataDef "Anon" [⟨"c", some (.Id "Int64"), none⟩]], ""⟩
    else if s = "data Anon: c: !P end" then
      some ⟨[.DataDef "Anon" [⟨"c", some (.Id "!P"), none⟩]], ""⟩
    else none

/-- A sample state for the examples: the state of the constructor with the
type names `Int64`, `Float64`, `Bool` and `String` among the built-ins. -/
def sampleState : SemaState :=
  (save_builtins sampleVM 1 0 initial_state
    [("Int64", .VVMTypeRef 1), ("Float64", .VVMTypeRef 2), ("Bool", .VVMTypeRef 3),
      ("String", .VVMTypeRef 4)]).getD
    initial_state

/-- The state after a visit that returned, the given state otherwise. -/
def Result.state {α : Type} (st : SemaState) : Result α → SemaState
  | .ok _ st₁ => st₁
  | .throw _ st₁ => st₁
  | .stuck => st

/-- The value of a visit that returned. -/
def Result.value? {α : Type} : Result α → Option α
  | .ok value _ => some value
  | _ => none

/-- The program `def id(x): return x end; id(1); id("a")`. -/
def idProgram : AST.mod_t :=
  ⟨[.FunctionDef "id" [⟨"x", none, none⟩] [.Return (some (.Id "x"))] none "",
    .Expr (.FunctionCall (.Id "id") [.IntegerLiteral 1]),
    .Expr (.FunctionCall (.Id "id") [.Str "a"])], ""⟩

/-- The program `def f(): return 1; return f() end`. -/
def recursiveProgram : AST.mod_t :=
  ⟨[.FunctionDef "f" []
      [.Return (some (.IntegerLiteral 1)), .Return (some (.FunctionCall (.Id "f") []))]
      none ""], ""⟩

/-- The program
`def f(x: Int64): return x end; def f(x: String): return x end; (f)(1)`. -/
def parenProgram : AST.mod_t :=
  ⟨[.FunctionDef "f" [⟨"x", some (.Id "Int64"), none⟩] [.Return (some (.Id "x"))] none "",
    .FunctionDef "f" [⟨"x", some (.Id "String"), none⟩] [.Return (some (.Id "x"))] none "",
    .Expr (.FunctionCall (.Paren (.Id "f")) [.IntegerLiteral 1])], ""⟩

/-- The program `def f() -> Int64: end`. -/
def emptyBodyProgram : AST.mod_t :=
  ⟨[.FunctionDef "f" [] [] (some (.Id "Int64")) ""], ""⟩

/-- The program `def f() -> [Float64]: return []; return [1] end`. -/
def arrayProgram : AST.mod_t :=
  ⟨[.FunctionDef "f" []
      [.Return (some (.List [])), .Return (some (.List [.IntegerLiteral 1]))]
      (some (.List [.Id "Float64"])) ""], ""⟩

/-- The program `def f(): import m end`. -/
def importProgram : AST.mod_t :=
  ⟨[.FunctionDef "f" [] [.Import] none ""], ""⟩

/-- The program `data _x: a: Int64 end`. -/
def underscoreProgram : AST.mod_t :=
  ⟨[.DataDef "_x" [⟨"a", some (.Id "Int64"), none⟩]], ""⟩

/-- The program `data P: a: Bool end; var t: !P` followed by the query
`from t select c = cols where a`, for the column expression `col`. -/
def queryProgram (col : AST.expr_t) : AST.mod_t :=
  ⟨[.DataDef "P" [⟨"a", some (.Id "Bool"), none⟩],
    .Decl 0 [⟨"t", some (.Id "!P"), none⟩],
    .Expr (.Query (.Id "t") 0 [(col, "c")] [] (some (.Id "a")))], ""⟩

/-- The state with the texts `new` appended to the diagnostic stream. -/
def SemaState.errors (st : SemaState) (new : List String) : SemaState :=
  { st with sema_err_ := st.sema_err_ ++ new }

/-- A sample state at the end of the body of a function definition at top
level whose return statements collected the types `rettypes`: the scope of
the definition is open above the global scope of `sampleState`. -/
def bodyDoneState (rettypes : List datatype_t) : SemaState :=
  { do_push_scope sampleState with rettype_stack_ := [rettypes] }

/-- The sample state in interactive mode. -/
def interactiveState : SemaState :=
  { sampleState with table := { sampleState.table with interactive_ := true } }

/-- The program `data X: a: Int64, a: String end`, whose two fields have the
same name. -/
def duplicateFieldProgram : AST.mod_t :=
  ⟨[.DataDef "X" [⟨"a", some (.Id "Int64"), none⟩, ⟨"a", some (.Id "String"), none⟩]], ""⟩

/-- The state inside a block (the body of a function or of an `if`) that
follows `data X: a: Int64 end`, after the statements `var t: !X` and
`data X: b: String end` of the block: the Dataframe `!X` made for the outer
`X` is in the scope of the block, and so is the new `X`. -/
def shadowState : SemaState :=
  Result.state sampleState
    (visit_list (visit_stmt sampleEnv 5 10)
      (do_push_scope (Result.state sampleState
        (visit_stmt sampleEnv 5 10 sampleState
          (.DataDef "X" [⟨"a", some (.Id "Int64"), none⟩]))))
      [.Decl 0 [⟨"t", some (.Id "!X"), none⟩],
       .DataDef "X" [⟨"b", some (.Id "String"), none⟩]])

/-- A visit started in `st` keeps the return-type stack: if it returns, the
stack is the one of `st`, and it does not raise a failure. -/
def KeepsStack {α : Type} (st : SemaState) : Result α → Prop
  | .ok _ st₁ => st₁.rettype_stack_ = st.rettype_stack_
  | .throw _ _ => False
  | .stuck => True

/-- A visit started in `st` keeps the depth of the return-type stack when it
returns, and leaves at least that depth when it raises a failure. -/
def KeepsDepth {α : Type} (st : SemaState) : Result α → Prop
  | .ok _ st₁ => st₁.rettype_stack_.length = st.rettype_stack_.length
  | .throw _ st₁ => st.rettype_stack_.length ≤ st₁.rettype_stack_.length
  | .stuck => True

/-- The visit of a function definition started in `st` is balanced: when it
returns, the return-type stack has the depth it had in `st`; when it raises
a failure, the stack is deeper than in `st`. -/
def FunctionDefDepth {α : Type} (st : SemaState) : Result α → Prop
  | .ok _ st₁ => st₁.rettype_stack_.length = st.rettype_stack_.length
  | .throw _ st₁ => st.rettype_stack_.length < st₁.rettype_stack_.length
  | .stuck => True

/-- The program `[[], [1], ["a"]]`. -/
def mixedListProgram : AST.mod_t :=
  ⟨[.Expr (.List [.List [], .List [.IntegerLiteral 1], .List [.Str "a"]])], ""⟩

/-- The state of an interactive session after `def f(): return 1 end`. -/
def definedState : SemaState :=
  Result.state interactiveState
    (visitModule sampleEnv 5 10 interactiveState
      ⟨[.FunctionDef "f" [] [.Return (some (.IntegerLiteral 1))] none ""], ""⟩)

/-- The program `def f(): return x end`, where `x` is not defined. -/
def badRedefinitionProgram : AST.mod_t :=
  ⟨[.FunctionDef "f" [] [.Return (some (.Id "x"))] none ""], ""⟩

/-- The parent links of the table are well founded and the current scope
exists: scope 0 is its own parent, the parent of every other scope has a
smaller index, and `current_scope_` is an index of the table. -/
def ScopeLinks (st : SemaVisitor) : Prop :=
  st.current_scope_ < st.symbol_table_.length ∧
  st.previous 0 = some 0 ∧
  ∀ (i p : Nat), 0 < i → st.previous i = some p → p < i

/-- The shape of an overload list in non-interactive mode: every reference
is type-like or function-like, at most one is type-like, and no two
function-like references have types that are `is_same_type`; or the list is
a single reference that is neither type-like nor function-like. -/
def OverloadListShape (h : Heap) (l : Resolveds) : Prop :=
  ((∀ r ∈ l, is_type_like r = true ∨ is_function_like r = true) ∧
    (l.filter is_type_like).length ≤ 1 ∧
    l.Pairwise (fun a b => is_function_like a = true → is_function_like b = true →
      ¬ SameType h (get_type h (some a)) (get_type h (some b)))) ∨
  (∃ r, l = [r] ∧ is_type_like r = false ∧ is_function_like r = false)

/-- The diagnostics the shape rule of a query asks for, for one visited
column: with an empty `by` a column that is not an array is reported, with a
non-empty `by` a column that is an array. -/
def shape_rule_diagnostics (by_empty : Bool) (col : HIR.expr_t × String) : List String :=
  if by_empty then
    if is_array_type col.1.type then [] else ["Error: resulting column must be an array\n"]
  else
    if is_array_type col.1.type then ["Error: resulting column must be a scalar\n"] else []

/-- The visit of one resulting column as the shape rule describes it: the
alias is visited and then the diagnostics of the rule are written. -/
def visit_col (visit : SemaState → AST.expr_t → Result HIR.expr_t) (by_empty : Bool)
    (st : SemaState) (c : AST.expr_t × String) : Result (HIR.expr_t × String) :=
  (visitAlias visit st c).bind fun col st₁ =>
    .ok col (st₁.errors (shape_rule_diagnostics by_empty col))

/-- The check of the `where` part of `visitQuery` (lines 1150-1158): the
state after the check of the visited `where`, if there is one. -/
def where_check (vm : VVM) (st : SemaState) : Option HIR.expr_t → SemaState
  | none => st
  | some w =>
      if is_array_type w.type && is_boolean_type vm (get_underlying_type w.type) then st
      else
        st.error ("Error: 'where' must be a boolean array; got type " ++ to_string vm w.type ++
          "\n")

/-- A sample environment for the queries over `Trade`: the tables `sampleVM`
and a parser that knows the two texts the examples hand to it. -/
def tradeEnv : Env where
  vm := sampleVM
  parse := fun s =>
    if s = "data Anon: sym: String end" then
      some ⟨[.DataDef "Anon" [⟨"sym", some (.Id "String"), none⟩]], ""⟩
    else if s = "data Anon: sym: String, price: Float64 end" then
      some ⟨[.DataDef "Anon" [⟨"sym", some (.Id "String"), none⟩,
        ⟨"price", some (.Id "Float64"), none⟩]], ""⟩
    else none

/-- A sample state for the queries over `Trade`: the state of the
constructor with the four type names of `sampleState`, the function `avg` from
an array of `Float64` to `Float64`, and the operator `>` between an array of
`Int64` and an `Int64`, among the built-ins. -/
def tradeState : SemaState :=
  (save_builtins sampleVM 1 0 initial_state
    [("Int64", .VVMTypeRef 1), ("Float64", .VVMTypeRef 2), ("Bool", .VVMTypeRef 3),
      ("String", .VVMTypeRef 4),
      ("avg", .VVMOpRef 0 (.FuncType [.Array (.VVMType 2)] (.VVMType 2))),
      (">", .VVMOpRef 1 (.FuncType [.Array (.VVMType 1), .VVMType 1]
        (.Array (.VVMType 3))))]).getD
    initial_state

/-- The program
`data Trade: sym: String, price: Float64, volume: Int64 end; var t: !Trade`. -/
def tradeTable : AST.mod_t :=
  ⟨[.DataDef "Trade" [⟨"sym", some (.Id "String"), none⟩,
      ⟨"price", some (.Id "Float64"), none⟩, ⟨"volume", some (.Id "Int64"), none⟩],
    .Decl 0 [⟨"t", some (.Id "!Trade"), none⟩]], ""⟩

/-- The state after the program `tradeTable`. -/
def tradeTableState : SemaState :=
  Result.state tradeState (visitModule tradeEnv 5 10 tradeState tradeTable)

/-- The program `tradeTable` followed by the query
`from t select avg(price) by sym where volume > 0`. -/
def tradeProgram : AST.mod_t :=
  ⟨tradeTable.body ++
    [.Expr (.Query (.Id "t") 0 [(.FunctionCall (.Id "avg") [.Id "price"], "")]
      [(.Id "sym", "")] (some (.BinOp (.Id "volume") ">" (.IntegerLiteral 0))))], ""⟩

/-- The loop of `get_type_string` for a datatype (lines 761-771), from the
text built so far; the fields are given by address. -/
def get_type_string_decls (vm : VVM) (h : Heap) : String → List Nat → String
  | result, [] => result
  | result, d :: rest =>
      let dt :=
        if is_array_type (h.decl d).type then get_underlying_type (h.decl d).type
        else (h.decl d).type
      let new_item := (h.decl d).name ++ ": " ++ to_string vm dt
      get_type_string_decls vm h (if result = "" then new_item else result ++ ", " ++ new_item)
        rest

/-- The type definition string of a datatype (`get_type_string` for a
datatype, lines 757-773); no result when the type has no data
definition. -/
def get_type_string_datatype (vm : VVM) (h : Heap) (node : datatype_t) : Option String :=
  match get_data_def h node with
  | none => none
  | some dd => some (get_type_string_decls vm h "" dd.body)

/-- The loop of `drop_columns` over the fields of the original type (lines
795-808), from the text built so far; `dropped_names` holds the names of
the set of dropped names. -/
def drop_columns_loop (vm : VVM) (h : Heap) (dropped_names : List String) :
    String → List Nat → String
  | result, [] => result
  | result, d :: rest =>
      if (h.decl d).name ∈ dropped_names then drop_columns_loop vm h dropped_names result rest
      else
        let dt :=
          if is_array_type (h.decl d).type then get_underlying_type (h.decl d).type
          else (h.decl d).type
        let new_item := (h.decl d).name ++ ": " ++ to_string vm dt
        drop_columns_loop vm h dropped_names
          (if result = "" then new_item else result ++ ", " ++ new_item) rest

/-- Drop a set of columns from a Dataframe (`drop_columns`, lines 776-810):
the type definition string of the fields of `orig_type` whose name is not a
name of a field of `drop_type` (when `drop_type` is not null) and is not
`extra` (when `extra` is not empty).  No result when a data definition that
is read does not exist. -/
def drop_columns (vm : VVM) (h : Heap) (orig_type drop_type : datatype_t) (extra : String) :
    Option String :=
  let names : Option (List String) :=
    if drop_type.is_null then some []
    else
      match get_data_def h drop_type with
      | none => none
      | some drop_dd => some (drop_dd.body.map fun d => (h.decl d).name)
  match names, get_data_def h orig_type with
  | some names, some orig_dd =>
      some (drop_columns_loop vm h (if extra = "" then names else names ++ [extra]) ""
        orig_dd.body)
  | _, _ => none

/-- The end of `visitJoin` (lines 1324-1341): the remaining type of the
right table and the full type of the join, both null when the tables were
reported (`bad_dfs`); `visit` is the visitor of expressions. -/
def join_types (env : Env) (fuel : Nat)
    (visit : SemaState → AST.expr_t → Result HIR.expr_t) (st : SemaState) (bad_dfs : Bool)
    (left_type right_type right_on_type : datatype_t) (right_asof_name : String) :
    Result (datatype_t × datatype_t) :=
  if bad_dfs then .ok (.null, .null) st
  else
    match drop_columns env.vm st.heap right_type right_on_type right_asof_name with
    | none => .stuck
    | some remaining_ts =>
        (anon_dataframe env fuel visit st remaining_ts).bind fun remaining_type st₁ =>
          match get_type_string_datatype env.vm st₁.heap left_type with
          | none => .stuck
          | some left_ts =>
              (anon_dataframe env fuel visit st₁ (left_ts ++ ", " ++ remaining_ts)).bind
                fun full_type st₂ => .ok (remaining_type, full_type) st₂

/-- The rendering of a field in a type definition string: `name: type`,
with one array layer removed from the type. -/
def render_field (vm : VVM) (d : declaration) : String :=
  d.name ++ ": " ++
    to_string vm (if is_array_type d.type then get_underlying_type d.type else d.type)

/-- The rendering of a field list: the renderings of the fields, in order,
separated by a comma and a blank. -/
def render_fields (vm : VVM) (fields : List declaration) : String :=
  ", ".intercalate (fields.map (render_field vm))

/-- The field list of a data definition, in order. -/
def fields_of (h : Heap) (dd : DataDef) : List declaration :=
  dd.body.map h.decl

/-- The names of the `on` columns: the names of the fields of the `on` type,
none when there is no `on` type. -/
def on_names (h : Heap) (on_type : datatype_t) : List String :=
  match get_data_def h on_type with
  | none => []
  | some dd => (fields_of h dd).map fun d => d.name

/-- The fields of the right table that a join keeps: those whose name is
neither the name of an `on` column nor the `asof` name (which is empty when
there is no `asof`). -/
def kept_fields (h : Heap) (right_dd : DataDef) (on_type : datatype_t) (asof_name : String) :
    List declaration :=
  (fields_of h right_dd).filter fun d =>
    decide (d.name ∉ on_names h on_type) && !(decide (asof_name ≠ "") && d.name == asof_name)

/-- A sample environment for the joins: the tables `sampleVM` and a parser
that knows the two texts the example hands to it. -/
def joinEnv : Env where
  vm := sampleVM
  parse := fun s =>
    if s = "data Anon: c: Float64 end" then
      some ⟨[.DataDef "Anon" [⟨"c", some (.Id "Float64"), none⟩]], ""⟩
    else if s = "data Anon: a: Int64, b: String, c: Float64 end" then
      some ⟨[.DataDef "Anon" [⟨"a", some (.Id "Int64"), none⟩,
        ⟨"b", some (.Id "String"), none⟩, ⟨"c", some (.Id "Float64"), none⟩]], ""⟩
    else none

/-- The program
`data L: a: Int64, b: String end; data R: a: Int64, c: Float64 end;
data K: a: Int64 end; var l: !L; var r: !R; var k: !K`. -/
def joinTables : AST.mod_t :=
  ⟨[.DataDef "L" [⟨"a", some (.Id "Int64"), none⟩, ⟨"b", some (.Id "String"), none⟩],
    .DataDef "R" [⟨"a", some (.Id "Int64"), none⟩, ⟨"c", some (.Id "Float64"), none⟩],
    .DataDef "K" [⟨"a", some (.Id "Int64"), none⟩],
    .Decl 0 [⟨"l", some (.Id "!L"), none⟩],
    .Decl 0 [⟨"r", some (.Id "!R"), none⟩],
    .Decl 0 [⟨"k", some (.Id "!K"), none⟩]], ""⟩

/-- The state after the program `joinTables`. -/
def joinState : SemaState :=
  Result.state sampleState (visitModule joinEnv 5 10 sampleState joinTables)

/-- The frame of a visit on the symbol table: from `t` to `t'` the current
scope is the same, no scope is removed, every scope of `t` other than the
current one is as it was, and the current scope has the parent link it
had. -/
def Frame (t t' : SemaVisitor) : Prop :=
  t'.current_scope_ = t.current_scope_ ∧
  t.symbol_table_.length ≤ t'.symbol_table_.length ∧
  (∀ i, i < t.symbol_table_.length → i ≠ t.current_scope_ →
    t'.symbol_table_[i]? = t.symbol_table_[i]?) ∧
  (t.current_scope_ < t.symbol_table_.length →
    t'.previous t.current_scope_ = t.previous t.current_scope_)

/-- From `t` to `t'` the current scope is the same, no scope is removed and
every scope of `t` is as it was. -/
def SameScopes (t t' : SemaVisitor) : Prop :=
  t'.current_scope_ = t.current_scope_ ∧
  t.symbol_table_.length ≤ t'.symbol_table_.length ∧
  ∀ i, i < t.symbol_table_.length → t'.symbol_table_[i]? = t.symbol_table_[i]?

/-- A visit started in `st` that returns keeps the frame of the symbol
table. -/
def KeepsFrame {α : Type} (st : SemaState) : Result α → Prop
  | .ok _ st₁ => Frame st.table st₁.table
  | .throw _ _ => True
  | .stuck => True

/-- A block visited in a scope of its own, from `s₀` to `s₂`: the
statements are visited in a newly pushed scope, which holds no name and
whose previous scope is the current scope of `s₀`; then the scope is popped.
At the start of the block a name is looked up with the result it had in
`s₀`; after the block the current scope is the one of `s₀`, and a name is
looked up with the result it had in `s₀`. -/
def BlockScoped (visit : SemaState → AST.stmt_t → Result HIR.stmt_t) (s₀ : SemaState)
    (body : List AST.stmt_t) (s₂ : SemaState) : Prop :=
  ∃ hbody b₁,
    visit_list visit (do_push_scope s₀) body = .ok hbody b₁ ∧
    do_pop_scope b₁ = some s₂ ∧
    (do_push_scope s₀).table.current_scope_ = s₀.table.symbol_table_.length ∧
    (do_push_scope s₀).table.previous s₀.table.symbol_table_.length =
      some s₀.table.current_scope_ ∧
    (∀ symbol, (do_push_scope s₀).table.lookup s₀.table.symbol_table_.length symbol =
      some none) ∧
    (∀ symbol fuel l,
      find_symbol_walk s₀.table symbol fuel s₀.table.current_scope_ = some l →
      find_symbol_walk (do_push_scope s₀).table symbol (fuel + 1)
        (do_push_scope s₀).table.current_scope_ = some l) ∧
    s₂.table.current_scope_ = s₀.table.current_scope_ ∧
    s₀.table.symbol_table_.length < s₂.table.symbol_table_.length ∧
    ∀ symbol fuel l,
      find_symbol_walk s₀.table symbol fuel s₀.table.current_scope_ = some l →
      find_symbol_walk s₂.table symbol fuel s₂.table.current_scope_ = some l

/-- The program `if true: var x = 1 else: var y = 2 end`. -/
def ifProgram : AST.stmt_t :=
  .If (.BoolLiteral true) [.Decl 0 [⟨"x", none, some (.IntegerLiteral 1)⟩]]
    [.Decl 0 [⟨"y", none, some (.IntegerLiteral 2)⟩]]

/-- The program `return 1`, a return statement at top level. -/
def returnProgram : AST.mod_t :=
  ⟨[.Return (some (.IntegerLiteral 1))], ""⟩

/-- The program `if true: import m end`. -/
def importInIfProgram : AST.mod_t :=
  ⟨[.If (.BoolLiteral true) [.Import] []], ""⟩

/-- The program `var x = 1`. -/
def declProgram : AST.mod_t :=
  ⟨[.Decl 0 [⟨"x", none, some (.IntegerLiteral 1)⟩]], ""⟩

/-- The state after the program `var x = 1`. -/
def declaredState : SemaState :=
  Result.state sampleState (visitModule sampleEnv 5 10 sampleState declProgram)

/-- The state after the program `data P: a: Bool end; var t: !P`. -/
def queryTableState : SemaState :=
  Result.state sampleState
    (visitModule sampleEnv 5 10 sampleState
      ⟨[.DataDef "P" [⟨"a", some (.Id "Bool"), none⟩],
        .Decl 0 [⟨"t", some (.Id "!P"), none⟩]], ""⟩)

/-- A visit started in `st` that returns only adds to the diagnostic stream:
the stream of `st` is a prefix of the stream afterwards. -/
def KeepsErrors {α : Type} (st : SemaState) : Result α → Prop
  | .ok _ st₁ => st.sema_err_ <+: st₁.sema_err_
  | .throw _ _ => True
  | .stuck => True

/-- The type of the annotation of a declaration (lines 1722-1731): the type
under the kind, null when there is no annotation or its type is not a
kind. -/
def annotation_type : Option HIR.expr_t → datatype_t
  | some e => if is_kind_type e.type then get_underlying_type e.type else .null
  | none => .null

/-- The state after the check of the annotation of a declaration (lines
1722-1731): a diagnostic is written when the type of the annotation is not
a kind. -/
def annotation_state (st : SemaState) (name : String) : Option HIR.expr_t → SemaState
  | some e =>
      if is_kind_type e.type then st
      else st.error ("Error: declaration for " ++ name ++ " has invalid type\n")
  | none => st

/-- Modelled from the spec: the declaration of `HIR::direction_t` is not among
the sources; `visitDirection` (lines 1773-1775) passes the value on, and
`visitJoin` tells `kNearest` apart from the other directions. -/
inductive direction_t where
  | kBackward
  | kForward
  | kNearest
  deriving DecidableEq

/-- Modelled from the spec: the declaration of `HIR::Join` is not among the
sources; the fields are the arguments of the constructor call of `visitJoin`
(lines 1344-1347), in order. -/
structure HIR.Join where
  left : HIR.expr_t
  right : HIR.expr_t
  left_on : List (HIR.expr_t × String)
  right_on : List (HIR.expr_t × String)
  left_on_type : datatype_t
  right_on_type : datatype_t
  left_asof : Option (HIR.expr_t × String)
  right_asof : Option (HIR.expr_t × String)
  strict : Bool
  direction : direction_t
  within : Option HIR.expr_t
  remaining_type : datatype_t
  type : datatype_t
  name : String

/-- The loop of `to_string_udt` over the fields (lines 311-316); `first`
tells whether the field is the first one. -/
def to_string_udt_loop (vm : VVM) (h : Heap) : Bool → List Nat → String
  | _, [] => ""
  | first, d :: rest =>
      (if first then "" else ", ") ++ to_string vm (h.decl d).type ++
        to_string_udt_loop vm h false rest

/-- String-ify the underlying values of a UDT (`to_string_udt`, lines
305-320). -/
def to_string_udt (vm : VVM) (h : Heap) : datatype_t → String
  | .UDT _ ref => "(" ++ to_string_udt_loop vm h true (h.datadef ref).body ++ ")"
  | _ => ""

/-- The tables of a join (`visitJoin`, lines 1195-1206): the visited left
and right table and `bad_dfs`, which tells whether a diagnostic was written
since the entry. -/
def join_tables (env : Env) (visit : SemaState → AST.expr_t → Result HIR.expr_t)
    (st : SemaState) (left right : AST.expr_t) : Result (HIR.expr_t × HIR.expr_t × Bool) :=
  (visit st left).bind fun left st₁ =>
    let st₂ :=
      if !left.type.is_null && !is_dataframe_type left.type then
        st₁.error ("Error: join for left must be on Dataframe, not " ++
          to_string env.vm left.type ++ "\n")
      else st₁
    (visit st₂ right).bind fun right st₃ =>
      let st₄ :=
        if !right.type.is_null && !is_dataframe_type right.type then
          st₃.error ("Error: join for right must be on Dataframe, not " ++
            to_string env.vm right.type ++ "\n")
        else st₃
      .ok (left, right, decide (st₄.sema_err_.length ≠ st.sema_err_.length)) st₄

/-- What the `on` part of a join determines. -/
structure JoinOn where
  left_on : List (HIR.expr_t × String)
  right_on : List (HIR.expr_t × String)
  left_on_type : datatype_t
  right_on_type : datatype_t

/-- The `on` part of `visitJoin` (lines 1208-1246): the `on` columns are
visited with the left and then with the right table as preferred scope, each
list gets a Dataframe of its own, and the two types are compared. -/
def join_on (env : Env) (fuel : Nat) (visit : SemaState → AST.expr_t → Result HIR.expr_t)
    (st : SemaState) (bad_dfs : Bool) (left right : HIR.expr_t)
    (on_ : List (AST.expr_t × String)) : Result JoinOn :=
  if !bad_dfs && !on_.isEmpty then
    (visit_list (visitAlias visit) (st.set_preferred_scope (some left.summary)) on_).bind
      fun left_on st₁ =>
        (visit_list (visitAlias visit)
          ((st₁.set_preferred_scope none).set_preferred_scope (some right.summary)) on_).bind
          fun right_on st₂ =>
            (anon_dataframe env fuel visit (st₂.set_preferred_scope none)
              (get_type_string env.vm left_on)).bind fun left_on_type st₃ =>
              (anon_dataframe env fuel visit st₃ (get_type_string env.vm right_on)).bind
                fun right_on_type st₄ =>
                  match is_same_type st₄.heap fuel left_on_type right_on_type with
                  | none => .stuck
                  | some same =>
                      .ok ⟨left_on, right_on, left_on_type, right_on_type⟩
                        (if same then st₄
                         else
                          st₄.error ("Error: join 'on' types are not compatible: " ++
                            to_string_udt env.vm st₄.heap left_on_type ++ " vs " ++
                            to_string_udt env.vm st₄.heap right_on_type ++ "\n"))
  else .ok ⟨[], [], .null, .null⟩ st

/-- The loop of `visitJoin` over the candidates of `-` (lines 1290-1310):
whether the `asof` columns can be subtracted, and the diagnostic when the
result does not agree with `within`. -/
def subtract_loop (vm : VVM) (h : Heap) (fuel : Nat) (args : List datatype_t)
    (within : Option HIR.expr_t) : List resolved_t → Option (Bool × Option String)
  | [] => some (false, none)
  | ref :: rest =>
      let func_type := get_type h (some ref)
      match match_args vm h fuel args func_type with
      | none => none
      | some result =>
          if result = "" then
            let rettype := get_rettype func_type
            if is_array_type rettype then
              match within with
              | some w =>
                  match is_same_type h fuel (get_underlying_type rettype) w.type with
                  | none => none
                  | some true => some (true, none)
                  | some false =>
                      some (true,
                        some ("Error: join 'asof' types not compatible with 'within': expected " ++
                          to_string vm (get_underlying_type rettype) ++ ", got " ++
                          to_string vm w.type ++ "\n"))
              | none => some (true, none)
            else some (false, none)
          else subtract_loop vm h fuel args within rest

/-- The check of `visitJoin` that the `asof` columns allow subtraction
(lines 1283-1315): `-` is visited and must be an overloaded identifier. -/
def subtract_check (vm : VVM) (fuel : Nat)
    (visit : SemaState → AST.expr_t → Result HIR.expr_t) (st : SemaState)
    (left_asof right_asof : HIR.expr_t) (within : Option HIR.expr_t) : Result Unit :=
  (visit st (.Id "-")).bind fun func st₁ =>
    match func with
    | .OverloadedId _ refs _ _ =>
        match subtract_loop vm st₁.heap fuel [left_asof.type, right_asof.type] within refs with
        | none => .stuck
        | some (subtractable, msg) =>
            let st₂ :=
              match msg with
              | some m => st₁.error m
              | none => st₁
            .ok ()
              (if subtractable then st₂
               else
                st₂.error ("Error: join 'asof' types prohibit 'within' or 'nearest': " ++
                  to_string vm left_asof.type ++ "\n"))
    | _ => .stuck

/-- What the `asof` part of a join determines. -/
structure JoinAsof where
  left_asof : Option (HIR.expr_t × String)
  right_asof : Option (HIR.expr_t × String)
  right_asof_name : String

/-- The `asof` part of `visitJoin` (lines 1260-1322): the `asof` column is
visited with the left and then with the right table as preferred scope; the
right `asof` name is the name of the alias, or of its value when the alias
has none. -/
def join_asof (env : Env) (fuel : Nat) (visit : SemaState → AST.expr_t → Result HIR.expr_t)
    (st : SemaState) (bad_dfs : Bool) (left right : HIR.expr_t)
    (asof : Option (AST.expr_t × String)) (strict : Bool) (direction : direction_t)
    (within : Option HIR.expr_t) : Result JoinAsof :=
  match asof with
  | none => .ok ⟨none, none, ""⟩ st
  | some a =>
      if bad_dfs then .ok ⟨none, none, ""⟩ st
      else
        (visitAlias visit (st.set_preferred_scope (some left.summary)) a).bind
          fun left_asof st₁ =>
            (visitAlias visit
              ((st₁.set_preferred_scope none).set_preferred_scope (some right.summary)) a).bind
              fun right_asof st₂ =>
                let st₃ := st₂.set_preferred_scope none
                match is_same_type st₃.heap fuel left_asof.1.type right_asof.1.type with
                | none => .stuck
                | some same =>
                    let st₄ :=
                      if same then st₃
                      else
                        st₃.error ("Error: join 'asof' types are not compatible: " ++
                          to_string env.vm left_asof.1.type ++ " vs " ++
                          to_string env.vm right_asof.1.type ++ "\n")
                    (if within.isSome || decide (direction = .kNearest) then
                        subtract_check env.vm fuel visit st₄ left_asof.1 right_asof.1 within
                      else .ok () st₄).bind fun _ st₅ =>
                      .ok ⟨some left_asof, some right_asof,
                          if right_asof.2 = "" then right_asof.1.name else right_asof.2⟩
                        (if strict && decide (direction = .kNearest) then
                          st₅.error
                            "Error: join 'asof' cannot be both 'nearest' and 'strict'\n"
                         else st₅)

/-- The visitor of a join (`visitJoin`, lines 1193-1348); `visit` is the
visitor of expressions. -/
def visitJoin (env : Env) (fuel : Nat) (visit : SemaState → AST.expr_t → Result HIR.expr_t)
    (st : SemaState) (left right : AST.expr_t) (on_ : List (AST.expr_t × String))
    (asof : Option (AST.expr_t × String)) (strict : Bool) (direction : direction_t)
    (within : Option AST.expr_t) : Result HIR.Join :=
  (join_tables env visit st left right).bind fun tables st₁ =>
    (join_on env fuel visit st₁ tables.2.2 tables.1 tables.2.1 on_).bind fun o st₂ =>
      (visit_option visit st₂ within).bind fun within st₃ =>
        (join_asof env fuel visit st₃ tables.2.2 tables.1 tables.2.1 asof strict direction
          within).bind fun a st₄ =>
          (join_types env fuel visit st₄ tables.2.2 tables.1.type tables.2.1.type
            o.right_on_type a.right_asof_name).bind fun types st₅ =>
            .ok ⟨tables.1, tables.2.1, o.left_on, o.right_on, o.left_on_type, o.right_on_type,
              a.left_asof, a.right_asof, strict, direction, within, types.1, types.2,
              tables.1.name ++ tables.2.1.name⟩ st₅

/-- A sample environment for joins with `asof`: the tables `sampleVM` and a
parser that knows the texts the examples hand to it. -/
def asofEnv : Env where
  vm := sampleVM
  parse := fun s =>
    if s = "data Anon: a: Int64 end" then
      some ⟨[.DataDef "Anon" [⟨"a", some (.Id "Int64"), none⟩]], ""⟩
    else if s = "data Anon: c: Float64 end" then
      some ⟨[.DataDef "Anon" [⟨"c", some (.Id "Float64"), none⟩]], ""⟩
    else if s = "data Anon: b: String end" then
      some ⟨[.DataDef "Anon" [⟨"b", some (.Id "String"), none⟩]], ""⟩
    else if s = "data Anon: a: Int64, t: Int64, b: String, c: Float64 end" then
      some ⟨[.DataDef "Anon" [⟨"a", some (.Id "Int64"), none⟩,
        ⟨"t", some (.Id "Int64"), none⟩, ⟨"b", some (.Id "String"), none⟩,
        ⟨"c", some (.Id "Float64"), none⟩]], ""⟩
    else if s = "data Anon: a: Int64, t: Int64, b: String, b: String end" then
      some ⟨[.DataDef "Anon" [⟨"a", some (.Id "Int64"), none⟩,
        ⟨"t", some (.Id "Int64"), none⟩, ⟨"b", some (.Id "String"), none⟩,
        ⟨"b", some (.Id "String"), none⟩]], ""⟩
    else none

/-- The program
`data L: a: Int64, t: Int64, b: String end;
data R: a: Int64, t: Int64, c: Float64 end;
data S: a: Int64, t: Int64, b: String end; var l: !L; var r: !R; var s: !S`. -/
def asofTables : AST.mod_t :=
  ⟨[.DataDef "L" [⟨"a", some (.Id "Int64"), none⟩, ⟨"t", some (.Id "Int64"), none⟩,
      ⟨"b", some (.Id "String"), none⟩],
    .DataDef "R" [⟨"a", some (.Id "Int64"), none⟩, ⟨"t", some (.Id "Int64"), none⟩,
      ⟨"c", some (.Id "Float64"), none⟩],
    .DataDef "S" [⟨"a", some (.Id "Int64"), none⟩, ⟨"t", some (.Id "Int64"), none⟩,
      ⟨"b", some (.Id "String"), none⟩],
    .Decl 0 [⟨"l", some (.Id "!L"), none⟩],
    .Decl 0 [⟨"r", some (.Id "!R"), none⟩],
    .Decl 0 [⟨"s", some (.Id "!S"), none⟩]], ""⟩

/-- The state after the program `asofTables`. -/
def asofState : SemaState :=
  Result.state sampleState (visitModule asofEnv 5 10 sampleState asofTables)

/-- The right `asof` name of a join as a function of the right `asof` alias
of its result (lines 1253 and 1271-1272): the name of the alias, the name of
its value when the alias has none, and empty when there is no alias. -/
def asof_name_of : Option (HIR.expr_t × String) → String
  | none => ""
  | some al => if al.2 = "" then al.1.name else al.2

/-! ## `is_same_type`: unfolding and budget lemmas -/

theorem is_same_type_zero (h : Heap) (l r : datatype_t) : is_same_type h 0 l r = none := by
  simp [is_same_type]

theorem is_same_type_of_null (h : Heap) (fuel : Nat) (l r : datatype_t)
    (hn : (l.is_null || r.is_null) = true) : is_same_type h (fuel + 1) l r = some true := by
  simp [is_same_type, hn]

theorem is_same_type_of_kind_ne (h : Heap) (fuel : Nat) (l r : datatype_t)
    (hn : (l.is_null || r.is_null) = false) (hk : l.datatype_kind ≠ r.datatype_kind) :
    is_same_type h (fuel + 1) l r = some false := by
  simp [is_same_type, hn, hk]

theorem is_same_type_VVMType (h : Heap) (fuel l r : Nat) :
    is_same_type h (fuel + 1) (.VVMType l) (.VVMType r) = some (l == r) := by
  simp [is_same_type, datatype_t.is_null, datatype_t.datatype_kind]

theorem is_same_type_UDT (h : Heap) (fuel : Nat) (s t : String) (l r : Nat) :
    is_same_type h (fuel + 1) (.UDT s l) (.UDT t r) =
      if (h.datadef l).body.length ≠ (h.datadef r).body.length then some false
      else same_body h (is_same_type h fuel) (h.datadef l).body (h.datadef r).body := by
  simp [is_same_type, datatype_t.is_null, datatype_t.datatype_kind]

theorem is_same_type_Array (h : Heap) (fuel : Nat) (l r : datatype_t) :
    is_same_type h (fuel + 1) (.Array l) (.Array r) = is_same_type h fuel l r := by
  simp [is_same_type, datatype_t.is_null, datatype_t.datatype_kind]

theorem is_same_type_Kind (h : Heap) (fuel : Nat) (l r : datatype_t) :
    is_same_type h (fuel + 1) (.Kind l) (.Kind r) = is_same_type h fuel l r := by
  simp [is_same_type, datatype_t.is_null, datatype_t.datatype_kind]

theorem is_same_type_Void (h : Heap) (fuel : Nat) :
    is_same_type h (fuel + 1) .Void .Void = some true := by
  simp [is_same_type, datatype_t.is_null, datatype_t.datatype_kind]

theorem is_same_type_FuncType (h : Heap) (fuel : Nat) (la ra : List datatype_t)
    (lr rr : datatype_t) :
    is_same_type h (fuel + 1) (.FuncType la lr) (.FuncType ra rr) =
      if la.length ≠ ra.length then some false
      else
        match same_args (is_same_type h fuel) la ra with
        | none => none
        | some false => some false
        | some true => is_same_type h fuel lr rr := by
  simp [is_same_type, datatype_t.is_null, datatype_t.datatype_kind]

/-- A larger comparison function gives the field loop the same result. -/
theorem same_body_mono (h : Heap) {f g : datatype_t → datatype_t → Option Bool}
    (hfg : ∀ a b v, f a b = some v → g a b = some v) :
    ∀ (ls rs : List Nat) (v : Bool),
      same_body h f ls rs = some v → same_body h g ls rs = some v := by
  intro ls
  induction ls with
  | nil => intro rs v hv; simpa [same_body] using hv
  | cons l ls ih =>
      intro rs v hv
      cases rs with
      | nil => simpa [same_body] using hv
      | cons r rs =>
          simp only [same_body] at hv ⊢
          cases hf : f (h.decl l).type (h.decl r).type with
          | none => simp [hf] at hv
          | some b =>
              rw [hfg _ _ _ hf]
              rw [hf] at hv
              cases b with
              | false => simpa using hv
              | true =>
                  simp only at hv ⊢
                  split at hv
                  · rename_i hne; simpa [hne] using hv
                  · rename_i hne; simp only [hne]; exact ih rs v hv

/-- A larger comparison function gives the argument loop the same result. -/
theorem same_args_mono {f g : datatype_t → datatype_t → Option Bool}
    (hfg : ∀ a b v, f a b = some v → g a b = some v) :
    ∀ (ls rs : List datatype_t) (v : Bool),
      same_args f ls rs = some v → same_args g ls rs = some v := by
  intro ls
  induction ls with
  | nil => intro rs v hv; simpa [same_args] using hv
  | cons l ls ih =>
      intro rs v hv
      cases rs with
      | nil => simpa [same_args] using hv
      | cons r rs =>
          simp only [same_args] at hv ⊢
          cases hf : f l r with
          | none => simp [hf] at hv
          | some b =>
              rw [hfg _ _ _ hf]
              rw [hf] at hv
              cases b with
              | false => simpa using hv
              | true => exact ih rs v hv

/-- One more unit of budget does not change a result. -/
theorem is_same_type_succ (h : Heap) :
    ∀ (fuel : Nat) (l r : datatype_t) (v : Bool),
      is_same_type h fuel l r = some v → is_same_type h (fuel + 1) l r = some v := by
  intro fuel
  induction fuel with
  | zero => intro l r v hv; simp [is_same_type] at hv
  | succ n ih =>
      intro l r v hv
      by_cases hn : (l.is_null || r.is_null) = true
      · rw [is_same_type_of_null h _ l r hn] at hv ⊢; exact hv
      · have hn' : (l.is_null || r.is_null) = false := by simpa using hn
        by_cases hk : l.datatype_kind ≠ r.datatype_kind
        · rw [is_same_type_of_kind_ne h _ l r hn' hk] at hv ⊢; exact hv
        · cases l <;> cases r <;>
            simp [datatype_t.is_null, datatype_t.datatype_kind] at hn' hk
          next a b => rw [is_same_type_VVMType] at hv ⊢; exact hv
          next s a t b =>
            rw [is_same_type_UDT] at hv ⊢
            split at hv
            · rename_i hl; rw [if_pos hl]; exact hv
            · rename_i hl; rw [if_neg hl]
              exact same_body_mono h ih _ _ _ hv
          next a b => rw [is_same_type_Array] at hv ⊢; exact ih _ _ _ hv
          next la lr ra rr =>
            rw [is_same_type_FuncType] at hv ⊢
            split at hv
            · rename_i hl; rw [if_pos hl]; exact hv
            · rename_i hl; rw [if_neg hl]
              cases ha : same_args (is_same_type h n) la ra with
              | none => simp [ha] at hv
              | some b =>
                  rw [same_args_mono ih _ _ _ ha]
                  rw [ha] at hv
                  cases b with
                  | false => simpa using hv
                  | true => exact ih _ _ _ hv
          next a b => rw [is_same_type_Kind] at hv ⊢; exact ih _ _ _ hv
          next => rw [is_same_type_Void] at hv ⊢; exact hv

/-- A result obtained with some budget is obtained with every larger one. -/
theorem is_same_type_mono (h : Heap) {fuel fuel' : Nat} (hle : fuel ≤ fuel')
    {l r : datatype_t} {v : Bool} (hv : is_same_type h fuel l r = some v) :
    is_same_type h fuel' l r = some v := by
  induction hle with
  | refl => exact hv
  | step _ ih => exact is_same_type_succ h _ _ _ _ ih

/-! ## Position-wise reading of the two loops -/

/-- Two lists are related position by position exactly when they are equally
long and every position that holds an element in both relates them. -/
theorem forall₂_iff_positions {α β : Type} (R : α → β → Prop) :
    ∀ (l₁ : List α) (l₂ : List β),
      List.Forall₂ R l₁ l₂ ↔
        l₁.length = l₂.length ∧
          ∀ (i : Nat) (a : α) (b : β), l₁[i]? = some a → l₂[i]? = some b → R a b := by
  intro l₁
  induction l₁ with
  | nil =>
      intro l₂
      cases l₂ with
      | nil => simp
      | cons b l₂ => simp
  | cons a l₁ ih =>
      intro l₂
      cases l₂ with
      | nil => simp
      | cons b l₂ =>
          rw [List.forall₂_cons, ih]
          constructor
          · rintro ⟨hab, hlen, hpos⟩
            refine ⟨by simp [hlen], ?_⟩
            intro i x y hx hy
            cases i with
            | zero =>
                simp only [List.getElem?_cons_zero, Option.some.injEq] at hx hy
                subst hx; subst hy; exact hab
            | succ i =>
                simp only [List.getElem?_cons_succ] at hx hy
                exact hpos i x y hx hy
          · rintro ⟨hlen, hpos⟩
            refine ⟨hpos 0 a b (by simp) (by simp), by simpa using hlen, ?_⟩
            intro i x y hx hy
            exact hpos (i + 1) x y (by simpa using hx) (by simpa using hy)

/-- A common budget for finitely many comparisons. -/
theorem exists_common_fuel {α β : Type} (P : Nat → α → β → Prop)
    (mono : ∀ n m a b, n ≤ m → P n a b → P m a b) :
    ∀ (ls : List α) (rs : List β),
      List.Forall₂ (fun a b => ∃ n, P n a b) ls rs → ∃ N, List.Forall₂ (P N) ls rs := by
  intro ls rs hall
  induction hall with
  | nil => exact ⟨0, List.Forall₂.nil⟩
  | cons hab _ ih =>
      obtain ⟨n, hn⟩ := hab
      obtain ⟨m, hm⟩ := ih
      refine ⟨max n m, List.Forall₂.cons (mono _ _ _ _ (le_max_left n m) hn) ?_⟩
      exact hm.imp (fun a b hp => mono _ _ _ _ (le_max_right n m) hp)

/-- The field loop returns `true` exactly when every position has types the
comparison accepts and equal names. -/
theorem same_body_true_iff (h : Heap) (f : datatype_t → datatype_t → Option Bool) :
    ∀ (ls rs : List Nat), ls.length = rs.length →
      (same_body h f ls rs = some true ↔
        List.Forall₂ (fun a b => f (h.decl a).type (h.decl b).type = some true ∧
          (h.decl a).name = (h.decl b).name) ls rs) := by
  intro ls
  induction ls with
  | nil =>
      intro rs hlen
      cases rs with
      | nil => simp [same_body]
      | cons r rs => simp at hlen
  | cons l ls ih =>
      intro rs hlen
      cases rs with
      | nil => simp at hlen
      | cons r rs =>
          have hlen' : ls.length = rs.length := by simpa using hlen
          rw [List.forall₂_cons, ← ih rs hlen']
          simp only [same_body]
          cases hf : f (h.decl l).type (h.decl r).type with
          | none => simp
          | some b =>
              cases b with
              | false => simp
              | true =>
                  by_cases hname : (h.decl l).name = (h.decl r).name
                  · simp [hname]
                  · simp [hname]

/-- The argument loop returns `true` exactly when the comparison accepts
every position. -/
theorem same_args_true_iff (f : datatype_t → datatype_t → Option Bool) :
    ∀ (ls rs : List datatype_t), ls.length = rs.length →
      (same_args f ls rs = some true ↔
        List.Forall₂ (fun a b => f a b = some true) ls rs) := by
  intro ls
  induction ls with
  | nil =>
      intro rs hlen
      cases rs with
      | nil => simp [same_args]
      | cons r rs => simp at hlen
  | cons l ls ih =>
      intro rs hlen
      cases rs with
      | nil => simp at hlen
      | cons r rs =>
          have hlen' : ls.length = rs.length := by simpa using hlen
          rw [List.forall₂_cons, ← ih rs hlen']
          simp only [same_args]
          cases hf : f l r with
          | none => simp
          | some b =>
              cases b with
              | false => simp
              | true => simp

/-- Two record types are `is_same_type` exactly when their definitions are
related field by field. -/
theorem sameType_UDT_iff (h : Heap) (s t : String) (l r : Nat) :
    SameType h (.UDT s l) (.UDT t r) ↔
      List.Forall₂ (fun a b => (h.decl a).name = (h.decl b).name ∧
        SameType h (h.decl a).type (h.decl b).type)
        (h.datadef l).body (h.datadef r).body := by
  constructor
  · rintro ⟨fuel, hf⟩
    cases fuel with
    | zero => simp [is_same_type] at hf
    | succ n =>
        rw [is_same_type_UDT] at hf
        split at hf
        · simp at hf
        · rename_i hlen
          have hlen' : (h.datadef l).body.length = (h.datadef r).body.length := by
            simpa using hlen
          rw [same_body_true_iff h _ _ _ hlen'] at hf
          exact hf.imp (fun a b hab => ⟨hab.2, n, hab.1⟩)
  · intro hall
    have hlen := hall.length_eq
    have hall' : List.Forall₂ (fun a b => ∃ n,
        (is_same_type h n (h.decl a).type (h.decl b).type = some true ∧
          (h.decl a).name = (h.decl b).name))
        (h.datadef l).body (h.datadef r).body :=
      hall.imp (fun a b hab => by
        obtain ⟨hname, n, hn⟩ := hab
        exact ⟨n, hn, hname⟩)
    obtain ⟨N, hN⟩ := exists_common_fuel
      (fun n a b => is_same_type h n (h.decl a).type (h.decl b).type = some true ∧
          (h.decl a).name = (h.decl b).name)
      (fun n m a b hnm hp => ⟨is_same_type_mono h hnm hp.1, hp.2⟩) _ _ hall'
    refine ⟨N + 1, ?_⟩
    rw [is_same_type_UDT, if_neg (by simpa using hlen)]
    exact (same_body_true_iff h _ _ _ hlen).2 hN

/-- Two function types are `is_same_type` exactly when their argument lists
are related position by position and their return types are related. -/
theorem sameType_FuncType_iff (h : Heap) (la ra : List datatype_t) (lr rr : datatype_t) :
    SameType h (.FuncType la lr) (.FuncType ra rr) ↔
      List.Forall₂ (SameType h) la ra ∧ SameType h lr rr := by
  constructor
  · rintro ⟨fuel, hf⟩
    cases fuel with
    | zero => simp [is_same_type] at hf
    | succ n =>
        rw [is_same_type_FuncType] at hf
        split at hf
        · simp at hf
        · rename_i hlen
          have hlen' : la.length = ra.length := by simpa using hlen
          cases ha : same_args (is_same_type h n) la ra with
          | none => simp [ha] at hf
          | some b =>
              rw [ha] at hf
              cases b with
              | false => simp at hf
              | true =>
                  rw [same_args_true_iff _ _ _ hlen'] at ha
                  exact ⟨ha.imp (fun a b hab => ⟨n, hab⟩), n, hf⟩
  · rintro ⟨hall, m, hm⟩
    have hlen := hall.length_eq
    obtain ⟨N, hN⟩ := exists_common_fuel
      (fun n a b => is_same_type h n a b = some true)
      (fun n m a b hnm hp => is_same_type_mono h hnm hp) _ _ hall
    refine ⟨max N m + 1, ?_⟩
    rw [is_same_type_FuncType, if_neg (by simpa using hlen)]
    have hN' : List.Forall₂ (fun a b => is_same_type h (max N m) a b = some true) la ra :=
      hN.imp (fun a b hp => is_same_type_mono h (le_max_left N m) hp)
    rw [(same_args_true_iff _ _ _ hlen).2 hN']
    exact is_same_type_mono h (le_max_right N m) hm

/-! ## The contract of `is_same_type` -/

/-- C1: for two UDTs `is_same_type` returns true exactly when the two data
definitions have equally many fields and, position by position, equal field
names and `is_same_type` field types (the names of the UDTs are not read);
for two function types exactly when the arities are equal and every argument
position and the return types are `is_same_type`; it returns true whenever an
argument is null, and false whenever two non-null arguments have different
constructors. -/
theorem is_same_type_contract (h : Heap) :
    (∀ (s t : String) (l r : Nat),
      SameType h (.UDT s l) (.UDT t r) ↔
        (h.datadef l).body.length = (h.datadef r).body.length ∧
          ∀ (i a b : Nat), (h.datadef l).body[i]? = some a →
            (h.datadef r).body[i]? = some b →
            (h.decl a).name = (h.decl b).name ∧
              SameType h (h.decl a).type (h.decl b).type) ∧
    (∀ (la ra : List datatype_t) (lr rr : datatype_t),
      SameType h (.FuncType la lr) (.FuncType ra rr) ↔
        la.length = ra.length ∧
          (∀ (i : Nat) (a b : datatype_t), la[i]? = some a → ra[i]? = some b →
            SameType h a b) ∧
          SameType h lr rr) ∧
    (∀ (fuel : Nat) (t : datatype_t),
      is_same_type h (fuel + 1) .null t = some true ∧
        is_same_type h (fuel + 1) t .null = some true) ∧
    (∀ (fuel : Nat) (l r : datatype_t), l ≠ .null → r ≠ .null →
      l.datatype_kind ≠ r.datatype_kind → is_same_type h (fuel + 1) l r = some false) := by
  refine ⟨?_, ?_, ?_, ?_⟩
  · intro s t l r
    rw [sameType_UDT_iff, forall₂_iff_positions]
  · intro la ra lr rr
    rw [sameType_FuncType_iff, forall₂_iff_positions, and_assoc]
  · intro fuel t
    constructor
    · exact is_same_type_of_null h fuel _ _ (by simp [datatype_t.is_null])
    · exact is_same_type_of_null h fuel _ _ (by simp [datatype_t.is_null])
  · intro fuel l r hl hr hk
    apply is_same_type_of_kind_ne h fuel l r _ hk
    cases l <;> cases r <;> simp [datatype_t.is_null] at hl hr ⊢

/-! ## `is_same_type` as a relation -/

theorem same_body_symm (h : Heap) {f : datatype_t → datatype_t → Option Bool}
    (hf : ∀ a b, f a b = f b a) :
    ∀ (ls rs : List Nat), same_body h f ls rs = same_body h f rs ls := by
  intro ls
  induction ls with
  | nil => intro rs; cases rs <;> simp [same_body]
  | cons l ls ih =>
      intro rs
      cases rs with
      | nil => simp [same_body]
      | cons r rs =>
          simp only [same_body]
          rw [hf (h.decl l).type (h.decl r).type, ih rs]
          by_cases hname : (h.decl l).name = (h.decl r).name
          · simp [hname]
          · have hname' : ¬ (h.decl r).name = (h.decl l).name := fun e => hname e.symm
            simp [hname, hname']

theorem same_args_symm {f : datatype_t → datatype_t → Option Bool}
    (hf : ∀ a b, f a b = f b a) :
    ∀ (ls rs : List datatype_t), same_args f ls rs = same_args f rs ls := by
  intro ls
  induction ls with
  | nil => intro rs; cases rs <;> simp [same_args]
  | cons l ls ih =>
      intro rs
      cases rs with
      | nil => simp [same_args]
      | cons r rs =>
          simp only [same_args]
          rw [hf l r, ih rs]

/-- Exchanging the arguments of `is_same_type` does not change what it
computes, for any budget. -/
theorem is_same_type_symm (h : Heap) :
    ∀ (fuel : Nat) (l r : datatype_t), is_same_type h fuel l r = is_same_type h fuel r l := by
  intro fuel
  induction fuel with
  | zero => intro l r; simp [is_same_type]
  | succ n ih =>
      intro l r
      by_cases hn : (l.is_null || r.is_null) = true
      · rw [is_same_type_of_null h _ l r hn,
          is_same_type_of_null h _ r l (by rw [Bool.or_comm]; exact hn)]
      · have hn' : (l.is_null || r.is_null) = false := by simpa using hn
        have hn'' : (r.is_null || l.is_null) = false := by rw [Bool.or_comm]; exact hn'
        by_cases hk : l.datatype_kind ≠ r.datatype_kind
        · rw [is_same_type_of_kind_ne h _ l r hn' hk,
            is_same_type_of_kind_ne h _ r l hn'' (fun e => hk e.symm)]
        · cases l <;> cases r <;>
            simp [datatype_t.is_null, datatype_t.datatype_kind] at hn' hk
          next a b =>
            rw [is_same_type_VVMType, is_same_type_VVMType]
            by_cases hab : a = b
            · simp [hab]
            · have hba : ¬ b = a := fun e => hab e.symm
              simp [hab, hba]
          next s a t b =>
            rw [is_same_type_UDT, is_same_type_UDT, same_body_symm h ih]
            by_cases hlen : (h.datadef a).body.length = (h.datadef b).body.length
            · simp [hlen]
            · have hlen' : ¬ (h.datadef b).body.length = (h.datadef a).body.length :=
                fun e => hlen e.symm
              simp [hlen, hlen']
          next a b => rw [is_same_type_Array, is_same_type_Array, ih]
          next la lr ra rr =>
            rw [is_same_type_FuncType, is_same_type_FuncType, same_args_symm ih, ih lr rr]
            by_cases hlen : la.length = ra.length
            · simp [hlen]
            · have hlen' : ¬ ra.length = la.length := fun e => hlen e.symm
              simp [hlen, hlen']
          next a b => rw [is_same_type_Kind, is_same_type_Kind, ih]
          next => rfl

theorem sameType_symm (h : Heap) {a b : datatype_t} (hab : SameType h a b) :
    SameType h b a := by
  obtain ⟨n, hn⟩ := hab
  exact ⟨n, by rw [is_same_type_symm]; exact hn⟩

theorem NullFree.ne_null {h : Heap} {t : datatype_t} (ht : NullFree h t) :
    t.is_null = false := by
  cases ht <;> rfl

/-- Two non-null types that are `is_same_type` have the same constructor. -/
theorem sameType_kind_eq (h : Heap) {a b : datatype_t} (hab : SameType h a b)
    (ha : a.is_null = false) (hb : b.is_null = false) :
    a.datatype_kind = b.datatype_kind := by
  obtain ⟨n, hn⟩ := hab
  cases n with
  | zero => simp [is_same_type] at hn
  | succ n =>
      by_contra hk
      rw [is_same_type_of_kind_ne h n a b (by simp [ha, hb]) hk] at hn
      simp at hn

theorem sameType_VVMType_iff (h : Heap) (a b : Nat) :
    SameType h (.VVMType a) (.VVMType b) ↔ a = b := by
  constructor
  · rintro ⟨n, hn⟩
    cases n with
    | zero => simp [is_same_type] at hn
    | succ n => rw [is_same_type_VVMType] at hn; simpa using hn
  · intro hab
    exact ⟨1, by rw [is_same_type_VVMType]; simp [hab]⟩

theorem sameType_Array_iff (h : Heap) (a b : datatype_t) :
    SameType h (.Array a) (.Array b) ↔ SameType h a b := by
  constructor
  · rintro ⟨n, hn⟩
    cases n with
    | zero => simp [is_same_type] at hn
    | succ n => rw [is_same_type_Array] at hn; exact ⟨n, hn⟩
  · rintro ⟨n, hn⟩
    exact ⟨n + 1, by rw [is_same_type_Array]; exact hn⟩

theorem sameType_Kind_iff (h : Heap) (a b : datatype_t) :
    SameType h (.Kind a) (.Kind b) ↔ SameType h a b := by
  constructor
  · rintro ⟨n, hn⟩
    cases n with
    | zero => simp [is_same_type] at hn
    | succ n => rw [is_same_type_Kind] at hn; exact ⟨n, hn⟩
  · rintro ⟨n, hn⟩
    exact ⟨n + 1, by rw [is_same_type_Kind]; exact hn⟩

/-- `is_same_type` returns true on two copies of a null-free type. -/
theorem sameType_refl (h : Heap) {t : datatype_t} (ht : NullFree h t) : SameType h t t := by
  induction ht with
  | VVMType t => exact (sameType_VVMType_iff h t t).2 rfl
  | UDT s ref _ ih =>
      rw [sameType_UDT_iff, List.forall₂_same]
      intro d hd
      exact ⟨rfl, ih d hd⟩
  | Array t _ ih => exact (sameType_Array_iff h t t).2 ih
  | FuncType args ret _ _ iha ihr =>
      rw [sameType_FuncType_iff, List.forall₂_same]
      exact ⟨iha, ihr⟩
  | Kind t _ ih => exact (sameType_Kind_iff h t t).2 ih
  | Void => exact ⟨1, is_same_type_Void h 0⟩

/-- Transitivity of `is_same_type` through a null-free middle type. -/
theorem sameType_trans (h : Heap) {b : datatype_t} (hb : NullFree h b) :
    ∀ {a c : datatype_t}, NullFree h a → NullFree h c →
      SameType h a b → SameType h b c → SameType h a c := by
  induction hb with
  | VVMType t =>
      intro a c ha hc hab hbc
      have hka := sameType_kind_eq h hab ha.ne_null rfl
      have hkc := sameType_kind_eq h hbc rfl hc.ne_null
      cases a <;> simp [datatype_t.datatype_kind] at hka
      cases c <;> simp [datatype_t.datatype_kind] at hkc
      rw [sameType_VVMType_iff] at hab hbc ⊢
      exact hab.trans hbc
  | UDT s ref _ ih =>
      intro a c ha hc hab hbc
      have hka := sameType_kind_eq h hab ha.ne_null rfl
      have hkc := sameType_kind_eq h hbc rfl hc.ne_null
      cases a <;> simp [datatype_t.datatype_kind] at hka
      cases c <;> simp [datatype_t.datatype_kind] at hkc
      next sa la sc lc =>
        cases ha with
        | UDT _ _ hfa =>
        cases hc with
        | UDT _ _ hfc =>
        rw [sameType_UDT_iff, forall₂_iff_positions] at hab hbc ⊢
        refine ⟨hab.1.trans hbc.1, ?_⟩
        intro i x z hx hz
        have hi : i < (h.datadef ref).body.length := by
          rw [← hab.1]
          exact (List.getElem?_eq_some_iff.1 hx).1
        have hy : (h.datadef ref).body[i]? = some ((h.datadef ref).body[i]) :=
          List.getElem?_eq_getElem hi
        have hxy := hab.2 i x _ hx hy
        have hyz := hbc.2 i _ z hy hz
        refine ⟨hxy.1.trans hyz.1, ?_⟩
        exact ih _ (List.getElem_mem hi) (hfa x (List.getElem?_mem hx))
          (hfc z (List.getElem?_mem hz)) hxy.2 hyz.2
  | Array t _ ih =>
      intro a c ha hc hab hbc
      have hka := sameType_kind_eq h hab ha.ne_null rfl
      have hkc := sameType_kind_eq h hbc rfl hc.ne_null
      cases a <;> simp [datatype_t.datatype_kind] at hka
      cases c <;> simp [datatype_t.datatype_kind] at hkc
      cases ha with
      | Array _ ha' =>
      cases hc with
      | Array _ hc' =>
      rw [sameType_Array_iff] at hab hbc ⊢
      exact ih ha' hc' hab hbc
  | FuncType args ret _ _ iha ihr =>
      intro a c ha hc hab hbc
      have hka := sameType_kind_eq h hab ha.ne_null rfl
      have hkc := sameType_kind_eq h hbc rfl hc.ne_null
      cases a <;> simp [datatype_t.datatype_kind] at hka
      cases c <;> simp [datatype_t.datatype_kind] at hkc
      next aa ar ca cr =>
        cases ha with
        | FuncType _ _ hfa hra =>
        cases hc with
        | FuncType _ _ hfc hrc =>
        rw [sameType_FuncType_iff, forall₂_iff_positions] at hab hbc ⊢
        refine ⟨⟨hab.1.1.trans hbc.1.1, ?_⟩, ihr hra hrc hab.2 hbc.2⟩
        intro i x z hx hz
        have hi : i < args.length := by
          rw [← hab.1.1]
          exact (List.getElem?_eq_some_iff.1 hx).1
        have hy : args[i]? = some (args[i]) := List.getElem?_eq_getElem hi
        exact iha _ (List.getElem_mem hi) (hfa x (List.getElem?_mem hx))
          (hfc z (List.getElem?_mem hz)) (hab.1.2 i x _ hx hy) (hbc.1.2 i _ z hy hz)
  | Kind t _ ih =>
      intro a c ha hc hab hbc
      have hka := sameType_kind_eq h hab ha.ne_null rfl
      have hkc := sameType_kind_eq h hbc rfl hc.ne_null
      cases a <;> simp [datatype_t.datatype_kind] at hka
      cases c <;> simp [datatype_t.datatype_kind] at hkc
      cases ha with
      | Kind _ ha' =>
      cases hc with
      | Kind _ hc' =>
      rw [sameType_Kind_iff] at hab hbc ⊢
      exact ih ha' hc' hab hbc
  | Void =>
      intro a c ha hc hab hbc
      have hka := sameType_kind_eq h hab ha.ne_null rfl
      have hkc := sameType_kind_eq h hbc rfl hc.ne_null
      cases a <;> simp [datatype_t.datatype_kind] at hka
      cases c <;> simp [datatype_t.datatype_kind] at hkc
      exact ⟨1, is_same_type_Void h 0⟩

/-- With enough budget the field loop returns when the comparison returns
on every field type of the left list. -/
theorem same_body_terminates (h : Heap) :
    ∀ (ls rs : List Nat),
      (∀ d ∈ ls, ∀ t, ∃ fuel v, is_same_type h fuel (h.decl d).type t = some v) →
      ∃ fuel v, same_body h (is_same_type h fuel) ls rs = some v := by
  intro ls
  induction ls with
  | nil => intro rs _; exact ⟨0, true, by cases rs <;> rfl⟩
  | cons l ls ih =>
      intro rs hall
      cases rs with
      | nil => exact ⟨0, true, rfl⟩
      | cons r rs =>
          obtain ⟨n, v, hn⟩ := hall l (List.mem_cons_self _ _) (h.decl r).type
          cases v with
          | false => exact ⟨n, false, by simp [same_body, hn]⟩
          | true =>
              by_cases hname : (h.decl l).name = (h.decl r).name
              · obtain ⟨m, w, hm⟩ := ih rs (fun d hd => hall d (List.mem_cons_of_mem _ hd))
                refine ⟨max n m, w, ?_⟩
                have hn' := is_same_type_mono h (le_max_left n m) hn
                have hm' := same_body_mono h
                  (fun a b v hv => is_same_type_mono h (le_max_right n m) hv) _ _ _ hm
                simp [same_body, hn', hname, hm']
              · exact ⟨n, false, by simp [same_body, hn, hname]⟩

/-- With enough budget the argument loop returns when the comparison returns
on every type of the left list. -/
theorem same_args_terminates (h : Heap) :
    ∀ (ls rs : List datatype_t),
      (∀ a ∈ ls, ∀ t, ∃ fuel v, is_same_type h fuel a t = some v) →
      ∃ fuel v, same_args (is_same_type h fuel) ls rs = some v := by
  intro ls
  induction ls with
  | nil => intro rs _; exact ⟨0, true, by cases rs <;> rfl⟩
  | cons l ls ih =>
      intro rs hall
      cases rs with
      | nil => exact ⟨0, true, rfl⟩
      | cons r rs =>
          obtain ⟨n, v, hn⟩ := hall l (List.mem_cons_self _ _) r
          cases v with
          | false => exact ⟨n, false, by simp [same_args, hn]⟩
          | true =>
              obtain ⟨m, w, hm⟩ := ih rs (fun d hd => hall d (List.mem_cons_of_mem _ hd))
              refine ⟨max n m, w, ?_⟩
              have hn' := is_same_type_mono h (le_max_left n m) hn
              have hm' := same_args_mono
                (fun a b v hv => is_same_type_mono h (le_max_right n m) hv) _ _ _ hm
              simp [same_args, hn', hm']

/-- `is_same_type` returns at once on arguments of different constructors. -/
theorem is_same_type_terminates_of_kind_ne (h : Heap) (a b : datatype_t)
    (hk : a.datatype_kind ≠ b.datatype_kind) :
    ∃ fuel v, is_same_type h fuel a b = some v := by
  by_cases hn : (a.is_null || b.is_null) = true
  · exact ⟨1, true, is_same_type_of_null h 0 a b hn⟩
  · exact ⟨1, false, is_same_type_of_kind_ne h 0 a b (by simpa using hn) hk⟩

/-- On a null-free left argument `is_same_type` returns a Boolean, given
enough budget, whatever the right argument. -/
theorem is_same_type_terminates (h : Heap) {a : datatype_t} (ha : NullFree h a) :
    ∀ b, ∃ fuel v, is_same_type h fuel a b = some v := by
  induction ha with
  | VVMType t =>
      intro b
      by_cases hb : ∃ t', b = .VVMType t'
      · obtain ⟨t', rfl⟩ := hb
        exact ⟨1, _, is_same_type_VVMType h 0 t t'⟩
      · apply is_same_type_terminates_of_kind_ne
        cases b <;> simp [datatype_t.datatype_kind] at hb ⊢
  | UDT s ref _ ih =>
      intro b
      by_cases hb : ∃ t r, b = .UDT t r
      · obtain ⟨t, r, rfl⟩ := hb
        by_cases hlen : (h.datadef ref).body.length ≠ (h.datadef r).body.length
        · exact ⟨1, false, by rw [is_same_type_UDT, if_pos hlen]⟩
        · obtain ⟨n, v, hn⟩ := same_body_terminates h (h.datadef ref).body (h.datadef r).body ih
          exact ⟨n + 1, v, by rw [is_same_type_UDT, if_neg hlen]; exact hn⟩
      · apply is_same_type_terminates_of_kind_ne
        cases b <;> simp [datatype_t.datatype_kind] at hb ⊢
  | Array t _ ih =>
      intro b
      by_cases hb : ∃ t', b = .Array t'
      · obtain ⟨t', rfl⟩ := hb
        obtain ⟨n, v, hn⟩ := ih t'
        exact ⟨n + 1, v, by rw [is_same_type_Array]; exact hn⟩
      · apply is_same_type_terminates_of_kind_ne
        cases b <;> simp [datatype_t.datatype_kind] at hb ⊢
  | FuncType args ret _ _ iha ihr =>
      intro b
      by_cases hb : ∃ args' ret', b = .FuncType args' ret'
      · obtain ⟨args', ret', rfl⟩ := hb
        by_cases hlen : args.length ≠ args'.length
        · exact ⟨1, false, by rw [is_same_type_FuncType, if_pos hlen]⟩
        · obtain ⟨n, v, hn⟩ := same_args_terminates h args args' iha
          cases v with
          | false =>
              exact ⟨n + 1, false, by rw [is_same_type_FuncType, if_neg hlen, hn]⟩
          | true =>
              obtain ⟨m, w, hm⟩ := ihr ret'
              refine ⟨max n m + 1, w, ?_⟩
              rw [is_same_type_FuncType, if_neg hlen,
                same_args_mono (fun a b v hv => is_same_type_mono h (le_max_left n m) hv)
                  _ _ _ hn]
              exact is_same_type_mono h (le_max_right n m) hm
      · apply is_same_type_terminates_of_kind_ne
        cases b <;> simp [datatype_t.datatype_kind] at hb ⊢
  | Kind t _ ih =>
      intro b
      by_cases hb : ∃ t', b = .Kind t'
      · obtain ⟨t', rfl⟩ := hb
        obtain ⟨n, v, hn⟩ := ih t'
        exact ⟨n + 1, v, by rw [is_same_type_Kind]; exact hn⟩
      · apply is_same_type_terminates_of_kind_ne
        cases b <;> simp [datatype_t.datatype_kind] at hb ⊢
  | Void =>
      intro b
      by_cases hb : b = .Void
      · subst hb
        exact ⟨1, true, is_same_type_Void h 0⟩
      · apply is_same_type_terminates_of_kind_ne
        cases b <;> simp [datatype_t.datatype_kind] at hb ⊢

/-- C2: on types without a null component at any depth and without a
self-referential record definition, `is_same_type` returns a Boolean and is
reflexive, symmetric and transitive. -/
theorem is_same_type_equivalence (h : Heap) (a b c : datatype_t)
    (ha : NullFree h a) (hb : NullFree h b) (hc : NullFree h c) :
    (∃ fuel v, is_same_type h fuel a b = some v) ∧
      SameType h a a ∧
      (SameType h a b → SameType h b a) ∧
      (SameType h a b → SameType h b c → SameType h a c) :=
  ⟨is_same_type_terminates h ha b, sameType_refl h ha, sameType_symm h,
    sameType_trans h hb ha hc⟩

theorem pointHeap_nullFree (s : String) (ref : Nat) : NullFree pointHeap (.UDT s ref) := by
  apply NullFree.UDT
  intro d _
  have hd : (pointHeap.decl d).type = .VVMType 3 := by
    unfold pointHeap
    dsimp only
    split <;> rfl
  rw [hd]
  exact NullFree.VVMType 3

theorem pointHeap_sameType : SameType pointHeap (.UDT "Point" 0) (.UDT "Pair" 1) :=
  ⟨2, by decide⟩

/-- The equivalence properties at the records `Point` and `Pair` and an array
of them; the premises of symmetry and transitivity hold there. -/
theorem is_same_type_equivalence_witness :
    SameType pointHeap (.UDT "Point" 0) (.UDT "Pair" 1) ∧
      SameType pointHeap (.UDT "Pair" 1) (.UDT "Point" 0) ∧
      ((∃ fuel v, is_same_type pointHeap fuel (.UDT "Point" 0) (.UDT "Pair" 1) = some v) ∧
        SameType pointHeap (.UDT "Point" 0) (.UDT "Point" 0) ∧
        (SameType pointHeap (.UDT "Point" 0) (.UDT "Pair" 1) →
          SameType pointHeap (.UDT "Pair" 1) (.UDT "Point" 0)) ∧
        (SameType pointHeap (.UDT "Point" 0) (.UDT "Pair" 1) →
          SameType pointHeap (.UDT "Pair" 1) (.UDT "Point" 0) →
          SameType pointHeap (.UDT "Point" 0) (.UDT "Point" 0))) :=
  ⟨pointHeap_sameType, sameType_symm pointHeap pointHeap_sameType,
    is_same_type_equivalence pointHeap (.UDT "Point" 0) (.UDT "Pair" 1) (.UDT "Point" 0)
      (pointHeap_nullFree _ _) (pointHeap_nullFree _ _) (pointHeap_nullFree _ _)⟩

/-! ## Self-referential records -/

theorem is_same_type_node_none :
    ∀ fuel : Nat, is_same_type nodeHeap fuel (.UDT "Node" 0) (.UDT "Node" 0) = none := by
  intro fuel
  induction fuel with
  | zero => rfl
  | succ n ih =>
      rw [is_same_type_UDT]
      simp only [nodeHeap, ne_eq, not_true_eq_false, if_false, same_body]
      simp only [nodeHeap] at ih
      rw [ih]

/-- C3: on the record of `data Node: next: Node end`, compared with itself,
`is_same_type` returns no Boolean, whatever the recursion budget. -/
theorem is_same_type_self_referential_diverges :
    ¬ ∃ (fuel : Nat) (v : Bool),
      is_same_type nodeHeap fuel (.UDT "Node" 0) (.UDT "Node" 0) = some v := by
  rintro ⟨fuel, v, hv⟩
  rw [is_same_type_node_none fuel] at hv
  exact Option.noConfusion hv

/-! ## `is_overloadable` -/

theorem is_overloadable_type_function (h : Heap) (fuel : Nat) (a b : resolved_t)
    (ha : is_type_like a = true) (hb : is_function_like b = true) :
    is_overloadable h fuel a b = some true := by
  cases a <;> cases b <;> simp [is_type_like, is_function_like] at ha hb <;> rfl

theorem is_overloadable_function_function (h : Heap) (fuel : Nat) (a b : resolved_t)
    (ha : is_function_like a = true) (hb : is_function_like b = true) :
    is_overloadable h fuel a b =
      match is_same_type h fuel (get_type h (some a)) (get_type h (some b)) with
      | none => none
      | some v => some (!v) := by
  cases a <;> cases b <;> simp [is_type_like, is_function_like] at ha hb <;> rfl

theorem is_overloadable_second_other (h : Heap) (fuel : Nat) (a b : resolved_t)
    (hb : is_function_like b = false) : is_overloadable h fuel a b = some false := by
  cases a <;> cases b <;> simp [is_function_like] at hb <;> rfl

theorem is_overloadable_first_other (h : Heap) (fuel : Nat) (a b : resolved_t)
    (ht : is_type_like a = false) (hf : is_function_like a = false) :
    is_overloadable h fuel a b = some false := by
  cases a <;> simp [is_type_like, is_function_like] at ht hf <;> rfl

theorem type_like_not_function_like (a : resolved_t) (ha : is_type_like a = true) :
    is_function_like a = false := by
  cases a <;> simp [is_type_like, is_function_like] at ha ⊢

/-- C8: `is_overloadable(a, b)` returns true exactly when `a` is type-like
and `b` is function-like, or both are function-like and `is_same_type` returns
false on their types; it returns false exactly in the other combinations:
`b` is not function-like, or `a` is neither type-like nor function-like, or
both are function-like and `is_same_type` returns true on their types. -/
theorem is_overloadable_contract (h : Heap) (a b : resolved_t) :
    (Overloadable h a b ↔
      (is_type_like a = true ∧ is_function_like b = true) ∨
      (is_function_like a = true ∧ is_function_like b = true ∧
        NotSameType h (get_type h (some a)) (get_type h (some b)))) ∧
    (NotOverloadable h a b ↔
      is_function_like b = false ∨
      (is_type_like a = false ∧ is_function_like a = false) ∨
      (is_function_like a = true ∧ is_function_like b = true ∧
        SameType h (get_type h (some a)) (get_type h (some b)))) := by
  by_cases hb : is_function_like b = true
  · by_cases hat : is_type_like a = true
    · have haf := type_like_not_function_like a hat
      simp [Overloadable, NotOverloadable, is_overloadable_type_function h _ a b hat hb,
        hat, hb, haf]
    · by_cases haf : is_function_like a = true
      · have key := fun fuel => is_overloadable_function_function h fuel a b haf hb
        simp only [Overloadable, NotOverloadable, NotSameType, SameType, key, hat, hb, haf]
        constructor
        · constructor
          · rintro ⟨fuel, hf⟩
            right
            refine ⟨trivial, trivial, fuel, ?_⟩
            cases hs : is_same_type h fuel (get_type h (some a)) (get_type h (some b)) with
            | none => simp [hs] at hf
            | some v => cases v <;> simp [hs] at hf ⊢
          · rintro (⟨hc, -⟩ | ⟨-, -, fuel, hf⟩)
            · exact absurd hc (by simp)
            · exact ⟨fuel, by simp [hf]⟩
        · constructor
          · rintro ⟨fuel, hf⟩
            right; right
            refine ⟨trivial, trivial, fuel, ?_⟩
            cases hs : is_same_type h fuel (get_type h (some a)) (get_type h (some b)) with
            | none => simp [hs] at hf
            | some v => cases v <;> simp [hs] at hf ⊢
          · rintro (hc | ⟨-, hc⟩ | ⟨-, -, fuel, hf⟩)
            · exact absurd hc (by simp)
            · exact absurd hc (by simp)
            · exact ⟨fuel, by simp [hf]⟩
      · have hat' : is_type_like a = false := by simpa using hat
        have haf' : is_function_like a = false := by simpa using haf
        simp [Overloadable, NotOverloadable, is_overloadable_first_other h _ a b hat' haf',
          hat', hb, haf']
  · have hb' : is_function_like b = false := by simpa using hb
    simp [Overloadable, NotOverloadable, is_overloadable_second_other h _ a b hb', hb']

/-! ## `store_symbol`: the loop -/

theorem is_overloadable_mono (h : Heap) {fuel fuel' : Nat} (hle : fuel ≤ fuel')
    {a b : resolved_t} {v : Bool} (hv : is_overloadable h fuel a b = some v) :
    is_overloadable h fuel' a b = some v := by
  by_cases hb : is_function_like b = true
  · by_cases hat : is_type_like a = true
    · rw [is_overloadable_type_function h _ a b hat hb] at hv ⊢; exact hv
    · by_cases haf : is_function_like a = true
      · rw [is_overloadable_function_function h _ a b haf hb] at hv ⊢
        cases hs : is_same_type h fuel (get_type h (some a)) (get_type h (some b)) with
        | none => simp [hs] at hv
        | some w =>
            rw [is_same_type_mono h hle hs]
            rw [hs] at hv
            exact hv
      · rw [is_overloadable_first_other h _ a b (by simpa using hat) (by simpa using haf)]
          at hv ⊢
        exact hv
  · rw [is_overloadable_second_other h _ a b (by simpa using hb)] at hv ⊢
    exact hv

/-- When every entry accepts the new reference, the loop ends and the
reference is appended. -/
theorem store_loop_append (h : Heap) (fuel : Nat) (i : Bool) (ptr : resolved_t) :
    ∀ (rs : Resolveds), (∀ e ∈ rs, is_overloadable h fuel e ptr = some true) →
      store_loop h fuel i ptr rs = some (true, rs ++ [ptr]) := by
  intro rs
  induction rs with
  | nil => intro _; rfl
  | cons r rs ih =>
      intro hall
      simp only [store_loop]
      rw [hall r (List.mem_cons_self _ _), ih (fun e he => hall e (List.mem_cons_of_mem _ he))]
      rfl

/-- When position `k` holds the first entry that rejects the new reference,
the loop stops there: it replaces the entry in interactive mode when the
entry is overridable, and otherwise returns false without writing. -/
theorem store_loop_conflict (h : Heap) (fuel : Nat) (i : Bool) (ptr : resolved_t) :
    ∀ (rs : Resolveds) (k : Nat) (e : resolved_t), rs[k]? = some e →
      is_overloadable h fuel e ptr = some false →
      (∀ (j : Nat) (e' : resolved_t), j < k → rs[j]? = some e' →
        is_overloadable h fuel e' ptr = some true) →
      store_loop h fuel i ptr rs =
        if (i && is_overridable (some e)) = true then some (true, rs.set k ptr)
        else some (false, rs) := by
  intro rs
  induction rs with
  | nil => intro k e hk; simp at hk
  | cons r rs ih =>
      intro k e hk he hbefore
      cases k with
      | zero =>
          simp only [List.getElem?_cons_zero, Option.some.injEq] at hk
          subst hk
          simp only [store_loop, he, List.set_cons_zero]
      | succ k =>
          simp only [List.getElem?_cons_succ] at hk
          have h0 := hbefore 0 r (Nat.succ_pos k) (by simp)
          have hrec := ih k e hk he (fun j e' hj hj' =>
            hbefore (j + 1) e' (Nat.succ_lt_succ hj) (by simpa using hj'))
          simp only [store_loop, h0, hrec, List.set_cons_succ]
          by_cases hc : (i && is_overridable (some e)) = true
          · simp [hc]
          · simp [hc]

/-- Every way the loop can return. -/
theorem store_loop_cases (h : Heap) (fuel : Nat) (i : Bool) (ptr : resolved_t) :
    ∀ (rs : Resolveds) (b : Bool) (rs' : Resolveds),
      store_loop h fuel i ptr rs = some (b, rs') →
      ((∀ e ∈ rs, is_overloadable h fuel e ptr = some true) ∧ b = true ∧ rs' = rs ++ [ptr]) ∨
      (∃ (k : Nat) (e : resolved_t), rs[k]? = some e ∧
        is_overloadable h fuel e ptr = some false ∧
        (∀ (j : Nat) (e' : resolved_t), j < k → rs[j]? = some e' →
          is_overloadable h fuel e' ptr = some true) ∧
        b = (i && is_overridable (some e)) ∧
        rs' = if b = true then rs.set k ptr else rs) := by
  intro rs
  induction rs with
  | nil =>
      intro b rs' hres
      left
      simp only [store_loop, Option.some.injEq, Prod.mk.injEq] at hres
      exact ⟨by simp, hres.1.symm, by simp [← hres.2]⟩
  | cons r rs ih =>
      intro b rs' hres
      simp only [store_loop] at hres
      cases ho : is_overloadable h fuel r ptr with
      | none => simp [ho] at hres
      | some v =>
          rw [ho] at hres
          cases v with
          | false =>
              right
              refine ⟨0, r, by simp, ho, fun j e' hj => absurd hj (Nat.not_lt_zero j), ?_⟩
              by_cases hc : (i && is_overridable (some r)) = true
              · simp only [hc, if_true, Option.some.injEq, Prod.mk.injEq] at hres
                simp [← hres.1, ← hres.2, hc]
              · simp only [hc, Bool.false_eq_true, if_false, Option.some.injEq,
                  Prod.mk.injEq] at hres
                have hc' : (i && is_overridable (some r)) = false := by simpa using hc
                simp [← hres.1, ← hres.2, hc']
          | true =>
              simp only at hres
              cases hl : store_loop h fuel i ptr rs with
              | none => simp [hl] at hres
              | some res =>
                  obtain ⟨b₀, rs₀⟩ := res
                  rw [hl] at hres
                  simp only [Option.some.injEq, Prod.mk.injEq] at hres
                  obtain ⟨hb, hrs⟩ := hres
                  subst hb; subst hrs
                  rcases ih b₀ rs₀ hl with ⟨hall, hb, hrs⟩ | ⟨k, e, hk, he, hbefore, hb, hrs⟩
                  · left
                    refine ⟨?_, hb, by simp [hrs]⟩
                    intro e he
                    rcases List.mem_cons.1 he with rfl | he'
                    · exact ho
                    · exact hall e he'
                  · right
                    refine ⟨k + 1, e, by simpa using hk, he, ?_, hb, ?_⟩
                    · intro j e' hj hj'
                      cases j with
                      | zero =>
                          simp only [List.getElem?_cons_zero, Option.some.injEq] at hj'
                          subst hj'; exact ho
                      | succ j =>
                          exact hbefore j e' (Nat.lt_of_succ_lt_succ hj) (by simpa using hj')
                    · rw [hrs]; split <;> simp

/-! ## `store_symbol`: the state -/

theorem lookup_set_scope_self (st : SemaVisitor) (idx : Nat) (scope new_scope : Scope)
    (hs : st.symbol_table_[idx]? = some scope) (symbol : String) :
    (st.set_scope idx new_scope).lookup idx symbol = some (new_scope.map symbol) := by
  have hlt : idx < st.symbol_table_.length := (List.getElem?_eq_some_iff.1 hs).1
  simp [SemaVisitor.lookup, SemaVisitor.set_scope, List.getElem?_set_self hlt]

/-- Writing back a scope whose map differs from the old one only at
`symbol` changes nothing else. -/
theorem set_scope_onlyChanges (st : SemaVisitor) (idx : Nat) (scope : Scope)
    (m : String → Option Resolveds) (symbol : String)
    (hs : st.symbol_table_[idx]? = some scope)
    (hm : ∀ n, n ≠ symbol → m n = scope.map n) :
    OnlyChanges st (st.set_scope idx { scope with map := m }) idx symbol := by
  have hlt : idx < st.symbol_table_.length := (List.getElem?_eq_some_iff.1 hs).1
  refine ⟨rfl, rfl, rfl, by simp [SemaVisitor.set_scope], ?_, ?_⟩
  · intro i
    by_cases hi : i = idx
    · subst hi
      simp [SemaVisitor.previous, SemaVisitor.set_scope, List.getElem?_set_self hlt, hs]
    · have hne : idx ≠ i := fun e => hi e.symm
      simp [SemaVisitor.previous, SemaVisitor.set_scope, List.getElem?_set_ne hne]
  · intro i n hin
    by_cases hi : i = idx
    · subst hi
      have hn : n ≠ symbol := by
        rcases hin with hc | hn
        · exact absurd rfl hc
        · exact hn
      simp [SemaVisitor.lookup, SemaVisitor.set_scope, List.getElem?_set_self hlt, hs, hm n hn]
    · have hne : idx ≠ i := fun e => hi e.symm
      simp [SemaVisitor.lookup, SemaVisitor.set_scope, List.getElem?_set_ne hne]

theorem lookup_of_scope (st : SemaVisitor) (idx : Nat) (scope : Scope)
    (hs : st.symbol_table_[idx]? = some scope) (symbol : String) :
    st.lookup idx symbol = some (scope.map symbol) := by
  simp [SemaVisitor.lookup, hs]

theorem exists_scope_of_valid (st : SemaVisitor) (idx : Nat)
    (hv : idx < st.symbol_table_.length) :
    ∃ scope, st.symbol_table_[idx]? = some scope :=
  ⟨st.symbol_table_[idx], List.getElem?_eq_getElem hv⟩

/-- Storing a symbol the current scope has no entry for. -/
theorem store_symbol_new (h : Heap) (fuel : Nat) (st : SemaVisitor) (symbol : String)
    (ptr : resolved_t) (scope : Scope)
    (hs : st.symbol_table_[st.current_scope_]? = some scope)
    (hnew : scope.map symbol = none) :
    store_symbol h fuel st symbol ptr =
      some (true, st.set_scope st.current_scope_
        { scope with map := Function.update scope.map symbol (some [ptr]) }) := by
  simp [store_symbol, hs, hnew]

/-- Storing a symbol the current scope has an overload list for. -/
theorem store_symbol_old (h : Heap) (fuel : Nat) (st : SemaVisitor) (symbol : String)
    (ptr : resolved_t) (scope : Scope) (rs : Resolveds)
    (hs : st.symbol_table_[st.current_scope_]? = some scope)
    (hold : scope.map symbol = some rs) :
    store_symbol h fuel st symbol ptr =
      match store_loop h fuel st.interactive_ ptr rs with
      | none => none
      | some (false, _) => some (false, st)
      | some (true, rs') =>
          some (true, st.set_scope st.current_scope_
            { scope with map := Function.update scope.map symbol (some rs') }) := by
  simp [store_symbol, hs, hold]

/-- What a call of `store_symbol` that returns leaves behind: on `false` the
state it was given; on `true` a state that differs only in the list of
`symbol` in the current scope, which is the list the loop produced. -/
theorem store_symbol_cases (h : Heap) (fuel : Nat) (st st' : SemaVisitor) (symbol : String)
    (ptr : resolved_t) (b : Bool)
    (hres : store_symbol h fuel st symbol ptr = some (b, st')) :
    (b = false ∧ st' = st ∧
      ∃ rs rs', st.lookup st.current_scope_ symbol = some (some rs) ∧
        store_loop h fuel st.interactive_ ptr rs = some (false, rs')) ∨
    (b = true ∧ OnlyChanges st st' st.current_scope_ symbol ∧
      ((st.lookup st.current_scope_ symbol = some none ∧
          st'.lookup st.current_scope_ symbol = some (some [ptr])) ∨
        (∃ rs rs', st.lookup st.current_scope_ symbol = some (some rs) ∧
          store_loop h fuel st.interactive_ ptr rs = some (true, rs') ∧
          st'.lookup st.current_scope_ symbol = some (some rs')))) := by
  cases hs : st.symbol_table_[st.current_scope_]? with
  | none => simp [store_symbol, hs] at hres
  | some scope =>
      have hlook := lookup_of_scope st _ scope hs symbol
      cases hm : scope.map symbol with
      | none =>
          rw [store_symbol_new h fuel st symbol ptr scope hs hm] at hres
          simp only [Option.some.injEq, Prod.mk.injEq] at hres
          obtain ⟨hb, hst⟩ := hres
          right
          refine ⟨hb.symm, ?_, Or.inl ⟨by rw [hlook, hm], ?_⟩⟩
          · rw [← hst]
            exact set_scope_onlyChanges st _ scope _ symbol hs
              (fun n hn => Function.update_noteq hn _ _)
          · rw [← hst, lookup_set_scope_self st _ scope _ hs]
            simp
      | some rs =>
          rw [store_symbol_old h fuel st symbol ptr scope rs hs hm] at hres
          cases hl : store_loop h fuel st.interactive_ ptr rs with
          | none => simp [hl] at hres
          | some res =>
              obtain ⟨b₀, rs₀⟩ := res
              rw [hl] at hres
              cases b₀ with
              | false =>
                  simp only [Option.some.injEq, Prod.mk.injEq] at hres
                  left
                  exact ⟨hres.1.symm, hres.2.symm, rs, rs₀, by rw [hlook, hm], hl⟩
              | true =>
                  simp only [Option.some.injEq, Prod.mk.injEq] at hres
                  obtain ⟨hb, hst⟩ := hres
                  right
                  refine ⟨hb.symm, ?_, Or.inr ⟨rs, rs₀, by rw [hlook, hm], hl, ?_⟩⟩
                  · rw [← hst]
                    exact set_scope_onlyChanges st _ scope _ symbol hs
                      (fun n hn => Function.update_noteq hn _ _)
                  · rw [← hst, lookup_set_scope_self st _ scope _ hs]
                    simp

/-! ## The contract of `store_symbol` -/

/-- A common budget for the entries of a list. -/
theorem exists_fuel_forall_mem {α : Type} (P : Nat → α → Prop)
    (mono : ∀ n m a, n ≤ m → P n a → P m a) :
    ∀ (l : List α), (∀ e ∈ l, ∃ n, P n e) → ∃ N, ∀ e ∈ l, P N e := by
  intro l
  induction l with
  | nil => intro _; exact ⟨0, by simp⟩
  | cons a l ih =>
      intro hall
      obtain ⟨n, hn⟩ := hall a (List.mem_cons_self _ _)
      obtain ⟨m, hm⟩ := ih (fun e he => hall e (List.mem_cons_of_mem _ he))
      refine ⟨max n m, ?_⟩
      intro e he
      rcases List.mem_cons.1 he with rfl | he'
      · exact mono _ _ _ (le_max_left n m) hn
      · exact mono _ _ _ (le_max_right n m) (hm e he')

theorem entries_of_lookup (st : SemaVisitor) (idx : Nat) (symbol : String) (rs : Resolveds)
    (hl : st.lookup idx symbol = some (some rs)) : st.entries idx symbol = rs := by
  simp [SemaVisitor.entries, hl]

theorem entries_of_lookup_none (st : SemaVisitor) (idx : Nat) (symbol : String)
    (hl : st.lookup idx symbol = some none) : st.entries idx symbol = [] := by
  simp [SemaVisitor.entries, hl]

/-- C4: in non-interactive mode `store_symbol(name, ref)` returns true
exactly when the current scope has no entry for `name` or every entry of the
list of `name` is overloadable with `ref`; when it returns true, the list of
`name` in the current scope is afterwards the old list with `ref` appended
(`[ref]` when the name was new) and nothing else in the table has changed. -/
theorem store_symbol_non_interactive (h : Heap) (st : SemaVisitor) (name : String)
    (ref : resolved_t) (hmode : st.interactive_ = false)
    (hvalid : st.current_scope_ < st.symbol_table_.length) :
    ((∃ st', StoreReturns h st name ref true st') ↔
      (st.lookup st.current_scope_ name = some none ∨
        ∃ rs, st.lookup st.current_scope_ name = some (some rs) ∧
          ∀ e ∈ rs, Overloadable h e ref)) ∧
    (∀ st', StoreReturns h st name ref true st' →
      st'.lookup st.current_scope_ name =
          some (some (st.entries st.current_scope_ name ++ [ref])) ∧
        OnlyChanges st st' st.current_scope_ name) := by
  obtain ⟨scope, hs⟩ := exists_scope_of_valid st _ hvalid
  have hlook := lookup_of_scope st _ scope hs name
  have key : ∀ fuel st', store_symbol h fuel st name ref = some (true, st') →
      OnlyChanges st st' st.current_scope_ name ∧
      ((st.lookup st.current_scope_ name = some none ∧
          st'.lookup st.current_scope_ name = some (some [ref])) ∨
        (∃ rs, st.lookup st.current_scope_ name = some (some rs) ∧
          (∀ e ∈ rs, is_overloadable h fuel e ref = some true) ∧
          st'.lookup st.current_scope_ name = some (some (rs ++ [ref])))) := by
    intro fuel st' hres
    rcases store_symbol_cases h fuel st st' name ref true hres with
      ⟨hb, -⟩ | ⟨-, hframe, hnew | ⟨rs, rs', hold, hloop, hafter⟩⟩
    · exact absurd hb (by simp)
    · exact ⟨hframe, Or.inl hnew⟩
    · refine ⟨hframe, Or.inr ⟨rs, hold, ?_⟩⟩
      rcases store_loop_cases h fuel _ ref rs true rs' hloop with
        ⟨hall, -, hrs⟩ | ⟨k, e, -, -, -, hb, -⟩
      · exact ⟨hall, by rw [hafter, hrs]⟩
      · rw [hmode] at hb
        simp at hb
  refine ⟨⟨?_, ?_⟩, ?_⟩
  · rintro ⟨st', fuel, hres⟩
    rcases (key fuel st' hres).2 with ⟨hnew, -⟩ | ⟨rs, hold, hall, -⟩
    · exact Or.inl hnew
    · exact Or.inr ⟨rs, hold, fun e he => ⟨fuel, hall e he⟩⟩
  · rintro (hnew | ⟨rs, hold, hall⟩)
    · rw [hlook] at hnew
      have hm : scope.map name = none := by simpa using hnew
      exact ⟨_, 0, store_symbol_new h 0 st name ref scope hs hm⟩
    · rw [hlook] at hold
      have hm : scope.map name = some rs := by simpa using hold
      obtain ⟨N, hN⟩ := exists_fuel_forall_mem
        (fun n e => is_overloadable h n e ref = some true)
        (fun n m a hnm hp => is_overloadable_mono h hnm hp) rs hall
      have hres := store_symbol_old h N st name ref scope rs hs hm
      rw [store_loop_append h N _ ref rs hN] at hres
      exact ⟨_, N, hres⟩
  · rintro st' ⟨fuel, hres⟩
    obtain ⟨hframe, hnew | ⟨rs, hold, -, hafter⟩⟩ := key fuel st' hres
    · rw [entries_of_lookup_none st _ name hnew.1]
      exact ⟨hnew.2, hframe⟩
    · rw [entries_of_lookup st _ name rs hold]
      exact ⟨hafter, hframe⟩

/-- The contract of a non-interactive store at a table whose list of `f`
holds one function: a function of another type is accepted and appended. -/
theorem store_symbol_non_interactive_witness :
    (∃ st', StoreReturns overloadHeap (tableWith false [.FuncRef 0]) "f" (.FuncRef 1) true st') ∧
    (∀ st', StoreReturns overloadHeap (tableWith false [.FuncRef 0]) "f" (.FuncRef 1) true st' →
      st'.lookup 0 "f" = some (some [.FuncRef 0, .FuncRef 1]) ∧
        OnlyChanges (tableWith false [.FuncRef 0]) st' 0 "f") := by
  have hthm := store_symbol_non_interactive overloadHeap (tableWith false [.FuncRef 0]) "f"
    (.FuncRef 1) rfl (by decide)
  refine ⟨hthm.1.2 (Or.inr ⟨[.FuncRef 0], rfl, ?_⟩), hthm.2⟩
  intro e he
  have he' : e = .FuncRef 0 := by simpa using he
  subst he'
  exact ⟨3, by decide⟩

/-- C5: whenever `store_symbol` returns false, in either mode, the state
after the call is the state before it. -/
theorem store_symbol_false_unchanged (h : Heap) (fuel : Nat) (st st' : SemaVisitor)
    (name : String) (ref : resolved_t)
    (hres : store_symbol h fuel st name ref = some (false, st')) : st' = st := by
  rcases store_symbol_cases h fuel st st' name ref false hres with ⟨-, hst, -⟩ | ⟨hb, -⟩
  · exact hst
  · exact absurd hb (by simp)

/-- A rejected store: `f` is already bound to a function of the same type;
the call returns false and the table is the one before the call. -/
theorem store_symbol_false_unchanged_witness :
    ∃ st', store_symbol overloadHeap 3 (tableWith false [.FuncRef 0]) "f" (.FuncRef 0) =
        some (false, st') ∧ st' = tableWith false [.FuncRef 0] :=
  ⟨tableWith false [.FuncRef 0], rfl,
    store_symbol_false_unchanged overloadHeap 3 (tableWith false [.FuncRef 0])
      (tableWith false [.FuncRef 0]) "f" (.FuncRef 0) rfl⟩

/-- Two results of `is_overloadable` on the same references agree. -/
theorem is_overloadable_agree (h : Heap) {fuel fuel' : Nat} {a b : resolved_t} {v v' : Bool}
    (hv : is_overloadable h fuel a b = some v) (hv' : is_overloadable h fuel' a b = some v') :
    v = v' := by
  have h1 := is_overloadable_mono h (le_max_left fuel fuel') hv
  have h2 := is_overloadable_mono h (le_max_right fuel fuel') hv'
  rw [h1] at h2
  exact Option.some.inj h2

/-- C6: in interactive mode, when position `i` of the list of `name` in the
current scope holds the first entry that is not overloadable with the new
reference: if the entry is overridable, `store_symbol` returns true and the
list afterwards is the old list with position `i` replaced by the reference
(same length, the reference at position `i`, every other position as before,
nothing else in the table changed); if it is not overridable, `store_symbol`
returns false (and leaves the state as it was). -/
theorem store_symbol_interactive_override (h : Heap) (st : SemaVisitor) (name : String)
    (ref : resolved_t) (rs : Resolveds) (i : Nat) (e : resolved_t)
    (hmode : st.interactive_ = true)
    (hlist : st.lookup st.current_scope_ name = some (some rs))
    (hi : rs[i]? = some e)
    (hrej : NotOverloadable h e ref)
    (hfirst : ∀ (j : Nat) (e' : resolved_t), j < i → rs[j]? = some e' → Overloadable h e' ref) :
    (is_overridable (some e) = true →
      (∃ st', StoreReturns h st name ref true st') ∧
      ∀ b st', StoreReturns h st name ref b st' →
        b = true ∧
        st'.lookup st.current_scope_ name = some (some (rs.set i ref)) ∧
        (rs.set i ref).length = rs.length ∧
        (rs.set i ref)[i]? = some ref ∧
        (∀ j, j ≠ i → (rs.set i ref)[j]? = rs[j]?) ∧
        OnlyChanges st st' st.current_scope_ name) ∧
    (is_overridable (some e) = false →
      StoreReturns h st name ref false st ∧
      ∀ b st', StoreReturns h st name ref b st' → b = false ∧ st' = st) := by
  have hilt : i < rs.length := (List.getElem?_eq_some_iff.1 hi).1
  -- the table has the current scope, and its map holds `rs` for `name`
  cases hs : st.symbol_table_[st.current_scope_]? with
  | none => simp [SemaVisitor.lookup, hs] at hlist
  | some scope =>
  have hm : scope.map name = some rs := by
    rw [lookup_of_scope st _ scope hs name] at hlist
    simpa using hlist
  -- a budget that decides every entry up to position `i`
  obtain ⟨n₀, hn₀⟩ := hrej
  have hbefore : ∀ e' ∈ rs.take i, Overloadable h e' ref := by
    intro e' he'
    obtain ⟨j, hj, hje⟩ := List.getElem_of_mem he'
    have hj' : j < i := by
      have := hj
      simp only [List.length_take] at this
      omega
    apply hfirst j e' hj'
    rw [List.getElem_take] at hje
    rw [← hje]
    exact List.getElem?_eq_getElem _
  obtain ⟨n₁, hn₁⟩ := exists_fuel_forall_mem
    (fun n e' => is_overloadable h n e' ref = some true)
    (fun n m a hnm hp => is_overloadable_mono h hnm hp) _ hbefore
  have hN₀ : is_overloadable h (max n₀ n₁) e ref = some false :=
    is_overloadable_mono h (le_max_left _ _) hn₀
  have hN₁ : ∀ (j : Nat) (e' : resolved_t), j < i → rs[j]? = some e' →
      is_overloadable h (max n₀ n₁) e' ref = some true := by
    intro j e' hj hje
    apply is_overloadable_mono h (le_max_right n₀ n₁)
    apply hn₁
    have hjl : j < rs.length := (List.getElem?_eq_some_iff.1 hje).1
    have hje' : rs[j] = e' := (List.getElem?_eq_some_iff.1 hje).2
    rw [← hje', List.mem_take_iff_getElem]
    exact ⟨j, by omega, rfl⟩
  have hloop := store_loop_conflict h (max n₀ n₁) st.interactive_ ref rs i e hi hN₀ hN₁
  -- every return of the loop is the one at position `i`
  have huniq : ∀ fuel b rs', store_loop h fuel st.interactive_ ref rs = some (b, rs') →
      b = is_overridable (some e) ∧ rs' = if b = true then rs.set i ref else rs := by
    intro fuel b rs' hres
    rcases store_loop_cases h fuel _ ref rs b rs' hres with
      ⟨hall, -, -⟩ | ⟨k, e', hk, hek, hkbefore, hb, hrs⟩
    · have := is_overloadable_agree h hn₀ (hall e (List.getElem?_mem hi))
      exact absurd this (by simp)
    · have hki : k = i := by
        rcases Nat.lt_trichotomy k i with hlt | heq | hgt
        · obtain ⟨m, hm'⟩ := hfirst k e' hlt hk
          exact absurd (is_overloadable_agree h hek hm') (by simp)
        · exact heq
        · exact absurd (is_overloadable_agree h hn₀ (hkbefore i e hgt hi)) (by simp)
      subst hki
      have hee : e' = e := by
        rw [hk] at hi
        exact Option.some.inj hi
      subst hee
      rw [hmode] at hb
      exact ⟨by simpa using hb, hrs⟩
  have hstore := fun fuel => store_symbol_old h fuel st name ref scope rs hs hm
  constructor
  · intro hov
    rw [hmode, hov] at hloop
    simp only [Bool.and_self, if_true] at hloop
    constructor
    · have hres := hstore (max n₀ n₁)
      rw [hmode, hloop] at hres
      exact ⟨_, _, hres⟩
    · rintro b st' ⟨fuel, hres⟩
      rcases store_symbol_cases h fuel st st' name ref b hres with
        ⟨-, -, rs₀, rs', hold, hl⟩ | ⟨hb, hframe, hnew | ⟨rs₀, rs', hold, hl, hafter⟩⟩
      · rw [hlist] at hold
        have hrr : rs = rs₀ := by simpa using hold
        subst hrr
        have := (huniq fuel false rs' hl).1
        rw [hov] at this
        exact absurd this (by simp)
      · rw [hlist] at hnew
        exact absurd hnew.1 (by simp)
      · rw [hlist] at hold
        have hrr : rs = rs₀ := by simpa using hold
        subst hrr
        have hrs' := (huniq fuel true rs' hl).2
        simp only [if_true] at hrs'
        subst hrs'
        refine ⟨hb, hafter, by simp, ?_, ?_, hframe⟩
        · exact List.getElem?_set_self hilt
        · intro j hj
          exact List.getElem?_set_ne (fun e => hj e.symm)
  · intro hov
    rw [hmode, hov] at hloop
    simp only [Bool.and_false, Bool.false_eq_true, if_false] at hloop
    constructor
    · have hres := hstore (max n₀ n₁)
      rw [hmode, hloop] at hres
      exact ⟨_, hres⟩
    · rintro b st' ⟨fuel, hres⟩
      rcases store_symbol_cases h fuel st st' name ref b hres with
        ⟨hb, hst, -⟩ | ⟨-, -, hnew | ⟨rs₀, rs', hold, hl, -⟩⟩
      · exact ⟨hb, hst⟩
      · rw [hlist] at hnew
        exact absurd hnew.1 (by simp)
      · rw [hlist] at hold
        have hrr : rs = rs₀ := by simpa using hold
        subst hrr
        have := (huniq fuel true rs' hl).1
        rw [hov] at this
        exact absurd this (by simp)

/-- The interactive contract at two tables.  In the first, position 1 holds
a function of the type of the new one and is replaced; in the second,
position 0 holds a built-in operator of that type and the store is
refused. -/
theorem store_symbol_interactive_override_witness :
    ((∃ st', StoreReturns overloadHeap (tableWith true [.VVMTypeRef 3, .FuncRef 0]) "f"
        (.FuncRef 2) true st') ∧
      ∀ b st', StoreReturns overloadHeap (tableWith true [.VVMTypeRef 3, .FuncRef 0]) "f"
          (.FuncRef 2) b st' →
        b = true ∧
        st'.lookup 0 "f" = some (some [.VVMTypeRef 3, .FuncRef 2]) ∧
        ([resolved_t.VVMTypeRef 3, .FuncRef 0].set 1 (.FuncRef 2)).length = 2 ∧
        ([resolved_t.VVMTypeRef 3, .FuncRef 0].set 1 (.FuncRef 2))[1]? = some (.FuncRef 2) ∧
        (∀ j, j ≠ 1 → ([resolved_t.VVMTypeRef 3, .FuncRef 0].set 1 (.FuncRef 2))[j]? =
          [resolved_t.VVMTypeRef 3, .FuncRef 0][j]?) ∧
        OnlyChanges (tableWith true [.VVMTypeRef 3, .FuncRef 0]) st' 0 "f") ∧
    (StoreReturns overloadHeap
        (tableWith true [.VVMOpRef 7 (.FuncType [.VVMType 1] (.VVMType 1))]) "f"
        (.FuncRef 0) false
        (tableWith true [.VVMOpRef 7 (.FuncType [.VVMType 1] (.VVMType 1))]) ∧
      ∀ b st', StoreReturns overloadHeap
          (tableWith true [.VVMOpRef 7 (.FuncType [.VVMType 1] (.VVMType 1))]) "f"
          (.FuncRef 0) b st' →
        b = false ∧ st' = tableWith true [.VVMOpRef 7 (.FuncType [.VVMType 1] (.VVMType 1))]) := by
  constructor
  · refine (store_symbol_interactive_override overloadHeap
      (tableWith true [.VVMTypeRef 3, .FuncRef 0]) "f" (.FuncRef 2)
      [.VVMTypeRef 3, .FuncRef 0] 1 (.FuncRef 0) rfl rfl rfl ⟨3, by decide⟩ ?_).1 rfl
    intro j e' hj hje
    have hj0 : j = 0 := by omega
    subst hj0
    have he' : e' = .VVMTypeRef 3 := by
      simp only [List.getElem?_cons_zero, Option.some.injEq] at hje
      exact hje.symm
    subst he'
    exact ⟨0, by decide⟩
  · refine (store_symbol_interactive_override overloadHeap
      (tableWith true [.VVMOpRef 7 (.FuncType [.VVMType 1] (.VVMType 1))]) "f" (.FuncRef 0)
      [.VVMOpRef 7 (.FuncType [.VVMType 1] (.VVMType 1))] 0
      (.VVMOpRef 7 (.FuncType [.VVMType 1] (.VVMType 1))) rfl rfl rfl ⟨3, by decide⟩ ?_).2 rfl
    intro j e' hj
    exact absurd hj (Nat.not_lt_zero j)

/-! ## Built-ins and `store_symbol` -/

theorem entries_eq_of_lookup_eq (st st' : SemaVisitor) (idx : Nat) (symbol : String)
    (hl : st'.lookup idx symbol = st.lookup idx symbol) :
    st'.entries idx symbol = st.entries idx symbol := by
  simp [SemaVisitor.entries, hl]

theorem is_builtin_not_overridable (e : resolved_t) (hb : is_builtin e = true) :
    is_overridable (some e) = false := by
  cases e <;> simp [is_builtin] at hb <;> rfl

/-- C7: whatever the state, the symbol, the reference and the mode, every
`VVMTypeRef` or `VVMOpRef` entry of an overload list before a call of
`store_symbol` that returns is in the same list at the same position after
it. -/
theorem store_symbol_keeps_builtins (h : Heap) (fuel : Nat) (st st' : SemaVisitor)
    (name : String) (ref : resolved_t) (b : Bool)
    (hres : store_symbol h fuel st name ref = some (b, st'))
    (idx : Nat) (symbol : String) (i : Nat) (e : resolved_t)
    (he : (st.entries idx symbol)[i]? = some e) (hb : is_builtin e = true) :
    (st'.entries idx symbol)[i]? = some e := by
  rcases store_symbol_cases h fuel st st' name ref b hres with
    ⟨-, hst, -⟩ | ⟨-, hframe, hcase⟩
  · rw [hst]; exact he
  · by_cases hsame : idx = st.current_scope_ ∧ symbol = name
    · obtain ⟨hidx, hsym⟩ := hsame
      subst hidx; subst hsym
      rcases hcase with ⟨hnew, -⟩ | ⟨rs, rs', hold, hloop, hafter⟩
      · rw [entries_of_lookup_none st _ _ hnew] at he
        simp at he
      · rw [entries_of_lookup st _ _ rs hold] at he
        rw [entries_of_lookup st' _ _ rs' hafter]
        have hilt : i < rs.length := (List.getElem?_eq_some_iff.1 he).1
        rcases store_loop_cases h fuel _ ref rs true rs' hloop with
          ⟨-, -, hrs⟩ | ⟨k, e', hk, -, -, hov, hrs⟩
        · rw [hrs, List.getElem?_append_left hilt]; exact he
        · simp only [if_true] at hrs
          rw [hrs]
          by_cases hki : k = i
          · subst hki
            rw [hk] at he
            have hee : e' = e := Option.some.inj he
            subst hee
            rw [is_builtin_not_overridable e' hb] at hov
            simp at hov
          · rw [List.getElem?_set_ne hki]; exact he
    · have hne : idx ≠ st.current_scope_ ∨ symbol ≠ name := by
        by_contra hc
        push_neg at hc
        exact hsame hc
      rw [entries_eq_of_lookup_eq st st' idx symbol (hframe.2.2.2.2.2 idx symbol hne)]
      exact he

/-- An interactive store that replaces a function next to a built-in type
name: the built-in keeps its position. -/
theorem store_symbol_keeps_builtins_witness :
    ∃ st', store_symbol overloadHeap 3 (tableWith true [.VVMTypeRef 3, .FuncRef 0]) "f"
        (.FuncRef 2) = some (true, st') ∧
      (st'.entries 0 "f")[0]? = some (.VVMTypeRef 3) ∧
      (st'.entries 0 "f")[1]? = some (.FuncRef 2) :=
  ⟨_, rfl,
    store_symbol_keeps_builtins overloadHeap 3 (tableWith true [.VVMTypeRef 3, .FuncRef 0]) _
      "f" (.FuncRef 2) true rfl 0 "f" 0 (.VVMTypeRef 3) rfl rfl,
    rfl⟩

/-! ## Overload lists in interactive mode -/

/-- C9: in interactive mode the calls `push_scope`, `store_symbol(f, f0)`,
`store_symbol(f, f1)`, `store_symbol(f, f2)` from the empty table, where
`f0 : (t1) -> t1`, `f1 : (t1) -> t2` and `f2 : (t1) -> ?` (return type not
yet inferred), all return and leave the list `[f2, f1]` for `f`: the third
store replaces `f0`, the first entry it conflicts with, and never compares
`f2` with `f1`.  The two function references of the list have
`is_same_type` types, so the list breaks the overload-set invariant, at the
time of the store and also once the return type of `f2` is inferred to be
`t2`. -/
theorem overload_set_duplicate_signature :
    ∃ st, run_ops overloadHeap 3 (empty_table true)
        [.push_scope, .store_symbol "f" (.FuncRef 0), .store_symbol "f" (.FuncRef 1),
          .store_symbol "f" (.FuncRef 2)] = some st ∧
      st.entries 0 "f" = [.FuncRef 2, .FuncRef 1] ∧
      ¬ OverloadSetInvariant overloadHeap (st.entries 0 "f") ∧
      ¬ OverloadSetInvariant overloadHeapDone (st.entries 0 "f") := by
  refine ⟨_, rfl, rfl, ?_, ?_⟩
  · show ¬ OverloadSetInvariant overloadHeap [.FuncRef 2, .FuncRef 1]
    rintro (⟨-, hd⟩ | ⟨r, hr, -⟩)
    · exact hd 0 1 (.FuncRef 2) (.FuncRef 1) (by decide) rfl rfl rfl rfl ⟨3, by decide⟩
    · simp at hr
  · show ¬ OverloadSetInvariant overloadHeapDone [.FuncRef 2, .FuncRef 1]
    rintro (⟨-, hd⟩ | ⟨r, hr, -⟩)
    · exact hd 0 1 (.FuncRef 2) (.FuncRef 1) (by decide) rfl rfl rfl rfl ⟨3, by decide⟩
    · simp at hr

/-! ## `find_symbol` -/

/-- Along the chain of scopes the walk of `find_symbol` returns the list of
the nearest scope that has an entry for the symbol. -/
theorem find_symbol_walk_chain (st : SemaVisitor) (symbol : String) :
    ∀ (fuel i : Nat) (chain : List Nat), scope_chain st fuel i = some chain →
      find_symbol_walk st symbol fuel i = some (nearest st symbol chain) := by
  intro fuel
  induction fuel with
  | zero => intro i chain hc; simp [scope_chain] at hc
  | succ n ih =>
      intro i chain hc
      simp only [scope_chain, SemaVisitor.previous] at hc
      cases hs : st.symbol_table_[i]? with
      | none => simp [hs] at hc
      | some scope =>
          rw [hs] at hc
          simp only [find_symbol_walk, hs]
          have hlook : st.lookup i symbol = some (scope.map symbol) :=
            lookup_of_scope st i scope hs symbol
          by_cases hi : i = 0
          · simp only [hi, if_true, Option.some.injEq] at hc
            subst hc
            subst hi
            cases hm : scope.map symbol with
            | none => simp [nearest, hlook, hm]
            | some rs => simp [nearest, hlook, hm]
          · simp only [hi, if_false] at hc
            cases hr : scope_chain st n scope.previous_scope with
            | none => simp [hr] at hc
            | some rest =>
                rw [hr] at hc
                simp only [Option.some.injEq] at hc
                subst hc
                cases hm : scope.map symbol with
                | none =>
                    simp only [ne_eq, hi, not_false_eq_true, if_true]
                    rw [ih _ _ hr]
                    simp [nearest, hlook, hm]
                | some rs => simp [nearest, hlook, hm]

/-- With no preferred scope and a chain of scopes from the current scope,
`find_symbol` returns the list of the nearest scope of the chain that has the
symbol. -/
theorem find_symbol_of_chain (h : Heap) (st : SemaVisitor) (fuel : Nat) (name : String)
    (chain : List Nat) (hpref : st.preferred_scope_ = none)
    (hchain : scope_chain st fuel st.current_scope_ = some chain) :
    find_symbol h st fuel name = some (nearest st name chain, false) ∧
    (∀ rs, st.lookup st.current_scope_ name = some (some rs) →
      find_symbol h st fuel name = some (rs, false)) := by
  have hwalk := find_symbol_walk_chain st name fuel _ chain hchain
  have hfind : find_symbol h st fuel name = some (nearest st name chain, false) := by
    simp [find_symbol, hpref, hwalk]
  refine ⟨hfind, ?_⟩
  intro rs hrs
  rw [hfind]
  cases fuel with
  | zero => simp [scope_chain] at hchain
  | succ n =>
      simp only [scope_chain] at hchain
      cases hp : st.previous st.current_scope_ with
      | none => simp [hp] at hchain
      | some prev =>
          rw [hp] at hchain
          by_cases hi : st.current_scope_ = 0
          · simp only [hi, if_true, Option.some.injEq] at hchain
            subst hchain
            rw [hi] at hrs
            simp [nearest, hrs]
          · simp only [hi, if_false] at hchain
            cases hr : scope_chain st n prev with
            | none => simp [hr] at hchain
            | some rest =>
                rw [hr] at hchain
                simp only [Option.some.injEq] at hchain
                subst hchain
                simp [nearest, hrs]

/-- When the parent link of every scope but the global one points to a
smaller index, the chain from a scope of the table exists, starts at that
scope, and is found with any budget above the index of the scope. -/
theorem scope_chain_of_links (st : SemaVisitor)
    (hlinks : ∀ (i : Nat) (scope : Scope), 0 < i → st.symbol_table_[i]? = some scope →
      scope.previous_scope < i) :
    ∀ (i : Nat), i < st.symbol_table_.length →
      ∃ chain, chain.head? = some i ∧
        ∀ fuel, i < fuel → scope_chain st fuel i = some chain := by
  intro i
  induction i using Nat.strong_induction_on with
  | _ i ih =>
      intro hi
      obtain ⟨scope, hs⟩ := exists_scope_of_valid st i hi
      have hprev : st.previous i = some scope.previous_scope := by
        simp [SemaVisitor.previous, hs]
      by_cases h0 : i = 0
      · subst h0
        refine ⟨[0], rfl, ?_⟩
        intro fuel hf
        cases fuel with
        | zero => exact absurd hf (Nat.not_lt_zero 0)
        | succ n => simp [scope_chain, hprev]
      · have hlt : scope.previous_scope < i := hlinks i scope (Nat.pos_of_ne_zero h0) hs
        obtain ⟨rest, -, hrest⟩ := ih scope.previous_scope hlt (lt_trans hlt hi)
        refine ⟨i :: rest, by simp, ?_⟩
        intro fuel hf
        cases fuel with
        | zero => exact absurd hf (Nat.not_lt_zero i)
        | succ n =>
            have hn : scope.previous_scope < n := lt_of_lt_of_le hlt (Nat.lt_succ_iff.1 hf)
            simp [scope_chain, hprev, h0, hrest n hn]

/-- C10: with no preferred scope set, in a table whose current scope exists
and whose parent links point to smaller indices, `find_symbol(name)` returns:
its result is the overload list of the nearest scope on the chain
`current_scope_`, `previous(current_scope_)`, ..., 0 whose map has the name,
and the empty list when no scope of the chain has it; the flag is false.  In
particular an entry of the current scope is returned as it is, whatever the
outer scopes hold. -/
theorem find_symbol_nearest_scope (h : Heap) (st : SemaVisitor) (name : String)
    (hpref : st.preferred_scope_ = none)
    (hcur : st.current_scope_ < st.symbol_table_.length)
    (hlinks : ∀ (i : Nat) (scope : Scope), 0 < i → st.symbol_table_[i]? = some scope →
      scope.previous_scope < i) :
    ∃ chain, chain.head? = some st.current_scope_ ∧
      (∀ fuel, st.current_scope_ < fuel →
        scope_chain st fuel st.current_scope_ = some chain ∧
          find_symbol h st fuel name = some (nearest st name chain, false)) ∧
      (∀ rs, st.lookup st.current_scope_ name = some (some rs) →
        ∀ fuel, st.current_scope_ < fuel → find_symbol h st fuel name = some (rs, false)) := by
  obtain ⟨chain, hhead, hchain⟩ := scope_chain_of_links st hlinks _ hcur
  refine ⟨chain, hhead, ?_, ?_⟩
  · intro fuel hf
    exact ⟨hchain fuel hf, (find_symbol_of_chain h st fuel name chain hpref (hchain fuel hf)).1⟩
  · intro rs hrs fuel hf
    exact (find_symbol_of_chain h st fuel name chain hpref (hchain fuel hf)).2 rs hrs

theorem nestedTable_links :
    ∀ (i : Nat) (scope : Scope), 0 < i → nestedTable.symbol_table_[i]? = some scope →
      scope.previous_scope < i := by
  intro i scope hi hs
  match i, hi, hs with
  | 1, _, hs =>
      simp only [nestedTable, List.getElem?_cons_succ, List.getElem?_cons_zero,
        Option.some.injEq] at hs
      rw [← hs]; decide
  | 2, _, hs =>
      simp only [nestedTable, List.getElem?_cons_succ, List.getElem?_cons_zero,
        Option.some.injEq] at hs
      rw [← hs]; decide
  | n + 3, _, hs => simp [nestedTable] at hs

/-- Lookups from scope 1 of a table whose global scope binds `x` and `y`
and whose scope 1 binds `x` again: the chain is scope 1, scope 0; `x`
resolves to the inner list alone, `y` to the outer one, and `z`, bound only
in a scope off the chain, to the empty list. -/
theorem find_symbol_nearest_scope_witness :
    scope_chain nestedTable 2 nestedTable.current_scope_ = some [1, 0] ∧
    find_symbol pointHeap nestedTable 2 "x" = some ([.DeclRef 2], false) ∧
    find_symbol pointHeap nestedTable 2 "y" = some ([.DeclRef 1], false) ∧
    find_symbol pointHeap nestedTable 2 "z" = some ([], false) := by
  refine ⟨rfl, ?_, ?_, ?_⟩
  · obtain ⟨chain, -, -, hinner⟩ :=
      find_symbol_nearest_scope pointHeap nestedTable "x" rfl (by decide) nestedTable_links
    exact hinner [.DeclRef 2] rfl 2 (by decide)
  · obtain ⟨chain, -, hall, -⟩ :=
      find_symbol_nearest_scope pointHeap nestedTable "y" rfl (by decide) nestedTable_links
    obtain ⟨hc, hf⟩ := hall 2 (by decide)
    have hchain : chain = [1, 0] := Option.some.inj (hc.symm.trans rfl)
    subst hchain
    exact hf
  · obtain ⟨chain, -, hall, -⟩ :=
      find_symbol_nearest_scope pointHeap nestedTable "z" rfl (by decide) nestedTable_links
    obtain ⟨hc, hf⟩ := hall 2 (by decide)
    have hchain : chain = [1, 0] := Option.some.inj (hc.symm.trans rfl)
    subst hchain
    exact hf

/-- The walk of `find_symbol` reads the table only. -/
theorem find_symbol_walk_eq_of_table (st : SemaVisitor) (symbol : String) (p : Option expr_t) :
    ∀ (fuel i : Nat),
      find_symbol_walk { st with preferred_scope_ := p } symbol fuel i =
        find_symbol_walk st symbol fuel i := by
  intro fuel
  induction fuel with
  | zero => intro i; rfl
  | succ n ih =>
      intro i
      simp only [find_symbol_walk]
      cases hs : st.symbol_table_[i]? with
      | none => rfl
      | some scope =>
          simp only
          cases hm : scope.map symbol with
          | none => simp only; rw [ih]
          | some rs => rfl

/-! ## Unwinding and visibility -/

/-- C11: in non-interactive mode the calls `push_scope`, `store_symbol(f, f0)`,
`push_scope`, `store_symbol(f, f1)`, `remove_symbol_ref(f, f1)` from the empty
table all return.  Afterwards the current scope is scope 1, its chain is
scope 1, scope 0, and scope 0 still holds `f0` for `f`, which was never
removed; but scope 1 keeps an entry for `f` with the empty list, and
`find_symbol(f)` returns the empty list. -/
theorem find_symbol_hidden_by_empty_list :
    ∃ st, run_ops overloadHeap 3 (empty_table false)
        [.push_scope, .store_symbol "f" (.FuncRef 0), .push_scope,
          .store_symbol "f" (.FuncRef 1), .remove_symbol_ref "f" (.FuncRef 1)] = some st ∧
      st.preferred_scope_ = none ∧
      st.current_scope_ = 1 ∧
      scope_chain st 2 st.current_scope_ = some [1, 0] ∧
      st.lookup 0 "f" = some (some [.FuncRef 0]) ∧
      st.lookup 1 "f" = some (some []) ∧
      find_symbol overloadHeap st 2 "f" = some ([], false) :=
  ⟨_, rfl, rfl, rfl, rfl, rfl, rfl, rfl⟩

/-- C12: in non-interactive mode, in the state after `push_scope`,
`store_symbol(f, f0)`, `push_scope`, the lookup `find_symbol(f)` returns
`[f0]`; `store_symbol(f, f1)` returns true; after `remove_symbol_ref(f, f1)`
in the same scope `find_symbol(f)` returns the empty list, not the list it
returned before the store. -/
theorem store_then_remove_hides_outer :
    ∃ st₀ st₁ st₂, run_ops overloadHeap 3 (empty_table false)
        [.push_scope, .store_symbol "f" (.FuncRef 0), .push_scope] = some st₀ ∧
      st₀.interactive_ = false ∧
      find_symbol overloadHeap st₀ 2 "f" = some ([.FuncRef 0], false) ∧
      store_symbol overloadHeap 3 st₀ "f" (.FuncRef 1) = some (true, st₁) ∧
      remove_symbol_ref st₁ "f" (.FuncRef 1) = some st₂ ∧
      find_symbol overloadHeap st₂ 2 "f" = some ([], false) :=
  ⟨_, _, _, rfl, rfl, rfl, rfl, rfl, rfl⟩

/-! ## The preferred scope -/

/-- C13: when a preferred scope is set and the scope `get_scope` gives for
the type of the preferred expression holds a non-empty list for the name,
`find_symbol` returns that list with the flag true; when the list there is
empty, or no preferred scope is set, it returns what it returns with no
preferred scope set, and that result has the flag false. -/
theorem find_symbol_preferred (h : Heap) (st : SemaVisitor) (fuel : Nat) (name : String) :
    (∀ (e : expr_t) (l : Resolveds), st.preferred_scope_ = some e →
      find_symbol_in_scope st name (get_scope h e.type) = some l → l ≠ [] →
      find_symbol h st fuel name = some (l, true)) ∧
    (∀ (e : expr_t), st.preferred_scope_ = some e →
      find_symbol_in_scope st name (get_scope h e.type) = some [] →
      find_symbol h st fuel name =
        find_symbol h { st with preferred_scope_ := none } fuel name) ∧
    (st.preferred_scope_ = none →
      find_symbol h st fuel name =
        find_symbol h { st with preferred_scope_ := none } fuel name) ∧
    (∀ (l : Resolveds) (flag : Bool),
      find_symbol h { st with preferred_scope_ := none } fuel name = some (l, flag) →
      flag = false) := by
  refine ⟨?_, ?_, ?_, ?_⟩
  · intro e l he hl hne
    have hne' : l.isEmpty = false := by
      cases l with
      | nil => exact absurd rfl hne
      | cons a l => rfl
    simp [find_symbol, he, hl, hne']
  · intro e he hl
    simp [find_symbol, he, hl, find_symbol_walk_eq_of_table]
  · intro hnone
    simp [find_symbol, hnone, find_symbol_walk_eq_of_table]
  · intro l flag hres
    simp only [find_symbol] at hres
    cases hw : find_symbol_walk { st with preferred_scope_ := none } name fuel
        st.current_scope_ with
    | none => simp [hw] at hres
    | some rs =>
        simp only [hw, Option.some.injEq, Prod.mk.injEq] at hres
        exact hres.2.symm

/-- Lookups in `nestedTable` with a preferred expression whose type is the
record at address 0 of `pointHeap`, which owns scope 2: `z`, bound in scope
2, is found there with the flag true; `x`, not bound in scope 2, is found by
the normal walk with the flag false. -/
theorem find_symbol_preferred_witness :
    find_symbol pointHeap
        { nestedTable with preferred_scope_ := some ⟨"t", .UDT "!Point" 0⟩ } 2 "z" =
      some ([.DeclRef 3], true) ∧
    find_symbol pointHeap
        { nestedTable with preferred_scope_ := some ⟨"t", .UDT "!Point" 0⟩ } 2 "x" =
      some ([.DeclRef 2], false) :=
  ⟨(find_symbol_preferred pointHeap
      { nestedTable with preferred_scope_ := some ⟨"t", .UDT "!Point" 0⟩ } 2 "z").1
      ⟨"t", .UDT "!Point" 0⟩ [.DeclRef 3] rfl rfl (by simp),
    ((find_symbol_preferred pointHeap
      { nestedTable with preferred_scope_ := some ⟨"t", .UDT "!Point" 0⟩ } 2 "x").2.1
      ⟨"t", .UDT "!Point" 0⟩ rfl rfl).trans rfl⟩

/-! ## `match_args` -/

/-- The explanation `match_args` gives for a mismatch at position `i`. -/
theorem mismatch_text_ne_empty (vm : VVM) (i : Nat) (a t : datatype_t) :
    "argument type at position " ++ toString i ++ " does not match: " ++
        to_string vm a ++ " vs " ++ to_string vm t ≠ "" := by
  intro hc
  have hlen := congrArg String.length hc
  simp only [String.length_append] at hlen
  have h0 : "argument type at position ".length = 26 := by decide
  have h1 : "".length = 0 := by decide
  omega

theorem arity_text_ne_empty (n m : Nat) :
    "wrong number of arguments; expected " ++ toString n ++ " but got " ++ toString m ≠ "" := by
  intro hc
  have hlen := congrArg String.length hc
  simp only [String.length_append] at hlen
  have h0 : "wrong number of arguments; expected ".length = 36 := by decide
  have h1 : "".length = 0 := by decide
  omega

/-- The loop returns the empty string exactly when `is_same_type` returns
true at every position. -/
theorem match_args_loop_empty_iff (vm : VVM) (h : Heap) (fuel : Nat) :
    ∀ (as ts : List datatype_t) (i : Nat), as.length = ts.length →
      (match_args_loop vm h fuel i as ts = some "" ↔
        List.Forall₂ (fun a t => is_same_type h fuel a t = some true) as ts) := by
  intro as
  induction as with
  | nil =>
      intro ts i hlen
      cases ts with
      | nil => simp [match_args_loop]
      | cons t ts => simp at hlen
  | cons a as ih =>
      intro ts i hlen
      cases ts with
      | nil => simp at hlen
      | cons t ts =>
          have hlen' : as.length = ts.length := by simpa using hlen
          rw [List.forall₂_cons, ← ih ts (i + 1) hlen']
          simp only [match_args_loop]
          cases hs : is_same_type h fuel a t with
          | none => simp
          | some v =>
              cases v with
              | true => simp
              | false =>
                  simp only [Option.some.injEq, Bool.false_eq_true, false_and, iff_false]
                  exact mismatch_text_ne_empty vm i a t

/-- The loop stops at the first position on which `is_same_type` returns
false and names that position. -/
theorem match_args_loop_first (vm : VVM) (h : Heap) (fuel : Nat) :
    ∀ (as ts : List datatype_t) (i k : Nat) (a t : datatype_t),
      as[k]? = some a → ts[k]? = some t → is_same_type h fuel a t = some false →
      (∀ (j : Nat) (a' t' : datatype_t), j < k → as[j]? = some a' → ts[j]? = some t' →
        is_same_type h fuel a' t' = some true) →
      match_args_loop vm h fuel i as ts =
        some ("argument type at position " ++ toString (i + k) ++ " does not match: " ++
          to_string vm a ++ " vs " ++ to_string vm t) := by
  intro as
  induction as with
  | nil => intro ts i k a t ha; simp at ha
  | cons a₀ as ih =>
      intro ts i k a t ha ht hf hbefore
      cases ts with
      | nil => simp at ht
      | cons t₀ ts =>
          cases k with
          | zero =>
              simp only [List.getElem?_cons_zero, Option.some.injEq] at ha ht
              subst ha; subst ht
              simp [match_args_loop, hf]
          | succ k =>
              simp only [List.getElem?_cons_succ] at ha ht
              have h0 := hbefore 0 a₀ t₀ (Nat.succ_pos k) (by simp) (by simp)
              have hrec := ih ts (i + 1) k a t ha ht hf (fun j a' t' hj hja hjt =>
                hbefore (j + 1) a' t' (Nat.succ_lt_succ hj) (by simpa using hja)
                  (by simpa using hjt))
              simp only [match_args_loop, h0, hrec]
              have hik : i + 1 + k = i + (k + 1) := by omega
              rw [hik]

/-- `match_args` on a type that is not null and has argument types. -/
theorem match_args_eq (vm : VVM) (h : Heap) (fuel : Nat) (args argtypes : List datatype_t)
    (t : datatype_t) (hnull : t.is_null = false) (hargs : get_argtypes h t = some argtypes) :
    match_args vm h fuel args t =
      if args.length ≠ argtypes.length then
        some ("wrong number of arguments; expected " ++ toString argtypes.length ++
          " but got " ++ toString args.length)
      else match_args_loop vm h fuel 0 args argtypes := by
  simp [match_args, hnull, hargs]

/-- C15: for a null type `match_args` returns the empty string.  For a type
that is not null, with `argtypes` its argument types: it returns the empty
string exactly when the number of arguments is the number of argument types
and `is_same_type` returns true at every position; when the numbers differ
it returns `wrong number of arguments; expected N but got M`, with `N` the
number of argument types and `M` the number of arguments; and when the
numbers agree and position `i` is the first on which `is_same_type` returns
false, it returns the explanation that names position `i`. -/
theorem match_args_contract (vm : VVM) (h : Heap) (args : List datatype_t) (t : datatype_t) :
    (t.is_null = true → ∀ fuel, match_args vm h fuel args t = some "") ∧
    (∀ (argtypes : List datatype_t), t.is_null = false → get_argtypes h t = some argtypes →
      ((∃ fuel, match_args vm h fuel args t = some "") ↔
        args.length = argtypes.length ∧
          ∀ (i : Nat) (a b : datatype_t), args[i]? = some a → argtypes[i]? = some b →
            SameType h a b) ∧
      (args.length ≠ argtypes.length → ∀ fuel,
        match_args vm h fuel args t =
          some ("wrong number of arguments; expected " ++ toString argtypes.length ++
            " but got " ++ toString args.length)) ∧
      (∀ (i : Nat) (a b : datatype_t), args.length = argtypes.length →
        args[i]? = some a → argtypes[i]? = some b → NotSameType h a b →
        (∀ (j : Nat) (a' b' : datatype_t), j < i → args[j]? = some a' →
          argtypes[j]? = some b' → SameType h a' b') →
        (∃ fuel, match_args vm h fuel args t =
          some ("argument type at position " ++ toString i ++ " does not match: " ++
            to_string vm a ++ " vs " ++ to_string vm b)) ∧
        ¬ ∃ fuel, match_args vm h fuel args t = some "")) := by
  constructor
  · intro hnull fuel
    simp [match_args, hnull]
  · intro argtypes hnull hargs
    have heq := fun fuel => match_args_eq vm h fuel args argtypes t hnull hargs
    have hempty : (∃ fuel, match_args vm h fuel args t = some "") ↔
        args.length = argtypes.length ∧
          ∀ (i : Nat) (a b : datatype_t), args[i]? = some a → argtypes[i]? = some b →
            SameType h a b := by
      constructor
      · rintro ⟨fuel, hf⟩
        rw [heq fuel] at hf
        by_cases hlen : args.length = argtypes.length
        · rw [if_neg (by simpa using hlen),
            match_args_loop_empty_iff vm h fuel _ _ 0 hlen] at hf
          refine ⟨hlen, ?_⟩
          have hall := (forall₂_iff_positions _ _ _).1 hf
          intro i a b ha hb
          exact ⟨fuel, hall.2 i a b ha hb⟩
        · rw [if_pos hlen] at hf
          exact absurd (Option.some.inj hf) (arity_text_ne_empty _ _)
      · rintro ⟨hlen, hall⟩
        have hall' : List.Forall₂ (fun a b => ∃ n, is_same_type h n a b = some true)
            args argtypes := (forall₂_iff_positions _ _ _).2 ⟨hlen, hall⟩
        obtain ⟨N, hN⟩ := exists_common_fuel
          (fun n a b => is_same_type h n a b = some true)
          (fun n m a b hnm hp => is_same_type_mono h hnm hp) _ _ hall'
        refine ⟨N, ?_⟩
        rw [heq N, if_neg (by simpa using hlen)]
        exact (match_args_loop_empty_iff vm h N _ _ 0 hlen).2 hN
    refine ⟨hempty, ?_, ?_⟩
    · intro hlen fuel
      rw [heq fuel, if_pos hlen]
    · intro i a b hlen ha hb hrej hbefore
      obtain ⟨n₀, hn₀⟩ := hrej
      constructor
      · -- a budget for the positions before `i`
        have hilt : i < args.length := (List.getElem?_eq_some_iff.1 ha).1
        have hpre : List.Forall₂ (fun a b => ∃ n, is_same_type h n a b = some true)
            (args.take i) (argtypes.take i) := by
          rw [forall₂_iff_positions]
          refine ⟨by simp [hlen], ?_⟩
          intro j a' b' hja hjb
          rw [List.getElem?_take] at hja hjb
          by_cases hj : j < i
          · simp only [hj, if_true] at hja hjb
            exact hbefore j a' b' hj hja hjb
          · simp [hj] at hja
        obtain ⟨n₁, hn₁⟩ := exists_common_fuel
          (fun n a b => is_same_type h n a b = some true)
          (fun n m a b hnm hp => is_same_type_mono h hnm hp) _ _ hpre
        refine ⟨max n₀ n₁, ?_⟩
        rw [heq, if_neg (by simpa using hlen)]
        have hfirst := match_args_loop_first vm h (max n₀ n₁) args argtypes 0 i a b ha hb
          (is_same_type_mono h (le_max_left _ _) hn₀) ?_
        · simpa using hfirst
        · intro j a' b' hj hja hjb
          have hpos := (forall₂_iff_positions _ _ _).1 hn₁
          apply is_same_type_mono h (le_max_right n₀ n₁)
          apply hpos.2 j a' b'
          · rw [List.getElem?_take]; simp [hj, hja]
          · rw [List.getElem?_take]; simp [hj, hjb]
      · rintro ⟨fuel, hf⟩
        obtain ⟨m, hm⟩ := (hempty.1 ⟨fuel, hf⟩).2 i a b ha hb
        have h1 := is_same_type_mono h (le_max_left n₀ m) hn₀
        have h2 := is_same_type_mono h (le_max_right n₀ m) hm
        rw [h1] at h2
        exact absurd h2 (by simp)

/-! ## The overloaded branch of `visitFunctionCall` -/

theorem append_ne_empty_left (a b : String) (ha : a ≠ "") : a ++ b ≠ "" := by
  intro hc
  have hlen := congrArg String.length hc
  simp only [String.length_append] at hlen
  have h1 : "".length = 0 := by decide
  have : a.length = 0 := by omega
  exact ha (by
    have hd : a.data = [] := List.length_eq_zero.mp this
    exact String.ext hd)

theorem append_ne_empty_right (a b : String) (hb : b ≠ "") : a ++ b ≠ "" := by
  intro hc
  have hlen := congrArg String.length hc
  simp only [String.length_append] at hlen
  have h1 : "".length = 0 := by decide
  have : b.length = 0 := by omega
  exact hb (by
    have hd : b.data = [] := List.length_eq_zero.mp this
    exact String.ext hd)

/-- C17: the call `(f)(1)`, whose callee is the overloaded name `f` in
parentheses, is analysed without a diagnostic, and the callee of the
resulting call node is the parenthesised overloaded identifier with both
candidates: the overloaded branch looks at the top node of the callee
only. -/
theorem function_call_paren_keeps_overloaded :
    ∃ st f₁ f₂ t₁ t₂ n args type name,
      visitModule sampleEnv 5 10 sampleState parenProgram =
        .ok ⟨[f₁, f₂, .Expr (.FunctionCall
          (.Paren (.OverloadedId "f" [.FuncRef 0, .FuncRef 1] t₁ "f") t₂ n) args type name)],
          ""⟩ st ∧
      st.sema_err_ = [] :=
  ⟨_, _, _, _, _, _, _, _, _, rfl, rfl⟩

/-- C19: analysing `def id(x): return x end; id(1); id("a")` writes
diagnostics, the first for the argument `x` that has neither a type nor a
value, and the generic definition has no instantiation afterwards. -/
theorem generic_identity_rejected :
    ∃ hir st, visitModule sampleEnv 5 10 sampleState idProgram = .ok hir st ∧
      st.sema_err_ =
        ["Error: unable to determine type\n", "Error: symbol x was not found\n",
          "Error: unable to determine return type for function id\n",
          "Error: symbol id was not found\n", "Error: symbol id was not found\n"] ∧
      (st.heap.generic 0).instantiated_funcs = [] :=
  ⟨_, _, rfl, rfl, rfl⟩

/-- C20: analysing `def f(): return 1; return f() end` writes no diagnostic,
and the call expression of the recursive call in the produced HIR has the
null type. -/
theorem recursive_call_has_null_type :
    ∃ st ref args r₁ callee,
      visitModule sampleEnv 5 10 sampleState recursiveProgram =
        .ok ⟨[.FunctionDef ref args none
          [r₁, .Return (some (.FunctionCall callee [] .null "f"))]], ""⟩ st ∧
      st.sema_err_ = [] :=
  ⟨_, _, _, _, _, rfl, rfl⟩

/-- The definition `def f() -> Int64: end`, with an explicit return type and
an empty body, is reported as having no return statements. -/
theorem empty_body_with_return_type_reported :
    ∃ hir st, visitModule sampleEnv 5 10 sampleState emptyBodyProgram = .ok hir st ∧
      st.sema_err_ = ["Error: function f has no return statements\n"] :=
  ⟨_, _, rfl, rfl⟩

/-- C22: `def f() -> [Float64]: return []; return [1] end` is analysed
without a diagnostic with the return type `[Float64]`, and the type of its
second return statement, `[Int64]`, is not `is_same_type` with that return
type: only the first collected type is compared with the explicit one. -/
theorem return_types_compared_with_first_only :
    ∃ st args rt r₁ values name,
      visitModule sampleEnv 5 10 sampleState arrayProgram =
        .ok ⟨[.FunctionDef 0 args rt
          [r₁, .Return (some (.List values (.Array (.VVMType 1)) name))]], ""⟩ st ∧
      st.sema_err_ = [] ∧
      (st.heap.funcdef 0).rettype = .Array (.VVMType 2) ∧
      is_same_type st.heap 5 (.Array (.VVMType 2)) (.Array (.VVMType 1)) = some false :=
  ⟨_, _, _, _, _, _, rfl, rfl, rfl, rfl⟩

/-- The failure raised by `import` in the body of `def f(): import m end`
leaves the frame of the definition on the return-type stack: the stack is
empty before the visit and has one frame at the failure. -/
theorem import_in_body_leaves_frame :
    ∃ msg st, visitModule sampleEnv 5 10 sampleState importProgram = .throw msg st ∧
      sampleState.rettype_stack_.length = 0 ∧ st.rettype_stack_.length = 1 :=
  ⟨_, _, rfl, rfl, rfl⟩

/-- C25: in `from t select c = [from t] where a`, whose column contains a
query, the `where` part is visited with no preferred scope: the column `a`
of the table is not found and `where` is an `Id` without a reference; in
`from t select c = [1] where a` the same `where` resolves to the member `a`
of the table. -/
theorem nested_query_clears_preferred_scope :
    (∃ st d₁ d₂ table qt cols by_ by_type type name,
      visitModule sampleEnv 5 10 sampleState
          (queryProgram (.List [.Query (.Id "t") 0 [] [] none])) =
        .ok ⟨[d₁, d₂, .Expr (.Query table qt cols by_ (some (.Id "a" none .null "a"))
          by_type type name)], ""⟩ st ∧
      st.sema_err_ =
        ["Error: symbol a was not found\n",
          "Error: 'where' must be a boolean array; got type _\n"]) ∧
    (∃ st d₁ d₂ table qt cols by_ by_type type name ref,
      visitModule sampleEnv 5 10 sampleState (queryProgram (.List [.IntegerLiteral 1])) =
        .ok ⟨[d₁, d₂, .Expr (.Query table qt cols by_
          (some (.ImpliedMember "a" (some ref) ⟨"t", .UDT "!P" 1⟩ (.Array (.VVMType 3)) "a"))
          by_type type name)], ""⟩ st ∧
      st.sema_err_ = []) :=
  ⟨⟨_, _, _, _, _, _, _, _, _, _, rfl, rfl⟩, ⟨_, _, _, _, _, _, _, _, _, _, _, rfl, rfl⟩⟩

/-- C29: the data definition `data _x: a: Int64 end`, whose name begins with
an underscore, is analysed without a diagnostic and its reference stays in
the global scope. -/
theorem underscore_type_name_accepted :
    ∃ hir st, visitModule sampleEnv 5 10 sampleState underscoreProgram = .ok hir st ∧
      st.sema_err_ = [] ∧ st.table.entries 0 "_x" = [.DataRef 0] :=
  ⟨_, _, rfl, rfl, rfl⟩


/-! ## Diagnostics written by the parts of `visitFunctionDef` -/

theorem errors_nil (st : SemaState) : st.errors [] = st := by
  simp [SemaState.errors]

theorem error_eq_errors (st : SemaState) (m : String) : st.error m = st.errors [m] := rfl

theorem errors_errors (st : SemaState) (a b : List String) :
    (st.errors a).errors b = st.errors (a ++ b) := by
  simp [SemaState.errors, List.append_assoc]

theorem errors_sema_err (st : SemaState) (a : List String) :
    (st.errors a).sema_err_ = st.sema_err_ ++ a := rfl

theorem errors_eq_self_iff (st : SemaState) (a : List String) :
    (st.errors a).sema_err_ = st.sema_err_ ↔ a = [] := by
  simp [SemaState.errors]

theorem check_rettypes_errors (vm : VVM) (fuel : Nat) (name : String) (t : datatype_t) :
    ∀ (ts : List datatype_t) (st st' : SemaState),
      check_rettypes vm fuel name t st ts = some st' →
      ∃ new, st' = st.errors new ∧
        (new = [] → ∀ u ∈ ts, is_same_type st.heap fuel t u = some true) ∧
        ∀ m ∈ new, ∃ u, m = "Error: mismatched return types in function " ++ name ++ ": " ++
          to_string vm t ++ " vs " ++ to_string vm u ++ "\n" := by
  intro ts
  induction ts with
  | nil =>
      intro st st' h
      simp only [check_rettypes, Option.some.injEq] at h
      exact ⟨[], by rw [errors_nil, h], by simp, by simp⟩
  | cons u ts ih =>
      intro st st' h
      simp only [check_rettypes] at h
      cases hs : is_same_type st.heap fuel t u with
      | none => rw [hs] at h; simp at h
      | some b =>
          rw [hs] at h
          cases b with
          | true =>
              obtain ⟨new, hnew, hall, htext⟩ := ih st st' h
              refine ⟨new, hnew, fun hn v hv => ?_, htext⟩
              rcases List.mem_cons.mp hv with rfl | hv
              · exact hs
              · exact hall hn v hv
          | false =>
              obtain ⟨new, hnew, _, htext⟩ := ih _ st' h
              refine ⟨("Error: mismatched return types in function " ++ name ++ ": " ++
                to_string vm t ++ " vs " ++ to_string vm u ++ "\n") :: new, ?_,
                fun hn => by simp at hn, ?_⟩
              · rw [hnew, error_eq_errors, errors_errors]; rfl
              · intro m hm
                rcases List.mem_cons.mp hm with rfl | hm
                · exact ⟨u, rfl⟩
                · exact htext m hm

theorem cast_check_errors (fuel : Nat) (name : String) (st st' : SemaState)
    (rettype : datatype_t) (h : cast_check fuel name st rettype = some st') :
    ∃ new first rest flag, st' = st.errors new ∧
      find_symbol st.heap st.table fuel name = some (first :: rest, flag) ∧
      (new = [] →
        is_kind_type (get_type st.heap (some first)) = true ∧
        (is_same_type st.heap fuel rettype
            (get_underlying_type (get_type st.heap (some first))) = some true ∨
          is_same_type st.heap fuel rettype
            (.Array (get_underlying_type (get_type st.heap (some first)))) = some true)) ∧
      (∀ m ∈ new,
        m = "Error: cast definition for " ++ name ++ " must return its own type\n" ∨
        m = "Error: cast definition must be for a type, not " ++ name ++ "\n") := by
  unfold cast_check at h
  cases hf : find_symbol st.heap st.table fuel name with
  | none => rw [hf] at h; simp at h
  | some p =>
      obtain ⟨l, flag⟩ := p
      cases l with
      | nil => rw [hf] at h; simp at h
      | cons first rest =>
          rw [hf] at h
          simp only at h
          by_cases hk : is_kind_type (get_type st.heap (some first)) = true
          · rw [if_pos hk] at h
            cases h1 : is_same_type st.heap fuel rettype
                (get_underlying_type (get_type st.heap (some first))) with
            | none => rw [h1] at h; simp at h
            | some b =>
                rw [h1] at h
                cases b with
                | true =>
                    simp only [Option.some.injEq] at h
                    exact ⟨[], first, rest, flag, by rw [errors_nil, h], rfl,
                      fun _ => ⟨hk, Or.inl h1⟩, fun m hm => by simp at hm⟩
                | false =>
                    simp only at h
                    cases h2 : is_same_type st.heap fuel rettype
                        (.Array (get_underlying_type (get_type st.heap (some first)))) with
                    | none => rw [h2] at h; simp at h
                    | some b =>
                        rw [h2] at h
                        cases b with
                        | true =>
                            simp only [Option.some.injEq] at h
                            exact ⟨[], first, rest, flag, by rw [errors_nil, h], rfl,
                              fun _ => ⟨hk, Or.inr h2⟩, fun m hm => by simp at hm⟩
                        | false =>
                            simp only [Option.some.injEq] at h
                            exact ⟨[_], first, rest, flag, by rw [← h, error_eq_errors], rfl,
                              fun hn => by simp at hn, fun m hm => by
                                simp only [List.mem_singleton] at hm
                                exact Or.inl hm⟩
          · rw [if_neg hk] at h
            simp only [Option.some.injEq] at h
            exact ⟨[_], first, rest, flag, by rw [← h, error_eq_errors], rfl,
              fun hn => by simp at hn, fun m hm => by
                simp only [List.mem_singleton] at hm
                exact Or.inr hm⟩

theorem data_getElem?_append_left (a b : String) (i : Nat) (hi : i < a.length) :
    (a ++ b).data[i]? = a.data[i]? := by
  rw [String.data_append]
  exact List.getElem?_append_left (by simpa using hi)

/-- Two texts whose heads differ at the position `i` differ. -/
theorem append_ne_of_getElem? (p q a b : String) (i : Nat) (hp : i < p.length)
    (hq : i < q.length) (hne : p.data[i]? ≠ q.data[i]?) : p ++ a ≠ q ++ b := by
  intro h
  have h1 := congrArg (fun s => s.data[i]?) h
  simp only at h1
  rw [data_getElem?_append_left _ _ i hp, data_getElem?_append_left _ _ i hq] at h1
  exact hne h1

theorem body_return_type_errors (vm : VVM) (fuel : Nat) (name : String) (st st' : SemaState)
    (rettypes : List datatype_t) (b : datatype_t)
    (h : body_return_type vm fuel name st rettypes = some (b, st')) :
    ∃ new, st' = st.errors new ∧
      (rettypes = [] →
        b = .null ∧ new = ["Error: function " ++ name ++ " has no return statements\n"]) ∧
      (∀ t ts, rettypes = t :: ts →
        b = t ∧ (new = [] → ∀ u ∈ ts, is_same_type st.heap fuel t u = some true) ∧
        ∀ m ∈ new, ∃ u, m = "Error: mismatched return types in function " ++ name ++ ": " ++
          to_string vm t ++ " vs " ++ to_string vm u ++ "\n") := by
  cases rettypes with
  | nil =>
      simp only [body_return_type, Option.some.injEq, Prod.mk.injEq] at h
      refine ⟨["Error: function " ++ name ++ " has no return statements\n"], ?_,
        fun _ => ⟨h.1.symm, rfl⟩, fun t ts ht => by simp at ht⟩
      rw [← h.2, error_eq_errors]
  | cons t ts =>
      simp only [body_return_type] at h
      cases hc : check_rettypes vm fuel name t st ts with
      | none => rw [hc] at h; simp at h
      | some st₁ =>
          rw [hc] at h
          simp only [Option.some.injEq, Prod.mk.injEq] at h
          obtain ⟨new, hnew, hall, htext⟩ := check_rettypes_errors vm fuel name t ts st st₁ hc
          refine ⟨new, by rw [← h.2, hnew], fun hn => by simp at hn, ?_⟩
          intro t' ts' heq
          simp only [List.cons.injEq] at heq
          obtain ⟨rfl, rfl⟩ := heq
          exact ⟨h.1.symm, hall, htext⟩

theorem do_pop_scope_eq (st st₁ : SemaState) (h : do_pop_scope st = some st₁) :
    st₁ = { st with table := st₁.table } := by
  unfold do_pop_scope at h
  cases hp : pop_scope st.table with
  | none => rw [hp] at h; simp at h
  | some table =>
      rw [hp] at h
      simp only [Option.some.injEq] at h
      rw [← h]

theorem do_remove_symbol_ref_eq (st st₁ : SemaState) (symbol : String) (ptr : resolved_t)
    (h : do_remove_symbol_ref st symbol ptr = some st₁) :
    st₁ = { st with table := st₁.table } := by
  unfold do_remove_symbol_ref at h
  cases hp : remove_symbol_ref st.table symbol ptr with
  | none => rw [hp] at h; simp at h
  | some table =>
      rw [hp] at h
      simp only [Option.some.injEq] at h
      rw [← h]

theorem do_store_symbol_eq (fuel : Nat) (st st₁ : SemaState) (symbol : String)
    (ptr : resolved_t) (b : Bool) (h : do_store_symbol fuel st symbol ptr = some (b, st₁)) :
    st₁ = { st with table := st₁.table } ∧
      store_symbol st.heap fuel st.table symbol ptr = some (b, st₁.table) := by
  unfold do_store_symbol at h
  cases hp : store_symbol st.heap fuel st.table symbol ptr with
  | none => rw [hp] at h; simp at h
  | some p =>
      obtain ⟨b', table⟩ := p
      rw [hp] at h
      simp only [Option.some.injEq, Prod.mk.injEq] at h
      obtain ⟨rfl, rfl⟩ := h
      exact ⟨rfl, rfl⟩

theorem check_return_type_errors (vm : VVM) (fuel : Nat) (name : String) (st st' : SemaState)
    (rettype body_rettype r : datatype_t)
    (h : check_return_type vm fuel name st rettype body_rettype = some (r, st')) :
    ∃ new, st' = st.errors new ∧
      r = (if rettype.is_null then body_rettype else rettype) ∧
      (new = [] → r.is_null = false ∧ is_same_type st.heap fuel r body_rettype = some true) ∧
      (∀ m ∈ new,
        m = "Error: unable to determine return type for function " ++ name ++ "\n" ∨
        m = "Error: mismatched return types: " ++ to_string vm r ++ " vs " ++
          to_string vm body_rettype ++ "\n") := by
  unfold check_return_type at h
  simp only at h
  generalize hr₁ : (if rettype.is_null = true then body_rettype else rettype) = r₁ at h
  have hheap : ∀ (m : String), (if r₁.is_null = true then st.error m else st).heap = st.heap := by
    intro m; split <;> rfl
  rw [hheap] at h
  cases hs : is_same_type st.heap fuel r₁ body_rettype with
  | none => rw [hs] at h; simp at h
  | some same =>
      rw [hs] at h
      simp only [Option.some.injEq, Prod.mk.injEq] at h
      obtain ⟨rfl, hst'⟩ := h
      by_cases hn : r₁.is_null = true <;> cases same <;>
        simp only [hn, if_true, if_false, Bool.false_eq_true] at hst'
      · exact ⟨[_, _], by rw [← hst', error_eq_errors, error_eq_errors, errors_errors]; rfl,
          rfl, fun hc => by simp at hc, fun m hm => by
            simp only [List.mem_cons, List.mem_singleton, List.not_mem_nil, or_false] at hm
            exact hm⟩
      · exact ⟨[_], by rw [← hst', error_eq_errors], rfl, fun hc => by simp at hc,
          fun m hm => by
            simp only [List.mem_singleton] at hm
            exact Or.inl hm⟩
      · exact ⟨[_], by rw [← hst', error_eq_errors], rfl, fun hc => by simp at hc,
          fun m hm => by
            simp only [List.mem_singleton] at hm
            exact Or.inr hm⟩
      · exact ⟨[], by rw [← hst', errors_nil], rfl,
          fun _ => ⟨by simpa using hn, hs⟩, fun m hm => by simp at hm⟩

/-- What the part of `visitFunctionDef` after the body does, step by step:
the texts it writes are those of the comparison of the collected types
(`new₁`), of the two checks of the return type (`new₂`) and of the cast
check (`new₃`). -/
theorem function_def_tail_spec (vm : VVM) (fuel : Nat) (st st' : SemaState) (start : Nat)
    (name : String) (rettype r : datatype_t) (new_node : Nat) (ref : resolved_t)
    (h : function_def_tail vm fuel st start name rettype new_node ref = some (r, st')) :
    ∃ st₁ rettypes stack body_rettype new₁ new₂ new₃,
      do_pop_scope st = some st₁ ∧
      st.rettype_stack_ = rettypes :: stack ∧
      body_return_type vm fuel name st₁ rettypes = some (body_rettype, st₁.errors new₁) ∧
      r = (if rettype.is_null then body_rettype else rettype) ∧
      st'.sema_err_ = st.sema_err_ ++ new₁ ++ new₂ ++ new₃ ∧
      st'.rettype_stack_ = stack ∧
      (new₂ = [] → r.is_null = false ∧ is_same_type st.heap fuel r body_rettype = some true) ∧
      (∀ m ∈ new₂,
        m = "Error: unable to determine return type for function " ++ name ++ "\n" ∨
        m = "Error: mismatched return types: " ++ to_string vm r ++ " vs " ++
          to_string vm body_rettype ++ "\n") ∧
      ((first_char name).isUpper = true →
        ∃ sX, cast_check fuel name sX r = some (sX.errors new₃) ∧ sX.heap = st.heap ∧
          sX.table = st₁.table) ∧
      ((first_char name).isUpper = false → new₃ = []) ∧
      (st'.sema_err_.length ≤ start → st'.table = st₁.table) ∧
      st'.heap = { st.heap with
        funcdef := Function.update st.heap.funcdef new_node
          { st.heap.funcdef new_node with rettype := r } } := by
  unfold function_def_tail at h
  cases hp : do_pop_scope st with
  | none => rw [hp] at h; simp at h
  | some st₁ =>
      rw [hp] at h
      simp only at h
      have hst₁ := do_pop_scope_eq st st₁ hp
      cases hstack : st₁.rettype_stack_ with
      | nil => rw [hstack] at h; simp at h
      | cons rettypes stack =>
          rw [hstack] at h
          simp only at h
          cases hb : body_return_type vm fuel name st₁ rettypes with
          | none => rw [hb] at h; simp at h
          | some p =>
              obtain ⟨body_rettype, st₂⟩ := p
              rw [hb] at h
              simp only at h
              obtain ⟨new₁, hnew₁, -, -⟩ :=
                body_return_type_errors vm fuel name st₁ st₂ rettypes body_rettype hb
              subst hnew₁
              cases hc : check_return_type vm fuel name
                  { st₁.errors new₁ with rettype_stack_ := stack } rettype body_rettype with
              | none => rw [hc] at h; simp at h
              | some q =>
                  obtain ⟨r₁, st₅⟩ := q
                  rw [hc] at h
                  simp only at h
                  obtain ⟨new₂, hnew₂, hr₁, hsame, htext₂⟩ :=
                    check_return_type_errors vm fuel name _ st₅ rettype body_rettype r₁ hc
                  have hheap₁ : st₁.heap = st.heap := by rw [hst₁]
                  have herr₁ : st₁.sema_err_ = st.sema_err_ := by rw [hst₁]
                  have hstk : st.rettype_stack_ = rettypes :: stack := by
                    rw [← hstack, hst₁]
                  by_cases hup : (first_char name).isUpper = true
                  · rw [if_pos hup] at h
                    cases hcc : cast_check fuel name st₅ r₁ with
                    | none => rw [hcc] at h; simp at h
                    | some st₆ =>
                        rw [hcc] at h
                        simp only at h
                        obtain ⟨new₃, _, _, _, hnew₃, -, -, -⟩ :=
                          cast_check_errors fuel name st₅ st₆ r₁ hcc
                        by_cases hlen : st₆.sema_err_.length > start
                        · rw [if_pos hlen] at h
                          cases hrm : do_remove_symbol_ref st₆ name ref with
                          | none => rw [hrm] at h; simp at h
                          | some st₇ =>
                              rw [hrm] at h
                              simp only [Option.some.injEq, Prod.mk.injEq] at h
                              obtain ⟨rfl, rfl⟩ := h
                              have hst₇ := do_remove_symbol_ref_eq st₆ st₇ name ref hrm
                              have e7 : st₇.sema_err_ = st₆.sema_err_ := by rw [hst₇]
                              have h7 : st₇.heap = st₆.heap := by rw [hst₇]
                              have k7 : st₇.rettype_stack_ = st₆.rettype_stack_ := by rw [hst₇]
                              refine ⟨st₁, rettypes, stack, body_rettype, new₁, new₂, new₃, rfl,
                                hstk, hb, hr₁, ?_, ?_, ?_, htext₂,
                                fun _ => ⟨st₅, by rw [hcc, hnew₃], by rw [hnew₂]; exact hheap₁,
                                  by rw [hnew₂]; rfl⟩,
                                fun hc' => by rw [hup] at hc'; simp at hc', ?_, ?_⟩
                              · show st₇.sema_err_ = _
                                rw [e7, hnew₃, hnew₂]
                                simp [SemaState.errors, herr₁, List.append_assoc]
                              · show st₇.rettype_stack_ = _
                                rw [k7, hnew₃, hnew₂]; rfl
                              · intro hn
                                have := hsame hn
                                refine ⟨this.1, ?_⟩
                                rw [← hheap₁]; exact this.2
                              · intro hle
                                have : st₇.sema_err_.length ≤ start := hle
                                rw [e7] at this
                                omega
                              · show ({ st₇.heap with funcdef := _ } : Heap) = _
                                rw [h7, hnew₃, hnew₂]
                                simp [SemaState.errors, hheap₁]
                        · rw [if_neg hlen] at h
                          simp only [Option.some.injEq, Prod.mk.injEq] at h
                          obtain ⟨rfl, rfl⟩ := h
                          refine ⟨st₁, rettypes, stack, body_rettype, new₁, new₂, new₃, rfl,
                            hstk, hb, hr₁, ?_, ?_, ?_, htext₂,
                            fun _ => ⟨st₅, by rw [hcc, hnew₃], by rw [hnew₂]; exact hheap₁,
                              by rw [hnew₂]; rfl⟩,
                            fun hc' => by rw [hup] at hc'; simp at hc', ?_, ?_⟩
                          · show st₆.sema_err_ = _
                            rw [hnew₃, hnew₂]
                            simp [SemaState.errors, herr₁, List.append_assoc]
                          · show st₆.rettype_stack_ = _
                            rw [hnew₃, hnew₂]; rfl
                          · intro hn
                            have := hsame hn
                            refine ⟨this.1, ?_⟩
                            rw [← hheap₁]; exact this.2
                          · intro _
                            show st₆.table = _
                            rw [hnew₃, hnew₂]; rfl
                          · show ({ st₆.heap with funcdef := _ } : Heap) = _
                            rw [hnew₃, hnew₂]
                            simp [SemaState.errors, hheap₁]
                  · rw [if_neg hup] at h
                    simp only at h
                    by_cases hlen : st₅.sema_err_.length > start
                    · rw [if_pos hlen] at h
                      cases hrm : do_remove_symbol_ref st₅ name ref with
                      | none => rw [hrm] at h; simp at h
                      | some st₇ =>
                          rw [hrm] at h
                          simp only [Option.some.injEq, Prod.mk.injEq] at h
                          obtain ⟨rfl, rfl⟩ := h
                          have hst₇ := do_remove_symbol_ref_eq st₅ st₇ name ref hrm
                          have e7 : st₇.sema_err_ = st₅.sema_err_ := by rw [hst₇]
                          have h7 : st₇.heap = st₅.heap := by rw [hst₇]
                          have k7 : st₇.rettype_stack_ = st₅.rettype_stack_ := by rw [hst₇]
                          refine ⟨st₁, rettypes, stack, body_rettype, new₁, new₂, [], rfl,
                            hstk, hb, hr₁, ?_, ?_, ?_, htext₂,
                            fun hc' => absurd hc' hup, fun _ => rfl, ?_, ?_⟩
                          · show st₇.sema_err_ = _
                            rw [e7, hnew₂]
                            simp [SemaState.errors, herr₁, List.append_assoc]
                          · show st₇.rettype_stack_ = _
                            rw [k7, hnew₂]; rfl
                          · intro hn
                            have := hsame hn
                            refine ⟨this.1, ?_⟩
                            rw [← hheap₁]; exact this.2
                          · intro hle
                            have : st₇.sema_err_.length ≤ start := hle
                            rw [e7] at this
                            omega
                          · show ({ st₇.heap with funcdef := _ } : Heap) = _
                            rw [h7, hnew₂]
                            simp [SemaState.errors, hheap₁]
                    · rw [if_neg hlen] at h
                      simp only [Option.some.injEq, Prod.mk.injEq] at h
                      obtain ⟨rfl, rfl⟩ := h
                      refine ⟨st₁, rettypes, stack, body_rettype, new₁, new₂, [], rfl,
                        hstk, hb, hr₁, ?_, ?_, ?_, htext₂,
                        fun hc' => absurd hc' hup, fun _ => rfl, ?_, ?_⟩
                      · show st₅.sema_err_ = _
                        rw [hnew₂]
                        simp [SemaState.errors, herr₁, List.append_assoc]
                      · show st₅.rettype_stack_ = _
                        rw [hnew₂]; rfl
                      · intro hn
                        have := hsame hn
                        refine ⟨this.1, ?_⟩
                        rw [← hheap₁]; exact this.2
                      · intro _
                        show st₅.table = _
                        rw [hnew₂]; rfl
                      · show ({ st₅.heap with funcdef := _ } : Heap) = _
                        rw [hnew₂]
                        simp [SemaState.errors, hheap₁]

theorem errors_injective (st : SemaState) (a b : List String)
    (h : st.errors a = st.errors b) : a = b := by
  have h1 := congrArg SemaState.sema_err_ h
  simpa [SemaState.errors] using h1

/-- The text that reports a function without return statements differs from
every text whose eighth character is not `f`. -/
theorem no_return_text_ne (name p rest : String) (hp : 7 < p.length)
    (h7 : p.data[7]? ≠ some 'f') :
    "Error: function " ++ (name ++ " has no return statements\n") ≠ p ++ rest := by
  exact append_ne_of_getElem? "Error: function " p _ _ 7 (by decide) hp
    (fun hc => h7 (hc ▸ by decide))

/-- C21: whenever the part of `visitFunctionDef` after the body returns, with
`rettypes` the frame collected for the body, the diagnostics it writes
contain `function NAME has no return statements` exactly when that frame is
empty, whatever the explicit return type is: a definition with an explicit
return type and an empty body is reported as well. -/
theorem no_return_statements_reported (vm : VVM) (fuel : Nat) (st st' : SemaState)
    (start : Nat) (name : String) (rettype r : datatype_t) (new_node : Nat) (ref : resolved_t)
    (h : function_def_tail vm fuel st start name rettype new_node ref = some (r, st')) :
    ∃ rettypes stack new, st.rettype_stack_ = rettypes :: stack ∧
      st'.sema_err_ = st.sema_err_ ++ new ∧
      ("Error: function " ++ name ++ " has no return statements\n" ∈ new ↔ rettypes = []) := by
  obtain ⟨st₁, rettypes, stack, body_rettype, new₁, new₂, new₃, -, hstk, hb, -, herr, -, -,
    htext₂, hcast, hnocast, -, -⟩ := function_def_tail_spec vm fuel st st' start name rettype r
      new_node ref h
  refine ⟨rettypes, stack, new₁ ++ new₂ ++ new₃, hstk, by
    rw [herr]; simp [List.append_assoc], ?_⟩
  obtain ⟨new', hnew', hnil, hcons⟩ :=
    body_return_type_errors vm fuel name st₁ _ rettypes body_rettype hb
  have he : new₁ = new' := errors_injective st₁ _ _ hnew'
  subst he
  constructor
  · intro hmem
    cases hrt : rettypes with
    | nil => rfl
    | cons t ts =>
        exfalso
        obtain ⟨-, -, htext₁⟩ := hcons t ts hrt
        simp only [List.mem_append] at hmem
        rcases hmem with (hm | hm) | hm
        · obtain ⟨u, hu⟩ := htext₁ _ hm
          simp only [String.append_assoc] at hu
          exact no_return_text_ne name _ _ (by decide) (by decide) hu
        · rcases htext₂ _ hm with hu | hu
          · simp only [String.append_assoc] at hu
            exact no_return_text_ne name _ _ (by decide) (by decide) hu
          · simp only [String.append_assoc] at hu
            exact no_return_text_ne name _ _ (by decide) (by decide) hu
        · by_cases hup : (first_char name).isUpper = true
          · obtain ⟨sX, hsX, -, -⟩ := hcast hup
            obtain ⟨new'', _, _, _, hnew'', -, -, htext₃⟩ :=
              cast_check_errors fuel name sX _ r hsX
            have he : new₃ = new'' := errors_injective sX _ _ hnew''
            subst he
            rcases htext₃ _ hm with hu | hu
            · simp only [String.append_assoc] at hu
              exact no_return_text_ne name _ _ (by decide) (by decide) hu
            · simp only [String.append_assoc] at hu
              exact no_return_text_ne name _ _ (by decide) (by decide) hu
          · rw [hnocast (by simpa using hup)] at hm
            simp at hm
  · intro hrt
    obtain ⟨-, hn⟩ := hnil hrt
    rw [hn]
    simp

/-- The end of `def f() -> Int64: end`: the frame is empty and the text is
written. -/
theorem no_return_statements_reported_witness :
    ∃ r st', function_def_tail sampleVM 5 (bodyDoneState []) 0 "f" (.VVMType 1) 0
        (.FuncRef 0) = some (r, st') ∧
      ∃ rettypes stack new, (bodyDoneState []).rettype_stack_ = rettypes :: stack ∧
        st'.sema_err_ = (bodyDoneState []).sema_err_ ++ new ∧
        ("Error: function " ++ "f" ++ " has no return statements\n" ∈ new ↔ rettypes = []) :=
  ⟨_, _, rfl, no_return_statements_reported sampleVM 5 (bodyDoneState []) _ 0 "f"
    (.VVMType 1) _ 0 (.FuncRef 0) rfl⟩

/-- A store that returns true leaves the reference in the list of the
current scope and changes nothing else. -/
theorem store_symbol_true_mem (h : Heap) (fuel : Nat) (st st' : SemaVisitor) (symbol : String)
    (ptr : resolved_t) (hres : store_symbol h fuel st symbol ptr = some (true, st')) :
    ptr ∈ st'.entries st.current_scope_ symbol ∧
      OnlyChanges st st' st.current_scope_ symbol := by
  rcases store_symbol_cases h fuel st st' symbol ptr true hres with ⟨hb, -⟩ | ⟨-, honly, hc⟩
  · simp at hb
  · refine ⟨?_, honly⟩
    rcases hc with ⟨-, hl⟩ | ⟨rs, rs', -, hloop, hl⟩
    · rw [entries_of_lookup _ _ _ _ hl]; simp
    · rw [entries_of_lookup _ _ _ _ hl]
      rcases store_loop_cases h fuel st.interactive_ ptr rs true rs' hloop with
        ⟨-, -, hrs⟩ | ⟨k, e, hk, -, -, hb, hrs⟩
      · rw [hrs]; simp
      · rw [hrs, if_pos rfl]
        have hlt : k < rs.length := by
          by_contra hge
          rw [List.getElem?_eq_none (by omega)] at hk
          simp at hk
        exact List.mem_iff_getElem.mpr ⟨k, by simpa using hlt, by simp⟩

theorem declaration_checks_errors (vm : VVM) (fuel : Nat) (st st' : SemaState)
    (type t : datatype_t) (value : Option datatype_t)
    (h : declaration_checks vm fuel st type value = some (t, st')) :
    ∃ new, st' = st.errors new ∧
      t = declaration_type type value ∧
      (new = [] ↔
        (t.is_null = false ∧ is_void_type t = false ∧
          ∀ vt, value = some vt → is_same_type st.heap fuel t vt = some true)) := by
  unfold declaration_checks at h
  cases value with
  | none =>
      simp only [declaration_type, Option.some.injEq, Prod.mk.injEq] at h
      obtain ⟨rfl, hst'⟩ := h
      by_cases hn : type.is_null = true <;> by_cases hv : is_void_type type = true <;>
        simp only [hn, hv, if_true, if_false, Bool.false_eq_true] at hst'
      · exact ⟨[_, _], by rw [← hst', error_eq_errors, error_eq_errors, errors_errors]; rfl,
          rfl, by simp [hn]⟩
      · exact ⟨[_], by rw [← hst', error_eq_errors], rfl, by simp [hn]⟩
      · exact ⟨[_], by rw [← hst', error_eq_errors], rfl, by simp [hv]⟩
      · refine ⟨[], by rw [← hst', errors_nil], rfl, ?_⟩
        simp only [true_iff]
        exact ⟨by simpa using hn, by simpa using hv, fun vt hvt => by simp at hvt⟩
  | some vt =>
      simp only at h
      generalize ht₁ : declaration_type type (some vt) = t₁ at h
      cases hs : is_same_type st.heap fuel t₁ vt with
      | none => rw [hs] at h; simp at h
      | some same =>
          rw [hs] at h
          cases same with
          | true =>
              simp only [Option.some.injEq, Prod.mk.injEq] at h
              obtain ⟨rfl, hst'⟩ := h
              by_cases hn : t₁.is_null = true <;> by_cases hv : is_void_type t₁ = true <;>
                simp only [hn, hv, if_true, if_false, Bool.false_eq_true] at hst'
              · exact ⟨[_, _], by
                  rw [← hst', error_eq_errors, error_eq_errors, errors_errors]; rfl,
                  rfl, by simp [hn]⟩
              · exact ⟨[_], by rw [← hst', error_eq_errors], rfl, by simp [hn]⟩
              · exact ⟨[_], by rw [← hst', error_eq_errors], rfl, by simp [hv]⟩
              · refine ⟨[], by rw [← hst', errors_nil], rfl, ?_⟩
                simp only [true_iff]
                refine ⟨by simpa using hn, by simpa using hv, fun vt' hvt => ?_⟩
                simp only [Option.some.injEq] at hvt
                rw [← hvt]; exact hs
          | false =>
              simp only [Option.some.injEq, Prod.mk.injEq] at h
              obtain ⟨rfl, hst'⟩ := h
              have hne : ¬ (∀ vt', some vt = some vt' →
                  is_same_type st.heap fuel t₁ vt' = some true) := by
                intro hc
                have := hc vt rfl
                rw [hs] at this
                simp at this
              by_cases hn : t₁.is_null = true <;> by_cases hv : is_void_type t₁ = true <;>
                simp only [hn, hv, if_true, if_false, Bool.false_eq_true] at hst'
              · exact ⟨[_, _, _], by
                  rw [← hst', error_eq_errors, error_eq_errors, error_eq_errors, errors_errors,
                    errors_errors]; rfl, rfl, by simp [hn]⟩
              · exact ⟨[_, _], by
                  rw [← hst', error_eq_errors, error_eq_errors, errors_errors]; rfl,
                  rfl, by simp [hn]⟩
              · exact ⟨[_, _], by
                  rw [← hst', error_eq_errors, error_eq_errors, errors_errors]; rfl,
                  rfl, by simp [hv]⟩
              · exact ⟨[_], by rw [← hst', error_eq_errors], rfl, by
                  simp only [List.cons_ne_nil, false_iff, not_and]
                  intro _ _
                  exact hne⟩

/-- The part of `visitDeclaration` after the visits of the annotation
and the initializer, entered with at least `start` diagnostics written
(`start` being the size of the stream on entry of `visitDeclaration`): the
new declaration is stored, and is in the list of the current scope for the
name, exactly when no diagnostic was written since the entry; that is the
case exactly when none was written before this part (name with an
upper-case first letter, annotation whose type is not a kind), the type is
determined and not void, the type of the initializer is `is_same_type` with
it, and the store returns true; whenever a diagnostic was written the table
is what it was. -/
theorem declaration_stored_iff_no_diagnostic (env : Env) (fuel : Nat) (st st' : SemaState)
    (start : Nat) (name : String) (type : datatype_t) (value : Option datatype_t)
    (new_node : Nat) (hstart : start ≤ st.sema_err_.length)
    (h : declaration_tail env fuel st start name type value = some (new_node, st')) :
    new_node = st.next_decl ∧
    (st'.sema_err_.length = start →
      .DeclRef new_node ∈ st'.table.entries st.table.current_scope_ name ∧
      OnlyChanges st.table st'.table st.table.current_scope_ name) ∧
    (st'.sema_err_.length ≠ start → st'.table = st.table) ∧
    (st'.sema_err_.length = start ↔
      st.sema_err_.length = start ∧
      (declaration_type type value).is_null = false ∧
      is_void_type (declaration_type type value) = false ∧
      (∀ vt, value = some vt →
        is_same_type st.heap fuel (declaration_type type value) vt = some true) ∧
      ∃ table,
        store_symbol (st.new_declaration ⟨name, declaration_type type value, 0⟩).2.heap fuel
          st.table name (.DeclRef new_node) = some (true, table)) := by
  unfold declaration_tail at h
  cases hc : declaration_checks env.vm fuel st type value with
  | none => rw [hc] at h; simp at h
  | some p =>
      obtain ⟨t, st₃⟩ := p
      rw [hc] at h
      obtain ⟨new, hnew, ht, hiff⟩ := declaration_checks_errors env.vm fuel st st₃ type t value hc
      subst hnew
      simp only [SemaState.new_declaration] at h
      by_cases hlen : (st.sema_err_ ++ new).length = start
      · have hnil : new = [] := by
          simp only [List.length_append] at hlen
          exact List.eq_nil_of_length_eq_zero (by omega)
        subst hnil
        have hst : st.sema_err_.length = start := by simpa using hlen
        obtain ⟨hn, hv, hsame⟩ := hiff.mp rfl
        rw [errors_nil] at h
        simp only [hst, if_true] at h
        cases hd : do_store_symbol fuel
            { st with
              heap := { st.heap with decl := Function.update st.heap.decl st.next_decl ⟨name, t, 0⟩ }
              next_decl := st.next_decl + 1 } name (.DeclRef st.next_decl) with
        | none => rw [hd] at h; simp at h
        | some q =>
            obtain ⟨b, st₅⟩ := q
            rw [hd] at h
            obtain ⟨heq, hstore⟩ := do_store_symbol_eq fuel _ st₅ name _ b hd
            simp only at hstore
            cases b with
            | true =>
                simp only [Option.some.injEq, Prod.mk.injEq] at h
                obtain ⟨rfl, rfl⟩ := h
                have herr : st₅.sema_err_.length = start := by rw [heq]; exact hst
                obtain ⟨hmem, honly⟩ := store_symbol_true_mem _ fuel st.table st₅.table name _
                  hstore
                refine ⟨rfl, fun _ => ⟨hmem, honly⟩, fun hne => absurd herr hne, ?_⟩
                simp only [herr, true_iff]
                refine ⟨hst, ht ▸ hn, ht ▸ hv, ht ▸ hsame, st₅.table, ?_⟩
                rw [← ht]
                exact hstore
            | false =>
                simp only [Option.some.injEq, Prod.mk.injEq] at h
                obtain ⟨rfl, rfl⟩ := h
                have htab : st₅.table = st.table :=
                  store_symbol_false_unchanged _ fuel st.table st₅.table name _ hstore
                have herr : (st₅.error ("Error: symbol " ++ name ++
                    " was already defined\n")).sema_err_.length = start + 1 := by
                  rw [heq]; simp [SemaState.error, hst]
                refine ⟨rfl, fun he => by omega, fun _ => htab, ?_⟩
                constructor
                · intro he; omega
                · rintro ⟨-, -, -, -, table, htable⟩
                  rw [← ht] at htable
                  simp only [SemaState.new_declaration] at htable
                  rw [hstore] at htable
                  simp at htable
      · have hlen' : ¬ ({ st.errors new with
            heap := { (st.errors new).heap with
              decl := Function.update (st.errors new).heap.decl (st.errors new).next_decl
                ⟨name, t, 0⟩ }
            next_decl := (st.errors new).next_decl + 1 } : SemaState).sema_err_.length =
              start := hlen
        rw [if_neg hlen'] at h
        simp only [Option.some.injEq, Prod.mk.injEq] at h
        obtain ⟨rfl, rfl⟩ := h
        refine ⟨rfl, fun he => absurd he hlen, fun _ => rfl, ?_⟩
        constructor
        · intro he; exact absurd he hlen
        · rintro ⟨hst, hn, hv, hsame, -⟩
          have : new = [] := hiff.mpr ⟨ht ▸ hn, ht ▸ hv, ht ▸ hsame⟩
          subst this
          exact absurd (by simpa using hst) hlen

/-- The declaration `x: Int64` at top level of `sampleState`: no diagnostic
is written and the new declaration is the one reference of `x` in the global
scope. -/
theorem declaration_stored_iff_no_diagnostic_witness :
    ∃ new_node st', declaration_tail sampleEnv 5 sampleState 0 "x" (.VVMType 1) none =
        some (new_node, st') ∧
      st'.sema_err_.length = 0 ∧
      .DeclRef new_node ∈ st'.table.entries sampleState.table.current_scope_ "x" ∧
      OnlyChanges sampleState.table st'.table sampleState.table.current_scope_ "x" :=
  ⟨_, _, rfl, rfl,
    (declaration_stored_iff_no_diagnostic sampleEnv 5 sampleState _ 0 "x" (.VVMType 1) none _
      (Nat.zero_le _) rfl).2.1 rfl⟩


/-! ## Dataframes and data definitions -/

/-- C26: in interactive mode, after `data X: a: Int64, a: String end`,
`make_dataframe` returns for `!X` a definition with the two fields at the
addresses 2 and 3, both named `a`, and looking `a` up in the scope of that
definition yields the second field only, not the first. -/
theorem make_dataframe_duplicate_field_hidden :
    ∃ hir st st', visitModule sampleEnv 5 10 interactiveState duplicateFieldProgram =
        .ok hir st ∧
      st.sema_err_ = [] ∧
      make_dataframe 5 st "!X" = some (.UDT "!X" 1, st') ∧
      (st'.heap.datadef 1).body = [2, 3] ∧
      (st'.heap.decl 2).name = "a" ∧ (st'.heap.decl 2).type = .Array (.VVMType 1) ∧
      (st'.heap.decl 3).name = "a" ∧
      st'.table.entries (st'.heap.datadef 1).scope "a" = [.DeclRef 3] :=
  ⟨_, _, _, rfl, rfl, rfl, rfl, rfl, rfl, rfl, rfl⟩

/-- C27: in `shadowState`, where the name `X` is not changed by the calls,
a call of `make_dataframe` for `!X` returns the new definition at address 3
and a second call directly after it returns another new definition, at
address 4, and pushes another scope. -/
theorem make_dataframe_not_idempotent :
    ∃ st₁ st₂, shadowState.sema_err_ = [] ∧
      make_dataframe 5 shadowState "!X" = some (.UDT "!X" 3, st₁) ∧
      make_dataframe 5 st₁ "!X" = some (.UDT "!X" 4, st₂) ∧
      get_underlying_udt 5 shadowState "!X" = some (some 2) ∧
      get_underlying_udt 5 st₁ "!X" = some (some 2) ∧
      st₂.table.symbol_table_.length = st₁.table.symbol_table_.length + 1 :=
  ⟨_, _, rfl, rfl, rfl, rfl, rfl, rfl⟩

/-- C30: in interactive mode `data X: a: Int64, a: String end` is analysed
without a diagnostic; the definition has the two fields at the addresses 0
and 1, with the offsets 0 and 1, and looking `a` up in its scope yields the
second field only. -/
theorem data_definition_duplicate_field_hidden :
    ∃ hir st, visitModule sampleEnv 5 10 interactiveState duplicateFieldProgram =
        .ok hir st ∧
      st.sema_err_ = [] ∧
      (st.heap.datadef 0).body = [0, 1] ∧
      (st.heap.decl 0).name = "a" ∧ (st.heap.decl 0).offset = 0 ∧
      (st.heap.decl 1).name = "a" ∧ (st.heap.decl 1).offset = 1 ∧
      (st.heap.datadef 0).scope = 1 ∧
      st.table.entries 1 "a" = [.DeclRef 1] :=
  ⟨_, _, rfl, rfl, rfl, rfl, rfl, rfl, rfl, rfl, rfl⟩


/-! ## The generic branch of `visitFunctionCall` -/

theorem keepsStack_congr {α : Type} {st s : SemaState} {r : Result α}
    (hs : s.rettype_stack_ = st.rettype_stack_) (hr : KeepsStack s r) : KeepsStack st r := by
  cases r with
  | ok v s₁ => exact hr.trans hs
  | throw m s₁ => exact hr
  | stuck => trivial

theorem keepsStack_bind {α β : Type} {st : SemaState} {r : Result α}
    {f : α → SemaState → Result β} (hr : KeepsStack st r)
    (hf : ∀ v s, s.rettype_stack_ = st.rettype_stack_ → KeepsStack st (f v s)) :
    KeepsStack st (r.bind f) := by
  cases r with
  | ok v s₁ => exact hf v s₁ hr
  | throw m s₁ => exact hr
  | stuck => trivial

theorem keepsStack_ofOption {α : Type} {st : SemaState} {o : Option (α × SemaState)}
    (h : ∀ v s, o = some (v, s) → s.rettype_stack_ = st.rettype_stack_) :
    KeepsStack st (Result.ofOption o) := by
  cases o with
  | none => trivial
  | some p => exact h p.1 p.2 rfl

theorem keepsStack_visit_list {α β : Type} {f : SemaState → α → Result β}
    (hf : ∀ s a, KeepsStack s (f s a)) :
    ∀ (l : List α) (st : SemaState), KeepsStack st (visit_list f st l) := by
  intro l
  induction l with
  | nil => intro st; exact rfl
  | cons a l ih =>
      intro st
      simp only [Sema.visit_list]
      refine keepsStack_bind (hf st a) (fun b s₁ hs₁ => ?_)
      refine keepsStack_bind (keepsStack_congr hs₁ (ih s₁)) (fun bs s₂ hs₂ => ?_)
      exact hs₂

theorem keepsStack_visit_option {α β : Type} {f : SemaState → α → Result β}
    (hf : ∀ s a, KeepsStack s (f s a)) (st : SemaState) (o : Option α) :
    KeepsStack st (visit_option f st o) := by
  cases o with
  | none => exact rfl
  | some a =>
      simp only [Sema.visit_option]
      exact keepsStack_bind (hf st a) (fun b s₁ hs₁ => hs₁)

theorem keepsStack_keepsDepth {α : Type} {st : SemaState} {r : Result α}
    (hr : KeepsStack st r) : KeepsDepth st r := by
  cases r with
  | ok v s₁ => exact congrArg List.length hr
  | throw m s₁ => exact hr.elim
  | stuck => trivial

theorem keepsDepth_congr {α : Type} {st s : SemaState} {r : Result α}
    (hs : s.rettype_stack_.length = st.rettype_stack_.length) (hr : KeepsDepth s r) :
    KeepsDepth st r := by
  cases r with
  | ok v s₁ => exact hr.trans hs
  | throw m s₁ =>
      show st.rettype_stack_.length ≤ s₁.rettype_stack_.length
      rw [← hs]; exact hr
  | stuck => trivial

theorem keepsDepth_bind {α β : Type} {st : SemaState} {r : Result α}
    {f : α → SemaState → Result β} (hr : KeepsDepth st r)
    (hf : ∀ v s, s.rettype_stack_.length = st.rettype_stack_.length → KeepsDepth st (f v s)) :
    KeepsDepth st (r.bind f) := by
  cases r with
  | ok v s₁ => exact hf v s₁ hr
  | throw m s₁ => exact hr
  | stuck => trivial

theorem keepsDepth_visit_list {α β : Type} {f : SemaState → α → Result β}
    (hf : ∀ s a, KeepsDepth s (f s a)) :
    ∀ (l : List α) (st : SemaState), KeepsDepth st (visit_list f st l) := by
  intro l
  induction l with
  | nil => intro st; exact rfl
  | cons a l ih =>
      intro st
      simp only [Sema.visit_list]
      refine keepsDepth_bind (hf st a) (fun b s₁ hs₁ => ?_)
      refine keepsDepth_bind (keepsDepth_congr hs₁ (ih s₁)) (fun bs s₂ hs₂ => ?_)
      exact hs₂

/-! The operations on the table and the heap leave the stack alone. -/

theorem do_store_symbol_stack (fuel : Nat) (st st₁ : SemaState) (symbol : String)
    (ptr : resolved_t) (b : Bool) (h : do_store_symbol fuel st symbol ptr = some (b, st₁)) :
    st₁.rettype_stack_ = st.rettype_stack_ := by
  rw [(do_store_symbol_eq fuel st st₁ symbol ptr b h).1]

theorem do_pop_scope_stack (st st₁ : SemaState) (h : do_pop_scope st = some st₁) :
    st₁.rettype_stack_ = st.rettype_stack_ := by
  rw [do_pop_scope_eq st st₁ h]

theorem do_remove_symbol_ref_stack (st st₁ : SemaState) (symbol : String) (ptr : resolved_t)
    (h : do_remove_symbol_ref st symbol ptr = some st₁) :
    st₁.rettype_stack_ = st.rettype_stack_ := by
  rw [do_remove_symbol_ref_eq st st₁ symbol ptr h]

theorem make_dataframe_fields_stack (fuel : Nat) :
    ∀ (l : List Nat) (st st₁ : SemaState) (body : List Nat),
      make_dataframe_fields fuel st l = some (body, st₁) →
      st₁.rettype_stack_ = st.rettype_stack_ := by
  intro l
  induction l with
  | nil =>
      intro st st₁ body h
      simp only [make_dataframe_fields, Option.some.injEq, Prod.mk.injEq] at h
      rw [← h.2]
  | cons b bs ih =>
      intro st st₁ body h
      simp only [make_dataframe_fields, SemaState.new_declaration] at h
      cases hs : do_store_symbol fuel
          { st with
            heap := { st.heap with
              decl := Function.update st.heap.decl st.next_decl
                ⟨(st.heap.decl b).name, .Array (st.heap.decl b).type, (st.heap.decl b).offset⟩ }
            next_decl := st.next_decl + 1 }
          (st.heap.decl b).name (.DeclRef st.next_decl) with
      | none => rw [hs] at h; simp at h
      | some p =>
          obtain ⟨x, st₂⟩ := p
          rw [hs] at h
          simp only at h
          cases hm : make_dataframe_fields fuel st₂ bs with
          | none => rw [hm] at h; simp at h
          | some q =>
              obtain ⟨body', st₃⟩ := q
              rw [hm] at h
              simp only [Option.some.injEq, Prod.mk.injEq] at h
              rw [← h.2, ih _ _ _ hm, do_store_symbol_stack _ _ _ _ _ _ hs]

theorem new_dataframe_stack (fuel : Nat) (st st₁ : SemaState) (name : String) (node : Nat)
    (t : datatype_t) (h : new_dataframe fuel st name node = some (t, st₁)) :
    st₁.rettype_stack_ = st.rettype_stack_ := by
  unfold new_dataframe at h
  simp only at h
  cases hf : make_dataframe_fields fuel (do_push_scope st) (st.heap.datadef node).body with
  | none => rw [hf] at h; simp at h
  | some p =>
      obtain ⟨body, st₂⟩ := p
      rw [hf] at h
      simp only at h
      cases hp : do_pop_scope st₂ with
      | none => rw [hp] at h; simp at h
      | some st₃ =>
          rw [hp] at h
          simp only [SemaState.new_DataDef] at h
          cases hs : do_store_symbol fuel
              { st₃ with
                heap := { st₃.heap with
                  datadef := Function.update st₃.heap.datadef st₃.next_datadef
                    ⟨name, body, (do_push_scope st).table.current_scope_⟩ }
                next_datadef := st₃.next_datadef + 1 }
              name (.DataRef st₃.next_datadef) with
          | none => rw [hs] at h; simp at h
          | some q =>
              obtain ⟨x, st₅⟩ := q
              rw [hs] at h
              simp only [Option.some.injEq, Prod.mk.injEq] at h
              rw [← h.2, do_store_symbol_stack _ _ _ _ _ _ hs]
              show st₃.rettype_stack_ = _
              rw [do_pop_scope_stack _ _ hp, make_dataframe_fields_stack _ _ _ _ _ hf]
              rfl

theorem make_dataframe_stack (fuel : Nat) (st st₁ : SemaState) (name : String)
    (t : datatype_t) (h : make_dataframe fuel st name = some (t, st₁)) :
    st₁.rettype_stack_ = st.rettype_stack_ := by
  unfold make_dataframe at h
  cases hu : get_underlying_udt fuel st name with
  | none => rw [hu] at h; simp at h
  | some o =>
      rw [hu] at h
      cases o with
      | none =>
          simp only [Option.some.injEq, Prod.mk.injEq] at h
          rw [← h.2]
      | some node =>
          simp only at h
          cases hf : find_symbol st.heap st.table fuel name with
          | none => rw [hf] at h; simp at h
          | some p =>
              obtain ⟨resolveds, flag⟩ := p
              rw [hf] at h
              simp only at h
              cases he : existing_dataframe st.heap fuel node resolveds with
              | none => rw [he] at h; simp at h
              | some o =>
                  rw [he] at h
                  cases o with
                  | none => exact new_dataframe_stack fuel st st₁ name node t h
                  | some ref =>
                      cases ref <;> simp at h
                      rw [← h.2]

theorem error_stack (st : SemaState) (m : String) :
    (st.error m).rettype_stack_ = st.rettype_stack_ := rfl

theorem ite_error_stack (c : Prop) [Decidable c] (st : SemaState) (m : String) :
    (if c then st.error m else st).rettype_stack_ = st.rettype_stack_ := by
  split <;> rfl

theorem ite_error_stack_else (c : Prop) [Decidable c] (st : SemaState) (m : String) :
    (if c then st else st.error m).rettype_stack_ = st.rettype_stack_ := by
  split <;> rfl

theorem dataframe_up_front_stack (fuel : Nat) (st st₁ : SemaState) (s : String)
    (h : dataframe_up_front fuel st s = some st₁) :
    st₁.rettype_stack_ = st.rettype_stack_ := by
  unfold dataframe_up_front at h
  by_cases hc : first_char s = '!'
  · rw [if_pos hc] at h
    cases hm : make_dataframe fuel st s with
    | none => rw [hm] at h; simp at h
    | some p =>
        rw [hm] at h
        simp only [Option.some.injEq] at h
        rw [← h]
        exact make_dataframe_stack fuel st p.2 s p.1 hm
  · rw [if_neg hc] at h
    simp only [Option.some.injEq] at h
    rw [← h]

theorem visitId_keeps (fuel : Nat) (st : SemaState) (s : String) :
    KeepsStack st (visitId fuel st s) := by
  unfold visitId
  cases hd : dataframe_up_front fuel st s with
  | none => trivial
  | some st₁ =>
      simp only
      cases hf : find_symbol st₁.heap st₁.table fuel s with
      | none => trivial
      | some p =>
          simp only [KeepsStack, ite_error_stack]
          exact dataframe_up_front_stack fuel st st₁ s hd

theorem fill_args_stack :
    ∀ (as : List datatype_t) (st st₁ : SemaState) (ds : List Nat) (ts : List datatype_t)
      (l : List Nat), fill_args st ds ts as = some (l, st₁) →
      st₁.rettype_stack_ = st.rettype_stack_ := by
  intro as
  induction as with
  | nil =>
      intro st st₁ ds ts l h
      simp only [fill_args, Option.some.injEq, Prod.mk.injEq] at h
      rw [← h.2]
  | cons a as ih =>
      intro st st₁ ds ts l h
      cases ds with
      | nil => simp [fill_args] at h
      | cons d ds =>
          cases ts with
          | nil => simp [fill_args] at h
          | cons t ts =>
              simp only [fill_args, SemaState.new_declaration] at h
              split at h
              · simp at h
              · rename_i new_args st₂ hr
                simp only [Option.some.injEq, Prod.mk.injEq] at h
                rw [← h.2, ih _ _ _ _ _ hr]

theorem call_generic_stack (vm : VVM) (fuel : Nat) (st st₁ : SemaState) (generic : Nat)
    (args : List datatype_t) (func : Option HIR.expr_t)
    (h : call_generic vm fuel st generic args = some (func, st₁)) :
    st₁.rettype_stack_ = st.rettype_stack_ := by
  unfold call_generic at h
  split at h
  · simp at h
  · simp only [Option.some.injEq, Prod.mk.injEq] at h; rw [← h.2]
  · simp only at h
    split at h
    · simp at h
    · split at h
      · split at h
        · simp at h
        · split at h
          · simp at h
          · rename_i new_args st₂ hfill
            simp only [SemaState.new_FunctionDef, SemaState.set_GenericFunctionDef,
              Option.some.injEq, Prod.mk.injEq] at h
            rw [← h.2]
            show st₂.rettype_stack_ = _
            exact fill_args_stack _ _ _ _ _ _ hfill
      · simp only [Option.some.injEq, Prod.mk.injEq] at h; rw [← h.2]; rfl

theorem function_call_tail_keeps (vm : VVM) (fuel : Nat) (st : SemaState) (func : HIR.expr_t)
    (args : List HIR.expr_t) : KeepsStack st (function_call_tail vm fuel st func args) := by
  unfold function_call_tail
  simp only
  split
  · trivial
  · rename_i func₁ st₁ hres
    show st₁.rettype_stack_ = st.rettype_stack_
    split at hres
    · split at hres
      · simp at hres
      · rename_i f' s' hc
        simp only [Option.some.injEq, Prod.mk.injEq] at hres
        rw [← hres.2]; exact call_generic_stack _ _ _ _ _ _ _ hc
      · rename_i s' hc
        simp only [Option.some.injEq, Prod.mk.injEq] at hres
        rw [← hres.2]; exact call_generic_stack _ _ _ _ _ _ _ hc
    · split at hres
      · split at hres
        · simp at hres
        · simp only [Option.some.injEq, Prod.mk.injEq] at hres; rw [← hres.2]; rfl
        · simp only [Option.some.injEq, Prod.mk.injEq] at hres; rw [← hres.2]
      · split at hres
        · simp at hres
        · simp only [Option.some.injEq, Prod.mk.injEq] at hres
          rw [← hres.2]; exact ite_error_stack_else _ _ _

theorem member_tail_keeps (st : SemaState) (value : HIR.expr_t) (member : String) :
    KeepsStack st (member_tail st value member) := by
  unfold member_tail
  simp only
  split
  · trivial
  · simp only [KeepsStack, ite_error_stack]

theorem list_check_stack (vm : VVM) (fuel : Nat) (expected : datatype_t) :
    ∀ (l : List HIR.expr_t) (st st₁ : SemaState),
      list_check vm fuel expected st l = some st₁ → st₁.rettype_stack_ = st.rettype_stack_ := by
  intro l
  induction l with
  | nil =>
      intro st st₁ h
      simp only [list_check, Option.some.injEq] at h
      rw [← h]
  | cons e es ih =>
      intro st st₁ h
      simp only [list_check] at h
      split at h
      · simp at h
      · exact ih _ _ h
      · rw [ih _ _ h]; rfl

theorem list_tail_keeps (vm : VVM) (fuel : Nat) (st : SemaState) (values : List HIR.expr_t) :
    KeepsStack st (list_tail vm fuel st values) := by
  unfold list_tail
  simp only
  split
  · trivial
  · rename_i st₁ hc
    have h1 := list_check_stack _ _ _ _ _ _ hc
    split <;> simp only [KeepsStack, ite_error_stack, h1]

theorem declaration_tail_stack (env : Env) (fuel : Nat) (st st₁ : SemaState) (start : Nat)
    (name : String) (type : datatype_t) (value : Option datatype_t) (n : Nat)
    (h : declaration_tail env fuel st start name type value = some (n, st₁)) :
    st₁.rettype_stack_ = st.rettype_stack_ := by
  unfold declaration_tail at h
  cases hc : declaration_checks env.vm fuel st type value with
  | none => rw [hc] at h; simp at h
  | some p =>
      obtain ⟨t, st₃⟩ := p
      rw [hc] at h
      obtain ⟨new, hnew, -, -⟩ := declaration_checks_errors env.vm fuel st st₃ type t value hc
      subst hnew
      simp only [SemaState.new_declaration] at h
      split at h
      · split at h
        · simp at h
        · rename_i st₅ hs
          simp only [Option.some.injEq, Prod.mk.injEq] at h
          rw [← h.2, do_store_symbol_stack _ _ _ _ _ _ hs]
          rfl
        · rename_i st₅ hs
          simp only [Option.some.injEq, Prod.mk.injEq] at h
          rw [← h.2, error_stack, do_store_symbol_stack _ _ _ _ _ _ hs]
          rfl
      · simp only [Option.some.injEq, Prod.mk.injEq] at h
        rw [← h.2]
        rfl

theorem visitDeclaration_keeps (env : Env) (fuel : Nat)
    (visit : SemaState → AST.expr_t → Result HIR.expr_t)
    (hv : ∀ s e, KeepsStack s (visit s e)) (st : SemaState) (node : AST.declaration_t) :
    KeepsStack st (visitDeclaration env fuel visit st node) := by
  unfold visitDeclaration
  simp only
  refine keepsStack_bind (keepsStack_congr (ite_error_stack _ _ _)
    (keepsStack_visit_option hv _ _)) (fun explicit_type s₂ hs₂ => ?_)
  have htyped : ∀ (p : datatype_t × SemaState),
      p = (match explicit_type with
        | some e =>
            if is_kind_type e.type then (get_underlying_type e.type, s₂)
            else
              (.null, s₂.error ("Error: declaration for " ++ node.name ++
                " has invalid type\n"))
        | none => (.null, s₂)) → p.2.rettype_stack_ = st.rettype_stack_ := by
    intro p hp
    rw [hp]
    split
    · split <;> exact hs₂
    · exact hs₂
  refine keepsStack_bind (keepsStack_congr (htyped _ rfl)
    (keepsStack_visit_option hv _ _)) (fun value s₃ hs₃ => ?_)
  split
  · trivial
  · rename_i n s₄ ht
    show s₄.rettype_stack_ = _
    rw [declaration_tail_stack _ _ _ _ _ _ _ _ _ ht, hs₃]

theorem visit_fields_keeps (env : Env) (fuel : Nat)
    (visit : SemaState → AST.expr_t → Result HIR.expr_t)
    (hv : ∀ s e, KeepsStack s (visit s e)) :
    ∀ (l : List AST.declaration_t) (st : SemaState) (offset : Nat),
      KeepsStack st (visit_fields env fuel visit st offset l) := by
  intro l
  induction l with
  | nil => intro st offset; exact rfl
  | cons b bs ih =>
      intro st offset
      simp only [visit_fields]
      refine keepsStack_bind (visitDeclaration_keeps env fuel visit hv st b) (fun d s₁ hs₁ => ?_)
      refine keepsStack_bind (keepsStack_congr (s := s₁.set_declaration d.ref _) hs₁ (ih _ _))
        (fun ds s₃ hs₃ => hs₃)

theorem visitDataDef_keeps (env : Env) (fuel : Nat)
    (visit : SemaState → AST.expr_t → Result HIR.expr_t)
    (hv : ∀ s e, KeepsStack s (visit s e)) (st : SemaState) (name : String)
    (body : List AST.declaration_t) :
    KeepsStack st (visitDataDef env fuel visit st name body) := by
  unfold visitDataDef
  simp only [SemaState.new_DataDef]
  split
  · trivial
  · rename_i stored st₃ hs
    have h3 : st₃.rettype_stack_ = st.rettype_stack_ := by
      rw [do_store_symbol_stack _ _ _ _ _ _ hs]
      exact ite_error_stack _ _ _
    refine keepsStack_bind (keepsStack_congr (s := do_push_scope _) ?_
      (visit_fields_keeps env fuel visit hv _ _ _)) (fun fields s₆ hs₆ => ?_)
    · show (if stored = true then st₃ else st₃.error _).rettype_stack_ = _
      rw [ite_error_stack_else, h3]
    · split
      · trivial
      · rename_i st₇ hp
        have h7 : st₇.rettype_stack_ = st.rettype_stack_ := by
          rw [do_pop_scope_stack _ _ hp, hs₆]
        split
        · trivial
        · rename_i st₈ hr
          show st₈.rettype_stack_ = _
          split at hr
          · rw [do_remove_symbol_ref_stack _ _ _ _ hr, h7]
          · simp only [Option.some.injEq] at hr
            rw [← hr, h7]

theorem create_datatype_keeps (env : Env) (fuel : Nat)
    (visit : SemaState → AST.expr_t → Result HIR.expr_t)
    (hv : ∀ s e, KeepsStack s (visit s e)) (st : SemaState) (type_name type_def : String) :
    KeepsStack st (create_datatype env fuel visit st type_name type_def) := by
  unfold create_datatype
  split
  · exact visitDataDef_keeps env fuel visit hv st _ _
  · trivial

theorem anon_dataframe_keeps (env : Env) (fuel : Nat)
    (visit : SemaState → AST.expr_t → Result HIR.expr_t)
    (hv : ∀ s e, KeepsStack s (visit s e)) (st : SemaState) (ts : String) :
    KeepsStack st (anon_dataframe env fuel visit st ts) := by
  unfold anon_dataframe
  simp only [anon_func_name]
  refine keepsStack_bind (keepsStack_congr (s := { st with counter := st.counter + 1 }) rfl
    (create_datatype_keeps env fuel visit hv _ _ _)) (fun _ s₂ hs₂ => ?_)
  exact keepsStack_ofOption (fun v s h => (make_dataframe_stack _ _ _ _ _ h).trans hs₂)

theorem visitAlias_keeps (visit : SemaState → AST.expr_t → Result HIR.expr_t)
    (hv : ∀ s e, KeepsStack s (visit s e)) (st : SemaState) (node : AST.expr_t × String) :
    KeepsStack st (visitAlias visit st node) := by
  unfold visitAlias
  simp only
  exact keepsStack_bind (keepsStack_congr (ite_error_stack _ _ _) (hv _ _))
    (fun value s₂ hs₂ => hs₂)

theorem visit_cols_keeps (visit : SemaState → AST.expr_t → Result HIR.expr_t)
    (hv : ∀ s e, KeepsStack s (visit s e)) (by_empty : Bool) :
    ∀ (l : List (AST.expr_t × String)) (st : SemaState),
      KeepsStack st (visit_cols visit by_empty st l) := by
  intro l
  induction l with
  | nil => intro st; exact rfl
  | cons c cs ih =>
      intro st
      simp only [visit_cols]
      refine keepsStack_bind (visitAlias_keeps visit hv st c) (fun col s₁ hs₁ => ?_)
      refine keepsStack_bind (keepsStack_congr ?_ (ih _)) (fun cols s₄ hs₄ => hs₄)
      rw [ite_error_stack, ite_error_stack, hs₁]

theorem visitQuery_keeps (env : Env) (fuel : Nat)
    (visit : SemaState → AST.expr_t → Result HIR.expr_t)
    (hv : ∀ s e, KeepsStack s (visit s e)) (st : SemaState) (table : AST.expr_t) (qt : Nat)
    (cols by_ : List (AST.expr_t × String)) (where_ : Option AST.expr_t) :
    KeepsStack st (visitQuery env fuel visit st table qt cols by_ where_) := by
  unfold visitQuery
  refine keepsStack_bind (hv st table) (fun table s₁ hs₁ => ?_)
  simp only
  refine keepsStack_bind (keepsStack_congr ?_
    (keepsStack_visit_list (visitAlias_keeps visit hv) _ _)) (fun by_ s₄ hs₄ => ?_)
  · show (if _ then s₁ else s₁.error _).rettype_stack_ = _
    rw [ite_error_stack_else, hs₁]
  refine keepsStack_bind ?_ (fun by_type s₅ hs₅ => ?_)
  · split
    · exact hs₄
    · exact keepsStack_congr hs₄ (anon_dataframe_keeps env fuel visit hv _ _)
  refine keepsStack_bind (keepsStack_congr hs₅ (visit_cols_keeps visit hv _ _ _))
    (fun cols s₆ hs₆ => ?_)
  refine keepsStack_bind ?_ (fun type s₇ hs₇ => ?_)
  · split
    · exact keepsStack_congr hs₆ (anon_dataframe_keeps env fuel visit hv _ _)
    · simp only [KeepsStack]
      rw [ite_error_stack, hs₆]
  refine keepsStack_bind (keepsStack_congr hs₇ (keepsStack_visit_option hv _ _))
    (fun where_ s₈ hs₈ => ?_)
  show (SemaState.set_preferred_scope _ none).rettype_stack_ = _
  simp only [SemaState.set_preferred_scope]
  split
  · exact hs₈
  · rw [ite_error_stack_else, hs₈]

/-- The visitor of expressions keeps the return-type stack and raises no
failure. -/
theorem visit_expr_keeps (env : Env) (fuel : Nat) :
    ∀ (depth : Nat) (st : SemaState) (node : AST.expr_t),
      KeepsStack st (visit_expr env fuel depth st node) := by
  intro depth
  induction depth with
  | zero => intro st node; trivial
  | succ n ih =>
      intro st node
      cases node with
      | Id s => exact visitId_keeps fuel st s
      | IntegerLiteral n => exact rfl
      | FloatingLiteral n => exact rfl
      | BoolLiteral b => exact rfl
      | Str s => exact rfl
      | Char c => exact rfl
      | Paren subexpr =>
          simp only [visit_expr]
          exact keepsStack_bind (ih st subexpr) (fun v s hs => hs)
      | FunctionCall func args =>
          simp only [visit_expr]
          refine keepsStack_bind (ih st func) (fun func s₁ hs₁ => ?_)
          refine keepsStack_bind (keepsStack_congr ?_ (keepsStack_visit_list ih _ _))
            (fun args s₃ hs₃ => ?_)
          · rw [ite_error_stack_else, hs₁]
          · exact keepsStack_congr hs₃ (function_call_tail_keeps _ _ _ _ _)
      | Member value member =>
          simp only [visit_expr]
          exact keepsStack_bind (ih st value)
            (fun value s₁ hs₁ => keepsStack_congr hs₁ (member_tail_keeps _ _ _))
      | List values =>
          simp only [visit_expr]
          exact keepsStack_bind (keepsStack_visit_list ih _ _)
            (fun values s₁ hs₁ => keepsStack_congr hs₁ (list_tail_keeps _ _ _ _))
      | Query table qt cols by_ where_ =>
          simp only [visit_expr]
          exact visitQuery_keeps env fuel _ ih st table qt cols by_ where_
      | BinOp left op right =>
          simp only [visit_expr]
          refine keepsStack_bind (ih st _) (fun result s₁ hs₁ => ?_)
          split
          · exact hs₁
          · trivial

theorem functionDefDepth_bind_keeps {α β : Type} {st : SemaState} {r : Result α}
    {f : α → SemaState → Result β} (hr : KeepsStack st r)
    (hf : ∀ v s, s.rettype_stack_ = st.rettype_stack_ → FunctionDefDepth st (f v s)) :
    FunctionDefDepth st (r.bind f) := by
  cases r with
  | ok v s₁ => exact hf v s₁ hr
  | throw m s₁ => exact hr.elim
  | stuck => trivial

theorem functionDefDepth_bind_body {α β : Type} {st s₉ : SemaState} {r : Result α}
    {f : α → SemaState → Result β} (hr : KeepsDepth s₉ r)
    (h9 : s₉.rettype_stack_.length = st.rettype_stack_.length + 1)
    (hf : ∀ v s, s.rettype_stack_.length = st.rettype_stack_.length + 1 →
      FunctionDefDepth st (f v s)) :
    FunctionDefDepth st (r.bind f) := by
  cases r with
  | ok v s₁ => exact hf v s₁ (hr.trans h9)
  | throw m s₁ =>
      show st.rettype_stack_.length < s₁.rettype_stack_.length
      have : s₉.rettype_stack_.length ≤ s₁.rettype_stack_.length := hr
      omega
  | stuck => trivial

theorem functionDefDepth_keepsDepth {α : Type} {st : SemaState} {r : Result α}
    (hr : FunctionDefDepth st r) : KeepsDepth st r := by
  cases r with
  | ok v s₁ => exact hr
  | throw m s₁ => exact Nat.le_of_lt hr
  | stuck => trivial

theorem explicit_return_type_stack (st : SemaState) (name : String) (e : Option HIR.expr_t) :
    (explicit_return_type st name e).2.rettype_stack_ = st.rettype_stack_ := by
  unfold explicit_return_type
  split
  · split <;> rfl
  · rfl

theorem function_shell_stack (st : SemaState) (name : String) (args : List Nat)
    (rettype : datatype_t) (is_generic : Bool) :
    (function_shell st name args rettype is_generic).2.2.2.rettype_stack_ =
      st.rettype_stack_ := by
  unfold function_shell
  simp only [SemaState.new_FunctionDef, SemaState.new_GenericFunctionDef]
  split <;> rfl

theorem function_def_tail_stack (vm : VVM) (fuel : Nat) (st st' : SemaState) (start : Nat)
    (name : String) (rettype r : datatype_t) (new_node : Nat) (ref : resolved_t)
    (h : function_def_tail vm fuel st start name rettype new_node ref = some (r, st')) :
    st'.rettype_stack_.length + 1 = st.rettype_stack_.length := by
  obtain ⟨_, rettypes, stack, _, _, _, _, -, hstk, -, -, -, hstack, -⟩ :=
    function_def_tail_spec vm fuel st st' start name rettype r new_node ref h
  rw [hstk, hstack]
  rfl

theorem visitFunctionDef_depth (env : Env) (fuel : Nat)
    (visit : SemaState → AST.expr_t → Result HIR.expr_t)
    (visit_body : SemaState → AST.stmt_t → Result HIR.stmt_t)
    (hv : ∀ s e, KeepsStack s (visit s e)) (hb : ∀ s b, KeepsDepth s (visit_body s b))
    (st : SemaState) (name : String) (args : List AST.declaration_t) (body : List AST.stmt_t)
    (explicit_rettype : Option AST.expr_t) :
    FunctionDefDepth st
      (visitFunctionDef env fuel visit visit_body st name args body explicit_rettype) := by
  unfold visitFunctionDef
  simp only
  refine functionDefDepth_bind_keeps (keepsStack_visit_option hv _ _)
    (fun explicit_rettype s₁ hs₁ => ?_)
  have ht : (explicit_return_type s₁ name explicit_rettype).2.rettype_stack_ =
      st.rettype_stack_ := by rw [explicit_return_type_stack, hs₁]
  refine functionDefDepth_bind_keeps (keepsStack_congr (s := do_push_scope _) ht
    (keepsStack_visit_list (visitDeclaration_keeps env fuel visit hv) _ _))
    (fun hargs s₄ hs₄ => ?_)
  split
  · trivial
  · rename_i stored st₇ hs
    have h7 : st₇.rettype_stack_ = st.rettype_stack_ := by
      rw [do_store_symbol_stack _ _ _ _ _ _ hs]
      show (function_shell _ _ _ _ _).2.2.2.rettype_stack_ = _
      rw [function_shell_stack, hs₄]
    refine functionDefDepth_bind_body (keepsDepth_visit_list hb _ _) ?_
      (fun hbody s₁₀ hs₁₀ => ?_)
    · show ([] :: (if stored = true then st₇ else st₇.error _).rettype_stack_).length = _
      rw [ite_error_stack_else, h7]
      rfl
    · split
      · trivial
      · rename_i r st₁₁ htail
        have := function_def_tail_stack _ _ _ _ _ _ _ _ _ _ htail
        split <;> (show st₁₁.rettype_stack_.length = _; omega)

theorem return_tail_depth (st : SemaState) (e : Option HIR.expr_t) :
    (return_tail st e).rettype_stack_.length = st.rettype_stack_.length := by
  unfold return_tail
  split
  · rename_i hs; rw [error_stack, hs]
  · rename_i top stack hs; rw [hs]; rfl

theorem check_conditional_stack (vm : VVM) (st : SemaState) (test : HIR.expr_t) :
    (check_conditional vm st test).rettype_stack_ = st.rettype_stack_ := by
  unfold check_conditional
  exact ite_error_stack_else _ _ _

theorem visit_block_depth (visit : SemaState → AST.stmt_t → Result HIR.stmt_t)
    (hb : ∀ s b, KeepsDepth s (visit s b)) (st : SemaState) (body : List AST.stmt_t) :
    KeepsDepth st (visit_block visit st body) := by
  unfold visit_block
  refine keepsDepth_bind (keepsDepth_congr (s := do_push_scope st) rfl
    (keepsDepth_visit_list hb _ _)) (fun body s₁ hs₁ => ?_)
  split
  · trivial
  · rename_i st₂ hp
    show st₂.rettype_stack_.length = _
    rw [do_pop_scope_stack _ _ hp, hs₁]

theorem assign_tail_stack (vm : VVM) (fuel : Nat) (st st₁ : SemaState)
    (target value : HIR.expr_t) (h : assign_tail vm fuel st target value = some st₁) :
    st₁.rettype_stack_ = st.rettype_stack_ := by
  unfold assign_tail at h
  simp only at h
  split at h
  · simp at h
  · simp only [Option.some.injEq] at h
    rw [← h, ite_error_stack, ite_error_stack_else, ite_error_stack]

/-- The visitor of statements keeps the depth of the return-type stack when
it returns, and leaves at least that depth when it raises a failure. -/
theorem visit_stmt_depth (env : Env) (fuel : Nat) :
    ∀ (depth : Nat) (st : SemaState) (node : AST.stmt_t),
      KeepsDepth st (visit_stmt env fuel depth st node) := by
  intro depth
  induction depth with
  | zero => intro st node; trivial
  | succ n ih =>
      intro st node
      have hv := visit_expr_keeps env fuel n
      cases node with
      | FunctionDef name args body explicit_rettype docstring =>
          simp only [visit_stmt]
          exact (functionDefDepth_keepsDepth (visitFunctionDef_depth env fuel _ _ hv ih st name args body
            explicit_rettype))
      | DataDef name body =>
          simp only [visit_stmt]
          exact (keepsStack_keepsDepth (visitDataDef_keeps env fuel _ hv st name body))
      | Return value =>
          simp only [visit_stmt]
          refine keepsDepth_bind (keepsStack_keepsDepth (keepsStack_visit_option hv _ _))
            (fun e s₁ hs₁ => ?_)
          show (return_tail s₁ e).rettype_stack_.length = _
          rw [return_tail_depth, hs₁]
      | If test body orelse =>
          simp only [visit_stmt]
          refine keepsDepth_bind (keepsStack_keepsDepth (hv st test)) (fun test s₁ hs₁ => ?_)
          refine keepsDepth_bind (keepsDepth_congr ?_ (visit_block_depth _ ih _ _))
            (fun body s₂ hs₂ => ?_)
          · rw [check_conditional_stack, hs₁]
          · exact keepsDepth_bind (keepsDepth_congr hs₂ (visit_block_depth _ ih _ _))
              (fun orelse s₃ hs₃ => hs₃)
      | While test body =>
          simp only [visit_stmt]
          refine keepsDepth_bind (keepsStack_keepsDepth (hv st test)) (fun test s₁ hs₁ => ?_)
          refine keepsDepth_bind (keepsDepth_congr ?_ (visit_block_depth _ ih _ _))
            (fun body s₂ hs₂ => hs₂)
          rw [check_conditional_stack, hs₁]
      | Import => exact Nat.le_refl _
      | ImportFrom => exact Nat.le_refl _
      | Decl dt decls =>
          simp only [visit_stmt]
          exact keepsDepth_bind
            (keepsStack_keepsDepth (keepsStack_visit_list (visitDeclaration_keeps env fuel _ hv) _ _))
            (fun decls s₁ hs₁ => hs₁)
      | Assign target value =>
          simp only [visit_stmt]
          refine keepsDepth_bind (keepsStack_keepsDepth (hv st target)) (fun target s₁ hs₁ => ?_)
          refine keepsDepth_bind (keepsDepth_congr hs₁ (keepsStack_keepsDepth (hv s₁ value)))
            (fun value s₂ hs₂ => ?_)
          split
          · trivial
          · rename_i st₃ ha
            show st₃.rettype_stack_.length = _
            rw [assign_tail_stack _ _ _ _ _ _ ha, hs₂]
      | Del target =>
          simp only [visit_stmt]
          exact keepsDepth_bind (keepsStack_keepsDepth (keepsStack_visit_list hv _ _))
            (fun target s₁ hs₁ => hs₁)
      | Expr value =>
          simp only [visit_stmt]
          exact keepsDepth_bind (keepsStack_keepsDepth (hv st value)) (fun value s₁ hs₁ => hs₁)

/-- For every function definition made of the statements and expressions
of `visit_stmt` and `visit_expr`: when the visit of the definition returns,
with or without diagnostics, the return-type stack has the depth it had
before the visit; when the visit is left by the failure `not yet
implemented`, raised while the body is visited, the stack is deeper than
before: the frame pushed for the definition is not popped. -/
theorem function_def_stack_depth (env : Env) (fuel depth : Nat) (st : SemaState)
    (name : String) (args : List AST.declaration_t) (body : List AST.stmt_t)
    (explicit_rettype : Option AST.expr_t) (docstring : String) :
    FunctionDefDepth st
      (visit_stmt env fuel depth st
        (.FunctionDef name args body explicit_rettype docstring)) := by
  cases depth with
  | zero => trivial
  | succ n =>
      simp only [visit_stmt]
      exact visitFunctionDef_depth env fuel _ _ (visit_expr_keeps env fuel n)
        (visit_stmt_depth env fuel n) st name args body explicit_rettype


/-! ## List literals and redefinitions -/

/-- C32: the list literal `[[], [1], ["a"]]` is analysed without a
diagnostic, with elements of the types `[_]`, `[Int64]` and `[String]`; the
types of the second and the third element are not `is_same_type`: every
element is compared with the first one only. -/
theorem list_elements_compared_with_first_only :
    ∃ st e₁ e₂ e₃ n₁ n₂ n₃ type name,
      visitModule sampleEnv 5 10 sampleState mixedListProgram =
        .ok ⟨[.Expr (.List [.List e₁ (.Array .null) n₁, .List e₂ (.Array (.VVMType 1)) n₂,
          .List e₃ (.Array (.VVMType 4)) n₃] type name)], ""⟩ st ∧
      st.sema_err_ = [] ∧
      is_same_type st.heap 5 (.Array (.VVMType 1)) (.Array (.VVMType 4)) = some false :=
  ⟨_, _, _, _, _, _, _, _, _, rfl, rfl, rfl⟩

/-- C40: in an interactive session where `f` resolves to the definition at
address 0, the redefinition `def f(): return x end` replaces that entry,
writes diagnostics, and leaves `f` with an empty list: `find_symbol` does not
return the list it returned before the visit. -/
theorem failed_redefinition_destroys_definition :
    ∃ hir st,
      find_symbol definedState.heap definedState.table 5 "f" = some ([.FuncRef 0], false) ∧
      visitModule sampleEnv 5 10 definedState badRedefinitionProgram = .ok hir st ∧
      st.sema_err_ = ["Error: symbol x was not found\n",
        "Error: unable to determine return type for function f\n"] ∧
      find_symbol st.heap st.table 5 "f" = some ([], false) :=
  ⟨_, _, rfl, rfl, rfl, rfl⟩


/-! ## The state the constructor leaves -/

theorem lookup_eq_of_entries_cons (st : SemaVisitor) (idx : Nat) (symbol : String)
    (r : resolved_t) (rs : Resolveds) (h : st.entries idx symbol = r :: rs) :
    st.lookup idx symbol = some (some (r :: rs)) := by
  unfold SemaVisitor.entries at h
  split at h
  · rename_i resolveds hl; rw [hl, h]
  · simp at h

/-- A store keeps the number of scopes, the current scope, the parent links
and the mode. -/
theorem store_symbol_shape (h : Heap) (fuel : Nat) (st st' : SemaVisitor) (symbol : String)
    (ptr : resolved_t) (b : Bool) (hres : store_symbol h fuel st symbol ptr = some (b, st')) :
    st'.symbol_table_.length = st.symbol_table_.length ∧
      st'.current_scope_ = st.current_scope_ ∧ st'.interactive_ = st.interactive_ ∧
      (∀ i, st'.previous i = st.previous i) ∧
      (∀ i n, (i ≠ st.current_scope_ ∨ n ≠ symbol) → st'.lookup i n = st.lookup i n) := by
  rcases store_symbol_cases h fuel st st' symbol ptr b hres with
    ⟨-, heq, -⟩ | ⟨-, ⟨hc, -, hi, hl, hp, hlk⟩, -⟩
  · subst heq; exact ⟨rfl, rfl, rfl, fun _ => rfl, fun _ _ _ => rfl⟩
  · exact ⟨hl, hc, hi, hp, hlk⟩

/-- In non-interactive mode a list that holds a compiler reference alone
stays as it is under every store. -/
theorem store_symbol_keeps_compiler_ref (h : Heap) (fuel : Nat) (st st' : SemaVisitor)
    (symbol name : String) (ptr : resolved_t) (b : Bool) (code : Nat) (type : datatype_t)
    (hmode : st.interactive_ = false)
    (hent : st.entries st.current_scope_ name = [.CompilerRef code type])
    (hres : store_symbol h fuel st symbol ptr = some (b, st')) :
    st'.entries st.current_scope_ name = [.CompilerRef code type] := by
  rcases store_symbol_cases h fuel st st' symbol ptr b hres with
    ⟨-, heq, -⟩ | ⟨-, ⟨-, -, -, -, -, hlk⟩, hc⟩
  · subst heq; exact hent
  · by_cases hn : name = symbol
    · subst hn
      have hl := lookup_eq_of_entries_cons st _ _ _ _ hent
      rcases hc with ⟨hnone, -⟩ | ⟨rs, rs', hrs, hloop, -⟩
      · rw [hl] at hnone; simp at hnone
      · rw [hl] at hrs
        simp only [Option.some.injEq] at hrs
        subst hrs
        rcases store_loop_cases h fuel st.interactive_ ptr _ true rs' hloop with
          ⟨hall, -, -⟩ | ⟨k, e, -, -, -, hb, -⟩
        · have := hall (.CompilerRef code type) (List.mem_singleton.mpr rfl)
          simp [is_overloadable] at this
        · rw [hmode] at hb; simp at hb
    · rw [entries_eq_of_lookup_eq st st' _ _ (hlk _ _ (Or.inr hn))]
      exact hent

theorem store_all_spec (fuel : Nat) (name : String) (code : Nat) (type : datatype_t) :
    ∀ (l : List (String × resolved_t)) (st st' : SemaState),
      store_all fuel st l = some st' →
      st.table.interactive_ = false →
      st.table.entries st.table.current_scope_ name = [.CompilerRef code type] →
      st'.table.symbol_table_.length = st.table.symbol_table_.length ∧
        st'.table.current_scope_ = st.table.current_scope_ ∧
        (∀ i, st'.table.previous i = st.table.previous i) ∧
        st'.table.entries st.table.current_scope_ name = [.CompilerRef code type] := by
  intro l
  induction l with
  | nil =>
      intro st st' h _ hent
      simp only [store_all, Option.some.injEq] at h
      subst h
      exact ⟨rfl, rfl, fun _ => rfl, hent⟩
  | cons p l ih =>
      intro st st' h hmode hent
      obtain ⟨n, ref⟩ := p
      simp only [store_all] at h
      cases hs : do_store_symbol fuel st n ref with
      | none => rw [hs] at h; simp at h
      | some q =>
          obtain ⟨b, st₁⟩ := q
          rw [hs] at h
          simp only at h
          obtain ⟨-, hstore⟩ := do_store_symbol_eq fuel st st₁ n ref b hs
          obtain ⟨hl, hc, hi, hp, -⟩ := store_symbol_shape _ _ _ _ _ _ _ hstore
          have hent₁ := store_symbol_keeps_compiler_ref _ _ _ _ _ name _ _ code type hmode hent
            hstore
          obtain ⟨hl', hc', hp', he'⟩ := ih st₁ st' h (hi.trans hmode) (by rw [hc]; exact hent₁)
          refine ⟨hl'.trans hl, hc'.trans hc, fun i => (hp' i).trans (hp i), ?_⟩
          rw [← hc]; exact he'

/-- C37: whatever the list of built-ins is, the state the constructor leaves
has one scope only, the global scope 0, which is the current scope and its
own parent; the compiler intrinsic `store` is held by scope 0, and no scope
1 exists. -/
theorem constructor_single_scope (vm : VVM) (fuel : Nat) (kStore : Nat)
    (builtins : List (String × resolved_t)) (st : SemaState)
    (h : save_builtins vm fuel kStore initial_state builtins = some st) :
    st.table.symbol_table_.length = 1 ∧ st.table.current_scope_ = 0 ∧
      st.table.previous 0 = some 0 ∧
      st.table.entries 0 "store" =
        [.CompilerRef kStore (.FuncType [.null, .VVMType vm.Ss] .Void)] ∧
      ∀ n, st.table.lookup 1 n = none := by
  unfold save_builtins at h
  simp only [store_all] at h
  cases hs : do_store_symbol fuel initial_state "store"
      (.CompilerRef kStore (.FuncType [.null, .VVMType vm.Ss] .Void)) with
  | none => rw [hs] at h; simp at h
  | some q =>
      obtain ⟨b, st₁⟩ := q
      rw [hs] at h
      simp only at h
      obtain ⟨-, hstore⟩ := do_store_symbol_eq fuel _ st₁ _ _ b hs
      obtain ⟨hl, hc, hi, hp, -⟩ := store_symbol_shape _ _ _ _ _ _ _ hstore
      have hinit : initial_state.table.lookup initial_state.table.current_scope_ "store" =
          some none := rfl
      have hent : st₁.table.entries 0 "store" =
          [.CompilerRef kStore (.FuncType [.null, .VVMType vm.Ss] .Void)] := by
        rcases store_symbol_cases _ fuel _ _ _ _ b hstore with
          ⟨-, -, rs, rs', hlk, -⟩ | ⟨-, -, hcase⟩
        · rw [hinit] at hlk; simp at hlk
        · rcases hcase with ⟨-, hnew⟩ | ⟨rs, rs', hlk, -⟩
          · exact entries_of_lookup _ _ _ _ hnew
          · rw [hinit] at hlk; simp at hlk
      have hc₁ : st₁.table.current_scope_ = 0 := hc
      obtain ⟨hl', hc', hp', he'⟩ := store_all_spec fuel "store" kStore _ builtins st₁ st h
        (hi.trans rfl) (by rw [hc₁]; exact hent)
      rw [hc₁] at he'
      have hlen : st.table.symbol_table_.length = 1 := (hl'.trans hl).trans rfl
      refine ⟨hlen, hc'.trans hc₁, ((hp' 0).trans (hp 0)).trans rfl, he', fun n => ?_⟩
      unfold SemaVisitor.lookup
      rw [List.getElem?_eq_none (by omega)]

/-- The state the constructor leaves for the sample built-ins: `store` and
the type names are in scope 0. -/
theorem constructor_single_scope_witness :
    sampleState.table.symbol_table_.length = 1 ∧ sampleState.table.current_scope_ = 0 ∧
      sampleState.table.previous 0 = some 0 ∧
      sampleState.table.entries 0 "store" =
        [.CompilerRef 0 (.FuncType [.null, .VVMType sampleVM.Ss] .Void)] ∧
      ∀ n, sampleState.table.lookup 1 n = none :=
  constructor_single_scope sampleVM 1 0
    [("Int64", .VVMTypeRef 1), ("Float64", .VVMTypeRef 2), ("Bool", .VVMTypeRef 3),
      ("String", .VVMTypeRef 4)] sampleState rfl

/-- After construction with the sample built-ins there is no scope 1: the
table has one scope, looking `store` or `Int64` up in scope 1 finds no
scope, and both are held by scope 0. -/
theorem builtins_in_global_scope :
    sampleState.table.symbol_table_.length = 1 ∧
      sampleState.table.lookup 1 "store" = none ∧
      sampleState.table.lookup 1 "Int64" = none ∧
      sampleState.table.entries 0 "Int64" = [.VVMTypeRef 1] ∧
      sampleState.table.entries 0 "store" =
        [.CompilerRef 0 (.FuncType [.null, .VVMType 4] .Void)] :=
  ⟨rfl, rfl, rfl, rfl, rfl⟩


/-! ## Calls of a record type name -/

/-- `match_args` returns the empty string, with some budget, exactly when
the numbers agree and `is_same_type` returns true at every position. -/
theorem match_args_empty_iff (vm : VVM) (h : Heap) (args argtypes : List datatype_t)
    (t : datatype_t) (hnull : t.is_null = false) (hargs : get_argtypes h t = some argtypes) :
    (∃ fuel, match_args vm h fuel args t = some "") ↔
      args.length = argtypes.length ∧
        ∀ (i : Nat) (a b : datatype_t), args[i]? = some a → argtypes[i]? = some b →
          SameType h a b := by
  have heq := fun fuel => match_args_eq vm h fuel args argtypes t hnull hargs
  constructor
  · rintro ⟨fuel, hf⟩
    rw [heq fuel] at hf
    by_cases hlen : args.length = argtypes.length
    · rw [if_neg (by simpa using hlen),
        match_args_loop_empty_iff vm h fuel _ _ 0 hlen] at hf
      refine ⟨hlen, ?_⟩
      have hall := (forall₂_iff_positions _ _ _).1 hf
      intro i a b ha hb
      exact ⟨fuel, hall.2 i a b ha hb⟩
    · rw [if_pos hlen] at hf
      exact absurd (Option.some.inj hf) (arity_text_ne_empty _ _)
  · rintro ⟨hlen, hall⟩
    have hall' : List.Forall₂ (fun a b => ∃ n, is_same_type h n a b = some true)
        args argtypes := (forall₂_iff_positions _ _ _).2 ⟨hlen, hall⟩
    obtain ⟨N, hN⟩ := exists_common_fuel
      (fun n a b => is_same_type h n a b = some true)
      (fun n m a b hnm hp => is_same_type_mono h hnm hp) _ _ hall'
    refine ⟨N, ?_⟩
    rw [heq N, if_neg (by simpa using hlen)]
    exact (match_args_loop_empty_iff vm h N _ _ 0 hlen).2 hN

/-- C31: for the kind of a record type, `get_argtypes` returns the types of
the fields of the record in field order and `get_rettype` returns the record
type; `match_args` accepts the arguments of a call of the type name exactly
when their number is the number of fields and each is `is_same_type` with
the field at its position; and the call node of a callee of that kind that
is neither generic nor overloaded has the record type. -/
theorem record_kind_is_constructor (vm : VVM) (h : Heap) (s : String) (ref : Nat)
    (args : List datatype_t) :
    get_argtypes h (.Kind (.UDT s ref)) =
      some ((h.datadef ref).body.map (fun d => (h.decl d).type)) ∧
    get_rettype (.Kind (.UDT s ref)) = .UDT s ref ∧
    ((∃ fuel, match_args vm h fuel args (.Kind (.UDT s ref)) = some "") ↔
      args.length = (h.datadef ref).body.length ∧
        ∀ (i : Nat) (a : datatype_t) (d : Nat), args[i]? = some a →
          (h.datadef ref).body[i]? = some d → SameType h a (h.decl d).type) ∧
    (∀ (fuel : Nat) (st st' : SemaState) (func e : HIR.expr_t) (hargs : List HIR.expr_t),
      func.type = .Kind (.UDT s ref) → get_generic func = none → is_overloaded func = false →
      function_call_tail vm fuel st func hargs = .ok e st' → e.type = .UDT s ref) := by
  have hget : get_argtypes h (.Kind (.UDT s ref)) =
      some ((h.datadef ref).body.map (fun d => (h.decl d).type)) := by
    simp [get_argtypes, datatype_t.is_null, get_data_def]
  refine ⟨hget, rfl, ?_, ?_⟩
  · rw [match_args_empty_iff vm h args _ (.Kind (.UDT s ref)) rfl hget, List.length_map]
    constructor
    · rintro ⟨hlen, hall⟩
      refine ⟨hlen, fun i a d ha hd => hall i a _ ha ?_⟩
      rw [List.getElem?_map, hd]; rfl
    · rintro ⟨hlen, hall⟩
      refine ⟨hlen, fun i a b ha hb => ?_⟩
      rw [List.getElem?_map] at hb
      cases hd : (h.datadef ref).body[i]? with
      | none => rw [hd] at hb; simp at hb
      | some d =>
          rw [hd] at hb
          simp only [Option.map_some', Option.some.injEq] at hb
          rw [← hb]
          exact hall i a d ha hd
  · intro fuel st st' func e hargs htype hgen hover hres
    unfold function_call_tail at hres
    simp only [hgen] at hres
    cases func with
    | OverloadedId s' refs type name => simp [is_overloaded, HIR.expr_t.expr_kind] at hover
    | _ =>
        simp only at hres
        split at hres
        · simp at hres
        · rename_i func₁ st₁ hr
          split at hr
          · simp at hr
          · simp only [Option.some.injEq, Prod.mk.injEq] at hr
            simp only [Result.ok.injEq] at hres
            rw [← hres.1, ← hr.1]
            simp only [HIR.expr_t.type] at htype ⊢
            rw [htype]; rfl

/-- The record `Point` of `pointHeap`, with two fields of the primitive type
3: a call with two arguments of that type is accepted. -/
theorem record_kind_is_constructor_witness :
    ∃ fuel, match_args sampleVM pointHeap fuel [.VVMType 3, .VVMType 3]
      (.Kind (.UDT "Point" 0)) = some "" :=
  (record_kind_is_constructor sampleVM pointHeap "Point" 0
    [.VVMType 3, .VVMType 3]).2.2.1.mpr
    ⟨rfl, fun i a d ha hd => by
      have hi : i < 2 := (List.getElem?_eq_some_iff.1 ha).1
      have hb : (pointHeap.datadef 0).body = [0, 1] := rfl
      rw [hb] at hd
      interval_cases i
      · simp only [List.getElem?_cons_zero, Option.some.injEq] at ha hd
        subst ha; subst hd
        exact ⟨1, rfl⟩
      · simp only [List.getElem?_cons_succ, List.getElem?_cons_zero, Option.some.injEq] at ha hd
        subst ha; subst hd
        exact ⟨1, rfl⟩⟩


/-! ## The parent links of the scopes -/

theorem previous_lt_length (st : SemaVisitor) (i p : Nat) (h : st.previous i = some p) :
    i < st.symbol_table_.length := by
  unfold SemaVisitor.previous at h
  by_contra hge
  rw [List.getElem?_eq_none (by omega)] at h
  simp at h

theorem scopeLinks_push (st : SemaVisitor) (h : ScopeLinks st) : ScopeLinks (push_scope st) := by
  obtain ⟨hc, h0, hl⟩ := h
  have hprev : ∀ i, (push_scope st).previous i =
      if i < st.symbol_table_.length then st.previous i
      else if i = st.symbol_table_.length then some st.current_scope_ else none := by
    intro i
    simp only [SemaVisitor.previous, push_scope]
    by_cases hi : i < st.symbol_table_.length
    · rw [if_pos hi, List.getElem?_append_left hi]
    · rw [if_neg hi]
      by_cases he : i = st.symbol_table_.length
      · rw [if_pos he, he, List.getElem?_append_right (Nat.le_refl _)]
        simp
      · rw [if_neg he, List.getElem?_eq_none (by simp; omega)]
  refine ⟨by simp [push_scope], ?_, ?_⟩
  · rw [hprev 0, if_pos (by omega)]; exact h0
  · intro i p hi hp
    rw [hprev i] at hp
    by_cases hlt : i < st.symbol_table_.length
    · rw [if_pos hlt] at hp; exact hl i p hi hp
    · rw [if_neg hlt] at hp
      by_cases he : i = st.symbol_table_.length
      · rw [if_pos he] at hp
        simp only [Option.some.injEq] at hp
        omega
      · rw [if_neg he] at hp; simp at hp

theorem scopeLinks_pop (st st' : SemaVisitor) (hp : pop_scope st = some st')
    (h : ScopeLinks st) : ScopeLinks st' := by
  obtain ⟨hc, h0, hl⟩ := h
  unfold pop_scope at hp
  cases hs : st.symbol_table_[st.current_scope_]? with
  | none => rw [hs] at hp; simp at hp
  | some scope =>
      rw [hs] at hp
      simp only [Option.some.injEq] at hp
      subst hp
      have hprev : st.previous st.current_scope_ = some scope.previous_scope := by
        simp [SemaVisitor.previous, hs]
      refine ⟨?_, h0, hl⟩
      show scope.previous_scope < st.symbol_table_.length
      by_cases hz : st.current_scope_ = 0
      · rw [hz, h0] at hprev
        simp only [Option.some.injEq] at hprev
        omega
      · have := hl _ _ (Nat.pos_of_ne_zero hz) hprev
        omega

theorem scopeLinks_of_shape (st st' : SemaVisitor)
    (hlen : st'.symbol_table_.length = st.symbol_table_.length)
    (hcur : st'.current_scope_ = st.current_scope_)
    (hprev : ∀ i, st'.previous i = st.previous i) (h : ScopeLinks st) : ScopeLinks st' := by
  obtain ⟨hc, h0, hl⟩ := h
  refine ⟨by rw [hlen, hcur]; exact hc, by rw [hprev]; exact h0, fun i p hi hp => ?_⟩
  rw [hprev] at hp
  exact hl i p hi hp

theorem remove_symbol_ref_shape (st st' : SemaVisitor) (symbol : String) (ptr : resolved_t)
    (hres : remove_symbol_ref st symbol ptr = some st') :
    st'.symbol_table_.length = st.symbol_table_.length ∧
      st'.current_scope_ = st.current_scope_ ∧ st'.interactive_ = st.interactive_ ∧
      (∀ i, st'.previous i = st.previous i) ∧
      (∀ i n, (i ≠ st.current_scope_ ∨ n ≠ symbol) → st'.lookup i n = st.lookup i n) ∧
      (st'.entries st.current_scope_ symbol = (st.entries st.current_scope_ symbol).erase ptr) := by
  unfold remove_symbol_ref at hres
  cases hs : st.symbol_table_[st.current_scope_]? with
  | none => rw [hs] at hres; simp at hres
  | some scope =>
      rw [hs] at hres
      simp only at hres
      cases hm : scope.map symbol with
      | none =>
          rw [hm] at hres
          simp only [Option.some.injEq] at hres
          subst hres
          refine ⟨rfl, rfl, rfl, fun _ => rfl, fun _ _ _ => rfl, ?_⟩
          have hl : st.lookup st.current_scope_ symbol = some none := by
            rw [lookup_of_scope st _ scope hs, hm]
          rw [entries_of_lookup_none _ _ _ hl]; rfl
      | some resolveds =>
          rw [hm] at hres
          simp only [Option.some.injEq] at hres
          subst hres
          obtain ⟨hc, -, hi, hl, hp, hlk⟩ := set_scope_onlyChanges st st.current_scope_ scope
            (Function.update scope.map symbol (some (resolveds.erase ptr))) symbol hs
            (fun n hn => by simp [Function.update, hn])
          refine ⟨hl, hc, hi, hp, hlk, ?_⟩
          have h1 : st.lookup st.current_scope_ symbol = some (some resolveds) := by
            rw [lookup_of_scope st _ scope hs, hm]
          rw [entries_of_lookup _ _ _ _ h1]
          apply entries_of_lookup
          rw [lookup_set_scope_self st _ scope _ hs]
          simp [Function.update]

theorem scopeLinks_apply_op (h : Heap) (fuel : Nat) (st st' : SemaVisitor) (op : TableOp)
    (hop : apply_op h fuel st op = some st') (hl : ScopeLinks st) : ScopeLinks st' := by
  cases op with
  | push_scope =>
      simp only [apply_op, Option.some.injEq] at hop
      subst hop
      exact scopeLinks_push st hl
  | pop_scope => exact scopeLinks_pop st st' hop hl
  | store_symbol symbol ptr =>
      simp only [apply_op] at hop
      cases hs : store_symbol h fuel st symbol ptr with
      | none => rw [hs] at hop; simp at hop
      | some p =>
          obtain ⟨b, st₁⟩ := p
          rw [hs] at hop
          simp only [Option.some.injEq] at hop
          subst hop
          obtain ⟨hlen, hc, -, hp, -⟩ := store_symbol_shape _ _ _ _ _ _ _ hs
          exact scopeLinks_of_shape st _ hlen hc hp hl
  | remove_symbol_ref symbol ptr =>
      obtain ⟨hlen, hc, -, hp, -⟩ := remove_symbol_ref_shape st st' symbol ptr hop
      exact scopeLinks_of_shape st _ hlen hc hp hl

theorem scopeLinks_run_ops (h : Heap) (fuel : Nat) :
    ∀ (ops : List TableOp) (st st' : SemaVisitor), run_ops h fuel st ops = some st' →
      ScopeLinks st → ScopeLinks st' := by
  intro ops
  induction ops with
  | nil =>
      intro st st' hr hl
      simp only [run_ops, Option.some.injEq] at hr
      subst hr; exact hl
  | cons op ops ih =>
      intro st st' hr hl
      simp only [run_ops] at hr
      cases ha : apply_op h fuel st op with
      | none => rw [ha] at hr; simp at hr
      | some st₁ =>
          rw [ha] at hr
          exact ih st₁ st' hr (scopeLinks_apply_op h fuel st st₁ op ha hl)

/-- With well-founded parent links the walk from scope `i` returns within
`i + 1` steps. -/
theorem find_symbol_walk_returns (st : SemaVisitor) (symbol : String) (hl : ScopeLinks st) :
    ∀ (fuel i : Nat), i < fuel → i < st.symbol_table_.length →
      ∃ l, find_symbol_walk st symbol fuel i = some l := by
  intro fuel
  induction fuel with
  | zero => intro i hi; omega
  | succ n ih =>
      intro i hi hlen
      simp only [find_symbol_walk]
      cases hs : st.symbol_table_[i]? with
      | none =>
          rw [List.getElem?_eq_none_iff] at hs
          omega
      | some scope =>
          simp only
          cases hm : scope.map symbol with
          | some resolveds => exact ⟨resolveds, rfl⟩
          | none =>
              simp only
              by_cases hz : i = 0
              · simp [hz]
              · rw [if_pos hz]
                have hprev : st.previous i = some scope.previous_scope := by
                  simp [SemaVisitor.previous, hs]
                have hlt := hl.2.2 i _ (Nat.pos_of_ne_zero hz) hprev
                exact ih _ (by omega) (by omega)

/-- C38: in every state reached from the state the constructor leaves (one
`push_scope` on the empty table) by calls of `push_scope`, `pop_scope`,
`store_symbol` and `remove_symbol_ref`, scope 0 is its own previous scope,
every other scope has a previous scope of smaller index, and
`current_scope_` is an index of the table; and the walk of `find_symbol`
from the current scope returns after at most `current_scope_ + 1` scopes. -/
theorem scope_links_well_founded (h : Heap) (fuel : Nat) (interactive_ : Bool)
    (ops : List TableOp) (st : SemaVisitor)
    (hr : run_ops h fuel (push_scope (empty_table interactive_)) ops = some st) :
    ScopeLinks st ∧
      ∀ symbol, ∃ l,
        find_symbol_walk st symbol (st.current_scope_ + 1) st.current_scope_ = some l := by
  have h0 : ScopeLinks (push_scope (empty_table interactive_)) := by
    refine ⟨by simp [push_scope, empty_table], rfl, fun i p hi hp => ?_⟩
    have := previous_lt_length _ i p hp
    simp [push_scope, empty_table] at this
    omega
  have hl := scopeLinks_run_ops h fuel ops _ st hr h0
  exact ⟨hl, fun symbol =>
    find_symbol_walk_returns st symbol hl _ _ (Nat.lt_succ_self _) hl.1⟩

/-- The table after two pushes and a pop on the constructed table: scope 1
is inside scope 0, the current scope is scope 0 again, and the walk returns
within one step. -/
theorem scope_links_well_founded_witness :
    ∃ st, run_ops overloadHeap 1 (push_scope (empty_table false))
        [.push_scope, .store_symbol "x" (.DeclRef 0), .pop_scope] = some st ∧
      ScopeLinks st ∧
      ∀ symbol, ∃ l,
        find_symbol_walk st symbol (st.current_scope_ + 1) st.current_scope_ = some l :=
  ⟨_, rfl, scope_links_well_founded overloadHeap 1 false
    [.push_scope, .store_symbol "x" (.DeclRef 0), .pop_scope] _ rfl⟩


/-! ## Overload lists in non-interactive mode -/

theorem is_overloadable_true (h : Heap) (fuel : Nat) (e ptr : resolved_t)
    (ho : is_overloadable h fuel e ptr = some true) :
    is_function_like ptr = true ∧ is_type_like ptr = false ∧
      (is_type_like e = true ∧ is_function_like e = false ∨
        is_function_like e = true ∧ is_type_like e = false ∧
          is_same_type h fuel (get_type h (some e)) (get_type h (some ptr)) = some false) := by
  cases e <;> cases ptr <;> simp [is_overloadable, is_function_like, is_type_like] at ho ⊢ <;>
    (cases hs : is_same_type h fuel _ _ with
      | none => rw [hs] at ho; simp at ho
      | some b => rw [hs] at ho; simp at ho; simp [ho])

theorem not_sameType_of_false (h : Heap) (fuel : Nat) (a b : datatype_t)
    (hf : is_same_type h fuel a b = some false) : ¬ SameType h a b := by
  rintro ⟨m, hm⟩
  have h1 := is_same_type_mono h (le_max_left fuel m) hf
  have h2 := is_same_type_mono h (le_max_right fuel m) hm
  rw [h1] at h2
  simp at h2

theorem overloadListShape_singleton (h : Heap) (ptr : resolved_t) :
    OverloadListShape h [ptr] := by
  by_cases ht : is_type_like ptr = true
  · exact Or.inl ⟨fun r hr => by rw [List.mem_singleton.mp hr]; exact Or.inl ht,
      by simp [List.filter, ht], List.pairwise_singleton _ _⟩
  · by_cases hf : is_function_like ptr = true
    · exact Or.inl ⟨fun r hr => by rw [List.mem_singleton.mp hr]; exact Or.inr hf,
        by simp [List.filter, ht], List.pairwise_singleton _ _⟩
    · exact Or.inr ⟨ptr, rfl, by simpa using ht, by simpa using hf⟩

theorem overloadListShape_append (h : Heap) (fuel : Nat) (rs : Resolveds) (ptr : resolved_t)
    (hs : OverloadListShape h rs)
    (hall : ∀ e ∈ rs, is_overloadable h fuel e ptr = some true) :
    OverloadListShape h (rs ++ [ptr]) := by
  cases rs with
  | nil => exact overloadListShape_singleton h ptr
  | cons a rs =>
      obtain ⟨hfl, htl, -⟩ := is_overloadable_true h fuel a ptr (hall a (List.mem_cons_self _ _))
      rcases hs with ⟨hkinds, hone, hpair⟩ | ⟨r, hr, hrt, hrf⟩
      · refine Or.inl ⟨?_, ?_, ?_⟩
        · intro r hr
          rcases List.mem_append.mp hr with hr | hr
          · exact hkinds r hr
          · rw [List.mem_singleton.mp hr]; exact Or.inr hfl
        · rw [List.filter_append]
          simp only [List.filter, htl, List.append_nil]
          exact hone
        · rw [List.pairwise_append]
          refine ⟨hpair, List.pairwise_singleton _ _, fun x hx y hy hxf _ => ?_⟩
          rw [List.mem_singleton.mp hy]
          obtain ⟨-, -, hcase⟩ := is_overloadable_true h fuel x ptr (hall x hx)
          rcases hcase with ⟨-, hnf⟩ | ⟨-, -, hfalse⟩
          · rw [hxf] at hnf; simp at hnf
          · exact not_sameType_of_false h fuel _ _ hfalse
      · simp only [List.cons.injEq] at hr
        obtain ⟨-, -, hcase⟩ := is_overloadable_true h fuel a ptr (hall a (List.mem_cons_self _ _))
        rw [hr.1] at hcase
        rcases hcase with ⟨ht, -⟩ | ⟨hf, -⟩
        · rw [hrt] at ht; simp at ht
        · rw [hrf] at hf; simp at hf

theorem overloadListShape_sublist (h : Heap) (l l' : Resolveds) (hsub : l'.Sublist l)
    (hs : OverloadListShape h l) : OverloadListShape h l' := by
  rcases hs with ⟨hkinds, hone, hpair⟩ | ⟨r, hr, hrt, hrf⟩
  · refine Or.inl ⟨fun r hr => hkinds r (hsub.subset hr), ?_, hpair.sublist hsub⟩
    exact Nat.le_trans (hsub.filter _).length_le hone
  · subst hr
    rcases List.sublist_cons_iff.mp hsub with hnil | ⟨t, ht, htl⟩
    · rw [List.sublist_nil] at hnil
      subst hnil
      exact Or.inl ⟨fun _ hr => by simp at hr, by simp, List.Pairwise.nil⟩
    · rw [List.sublist_nil] at htl
      subst htl; subst ht
      exact Or.inr ⟨r, rfl, hrt, hrf⟩

theorem entries_push_scope (st : SemaVisitor) (idx : Nat) (symbol : String) :
    (push_scope st).entries idx symbol =
      if idx < st.symbol_table_.length then st.entries idx symbol else [] := by
  simp only [SemaVisitor.entries, SemaVisitor.lookup, push_scope]
  by_cases hi : idx < st.symbol_table_.length
  · rw [if_pos hi, List.getElem?_append_left hi]
  · rw [if_neg hi]
    by_cases he : idx = st.symbol_table_.length
    · rw [he, List.getElem?_append_right (Nat.le_refl _)]
      simp
    · rw [List.getElem?_eq_none (by simp; omega)]

theorem entries_pop_scope (st st' : SemaVisitor) (hp : pop_scope st = some st') (idx : Nat)
    (symbol : String) : st'.entries idx symbol = st.entries idx symbol := by
  unfold pop_scope at hp
  cases hs : st.symbol_table_[st.current_scope_]? with
  | none => rw [hs] at hp; simp at hp
  | some scope =>
      rw [hs] at hp
      simp only [Option.some.injEq] at hp
      subst hp
      rfl

theorem pop_scope_interactive (st st' : SemaVisitor) (hp : pop_scope st = some st') :
    st'.interactive_ = st.interactive_ := by
  unfold pop_scope at hp
  cases hs : st.symbol_table_[st.current_scope_]? with
  | none => rw [hs] at hp; simp at hp
  | some scope =>
      rw [hs] at hp
      simp only [Option.some.injEq] at hp
      subst hp
      rfl

theorem overloadListShape_apply_op (h : Heap) (fuel : Nat) (st st' : SemaVisitor) (op : TableOp)
    (hop : apply_op h fuel st op = some st') (hmode : st.interactive_ = false)
    (hinv : ∀ idx symbol, OverloadListShape h (st.entries idx symbol)) :
    st'.interactive_ = false ∧ ∀ idx symbol, OverloadListShape h (st'.entries idx symbol) := by
  cases op with
  | push_scope =>
      simp only [apply_op, Option.some.injEq] at hop
      subst hop
      refine ⟨hmode, fun idx symbol => ?_⟩
      rw [entries_push_scope]
      split
      · exact hinv idx symbol
      · exact Or.inl ⟨fun _ hr => by simp at hr, by simp, List.Pairwise.nil⟩
  | pop_scope =>
      refine ⟨(pop_scope_interactive st st' hop).trans hmode, fun idx symbol => ?_⟩
      rw [entries_pop_scope st st' hop]
      exact hinv idx symbol
  | store_symbol name ptr =>
      simp only [apply_op] at hop
      cases hs : store_symbol h fuel st name ptr with
      | none => rw [hs] at hop; simp at hop
      | some p =>
          obtain ⟨b, st₁⟩ := p
          rw [hs] at hop
          simp only [Option.some.injEq] at hop
          subst hop
          obtain ⟨-, -, hi, -, hlk⟩ := store_symbol_shape _ _ _ _ _ _ _ hs
          refine ⟨hi.trans hmode, fun idx symbol => ?_⟩
          by_cases hsame : idx = st.current_scope_ ∧ symbol = name
          · obtain ⟨rfl, rfl⟩ := hsame
            rcases store_symbol_cases h fuel st st₁ symbol ptr b hs with
              ⟨-, heq, -⟩ | ⟨-, -, hcase⟩
            · rw [heq]; exact hinv _ _
            · rcases hcase with ⟨-, hnew⟩ | ⟨rs, rs', hrs, hloop, hnew⟩
              · rw [entries_of_lookup _ _ _ _ hnew]
                exact overloadListShape_singleton h ptr
              · rw [entries_of_lookup _ _ _ _ hnew]
                have hold := hinv st.current_scope_ symbol
                rw [entries_of_lookup _ _ _ _ hrs] at hold
                rcases store_loop_cases h fuel st.interactive_ ptr rs true rs' hloop with
                  ⟨hall, -, hrs'⟩ | ⟨k, e, -, -, -, hb, -⟩
                · rw [hrs']
                  exact overloadListShape_append h fuel rs ptr hold hall
                · rw [hmode] at hb; simp at hb
          · rw [entries_eq_of_lookup_eq st st₁ idx symbol (hlk idx symbol (by
              by_contra hc
              push_neg at hc
              exact hsame hc))]
            exact hinv idx symbol
  | remove_symbol_ref name ptr =>
      obtain ⟨-, -, hi, -, hlk, herase⟩ := remove_symbol_ref_shape st st' name ptr hop
      refine ⟨hi.trans hmode, fun idx symbol => ?_⟩
      by_cases hsame : idx = st.current_scope_ ∧ symbol = name
      · obtain ⟨rfl, rfl⟩ := hsame
        rw [herase]
        exact overloadListShape_sublist h _ _ (List.erase_sublist _ _) (hinv _ _)
      · rw [entries_eq_of_lookup_eq st st' idx symbol (hlk idx symbol (by
          by_contra hc
          push_neg at hc
          exact hsame hc))]
        exact hinv idx symbol

/-- C39: in non-interactive mode, after every sequence of calls of the
table operations on the empty table, every overload list has the shape
`OverloadListShape`: all its references are type-like or function-like, at
most one is type-like and no two function-like references have types that
are `is_same_type`; or the list is a single reference of another kind (a
`DeclRef`, `GenericFuncRef`, `CompilerRef` or `ModRef` is the only entry of
its list). -/
theorem overload_lists_keep_shape (h : Heap) (fuel : Nat) (ops : List TableOp)
    (st : SemaVisitor) (hr : run_ops h fuel (empty_table false) ops = some st) :
    ∀ idx symbol, OverloadListShape h (st.entries idx symbol) := by
  have hgen : ∀ (ops : List TableOp) (s s' : SemaVisitor), run_ops h fuel s ops = some s' →
      s.interactive_ = false → (∀ idx symbol, OverloadListShape h (s.entries idx symbol)) →
      ∀ idx symbol, OverloadListShape h (s'.entries idx symbol) := by
    intro ops
    induction ops with
    | nil =>
        intro s s' hrun _ hinv
        simp only [run_ops, Option.some.injEq] at hrun
        subst hrun; exact hinv
    | cons op ops ih =>
        intro s s' hrun hmode hinv
        simp only [run_ops] at hrun
        cases ha : apply_op h fuel s op with
        | none => rw [ha] at hrun; simp at hrun
        | some s₁ =>
            rw [ha] at hrun
            obtain ⟨hm₁, hinv₁⟩ := overloadListShape_apply_op h fuel s s₁ op ha hmode hinv
            exact ih s₁ s' hrun hm₁ hinv₁
  exact hgen ops _ st hr rfl (fun idx symbol =>
    Or.inl ⟨fun _ hr => by simp [SemaVisitor.entries, SemaVisitor.lookup, empty_table] at hr,
      by simp [SemaVisitor.entries, SemaVisitor.lookup, empty_table],
      by simp [SemaVisitor.entries, SemaVisitor.lookup, empty_table]⟩)

/-- Three stores of `f` in one scope in non-interactive mode, the third with
the signature of the first: the list keeps the shape. -/
theorem overload_lists_keep_shape_witness :
    ∃ st, run_ops overloadHeapDone 3 (empty_table false)
        [.push_scope, .store_symbol "f" (.FuncRef 0), .store_symbol "f" (.FuncRef 1),
          .store_symbol "f" (.FuncRef 2)] = some st ∧
      st.entries 0 "f" = [.FuncRef 0, .FuncRef 1] ∧
      ∀ idx symbol, OverloadListShape overloadHeapDone (st.entries idx symbol) :=
  ⟨_, rfl, rfl, overload_lists_keep_shape overloadHeapDone 3
    [.push_scope, .store_symbol "f" (.FuncRef 0), .store_symbol "f" (.FuncRef 1),
      .store_symbol "f" (.FuncRef 2)] _ rfl⟩


/-! ## The shape rules of `visitQuery` -/

theorem visit_list_length {α β : Type} (f : SemaState → α → Result β) :
    ∀ (as : List α) (st : SemaState) (bs : List β) (st' : SemaState),
      visit_list f st as = .ok bs st' → bs.length = as.length := by
  intro as
  induction as with
  | nil =>
      intro st bs st' hv
      simp only [visit_list, Result.ok.injEq] at hv
      simp [← hv.1]
  | cons a as ih =>
      intro st bs st' hv
      simp only [visit_list] at hv
      cases h1 : f st a with
      | throw m s => rw [h1] at hv; simp [Result.bind] at hv
      | stuck => rw [h1] at hv; simp [Result.bind] at hv
      | ok b st₁ =>
          rw [h1] at hv
          simp only [Result.bind] at hv
          cases h2 : visit_list f st₁ as with
          | throw m s => rw [h2] at hv; simp at hv
          | stuck => rw [h2] at hv; simp at hv
          | ok bs' st₂ =>
              rw [h2] at hv
              simp only [Result.ok.injEq] at hv
              rw [← hv.1, List.length_cons, List.length_cons, ih st₁ bs' st₂ h2]

theorem visit_cols_eq_visit_list (visit : SemaState → AST.expr_t → Result HIR.expr_t)
    (by_empty : Bool) :
    ∀ (cs : List (AST.expr_t × String)) (st : SemaState),
      visit_cols visit by_empty st cs = visit_list (visit_col visit by_empty) st cs := by
  intro cs
  induction cs with
  | nil => intro st; rfl
  | cons c cs ih =>
      intro st
      simp only [visit_cols, visit_list, visit_col]
      cases h1 : visitAlias visit st c with
      | throw m s => rfl
      | stuck => rfl
      | ok col st₁ =>
          simp only [Result.bind]
          have hst : (if (!by_empty && is_array_type col.1.type) = true then
                (if (by_empty && !is_array_type col.1.type) = true then
                  st₁.error "Error: resulting column must be an array\n"
                else st₁).error "Error: resulting column must be a scalar\n"
              else
                if (by_empty && !is_array_type col.1.type) = true then
                  st₁.error "Error: resulting column must be an array\n"
                else st₁) = st₁.errors (shape_rule_diagnostics by_empty col) := by
            cases by_empty <;> cases ha : is_array_type col.1.type <;>
              simp [shape_rule_diagnostics, error_eq_errors, errors_nil, ha]
          rw [hst, ih]

/-- C33: the shape rules of `visitQuery`, for a query whose visits return.
After the table and `by` are visited, the entries of `cols` are visited in
order, and after the visit of each entry the diagnostics of the rule for it
are written (`visit_col` with `shape_rule_diagnostics`): with an empty `by`
the array diagnostic when the type of the entry is not an array, with a
non-empty `by` the scalar diagnostic when it is an array, and nothing else.
The query returns the node with the visited columns.  When `cols` is empty,
no column is visited, the type of the node is the type of the table, and the
text `must express aggregation` is written exactly when `by` is not empty;
otherwise the type is the anonymous Dataframe of the fields of `by` and
`cols`. -/
theorem query_shape_rules (env : Env) (fuel : Nat)
    (visit : SemaState → AST.expr_t → Result HIR.expr_t) (st : SemaState)
    (table : AST.expr_t) (qt : Nat) (cols by_ : List (AST.expr_t × String))
    (where_ : Option AST.expr_t) (t : HIR.expr_t) (st₁ : SemaState)
    (bys : List (HIR.expr_t × String)) (st₄ : SemaState) (by_type : datatype_t)
    (st₅ : SemaState) (cs : List (HIR.expr_t × String)) (st₆ : SemaState)
    (type : datatype_t) (st₇ : SemaState) (w : Option HIR.expr_t) (st₈ : SemaState)
    (ht : visit st table = .ok t st₁)
    (hb : visit_list (visitAlias visit)
        ((if is_dataframe_type t.type then st₁
          else
            st₁.error ("Error: query must be on Dataframe, not " ++ to_string env.vm t.type ++
              "\n")).set_preferred_scope (some t.summary)) by_ = .ok bys st₄)
    (hbt : (if by_.isEmpty then Result.ok datatype_t.null st₄
        else anon_dataframe env fuel visit st₄ (get_type_string env.vm bys)) =
      .ok by_type st₅)
    (hc : visit_list (visit_col visit by_.isEmpty) st₅ cols = .ok cs st₆)
    (hty : (if cols.isEmpty then
          Result.ok t.type
            (st₆.errors
              (if by_.isEmpty then []
               else ["Error: must express aggregation if 'by' is listed\n"]))
        else
          anon_dataframe env fuel visit st₆
            ((if by_.isEmpty then "" else get_type_string env.vm bys ++ ", ") ++
              get_type_string env.vm cs)) = .ok type st₇)
    (hw : visit_option visit st₇ where_ = .ok w st₈) :
    visitQuery env fuel visit st table qt cols by_ where_ =
        .ok (.Query t qt cs bys w by_type type t.name)
          ((where_check env.vm st₈ w).set_preferred_scope none) ∧
      (cols = [] →
        cs = [] ∧ type = t.type ∧
          st₇ = st₅.errors
            (if by_.isEmpty then []
             else ["Error: must express aggregation if 'by' is listed\n"])) := by
  have hlen := visit_list_length _ _ _ _ _ hb
  have hemp : bys.isEmpty = by_.isEmpty := by
    cases bys <;> cases by_ <;> simp at hlen ⊢
  have hlenc := visit_list_length _ _ _ _ _ hc
  have hempc : cs.isEmpty = cols.isEmpty := by
    cases cs <;> cases cols <;> simp at hlenc ⊢
  have hst : (if (!bys.isEmpty) = true then
        st₆.error "Error: must express aggregation if 'by' is listed\n"
      else st₆) =
      st₆.errors
        (if by_.isEmpty then [] else ["Error: must express aggregation if 'by' is listed\n"]) := by
    rw [hemp]
    cases by_.isEmpty <;> simp [error_eq_errors, errors_nil]
  have hty' : (if (!cs.isEmpty) = true then
        anon_dataframe env fuel visit st₆
          ((if bys.isEmpty then "" else get_type_string env.vm bys ++ ", ") ++
            get_type_string env.vm cs)
      else
        Result.ok t.type
          (if (!bys.isEmpty) = true then
            st₆.error "Error: must express aggregation if 'by' is listed\n"
           else st₆)) = .ok type st₇ := by
    rw [hst, hempc, hemp, ← hty]
    cases cols.isEmpty <;> simp
  constructor
  · rw [← hemp] at hbt hc
    simp only [visitQuery, ht, Result.bind, hb, hbt, visit_cols_eq_visit_list, hc, hty', hw]
    cases w <;> rfl
  · intro hnil
    subst hnil
    simp only [visit_list, Result.ok.injEq] at hc
    obtain ⟨rfl, rfl⟩ := hc
    simp only [List.isEmpty_nil, if_true, Result.ok.injEq] at hty
    exact ⟨rfl, hty.1.symm, hty.2.symm⟩

/-- Three queries.  `from t select c = 1` over `t: !P`, with no `by` and a
column that is not an array, writes the array diagnostic;
`from t select price by sym` over `t: !Trade`, with a `by` and a column that
is an array, writes the scalar diagnostic; `from t by sym`, with a `by` and
no column, has the type of the table and writes the aggregation
diagnostic. -/
theorem query_shape_rules_witness :
    (∃ t cs type st,
      visitQuery sampleEnv 5 (visit_expr sampleEnv 5 10) queryTableState (.Id "t") 0
          [(.IntegerLiteral 1, "c")] [] none =
        .ok (.Query t 0 cs [] none .null type t.name) st ∧
      st.sema_err_ = ["Error: resulting column must be an array\n"]) ∧
    (∃ t cs bys by_type type st,
      visitQuery tradeEnv 5 (visit_expr tradeEnv 5 10) tradeTableState (.Id "t") 0
          [(.Id "price", "")] [(.Id "sym", "")] none =
        .ok (.Query t 0 cs bys none by_type type t.name) st ∧
      st.sema_err_ = ["Error: resulting column must be a scalar\n"]) ∧
    (∃ t bys by_type st,
      visitQuery tradeEnv 5 (visit_expr tradeEnv 5 10) tradeTableState (.Id "t") 0 []
          [(.Id "sym", "")] none =
        .ok (.Query t 0 [] bys none by_type t.type t.name) st ∧
      t.type = .UDT "!Trade" 1 ∧
      st.sema_err_ = ["Error: must express aggregation if 'by' is listed\n"]) :=
  ⟨⟨_, _, _, _,
      (query_shape_rules sampleEnv 5 (visit_expr sampleEnv 5 10) queryTableState (.Id "t") 0
        [(.IntegerLiteral 1, "c")] [] none _ _ _ _ _ _ _ _ _ _ none _
        rfl rfl rfl rfl rfl rfl).1, rfl⟩,
    ⟨_, _, _, _, _, _,
      (query_shape_rules tradeEnv 5 (visit_expr tradeEnv 5 10) tradeTableState (.Id "t") 0
        [(.Id "price", "")] [(.Id "sym", "")] none _ _ _ _ _ _ _ _ _ _ none _
        rfl rfl rfl rfl rfl rfl).1, rfl⟩,
    ⟨_, _, _, _,
      (query_shape_rules tradeEnv 5 (visit_expr tradeEnv 5 10) tradeTableState (.Id "t") 0
        [] [(.Id "sym", "")] none _ _ _ _ _ _ _ _ _ _ none _
        rfl rfl rfl rfl rfl rfl).1, rfl, rfl⟩⟩


/-! ## The name of a call column -/

/-- C34 (as the code has it): a call with at least one argument that is
analysed gets the name of its first argument, so as an un-aliased column it
is rendered under that name by `get_type_string`. -/
theorem call_column_named_after_first_argument (vm : VVM) (fuel : Nat) (st : SemaState)
    (func a : HIR.expr_t) (args : List HIR.expr_t) (node : HIR.expr_t) (st' : SemaState)
    (hc : function_call_tail vm fuel st func (a :: args) = .ok node st') :
    node.name = a.name ∧
      get_type_string vm [(node, "")] =
        a.name ++ ": " ++
          to_string vm (if is_array_type node.type then get_underlying_type node.type
            else node.type) := by
  have hname : node.name = a.name := by
    unfold function_call_tail at hc
    simp only at hc
    split at hc
    · simp at hc
    · simp only [Result.ok.injEq] at hc
      rw [← hc.1]
      rfl
  refine ⟨hname, ?_⟩
  simp [get_type_string, get_type_string_aliases, hname]

/-- The call `avg(price)` on a column `price` of type array of `Float64`:
the call node is named `price`. -/
theorem call_column_named_after_first_argument_witness :
    ∃ node st,
      function_call_tail sampleVM 5 tradeState
          (.Id "avg" (some (.VVMOpRef 0 (.FuncType [.Array (.VVMType 2)] (.VVMType 2))))
            (.FuncType [.Array (.VVMType 2)] (.VVMType 2)) "avg")
          [.Id "price" none (.Array (.VVMType 2)) "price"] = .ok node st ∧
      node.name = "price" ∧ get_type_string sampleVM [(node, "")] = "price: Float64" :=
  ⟨_, _, rfl,
    (call_column_named_after_first_argument sampleVM 5 tradeState
      (.Id "avg" (some (.VVMOpRef 0 (.FuncType [.Array (.VVMType 2)] (.VVMType 2))))
        (.FuncType [.Array (.VVMType 2)] (.VVMType 2)) "avg")
      (.Id "price" none (.Array (.VVMType 2)) "price") [] _ _ rfl).1,
    (call_column_named_after_first_argument sampleVM 5 tradeState
      (.Id "avg" (some (.VVMOpRef 0 (.FuncType [.Array (.VVMType 2)] (.VVMType 2))))
        (.FuncType [.Array (.VVMType 2)] (.VVMType 2)) "avg")
      (.Id "price" none (.Array (.VVMType 2)) "price") [] _ _ rfl).2⟩

/-- The query `from t select avg(price) by sym where volume > 0` over
`t: !Trade` is analysed without a diagnostic, and the field list of its
result type is rendered `sym: String, price: Float64`: the column of the
call is named `price`, not `avg_price`. -/
theorem avg_column_is_named_price :
    ∃ st d₁ d₂ table qt cols by_ where_ by_type type name,
      visitModule tradeEnv 5 10 tradeState tradeProgram =
        .ok ⟨[d₁, d₂, .Expr (.Query table qt cols by_ where_ by_type type name)], ""⟩ st ∧
      st.sema_err_ = [] ∧
      get_type_string_datatype sampleVM st.heap type = some "sym: String, price: Float64" ∧
      get_type_string sampleVM cols = "price: Float64" ∧
      get_type_string_datatype sampleVM st.heap type ≠
        some "sym: String, avg_price: Float64" :=
  ⟨_, _, _, _, _, _, _, _, _, _, _, rfl, rfl, rfl, rfl, by decide⟩


/-! ## The field list of a join -/

theorem intercalate_go_append_left (s : String) :
    ∀ (l : List String) (x y : String),
      String.intercalate.go (x ++ y) s l = x ++ String.intercalate.go y s l := by
  intro l
  induction l with
  | nil => intro x y; rfl
  | cons a as ih =>
      intro x y
      simp only [String.intercalate.go]
      rw [String.append_assoc, String.append_assoc, ih, String.append_assoc]

theorem intercalate_go_append (s : String) :
    ∀ (l₁ l₂ : List String) (acc : String),
      String.intercalate.go acc s (l₁ ++ l₂) =
        String.intercalate.go (String.intercalate.go acc s l₁) s l₂ := by
  intro l₁
  induction l₁ with
  | nil => intro l₂ acc; rfl
  | cons a as ih =>
      intro l₂ acc
      simp only [List.cons_append, String.intercalate.go]
      exact ih l₂ _

theorem intercalate_append (s : String) (l₁ l₂ : List String) (h₁ : l₁ ≠ []) (h₂ : l₂ ≠ []) :
    s.intercalate (l₁ ++ l₂) = s.intercalate l₁ ++ s ++ s.intercalate l₂ := by
  cases l₁ with
  | nil => exact absurd rfl h₁
  | cons a as =>
      cases l₂ with
      | nil => exact absurd rfl h₂
      | cons b bs =>
          simp only [List.cons_append, String.intercalate]
          rw [intercalate_go_append]
          simp only [String.intercalate.go]
          exact intercalate_go_append_left s bs _ b

theorem render_field_ne_empty (vm : VVM) (d : declaration) : render_field vm d ≠ "" := by
  unfold render_field
  rw [String.append_assoc]
  exact append_ne_empty_right _ _ (append_ne_empty_left _ _ (by decide))

theorem drop_columns_loop_go (vm : VVM) (h : Heap) (dropped_names : List String) :
    ∀ (rest : List Nat) (acc : String), acc ≠ "" →
      drop_columns_loop vm h dropped_names acc rest =
        String.intercalate.go acc ", "
          (((rest.map h.decl).filter fun d => decide (d.name ∉ dropped_names)).map
            (render_field vm)) := by
  intro rest
  induction rest with
  | nil => intro acc _; rfl
  | cons d rest ih =>
      intro acc hacc
      simp only [drop_columns_loop, List.map_cons]
      by_cases hd : (h.decl d).name ∈ dropped_names
      · rw [if_pos hd, List.filter_cons_of_neg (by simpa using hd)]
        exact ih acc hacc
      · rw [if_neg hd, List.filter_cons_of_pos (by simpa using hd), if_neg hacc, List.map_cons]
        simp only [String.intercalate.go]
        exact ih _ (append_ne_empty_right _ _ (render_field_ne_empty vm (h.decl d)))

theorem drop_columns_loop_eq (vm : VVM) (h : Heap) (dropped_names : List String) :
    ∀ (rest : List Nat),
      drop_columns_loop vm h dropped_names "" rest =
        ", ".intercalate
          (((rest.map h.decl).filter fun d => decide (d.name ∉ dropped_names)).map
            (render_field vm)) := by
  intro rest
  induction rest with
  | nil => rfl
  | cons d rest ih =>
      simp only [drop_columns_loop, List.map_cons]
      by_cases hd : (h.decl d).name ∈ dropped_names
      · rw [if_pos hd, List.filter_cons_of_neg (by simpa using hd)]
        exact ih
      · rw [if_neg hd, List.filter_cons_of_pos (by simpa using hd), List.map_cons]
        simp only [if_true, String.intercalate]
        exact drop_columns_loop_go vm h dropped_names rest _ (render_field_ne_empty vm (h.decl d))

theorem get_type_string_decls_eq_drop (vm : VVM) (h : Heap) :
    ∀ (rest : List Nat) (acc : String),
      get_type_string_decls vm h acc rest = drop_columns_loop vm h [] acc rest := by
  intro rest
  induction rest with
  | nil => intro acc; rfl
  | cons d rest ih =>
      intro acc
      simp only [get_type_string_decls, drop_columns_loop, List.not_mem_nil, if_false]
      exact ih _

theorem get_type_string_decls_eq (vm : VVM) (h : Heap) (body : List Nat) :
    get_type_string_decls vm h "" body = ", ".intercalate ((body.map h.decl).map (render_field vm)) := by
  rw [get_type_string_decls_eq_drop, drop_columns_loop_eq]
  simp


theorem drop_columns_eq (vm : VVM) (h : Heap) (right_type right_on_type : datatype_t)
    (right_asof_name : String) (rdd : DataDef)
    (hr : get_data_def h right_type = some rdd)
    (hon : right_on_type = .null ∨ (get_data_def h right_on_type).isSome) :
    drop_columns vm h right_type right_on_type right_asof_name =
      some (render_fields vm (kept_fields h rdd right_on_type right_asof_name)) := by
  have hnames : (if right_on_type.is_null then some []
      else
        match get_data_def h right_on_type with
        | none => none
        | some drop_dd => some (drop_dd.body.map fun d => (h.decl d).name)) =
      some (on_names h right_on_type) := by
    rcases hon with hnull | hsome
    · subst hnull; rfl
    · cases hd : get_data_def h right_on_type with
      | none => rw [hd] at hsome; simp at hsome
      | some dd =>
          simp only [on_names, hd, fields_of, List.map_map]
          split
          · rename_i hn
            cases right_on_type <;> simp [datatype_t.is_null, get_data_def] at hn hd
          · rfl
  simp only [drop_columns, hnames, hr, drop_columns_loop_eq, render_fields, kept_fields,
    fields_of]
  congr 3
  apply List.filter_congr
  intro d _
  by_cases he : right_asof_name = ""
  · simp [he]
  · by_cases hd : d.name = right_asof_name
    · simp [he, List.mem_append, not_or, hd]
    · have hd' : ¬ right_asof_name = d.name := fun hc => hd hc.symm
      simp [he, List.mem_append, not_or, hd, hd']

/-- The texts of the end of `visitJoin`.  `drop_columns` on the type of the
right table, the `on` type of the right side and the right `asof` name is
the rendering of exactly those fields of right, in right's order, whose name
is neither the name of a field of the `on` type nor the `asof` name
(`kept_fields`), and these are all fields of right when there is no `on`
type and the name is empty; `get_type_string` on the type of the left table
is the rendering of all fields of left in order; every field is rendered
`name: type` with one array layer removed (`render_field`).  The text of the
output type is the text of left, a comma and a blank, and the text of the
kept fields of right, which is the rendering of left's fields followed by
the kept fields of right when neither list is empty. -/
theorem join_types_text (env : Env) (fuel : Nat)
    (visit : SemaState → AST.expr_t → Result HIR.expr_t) (st : SemaState)
    (left_type right_type right_on_type : datatype_t) (right_asof_name : String)
    (ldd rdd : DataDef) (remaining_type : datatype_t) (st₁ : SemaState)
    (hr : get_data_def st.heap right_type = some rdd)
    (hon : right_on_type = .null ∨ (get_data_def st.heap right_on_type).isSome)
    (hrem : anon_dataframe env fuel visit st
        (render_fields env.vm (kept_fields st.heap rdd right_on_type right_asof_name)) =
      .ok remaining_type st₁)
    (hl : get_data_def st₁.heap left_type = some ldd) :
    drop_columns env.vm st.heap right_type right_on_type right_asof_name =
        some (render_fields env.vm (kept_fields st.heap rdd right_on_type right_asof_name)) ∧
      (right_on_type = .null → right_asof_name = "" →
        kept_fields st.heap rdd right_on_type right_asof_name = fields_of st.heap rdd) ∧
      get_type_string_datatype env.vm st₁.heap left_type =
        some (render_fields env.vm (fields_of st₁.heap ldd)) ∧
      join_types env fuel visit st false left_type right_type right_on_type right_asof_name =
        (anon_dataframe env fuel visit st₁
          (render_fields env.vm (fields_of st₁.heap ldd) ++ ", " ++
            render_fields env.vm (kept_fields st.heap rdd right_on_type right_asof_name))).bind
          (fun full_type st₂ => .ok (remaining_type, full_type) st₂) ∧
      (fields_of st₁.heap ldd ≠ [] →
        kept_fields st.heap rdd right_on_type right_asof_name ≠ [] →
        render_fields env.vm (fields_of st₁.heap ldd) ++ ", " ++
            render_fields env.vm (kept_fields st.heap rdd right_on_type right_asof_name) =
          render_fields env.vm (fields_of st₁.heap ldd ++
            kept_fields st.heap rdd right_on_type right_asof_name)) := by
  have hdrop := drop_columns_eq env.vm st.heap right_type right_on_type right_asof_name rdd hr hon
  have hleft : get_type_string_datatype env.vm st₁.heap left_type =
      some (render_fields env.vm (fields_of st₁.heap ldd)) := by
    simp only [get_type_string_datatype, hl, get_type_string_decls_eq, render_fields, fields_of]
  refine ⟨hdrop, ?_, hleft, ?_, ?_⟩
  · intro hnull hempty
    subst hnull; subst hempty
    simp [kept_fields, on_names, get_data_def]
  · simp only [join_types, hdrop, hrem, Result.bind, hleft]
    rfl
  · intro h₁ h₂
    simp only [render_fields, List.map_append]
    rw [intercalate_append]
    · simpa using h₁
    · simpa using h₂

/-- The join of `l: !L` and `r: !R` of `joinTables` on the column `a`, with
`!K` for the `on` type of the right side and no `asof`: right keeps `c`, and
the output type has the fields `a`, `b` of left followed by `c`. -/
theorem join_types_text_example :
    ∃ remaining_type full_type st,
      joinState.table.entries 0 "!L" = [.DataRef 3] ∧
      joinState.table.entries 0 "!R" = [.DataRef 4] ∧
      joinState.table.entries 0 "!K" = [.DataRef 5] ∧
      drop_columns sampleVM joinState.heap (.UDT "!R" 4) (.UDT "!K" 5) "" = some "c: Float64" ∧
      join_types joinEnv 5 (visit_expr joinEnv 5 10) joinState false (.UDT "!L" 3)
          (.UDT "!R" 4) (.UDT "!K" 5) "" = .ok (remaining_type, full_type) st ∧
      get_type_string_datatype sampleVM st.heap remaining_type = some "c: Float64" ∧
      get_type_string_datatype sampleVM st.heap full_type =
        some "a: Int64, b: String, c: Float64" :=
  ⟨_, _, _, rfl, rfl, rfl,
    (join_types_text joinEnv 5 (visit_expr joinEnv 5 10) joinState (.UDT "!L" 3)
      (.UDT "!R" 4) (.UDT "!K" 5) "" _ _ _ _ rfl (Or.inr rfl) rfl rfl).1.trans rfl,
    rfl, rfl, rfl⟩


/-! ## The frame of a visit on the symbol table -/

theorem frame_refl (t : SemaVisitor) : Frame t t :=
  ⟨rfl, Nat.le_refl _, fun _ _ _ => rfl, fun _ => rfl⟩

theorem frame_of_eq {t t' : SemaVisitor} (h : t' = t) : Frame t t' := by
  rw [h]; exact frame_refl t

theorem frame_trans {t₁ t₂ t₃ : SemaVisitor} (h₁ : Frame t₁ t₂) (h₂ : Frame t₂ t₃) :
    Frame t₁ t₃ := by
  obtain ⟨hc₁, hl₁, hs₁, hp₁⟩ := h₁
  obtain ⟨hc₂, hl₂, hs₂, hp₂⟩ := h₂
  refine ⟨hc₂.trans hc₁, Nat.le_trans hl₁ hl₂, fun i hi hne => ?_, fun hlt => ?_⟩
  · rw [hs₂ i (Nat.lt_of_lt_of_le hi hl₁) (by rw [hc₁]; exact hne), hs₁ i hi hne]
  · rw [← hp₁ hlt, ← hc₁]
    exact hp₂ (by rw [hc₁]; exact Nat.lt_of_lt_of_le hlt hl₁)

theorem sameScopes_frame {t t' : SemaVisitor} (h : SameScopes t t') : Frame t t' := by
  obtain ⟨hc, hl, hs⟩ := h
  refine ⟨hc, hl, fun i hi _ => hs i hi, fun hlt => ?_⟩
  simp only [SemaVisitor.previous, hs _ hlt]

theorem store_symbol_frame (h : Heap) (fuel : Nat) (t t' : SemaVisitor) (symbol : String)
    (ptr : resolved_t) (b : Bool) (hs : store_symbol h fuel t symbol ptr = some (b, t')) :
    Frame t t' := by
  obtain ⟨hlen, hcur, -, hprev, -⟩ := store_symbol_shape _ _ _ _ _ _ _ hs
  refine ⟨hcur, Nat.le_of_eq hlen.symm, fun i _ hne => ?_, fun _ => hprev _⟩
  unfold store_symbol at hs
  split at hs
  · simp at hs
  · split at hs
    · split at hs
      · simp at hs
      · simp only [Option.some.injEq, Prod.mk.injEq] at hs
        rw [← hs.2]
      · simp only [Option.some.injEq, Prod.mk.injEq] at hs
        rw [← hs.2]
        simp only [SemaVisitor.set_scope]
        exact List.getElem?_set_ne (fun hc => hne hc.symm)
    · simp only [Option.some.injEq, Prod.mk.injEq] at hs
      rw [← hs.2]
      simp only [SemaVisitor.set_scope]
      exact List.getElem?_set_ne (fun hc => hne hc.symm)

theorem remove_symbol_ref_frame (t t' : SemaVisitor) (symbol : String) (ptr : resolved_t)
    (hs : remove_symbol_ref t symbol ptr = some t') : Frame t t' := by
  obtain ⟨hlen, hcur, -, hprev, -, -⟩ := remove_symbol_ref_shape t t' symbol ptr hs
  refine ⟨hcur, Nat.le_of_eq hlen.symm, fun i _ hne => ?_, fun _ => hprev _⟩
  unfold remove_symbol_ref at hs
  split at hs
  · simp at hs
  · split at hs
    · simp only [Option.some.injEq] at hs
      rw [← hs]
      simp only [SemaVisitor.set_scope]
      exact List.getElem?_set_ne (fun hc => hne hc.symm)
    · simp only [Option.some.injEq] at hs
      rw [← hs]

/-- A scope is pushed, the visits in it keep the frame, and the scope is
popped: the scopes that were there before are as they were. -/
theorem push_pop_sameScopes (t t₂ t₃ : SemaVisitor) (hf : Frame (push_scope t) t₂)
    (hp : pop_scope t₂ = some t₃) : SameScopes t t₃ := by
  obtain ⟨hc, hl, hs, hprev⟩ := hf
  have hcur : (push_scope t).current_scope_ = t.symbol_table_.length := rfl
  have hlen : (push_scope t).symbol_table_.length = t.symbol_table_.length + 1 := by
    simp [push_scope]
  rw [hcur] at hc hs hprev
  rw [hlen] at hl hs hprev
  have hlink : t₂.previous t.symbol_table_.length = some t.current_scope_ := by
    rw [hprev (Nat.lt_succ_self _)]
    simp [SemaVisitor.previous, push_scope]
  unfold pop_scope at hp
  rw [hc] at hp
  simp only [SemaVisitor.previous] at hlink
  cases hsc : t₂.symbol_table_[t.symbol_table_.length]? with
  | none => rw [hsc] at hp; simp at hp
  | some scope =>
      rw [hsc] at hp hlink
      simp only [Option.some.injEq] at hp hlink
      subst hp
      refine ⟨hlink, by show _ ≤ t₂.symbol_table_.length; omega, fun i hi => ?_⟩
      show t₂.symbol_table_[i]? = _
      rw [hs i (by omega) (by omega)]
      simp only [push_scope]
      exact List.getElem?_append_left hi

theorem keepsFrame_congr {α : Type} {st s : SemaState} {r : Result α}
    (hs : Frame st.table s.table) (hr : KeepsFrame s r) : KeepsFrame st r := by
  cases r with
  | ok v s₁ => exact frame_trans hs hr
  | throw m s₁ => trivial
  | stuck => trivial

theorem keepsFrame_bind {α β : Type} {st : SemaState} {r : Result α}
    {f : α → SemaState → Result β} (hr : KeepsFrame st r)
    (hf : ∀ v s, Frame st.table s.table → KeepsFrame st (f v s)) :
    KeepsFrame st (r.bind f) := by
  cases r with
  | ok v s₁ => exact hf v s₁ hr
  | throw m s₁ => trivial
  | stuck => trivial

theorem keepsFrame_ofOption {α : Type} {st : SemaState} {o : Option (α × SemaState)}
    (h : ∀ v s, o = some (v, s) → Frame st.table s.table) :
    KeepsFrame st (Result.ofOption o) := by
  cases o with
  | none => trivial
  | some p => exact h p.1 p.2 rfl

theorem keepsFrame_visit_list {α β : Type} {f : SemaState → α → Result β}
    (hf : ∀ s a, KeepsFrame s (f s a)) :
    ∀ (l : List α) (st : SemaState), KeepsFrame st (visit_list f st l) := by
  intro l
  induction l with
  | nil => intro st; exact frame_refl _
  | cons a l ih =>
      intro st
      simp only [Sema.visit_list]
      refine keepsFrame_bind (hf st a) (fun b s₁ hs₁ => ?_)
      refine keepsFrame_bind (keepsFrame_congr hs₁ (ih s₁)) (fun bs s₂ hs₂ => ?_)
      exact hs₂

theorem keepsFrame_visit_option {α β : Type} {f : SemaState → α → Result β}
    (hf : ∀ s a, KeepsFrame s (f s a)) (st : SemaState) (o : Option α) :
    KeepsFrame st (visit_option f st o) := by
  cases o with
  | none => exact frame_refl _
  | some a =>
      simp only [Sema.visit_option]
      exact keepsFrame_bind (hf st a) (fun b s₁ hs₁ => hs₁)

theorem do_store_symbol_frame (fuel : Nat) (st st₁ : SemaState) (symbol : String)
    (ptr : resolved_t) (b : Bool) (h : do_store_symbol fuel st symbol ptr = some (b, st₁)) :
    Frame st.table st₁.table :=
  store_symbol_frame _ _ _ _ _ _ _ (do_store_symbol_eq fuel st st₁ symbol ptr b h).2

theorem do_remove_symbol_ref_frame (st st₁ : SemaState) (symbol : String) (ptr : resolved_t)
    (h : do_remove_symbol_ref st symbol ptr = some st₁) : Frame st.table st₁.table := by
  unfold do_remove_symbol_ref at h
  split at h
  · simp at h
  · rename_i t ht
    simp only [Option.some.injEq] at h
    rw [← h]
    exact remove_symbol_ref_frame _ _ _ _ ht

theorem do_push_pop_sameScopes (st s₂ s₃ : SemaState)
    (hf : Frame (do_push_scope st).table s₂.table) (hp : do_pop_scope s₂ = some s₃) :
    SameScopes st.table s₃.table := by
  unfold do_pop_scope at hp
  split at hp
  · simp at hp
  · rename_i t ht
    simp only [Option.some.injEq] at hp
    rw [← hp]
    exact push_pop_sameScopes st.table s₂.table t hf ht


theorem frame_error (st : SemaState) (m : String) : Frame st.table (st.error m).table :=
  frame_refl _

theorem frame_ite_error (c : Prop) [Decidable c] (st : SemaState) (m : String) :
    Frame st.table (if c then st.error m else st).table := by
  split <;> exact frame_refl _

theorem frame_ite_error_else (c : Prop) [Decidable c] (st : SemaState) (m : String) :
    Frame st.table (if c then st else st.error m).table := by
  split <;> exact frame_refl _

theorem ite_error_table (c : Prop) [Decidable c] (st : SemaState) (m : String) :
    (if c then st.error m else st).table = st.table := by
  split <;> rfl

theorem ite_error_table_else (c : Prop) [Decidable c] (st : SemaState) (m : String) :
    (if c then st else st.error m).table = st.table := by
  split <;> rfl

theorem make_dataframe_fields_frame (fuel : Nat) :
    ∀ (l : List Nat) (st st₁ : SemaState) (body : List Nat),
      make_dataframe_fields fuel st l = some (body, st₁) → Frame st.table st₁.table := by
  intro l
  induction l with
  | nil =>
      intro st st₁ body h
      simp only [make_dataframe_fields, Option.some.injEq, Prod.mk.injEq] at h
      rw [← h.2]
      exact frame_refl _
  | cons b bs ih =>
      intro st st₁ body h
      simp only [make_dataframe_fields, SemaState.new_declaration] at h
      cases hs : do_store_symbol fuel
          { st with
            heap := { st.heap with
              decl := Function.update st.heap.decl st.next_decl
                ⟨(st.heap.decl b).name, .Array (st.heap.decl b).type, (st.heap.decl b).offset⟩ }
            next_decl := st.next_decl + 1 }
          (st.heap.decl b).name (.DeclRef st.next_decl) with
      | none => rw [hs] at h; simp at h
      | some p =>
          obtain ⟨x, st₂⟩ := p
          rw [hs] at h
          simp only at h
          cases hm : make_dataframe_fields fuel st₂ bs with
          | none => rw [hm] at h; simp at h
          | some q =>
              obtain ⟨body', st₃⟩ := q
              rw [hm] at h
              simp only [Option.some.injEq, Prod.mk.injEq] at h
              rw [← h.2]
              have hst := do_store_symbol_frame _ _ _ _ _ _ hs
              exact frame_trans hst (ih _ _ _ hm)

theorem new_dataframe_frame (fuel : Nat) (st st₁ : SemaState) (name : String) (node : Nat)
    (t : datatype_t) (h : new_dataframe fuel st name node = some (t, st₁)) :
    Frame st.table st₁.table := by
  unfold new_dataframe at h
  simp only at h
  cases hf : make_dataframe_fields fuel (do_push_scope st) (st.heap.datadef node).body with
  | none => rw [hf] at h; simp at h
  | some p =>
      obtain ⟨body, st₂⟩ := p
      rw [hf] at h
      simp only at h
      cases hp : do_pop_scope st₂ with
      | none => rw [hp] at h; simp at h
      | some st₃ =>
          rw [hp] at h
          simp only [SemaState.new_DataDef] at h
          cases hs : do_store_symbol fuel
              { st₃ with
                heap := { st₃.heap with
                  datadef := Function.update st₃.heap.datadef st₃.next_datadef
                    ⟨name, body, (do_push_scope st).table.current_scope_⟩ }
                next_datadef := st₃.next_datadef + 1 }
              name (.DataRef st₃.next_datadef) with
          | none => rw [hs] at h; simp at h
          | some q =>
              obtain ⟨x, st₅⟩ := q
              rw [hs] at h
              simp only [Option.some.injEq, Prod.mk.injEq] at h
              rw [← h.2]
              have h3 : Frame st.table st₃.table :=
                sameScopes_frame (do_push_pop_sameScopes st st₂ st₃
                  (make_dataframe_fields_frame _ _ _ _ _ hf) hp)
              have hst := do_store_symbol_frame _ _ _ _ _ _ hs
              exact frame_trans h3 hst

theorem make_dataframe_frame (fuel : Nat) (st st₁ : SemaState) (name : String)
    (t : datatype_t) (h : make_dataframe fuel st name = some (t, st₁)) :
    Frame st.table st₁.table := by
  unfold make_dataframe at h
  cases hu : get_underlying_udt fuel st name with
  | none => rw [hu] at h; simp at h
  | some o =>
      rw [hu] at h
      cases o with
      | none =>
          simp only [Option.some.injEq, Prod.mk.injEq] at h
          rw [← h.2]
          exact frame_refl _
      | some node =>
          simp only at h
          cases hf : find_symbol st.heap st.table fuel name with
          | none => rw [hf] at h; simp at h
          | some p =>
              obtain ⟨resolveds, flag⟩ := p
              rw [hf] at h
              simp only at h
              cases he : existing_dataframe st.heap fuel node resolveds with
              | none => rw [he] at h; simp at h
              | some o =>
                  rw [he] at h
                  cases o with
                  | none => exact new_dataframe_frame fuel st st₁ name node t h
                  | some ref =>
                      cases ref <;> simp at h
                      rw [← h.2]
                      exact frame_refl _

theorem dataframe_up_front_frame (fuel : Nat) (st st₁ : SemaState) (s : String)
    (h : dataframe_up_front fuel st s = some st₁) : Frame st.table st₁.table := by
  unfold dataframe_up_front at h
  by_cases hc : first_char s = '!'
  · rw [if_pos hc] at h
    cases hm : make_dataframe fuel st s with
    | none => rw [hm] at h; simp at h
    | some p =>
        rw [hm] at h
        simp only [Option.some.injEq] at h
        rw [← h]
        exact make_dataframe_frame fuel st p.2 s p.1 hm
  · rw [if_neg hc] at h
    simp only [Option.some.injEq] at h
    rw [← h]
    exact frame_refl _

theorem visitId_frame (fuel : Nat) (st : SemaState) (s : String) :
    KeepsFrame st (visitId fuel st s) := by
  unfold visitId
  cases hd : dataframe_up_front fuel st s with
  | none => trivial
  | some st₁ =>
      simp only
      cases hf : find_symbol st₁.heap st₁.table fuel s with
      | none => trivial
      | some p =>
          simp only [KeepsFrame, ite_error_table]
          exact dataframe_up_front_frame fuel st st₁ s hd

theorem fill_args_table :
    ∀ (as : List datatype_t) (st st₁ : SemaState) (ds : List Nat) (ts : List datatype_t)
      (l : List Nat), fill_args st ds ts as = some (l, st₁) → st₁.table = st.table := by
  intro as
  induction as with
  | nil =>
      intro st st₁ ds ts l h
      simp only [fill_args, Option.some.injEq, Prod.mk.injEq] at h
      rw [← h.2]
  | cons a as ih =>
      intro st st₁ ds ts l h
      cases ds with
      | nil => simp [fill_args] at h
      | cons d ds =>
          cases ts with
          | nil => simp [fill_args] at h
          | cons t ts =>
              simp only [fill_args, SemaState.new_declaration] at h
              split at h
              · simp at h
              · rename_i new_args st₂ hr
                simp only [Option.some.injEq, Prod.mk.injEq] at h
                rw [← h.2, ih _ _ _ _ _ hr]

theorem call_generic_table (vm : VVM) (fuel : Nat) (st st₁ : SemaState) (generic : Nat)
    (args : List datatype_t) (func : Option HIR.expr_t)
    (h : call_generic vm fuel st generic args = some (func, st₁)) :
    st₁.table = st.table := by
  unfold call_generic at h
  split at h
  · simp at h
  · simp only [Option.some.injEq, Prod.mk.injEq] at h; rw [← h.2]
  · simp only at h
    split at h
    · simp at h
    · split at h
      · split at h
        · simp at h
        · split at h
          · simp at h
          · rename_i new_args st₂ hfill
            simp only [SemaState.new_FunctionDef, SemaState.set_GenericFunctionDef,
              Option.some.injEq, Prod.mk.injEq] at h
            rw [← h.2]
            show st₂.table = _
            exact fill_args_table _ _ _ _ _ _ hfill
      · simp only [Option.some.injEq, Prod.mk.injEq] at h; rw [← h.2]; rfl

theorem function_call_tail_frame (vm : VVM) (fuel : Nat) (st : SemaState) (func : HIR.expr_t)
    (args : List HIR.expr_t) : KeepsFrame st (function_call_tail vm fuel st func args) := by
  unfold function_call_tail
  simp only
  split
  · trivial
  · rename_i func₁ st₁ hres
    show Frame st.table st₁.table
    apply frame_of_eq
    split at hres
    · split at hres
      · simp at hres
      · rename_i f' s' hc
        simp only [Option.some.injEq, Prod.mk.injEq] at hres
        rw [← hres.2]; exact call_generic_table _ _ _ _ _ _ _ hc
      · rename_i s' hc
        simp only [Option.some.injEq, Prod.mk.injEq] at hres
        rw [← hres.2]; exact call_generic_table _ _ _ _ _ _ _ hc
    · split at hres
      · split at hres
        · simp at hres
        · simp only [Option.some.injEq, Prod.mk.injEq] at hres; rw [← hres.2]; rfl
        · simp only [Option.some.injEq, Prod.mk.injEq] at hres; rw [← hres.2]
      · split at hres
        · simp at hres
        · simp only [Option.some.injEq, Prod.mk.injEq] at hres
          rw [← hres.2]; exact ite_error_table_else _ _ _

theorem member_tail_frame (st : SemaState) (value : HIR.expr_t) (member : String) :
    KeepsFrame st (member_tail st value member) := by
  unfold member_tail
  simp only
  split
  · trivial
  · simp only [KeepsFrame, ite_error_table]
    exact frame_refl _

theorem list_check_table (vm : VVM) (fuel : Nat) (expected : datatype_t) :
    ∀ (l : List HIR.expr_t) (st st₁ : SemaState),
      list_check vm fuel expected st l = some st₁ → st₁.table = st.table := by
  intro l
  induction l with
  | nil =>
      intro st st₁ h
      simp only [list_check, Option.some.injEq] at h
      rw [← h]
  | cons e es ih =>
      intro st st₁ h
      simp only [list_check] at h
      split at h
      · simp at h
      · exact ih _ _ h
      · rw [ih _ _ h]; rfl

theorem list_tail_frame (vm : VVM) (fuel : Nat) (st : SemaState) (values : List HIR.expr_t) :
    KeepsFrame st (list_tail vm fuel st values) := by
  unfold list_tail
  simp only
  split
  · trivial
  · rename_i st₁ hc
    have h1 := list_check_table _ _ _ _ _ _ hc
    split <;> simp only [KeepsFrame, ite_error_table, h1] <;> exact frame_refl _


theorem declaration_tail_frame (env : Env) (fuel : Nat) (st st₁ : SemaState) (start : Nat)
    (name : String) (type : datatype_t) (value : Option datatype_t) (n : Nat)
    (h : declaration_tail env fuel st start name type value = some (n, st₁)) :
    Frame st.table st₁.table := by
  unfold declaration_tail at h
  cases hc : declaration_checks env.vm fuel st type value with
  | none => rw [hc] at h; simp at h
  | some p =>
      obtain ⟨t, st₃⟩ := p
      rw [hc] at h
      obtain ⟨new, hnew, -, -⟩ := declaration_checks_errors env.vm fuel st st₃ type t value hc
      subst hnew
      simp only [SemaState.new_declaration] at h
      split at h
      · split at h
        · simp at h
        · rename_i st₅ hs
          simp only [Option.some.injEq, Prod.mk.injEq] at h
          rw [← h.2]
          have hst := do_store_symbol_frame _ _ _ _ _ _ hs
          exact hst
        · rename_i st₅ hs
          simp only [Option.some.injEq, Prod.mk.injEq] at h
          rw [← h.2]
          have hst := do_store_symbol_frame _ _ _ _ _ _ hs
          exact hst
      · simp only [Option.some.injEq, Prod.mk.injEq] at h
        rw [← h.2]
        exact frame_refl _

theorem visitDeclaration_frame (env : Env) (fuel : Nat)
    (visit : SemaState → AST.expr_t → Result HIR.expr_t)
    (hv : ∀ s e, KeepsFrame s (visit s e)) (st : SemaState) (node : AST.declaration_t) :
    KeepsFrame st (visitDeclaration env fuel visit st node) := by
  unfold visitDeclaration
  simp only
  refine keepsFrame_bind (keepsFrame_congr (frame_ite_error _ _ _)
    (keepsFrame_visit_option hv _ _)) (fun explicit_type s₂ hs₂ => ?_)
  have htyped : ∀ (p : datatype_t × SemaState),
      p = (match explicit_type with
        | some e =>
            if is_kind_type e.type then (get_underlying_type e.type, s₂)
            else
              (.null, s₂.error ("Error: declaration for " ++ node.name ++
                " has invalid type\n"))
        | none => (.null, s₂)) → Frame st.table p.2.table := by
    intro p hp
    rw [hp]
    split
    · split <;> exact hs₂
    · exact hs₂
  refine keepsFrame_bind (keepsFrame_congr (htyped _ rfl)
    (keepsFrame_visit_option hv _ _)) (fun value s₃ hs₃ => ?_)
  split
  · trivial
  · rename_i n s₄ ht
    show Frame st.table s₄.table
    exact frame_trans hs₃ (declaration_tail_frame _ _ _ _ _ _ _ _ _ ht)

theorem visit_fields_frame (env : Env) (fuel : Nat)
    (visit : SemaState → AST.expr_t → Result HIR.expr_t)
    (hv : ∀ s e, KeepsFrame s (visit s e)) :
    ∀ (l : List AST.declaration_t) (st : SemaState) (offset : Nat),
      KeepsFrame st (visit_fields env fuel visit st offset l) := by
  intro l
  induction l with
  | nil => intro st offset; exact frame_refl _
  | cons b bs ih =>
      intro st offset
      simp only [visit_fields]
      refine keepsFrame_bind (visitDeclaration_frame env fuel visit hv st b) (fun d s₁ hs₁ => ?_)
      refine keepsFrame_bind (keepsFrame_congr (s := s₁.set_declaration d.ref _) hs₁ (ih _ _))
        (fun ds s₃ hs₃ => hs₃)

theorem visitDataDef_frame (env : Env) (fuel : Nat)
    (visit : SemaState → AST.expr_t → Result HIR.expr_t)
    (hv : ∀ s e, KeepsFrame s (visit s e)) (st : SemaState) (name : String)
    (body : List AST.declaration_t) :
    KeepsFrame st (visitDataDef env fuel visit st name body) := by
  unfold visitDataDef
  simp only [SemaState.new_DataDef]
  split
  · trivial
  · rename_i stored st₃ hs
    have h3 : Frame st.table st₃.table := by
      have hst := do_store_symbol_frame _ _ _ _ _ _ hs
      refine frame_trans ?_ hst
      exact frame_ite_error _ _ _
    have h4 : Frame st.table (if stored = true then st₃
        else st₃.error ("Error: symbol " ++ name ++ " was already defined\n")).table := by
      rw [ite_error_table_else]; exact h3
    cases hvf : visit_fields env fuel visit
        (do_push_scope (if stored = true then st₃
          else st₃.error ("Error: symbol " ++ name ++ " was already defined\n"))) 0 body with
    | throw m s => trivial
    | stuck => trivial
    | ok fields s₆ =>
        have h6 : KeepsFrame _ (visit_fields env fuel visit
            (do_push_scope (if stored = true then st₃
              else st₃.error ("Error: symbol " ++ name ++ " was already defined\n"))) 0 body) :=
          visit_fields_frame env fuel visit hv _ _ _
        rw [hvf] at h6
        simp only [Result.bind]
        split
        · trivial
        · rename_i st₇ hp
          have h7 : Frame st.table st₇.table :=
            frame_trans h4 (sameScopes_frame (do_push_pop_sameScopes _ _ _ h6 hp))
          split
          · trivial
          · rename_i st₈ hr
            show Frame st.table st₈.table
            split at hr
            · exact frame_trans h7 (do_remove_symbol_ref_frame _ _ _ _ hr)
            · simp only [Option.some.injEq] at hr
              rw [← hr]; exact h7

theorem create_datatype_frame (env : Env) (fuel : Nat)
    (visit : SemaState → AST.expr_t → Result HIR.expr_t)
    (hv : ∀ s e, KeepsFrame s (visit s e)) (st : SemaState) (type_name type_def : String) :
    KeepsFrame st (create_datatype env fuel visit st type_name type_def) := by
  unfold create_datatype
  split
  · exact visitDataDef_frame env fuel visit hv st _ _
  · trivial

theorem anon_dataframe_frame (env : Env) (fuel : Nat)
    (visit : SemaState → AST.expr_t → Result HIR.expr_t)
    (hv : ∀ s e, KeepsFrame s (visit s e)) (st : SemaState) (ts : String) :
    KeepsFrame st (anon_dataframe env fuel visit st ts) := by
  unfold anon_dataframe
  simp only [anon_func_name]
  refine keepsFrame_bind (keepsFrame_congr (s := { st with counter := st.counter + 1 })
    (frame_refl _) (create_datatype_frame env fuel visit hv _ _ _)) (fun _ s₂ hs₂ => ?_)
  exact keepsFrame_ofOption (fun v s h => frame_trans hs₂ (make_dataframe_frame _ _ _ _ _ h))

theorem visitAlias_frame (visit : SemaState → AST.expr_t → Result HIR.expr_t)
    (hv : ∀ s e, KeepsFrame s (visit s e)) (st : SemaState) (node : AST.expr_t × String) :
    KeepsFrame st (visitAlias visit st node) := by
  unfold visitAlias
  simp only
  exact keepsFrame_bind (keepsFrame_congr (frame_ite_error _ _ _) (hv _ _))
    (fun value s₂ hs₂ => hs₂)

theorem visit_cols_frame (visit : SemaState → AST.expr_t → Result HIR.expr_t)
    (hv : ∀ s e, KeepsFrame s (visit s e)) (by_empty : Bool) :
    ∀ (l : List (AST.expr_t × String)) (st : SemaState),
      KeepsFrame st (visit_cols visit by_empty st l) := by
  intro l
  induction l with
  | nil => intro st; exact frame_refl _
  | cons c cs ih =>
      intro st
      simp only [visit_cols]
      refine keepsFrame_bind (visitAlias_frame visit hv st c) (fun col s₁ hs₁ => ?_)
      refine keepsFrame_bind (keepsFrame_congr ?_ (ih _)) (fun cols s₄ hs₄ => hs₄)
      rw [ite_error_table, ite_error_table]
      exact hs₁

theorem frame_set_preferred_scope (st : SemaState) (e : Option Sema.expr_t) :
    Frame st.table (st.set_preferred_scope e).table :=
  ⟨rfl, Nat.le_refl _, fun _ _ _ => rfl, fun _ => rfl⟩

theorem visitQuery_frame (env : Env) (fuel : Nat)
    (visit : SemaState → AST.expr_t → Result HIR.expr_t)
    (hv : ∀ s e, KeepsFrame s (visit s e)) (st : SemaState) (table : AST.expr_t) (qt : Nat)
    (cols by_ : List (AST.expr_t × String)) (where_ : Option AST.expr_t) :
    KeepsFrame st (visitQuery env fuel visit st table qt cols by_ where_) := by
  unfold visitQuery
  refine keepsFrame_bind (hv st table) (fun table s₁ hs₁ => ?_)
  simp only
  refine keepsFrame_bind (keepsFrame_congr ?_
    (keepsFrame_visit_list (visitAlias_frame visit hv) _ _)) (fun by_ s₄ hs₄ => ?_)
  · refine frame_trans ?_ (frame_set_preferred_scope _ _)
    rw [ite_error_table_else]; exact hs₁
  refine keepsFrame_bind ?_ (fun by_type s₅ hs₅ => ?_)
  · split
    · exact hs₄
    · exact keepsFrame_congr hs₄ (anon_dataframe_frame env fuel visit hv _ _)
  refine keepsFrame_bind (keepsFrame_congr hs₅ (visit_cols_frame visit hv _ _ _))
    (fun cols s₆ hs₆ => ?_)
  refine keepsFrame_bind ?_ (fun type s₇ hs₇ => ?_)
  · split
    · exact keepsFrame_congr hs₆ (anon_dataframe_frame env fuel visit hv _ _)
    · simp only [KeepsFrame]
      rw [ite_error_table]; exact hs₆
  refine keepsFrame_bind (keepsFrame_congr hs₇ (keepsFrame_visit_option hv _ _))
    (fun where_ s₈ hs₈ => ?_)
  refine frame_trans ?_ (frame_set_preferred_scope _ _)
  split
  · exact hs₈
  · rw [ite_error_table_else]; exact hs₈

/-- The visitor of expressions keeps the frame of the symbol table. -/
theorem visit_expr_frame (env : Env) (fuel : Nat) :
    ∀ (depth : Nat) (st : SemaState) (node : AST.expr_t),
      KeepsFrame st (visit_expr env fuel depth st node) := by
  intro depth
  induction depth with
  | zero => intro st node; trivial
  | succ n ih =>
      intro st node
      cases node with
      | Id s => exact visitId_frame fuel st s
      | IntegerLiteral n => exact frame_refl _
      | FloatingLiteral n => exact frame_refl _
      | BoolLiteral b => exact frame_refl _
      | Str s => exact frame_refl _
      | Char c => exact frame_refl _
      | Paren subexpr =>
          simp only [visit_expr]
          exact keepsFrame_bind (ih st subexpr) (fun v s hs => hs)
      | FunctionCall func args =>
          simp only [visit_expr]
          refine keepsFrame_bind (ih st func) (fun func s₁ hs₁ => ?_)
          refine keepsFrame_bind (keepsFrame_congr ?_ (keepsFrame_visit_list ih _ _))
            (fun args s₃ hs₃ => ?_)
          · rw [ite_error_table_else]; exact hs₁
          · exact keepsFrame_congr hs₃ (function_call_tail_frame _ _ _ _ _)
      | Member value member =>
          simp only [visit_expr]
          exact keepsFrame_bind (ih st value)
            (fun value s₁ hs₁ => keepsFrame_congr hs₁ (member_tail_frame _ _ _))
      | List values =>
          simp only [visit_expr]
          exact keepsFrame_bind (keepsFrame_visit_list ih _ _)
            (fun values s₁ hs₁ => keepsFrame_congr hs₁ (list_tail_frame _ _ _ _))
      | Query table qt cols by_ where_ =>
          simp only [visit_expr]
          exact visitQuery_frame env fuel _ ih st table qt cols by_ where_
      | BinOp left op right =>
          simp only [visit_expr]
          refine keepsFrame_bind (ih st _) (fun result s₁ hs₁ => ?_)
          split
          · exact hs₁
          · trivial


theorem explicit_return_type_table (st : SemaState) (name : String) (e : Option HIR.expr_t) :
    (explicit_return_type st name e).2.table = st.table := by
  unfold explicit_return_type
  split
  · split <;> rfl
  · rfl

theorem function_shell_table (st : SemaState) (name : String) (args : List Nat)
    (rettype : datatype_t) (is_generic : Bool) :
    (function_shell st name args rettype is_generic).2.2.2.table = st.table := by
  unfold function_shell
  simp only [SemaState.new_FunctionDef, SemaState.new_GenericFunctionDef]
  split <;> rfl

theorem previous_congr {t₁ t₂ : SemaVisitor} {i : Nat}
    (h : t₁.symbol_table_[i]? = t₂.symbol_table_[i]?) : t₁.previous i = t₂.previous i := by
  simp only [SemaVisitor.previous, h]

/-- The scopes of a function definition: the scope of the definition is
pushed, the arguments are declared in it, the name is stored in the outer
scope, the body is visited in the inner scope, and the scope is popped. -/
theorem function_scopes_frame (t A C E G : SemaVisitor) (hA : Frame (push_scope t) A)
    (hC : Frame { A with current_scope_ := t.current_scope_ } C)
    (hE : Frame { C with current_scope_ := t.symbol_table_.length } E)
    (hG : pop_scope E = some G) : Frame t G := by
  obtain ⟨hAc, hAl, hAs, hAp⟩ := hA
  obtain ⟨hCc, hCl, hCs, hCp⟩ := hC
  obtain ⟨hEc, hEl, hEs, hEp⟩ := hE
  have hlen : (push_scope t).symbol_table_.length = t.symbol_table_.length + 1 := by
    simp [push_scope]
  have hAc' : A.current_scope_ = t.symbol_table_.length := hAc
  have hAl' : t.symbol_table_.length + 1 ≤ A.symbol_table_.length := by rw [← hlen]; exact hAl
  have hAs' : ∀ i, i < t.symbol_table_.length → A.symbol_table_[i]? = t.symbol_table_[i]? := by
    intro i hi
    rw [hAs i (by rw [hlen]; omega) (by show i ≠ t.symbol_table_.length; omega)]
    simp only [push_scope]
    exact List.getElem?_append_left hi
  have hAn : A.previous t.symbol_table_.length = some t.current_scope_ := by
    have := hAp (by rw [hlen]; exact Nat.lt_succ_self _)
    rw [show (push_scope t).current_scope_ = t.symbol_table_.length from rfl] at this
    rw [this]
    simp [SemaVisitor.previous, push_scope]
  have hCc' : C.current_scope_ = t.current_scope_ := hCc
  have hCl' : A.symbol_table_.length ≤ C.symbol_table_.length := hCl
  have hCs' : ∀ i, i < A.symbol_table_.length → i ≠ t.current_scope_ →
      C.symbol_table_[i]? = A.symbol_table_[i]? := hCs
  have hCp' : t.current_scope_ < A.symbol_table_.length →
      C.previous t.current_scope_ = A.previous t.current_scope_ := hCp
  have hEc' : E.current_scope_ = t.symbol_table_.length := hEc
  have hEl' : C.symbol_table_.length ≤ E.symbol_table_.length := hEl
  have hEs' : ∀ i, i < C.symbol_table_.length → i ≠ t.symbol_table_.length →
      E.symbol_table_[i]? = C.symbol_table_[i]? := hEs
  have hEp' : t.symbol_table_.length < C.symbol_table_.length →
      E.previous t.symbol_table_.length = C.previous t.symbol_table_.length := hEp
  have hCn : C.previous t.symbol_table_.length = some t.current_scope_ := by
    by_cases hcn : t.symbol_table_.length = t.current_scope_
    · have := hCp' (by omega)
      rw [← hcn] at this
      rw [this, hAn]
    · simp only [SemaVisitor.previous, hCs' _ (by omega) hcn]
      exact hAn
  have hEn : E.previous t.symbol_table_.length = some t.current_scope_ := by
    rw [hEp' (by omega)]; exact hCn
  unfold pop_scope at hG
  rw [hEc'] at hG
  simp only [SemaVisitor.previous] at hEn
  cases hsc : E.symbol_table_[t.symbol_table_.length]? with
  | none => rw [hsc] at hG; simp at hG
  | some scope =>
      rw [hsc] at hG hEn
      simp only [Option.some.injEq] at hG hEn
      subst hG
      refine ⟨hEn, by show _ ≤ E.symbol_table_.length; omega, fun i hi hne => ?_, fun hlt => ?_⟩
      · show E.symbol_table_[i]? = _
        rw [hEs' i (by omega) (by omega), hCs' i (by omega) hne, hAs' i hi]
      · have h1 : E.previous t.current_scope_ = C.previous t.current_scope_ :=
          previous_congr (hEs' _ (by omega) (by omega))
        have h2 := hCp' (by omega)
        have h3 : A.previous t.current_scope_ = t.previous t.current_scope_ :=
          previous_congr (hAs' _ hlt)
        exact h1.trans (h2.trans h3)

theorem function_def_tail_frame (vm : VVM) (fuel : Nat) (st st' : SemaState) (start : Nat)
    (name : String) (rettype r : datatype_t) (new_node : Nat) (ref : resolved_t)
    (h : function_def_tail vm fuel st start name rettype new_node ref = some (r, st')) :
    ∃ st₁, do_pop_scope st = some st₁ ∧ Frame st₁.table st'.table := by
  unfold function_def_tail at h
  cases hp : do_pop_scope st with
  | none => rw [hp] at h; simp at h
  | some st₁ =>
      rw [hp] at h
      simp only at h
      refine ⟨st₁, rfl, ?_⟩
      cases hstack : st₁.rettype_stack_ with
      | nil => rw [hstack] at h; simp at h
      | cons rettypes stack =>
          rw [hstack] at h
          simp only at h
          cases hb : body_return_type vm fuel name st₁ rettypes with
          | none => rw [hb] at h; simp at h
          | some p =>
              obtain ⟨body_rettype, st₂⟩ := p
              rw [hb] at h
              simp only at h
              obtain ⟨new₁, hnew₁, -, -⟩ :=
                body_return_type_errors vm fuel name st₁ st₂ rettypes body_rettype hb
              subst hnew₁
              cases hc : check_return_type vm fuel name
                  { st₁.errors new₁ with rettype_stack_ := stack } rettype body_rettype with
              | none => rw [hc] at h; simp at h
              | some q =>
                  obtain ⟨r₁, st₅⟩ := q
                  rw [hc] at h
                  simp only at h
                  obtain ⟨new₂, hnew₂, -, -, -⟩ :=
                    check_return_type_errors vm fuel name _ st₅ rettype body_rettype r₁ hc
                  have h5 : st₅.table = st₁.table := by rw [hnew₂]; rfl
                  have hchk : ∀ st₆, (if (first_char name).isUpper = true then
                      cast_check fuel name st₅ r₁ else some st₅) = some st₆ →
                      st₆.table = st₁.table := by
                    intro st₆ h6
                    split at h6
                    · obtain ⟨new₃, _, _, _, hnew₃, -, -, -⟩ :=
                        cast_check_errors fuel name st₅ st₆ r₁ h6
                      rw [hnew₃]; exact h5
                    · simp only [Option.some.injEq] at h6
                      rw [← h6]; exact h5
                  cases hcc : (if (first_char name).isUpper = true then
                      cast_check fuel name st₅ r₁ else some st₅) with
                  | none => rw [hcc] at h; simp at h
                  | some st₆ =>
                      rw [hcc] at h
                      simp only at h
                      have h6 := hchk st₆ hcc
                      by_cases hlen : st₆.sema_err_.length > start
                      · rw [if_pos hlen] at h
                        cases hrm : do_remove_symbol_ref st₆ name ref with
                        | none => rw [hrm] at h; simp at h
                        | some st₇ =>
                            rw [hrm] at h
                            simp only [Option.some.injEq, Prod.mk.injEq] at h
                            rw [← h.2]
                            have := do_remove_symbol_ref_frame _ _ _ _ hrm
                            rw [h6] at this
                            exact this
                      · rw [if_neg hlen] at h
                        simp only [Option.some.injEq, Prod.mk.injEq] at h
                        rw [← h.2]
                        exact frame_of_eq h6


theorem keepsFrame_bind_of {α β : Type} {st : SemaState} {r : Result α}
    {f : α → SemaState → Result β} (hf : ∀ v s, r = .ok v s → KeepsFrame st (f v s)) :
    KeepsFrame st (r.bind f) := by
  cases r with
  | ok v s₁ => exact hf v s₁ rfl
  | throw m s₁ => trivial
  | stuck => trivial

theorem keepsFrame_ok {α : Type} {st s₁ : SemaState} {r : Result α} {v : α}
    (h : KeepsFrame st r) (hr : r = .ok v s₁) : Frame st.table s₁.table := by
  subst hr; exact h

theorem do_pop_scope_table (st st₁ : SemaState) (h : do_pop_scope st = some st₁) :
    pop_scope st.table = some st₁.table := by
  unfold do_pop_scope at h
  split at h
  · simp at h
  · rename_i t ht
    simp only [Option.some.injEq] at h
    rw [← h, ht]

theorem visitFunctionDef_frame (env : Env) (fuel : Nat)
    (visit : SemaState → AST.expr_t → Result HIR.expr_t)
    (visit_body : SemaState → AST.stmt_t → Result HIR.stmt_t)
    (hv : ∀ s e, KeepsFrame s (visit s e)) (hb : ∀ s b, KeepsFrame s (visit_body s b))
    (st : SemaState) (name : String) (args : List AST.declaration_t) (body : List AST.stmt_t)
    (explicit_rettype : Option AST.expr_t) :
    KeepsFrame st
      (visitFunctionDef env fuel visit visit_body st name args body explicit_rettype) := by
  unfold visitFunctionDef
  simp only
  refine keepsFrame_bind (keepsFrame_visit_option hv _ _) (fun er s₁ hs₁ => ?_)
  have ht : (explicit_return_type s₁ name er).2.table = s₁.table :=
    explicit_return_type_table _ _ _
  refine keepsFrame_congr (s := (explicit_return_type s₁ name er).2)
    (by rw [ht]; exact hs₁) ?_
  generalize explicit_return_type s₁ name er = typed
  refine keepsFrame_bind_of (fun hargs s₄ hr₄ => ?_)
  have hA := keepsFrame_ok
    (keepsFrame_visit_list (visitDeclaration_frame env fuel visit hv) _ _) hr₄
  split
  · trivial
  · rename_i stored st₇ hs
    have hC : Frame { s₄.table with current_scope_ := typed.2.table.current_scope_ }
        st₇.table := by
      have := do_store_symbol_frame _ _ _ _ _ _ hs
      simp only [SemaState.set_current_scope, function_shell_table] at this
      exact this
    refine keepsFrame_bind_of (fun hbody s₁₀ hr₁₀ => ?_)
    have hE : Frame { st₇.table with current_scope_ := typed.2.table.symbol_table_.length }
        s₁₀.table := by
      have := keepsFrame_ok (keepsFrame_visit_list hb _ _) hr₁₀
      simp only [SemaState.set_current_scope, ite_error_table_else] at this
      exact this
    split
    · trivial
    · rename_i r st₁₁ htail
      obtain ⟨sp, hpop, hfin⟩ := function_def_tail_frame _ _ _ _ _ _ _ _ _ _ htail
      have hG : Frame typed.2.table sp.table :=
        function_scopes_frame typed.2.table s₄.table st₇.table s₁₀.table sp.table hA hC hE
          (do_pop_scope_table _ _ hpop)
      split <;> exact frame_trans hG hfin

theorem return_tail_table (st : SemaState) (e : Option HIR.expr_t) :
    (return_tail st e).table = st.table := by
  unfold return_tail
  split <;> rfl

theorem check_conditional_table (vm : VVM) (st : SemaState) (test : HIR.expr_t) :
    (check_conditional vm st test).table = st.table := by
  unfold check_conditional
  exact ite_error_table_else _ _ _

/-- A block that returns leaves the scopes that were there before as they
were, and the current scope as it was. -/
theorem visit_block_sameScopes (visit : SemaState → AST.stmt_t → Result HIR.stmt_t)
    (hb : ∀ s b, KeepsFrame s (visit s b)) (st : SemaState) (body : List AST.stmt_t)
    (hbody : List HIR.stmt_t) (st₂ : SemaState)
    (h : visit_block visit st body = .ok hbody st₂) :
    ∃ s₁, visit_list visit (do_push_scope st) body = .ok hbody s₁ ∧
      do_pop_scope s₁ = some st₂ ∧ SameScopes st.table st₂.table := by
  unfold visit_block at h
  cases hr : visit_list visit (do_push_scope st) body with
  | throw m s => rw [hr] at h; simp [Result.bind] at h
  | stuck => rw [hr] at h; simp [Result.bind] at h
  | ok v s₁ =>
      rw [hr] at h
      simp only [Result.bind] at h
      cases hp : do_pop_scope s₁ with
      | none => rw [hp] at h; simp at h
      | some s₂ =>
          rw [hp] at h
          simp only [Result.ok.injEq] at h
          obtain ⟨rfl, rfl⟩ := h
          exact ⟨s₁, rfl, hp, do_push_pop_sameScopes st s₁ s₂
            (keepsFrame_ok (keepsFrame_visit_list hb _ _) hr) hp⟩

theorem visit_block_frame (visit : SemaState → AST.stmt_t → Result HIR.stmt_t)
    (hb : ∀ s b, KeepsFrame s (visit s b)) (st : SemaState) (body : List AST.stmt_t) :
    KeepsFrame st (visit_block visit st body) := by
  cases hr : visit_block visit st body with
  | throw m s => trivial
  | stuck => trivial
  | ok v s₂ =>
      obtain ⟨_, -, -, hs⟩ := visit_block_sameScopes visit hb st body v s₂ hr
      exact sameScopes_frame hs

theorem assign_tail_table (vm : VVM) (fuel : Nat) (st st₁ : SemaState)
    (target value : HIR.expr_t) (h : assign_tail vm fuel st target value = some st₁) :
    st₁.table = st.table := by
  unfold assign_tail at h
  simp only at h
  split at h
  · simp at h
  · simp only [Option.some.injEq] at h
    rw [← h, ite_error_table, ite_error_table_else, ite_error_table]

/-- The visitor of statements keeps the frame of the symbol table. -/
theorem visit_stmt_frame (env : Env) (fuel : Nat) :
    ∀ (depth : Nat) (st : SemaState) (node : AST.stmt_t),
      KeepsFrame st (visit_stmt env fuel depth st node) := by
  intro depth
  induction depth with
  | zero => intro st node; trivial
  | succ n ih =>
      intro st node
      have hv := visit_expr_frame env fuel n
      cases node with
      | FunctionDef name args body explicit_rettype docstring =>
          simp only [visit_stmt]
          exact visitFunctionDef_frame env fuel _ _ hv ih st name args body explicit_rettype
      | DataDef name body =>
          simp only [visit_stmt]
          exact visitDataDef_frame env fuel _ hv st name body
      | Return value =>
          simp only [visit_stmt]
          refine keepsFrame_bind (keepsFrame_visit_option hv _ _) (fun e s₁ hs₁ => ?_)
          show Frame st.table (return_tail s₁ e).table
          rw [return_tail_table]; exact hs₁
      | If test body orelse =>
          simp only [visit_stmt]
          refine keepsFrame_bind (hv st test) (fun test s₁ hs₁ => ?_)
          refine keepsFrame_bind (keepsFrame_congr ?_ (visit_block_frame _ ih _ _))
            (fun body s₂ hs₂ => ?_)
          · rw [check_conditional_table]; exact hs₁
          · exact keepsFrame_bind (keepsFrame_congr hs₂ (visit_block_frame _ ih _ _))
              (fun orelse s₃ hs₃ => hs₃)
      | While test body =>
          simp only [visit_stmt]
          refine keepsFrame_bind (hv st test) (fun test s₁ hs₁ => ?_)
          refine keepsFrame_bind (keepsFrame_congr ?_ (visit_block_frame _ ih _ _))
            (fun body s₂ hs₂ => hs₂)
          rw [check_conditional_table]; exact hs₁
      | Import => trivial
      | ImportFrom => trivial
      | Decl dt decls =>
          simp only [visit_stmt]
          exact keepsFrame_bind
            (keepsFrame_visit_list (visitDeclaration_frame env fuel _ hv) _ _)
            (fun decls s₁ hs₁ => hs₁)
      | Assign target value =>
          simp only [visit_stmt]
          refine keepsFrame_bind (hv st target) (fun target s₁ hs₁ => ?_)
          refine keepsFrame_bind (keepsFrame_congr hs₁ (hv s₁ value)) (fun value s₂ hs₂ => ?_)
          split
          · trivial
          · rename_i st₃ ha
            show Frame st.table st₃.table
            rw [assign_tail_table _ _ _ _ _ _ ha]; exact hs₂
      | Del target =>
          simp only [visit_stmt]
          exact keepsFrame_bind (keepsFrame_visit_list hv _ _) (fun target s₁ hs₁ => hs₁)
      | Expr value =>
          simp only [visit_stmt]
          exact keepsFrame_bind (hv st value) (fun value s₁ hs₁ => hs₁)


/-! ## The scopes of `if` and `while` -/

theorem find_symbol_walk_same (t t' : SemaVisitor) (symbol : String)
    (hs : ∀ i, i < t.symbol_table_.length → t'.symbol_table_[i]? = t.symbol_table_[i]?) :
    ∀ (fuel i : Nat) (l : Resolveds),
      find_symbol_walk t symbol fuel i = some l → find_symbol_walk t' symbol fuel i = some l := by
  intro fuel
  induction fuel with
  | zero => intro i l h; simp [find_symbol_walk] at h
  | succ n ih =>
      intro i l h
      simp only [find_symbol_walk] at h ⊢
      cases hi : t.symbol_table_[i]? with
      | none => rw [hi] at h; simp at h
      | some scope =>
          have hlt : i < t.symbol_table_.length := by
            by_contra hc
            rw [List.getElem?_eq_none (by omega)] at hi
            simp at hi
          rw [hs i hlt, hi]
          rw [hi] at h
          simp only at h ⊢
          cases hm : scope.map symbol with
          | some resolveds => rw [hm] at h; simpa using h
          | none =>
              rw [hm] at h
              simp only at h ⊢
              by_cases h0 : i = 0
              · simpa [h0] using h
              · rw [if_pos h0] at h ⊢
                exact ih _ _ h

theorem blockScoped_of_visit_block (visit : SemaState → AST.stmt_t → Result HIR.stmt_t)
    (hb : ∀ s b, KeepsFrame s (visit s b)) (s₀ : SemaState) (body : List AST.stmt_t)
    (hbody : List HIR.stmt_t) (s₂ : SemaState)
    (h : visit_block visit s₀ body = .ok hbody s₂) : BlockScoped visit s₀ body s₂ := by
  obtain ⟨b₁, hv, hp, hcur, hlen, hsame⟩ := visit_block_sameScopes visit hb s₀ body hbody s₂ h
  have hb₁ := keepsFrame_ok (keepsFrame_visit_list hb _ _) hv
  have hplen : (do_push_scope s₀).table.symbol_table_.length =
      s₀.table.symbol_table_.length + 1 := by
    simp [do_push_scope, push_scope]
  have hpop := do_pop_scope_table _ _ hp
  have hlen₂ : s₂.table.symbol_table_.length = b₁.table.symbol_table_.length := by
    unfold pop_scope at hpop
    split at hpop
    · simp at hpop
    · simp only [Option.some.injEq] at hpop
      rw [← hpop]
  refine ⟨hbody, b₁, hv, hp, rfl, ?_, ?_, ?_, hcur, ?_, ?_⟩
  · simp [SemaVisitor.previous, do_push_scope, push_scope]
  · intro symbol
    simp [SemaVisitor.lookup, do_push_scope, push_scope]
  · intro symbol fuel l hw
    have hne : s₀.table.symbol_table_.length ≠ 0 := by
      intro h0
      cases fuel with
      | zero => simp [find_symbol_walk] at hw
      | succ n =>
          simp only [find_symbol_walk] at hw
          rw [List.getElem?_eq_none (by omega)] at hw
          simp at hw
    have hw' := find_symbol_walk_same s₀.table (do_push_scope s₀).table symbol
      (fun i hi => by
        simp only [do_push_scope, push_scope]
        exact List.getElem?_append_left hi) fuel _ l hw
    simp only [find_symbol_walk]
    have hnew : (do_push_scope s₀).table.symbol_table_[(do_push_scope s₀).table.current_scope_]? =
        some ⟨fun _ => none, s₀.table.current_scope_⟩ := by
      simp [do_push_scope, push_scope]
    rw [hnew]
    simp only
    rw [if_pos (by exact hne)]
    exact hw'
  · have := hb₁.2.1
    rw [hplen] at this
    omega
  · intro symbol fuel l hw
    rw [hcur]
    exact find_symbol_walk_same s₀.table s₂.table symbol hsame fuel _ l hw


/-- An `if` or `while` statement, made of the statements and expressions of
`visit_stmt` and `visit_expr`, whose analysis returns.  The test is visited
first; the body, and for `if` the else-branch after it, is a block in a
scope of its own (`BlockScoped`): it is visited in a newly pushed scope that
holds no name and whose previous scope is the scope enclosing the statement,
and the scope is popped afterwards.  After the statement `current_scope_` is
what it was before it, and the walk of `find_symbol` from the current scope
returns for every name what it returned before the blocks; at the start of
the else-branch the walk returns what it returned before the body. -/
theorem conditional_blocks_scoped (env : Env) (fuel depth : Nat) (st : SemaState)
    (test : AST.expr_t) (body orelse : List AST.stmt_t) :
    (∀ node st', visit_stmt env fuel (depth + 1) st (.If test body orelse) = .ok node st' →
      ∃ htest s₁ s₂,
        visit_expr env fuel depth st test = .ok htest s₁ ∧
        BlockScoped (visit_stmt env fuel depth) (check_conditional env.vm s₁ htest) body s₂ ∧
        BlockScoped (visit_stmt env fuel depth) s₂ orelse st' ∧
        s₁.table.current_scope_ = st.table.current_scope_ ∧
        st'.table.current_scope_ = st.table.current_scope_ ∧
        (∀ symbol k l,
          find_symbol_walk s₁.table symbol k s₁.table.current_scope_ = some l →
          find_symbol_walk (do_push_scope s₂).table symbol (k + 1)
            (do_push_scope s₂).table.current_scope_ = some l) ∧
        ∀ symbol k l,
          find_symbol_walk s₁.table symbol k s₁.table.current_scope_ = some l →
          find_symbol_walk st'.table symbol k st'.table.current_scope_ = some l) ∧
    (∀ node st', visit_stmt env fuel (depth + 1) st (.While test body) = .ok node st' →
      ∃ htest s₁,
        visit_expr env fuel depth st test = .ok htest s₁ ∧
        BlockScoped (visit_stmt env fuel depth) (check_conditional env.vm s₁ htest) body st' ∧
        s₁.table.current_scope_ = st.table.current_scope_ ∧
        st'.table.current_scope_ = st.table.current_scope_ ∧
        ∀ symbol k l,
          find_symbol_walk s₁.table symbol k s₁.table.current_scope_ = some l →
          find_symbol_walk st'.table symbol k st'.table.current_scope_ = some l) := by
  have hb := visit_stmt_frame env fuel depth
  constructor
  · intro node st' h
    simp only [visit_stmt] at h
    cases ht : visit_expr env fuel depth st test with
    | throw m s => rw [ht] at h; simp [Result.bind] at h
    | stuck => rw [ht] at h; simp [Result.bind] at h
    | ok htest s₁ =>
        rw [ht] at h
        simp only [Result.bind] at h
        have h1 := (keepsFrame_ok (visit_expr_frame env fuel depth st test) ht).1
        cases hbd : visit_block (visit_stmt env fuel depth) (check_conditional env.vm s₁ htest)
            body with
        | throw m s => rw [hbd] at h; simp at h
        | stuck => rw [hbd] at h; simp at h
        | ok hbody s₂ =>
            rw [hbd] at h
            simp only at h
            cases hor : visit_block (visit_stmt env fuel depth) s₂ orelse with
            | throw m s => rw [hor] at h; simp at h
            | stuck => rw [hor] at h; simp at h
            | ok horelse s₃ =>
                rw [hor] at h
                simp only [Result.ok.injEq] at h
                obtain ⟨-, rfl⟩ := h
                have hB := blockScoped_of_visit_block _ hb _ _ _ _ hbd
                have hO := blockScoped_of_visit_block _ hb _ _ _ _ hor
                have hBc := hB
                have hOc := hO
                obtain ⟨_, _, -, -, -, -, -, -, hc₂, -, hw₂⟩ := hBc
                obtain ⟨_, _, -, -, -, -, -, hstart, hc₃, -, hw₃⟩ := hOc
                rw [check_conditional_table] at hc₂ hw₂
                refine ⟨htest, s₁, s₂, rfl, hB, hO, h1, ?_, ?_, ?_⟩
                · rw [hc₃, hc₂, h1]
                · intro symbol k l hw
                  have := hw₂ symbol k l hw
                  exact hstart symbol k l this
                · intro symbol k l hw
                  exact hw₃ symbol k l (hw₂ symbol k l hw)
  · intro node st' h
    simp only [visit_stmt] at h
    cases ht : visit_expr env fuel depth st test with
    | throw m s => rw [ht] at h; simp [Result.bind] at h
    | stuck => rw [ht] at h; simp [Result.bind] at h
    | ok htest s₁ =>
        rw [ht] at h
        simp only [Result.bind] at h
        have h1 := (keepsFrame_ok (visit_expr_frame env fuel depth st test) ht).1
        cases hbd : visit_block (visit_stmt env fuel depth) (check_conditional env.vm s₁ htest)
            body with
        | throw m s => rw [hbd] at h; simp at h
        | stuck => rw [hbd] at h; simp at h
        | ok hbody s₂ =>
            rw [hbd] at h
            simp only [Result.ok.injEq] at h
            obtain ⟨-, rfl⟩ := h
            have hB := blockScoped_of_visit_block _ hb _ _ _ _ hbd
            have hBc := hB
            obtain ⟨_, _, -, -, -, -, -, -, hc₂, -, hw₂⟩ := hBc
            rw [check_conditional_table] at hc₂ hw₂
            refine ⟨htest, s₁, rfl, hB, h1, ?_, ?_⟩
            · rw [hc₂, h1]
            · intro symbol k l hw
              exact hw₂ symbol k l hw

/-- The statement `if true: var x = 1 else: var y = 2 end` at top level: it
is analysed without a diagnostic, the body is visited in scope 1 and the
else-branch in scope 2, both with the previous scope 0, the current scope
is 0 afterwards, and `x` and `y` are not found. -/
theorem conditional_blocks_scoped_witness :
    ∃ node st' htest s₁ s₂,
      visit_stmt sampleEnv 5 10 sampleState ifProgram = .ok node st' ∧
      st'.sema_err_ = [] ∧
      BlockScoped (visit_stmt sampleEnv 5 9) (check_conditional sampleVM s₁ htest)
        [.Decl 0 [⟨"x", none, some (.IntegerLiteral 1)⟩]] s₂ ∧
      BlockScoped (visit_stmt sampleEnv 5 9) s₂
        [.Decl 0 [⟨"y", none, some (.IntegerLiteral 2)⟩]] st' ∧
      st'.table.entries 1 "x" = [.DeclRef 0] ∧ st'.table.entries 2 "y" = [.DeclRef 1] ∧
      st'.table.previous 1 = some 0 ∧ st'.table.previous 2 = some 0 ∧
      st'.table.current_scope_ = 0 ∧
      find_symbol sampleState.heap sampleState.table 5 "x" = some ([], false) ∧
      find_symbol st'.heap st'.table 5 "x" = some ([], false) ∧
      find_symbol st'.heap st'.table 5 "y" = some ([], false) := by
  obtain ⟨htest, s₁, s₂, -, hB, hO, -⟩ :=
    (conditional_blocks_scoped sampleEnv 5 9 sampleState (.BoolLiteral true)
      [.Decl 0 [⟨"x", none, some (.IntegerLiteral 1)⟩]]
      [.Decl 0 [⟨"y", none, some (.IntegerLiteral 2)⟩]]).1 _ _ rfl
  exact ⟨_, _, htest, s₁, s₂, rfl, rfl, hB, hO, rfl, rfl, rfl, rfl, rfl, rfl, rfl, rfl⟩


/-! ## The failure `not yet implemented` and the cleanup it skips -/

/-- C24: the visit of `def f(): import m end` is left by the failure of
`nyi` with the frame of the definition still on the return-type stack (depth
1 instead of 0).  In the state it leaves, the next module `return 1`, a
return statement at top level, is analysed without a diagnostic, where the
state before the failed definition reports
`return statement is not in function body`. -/
theorem leaked_frame_accepts_top_level_return :
    ∃ msg st hir st' hir₀ st₀,
      visitModule sampleEnv 5 10 sampleState importProgram = .throw msg st ∧
      sampleState.rettype_stack_.length = 0 ∧ st.rettype_stack_.length = 1 ∧
      visitModule sampleEnv 5 10 st returnProgram = .ok hir st' ∧
      st'.sema_err_ = [] ∧
      visitModule sampleEnv 5 10 sampleState returnProgram = .ok hir₀ st₀ ∧
      st₀.sema_err_ = ["Error: return statement is not in function body\n"] :=
  ⟨_, _, _, _, _, _, rfl, rfl, rfl, rfl, rfl, rfl, rfl⟩

/-- C36: after `var x = 1`, the visit of `if true: import m end` is left by
the failure of `nyi` with the scope pushed for the body still current
(`current_scope_` is 1 instead of 0); the same holds for
`while true: import m end`.  In the state the `if` leaves, the next module
`var x = 1` is analysed without a diagnostic, the new `x` being stored in the
scope of the body, where the state before the statement reports
`symbol x was already defined`. -/
theorem import_in_block_leaves_scope :
    ∃ msg st msg₁ st₁ hir st' hir₀ st₀,
      visitModule sampleEnv 5 10 declaredState importInIfProgram = .throw msg st ∧
      declaredState.table.current_scope_ = 0 ∧ st.table.current_scope_ = 1 ∧
      visit_stmt sampleEnv 5 10 declaredState (.While (.BoolLiteral true) [.Import]) =
        .throw msg₁ st₁ ∧
      st₁.table.current_scope_ = 1 ∧
      visitModule sampleEnv 5 10 st declProgram = .ok hir st' ∧
      st'.sema_err_ = [] ∧ st'.table.entries 1 "x" = [.DeclRef 1] ∧
      visitModule sampleEnv 5 10 declaredState declProgram = .ok hir₀ st₀ ∧
      st₀.sema_err_ = ["Error: symbol x was already defined\n"] :=
  ⟨_, _, _, _, _, _, _, _, rfl, rfl, rfl, rfl, rfl, rfl, rfl, rfl, rfl, rfl⟩


/-! ## The diagnostic stream only grows -/

theorem keepsErrors_congr {α : Type} {st s : SemaState} {r : Result α}
    (hs : st.sema_err_ <+: s.sema_err_) (hr : KeepsErrors s r) : KeepsErrors st r := by
  cases r with
  | ok v s₁ => exact hs.trans hr
  | throw m s₁ => trivial
  | stuck => trivial

theorem keepsErrors_bind {α β : Type} {st : SemaState} {r : Result α}
    {f : α → SemaState → Result β} (hr : KeepsErrors st r)
    (hf : ∀ v s, st.sema_err_ <+: s.sema_err_ → KeepsErrors st (f v s)) :
    KeepsErrors st (r.bind f) := by
  cases r with
  | ok v s₁ => exact hf v s₁ hr
  | throw m s₁ => trivial
  | stuck => trivial

theorem keepsErrors_ofOption {α : Type} {st : SemaState} {o : Option (α × SemaState)}
    (h : ∀ v s, o = some (v, s) → st.sema_err_ <+: s.sema_err_) :
    KeepsErrors st (Result.ofOption o) := by
  cases o with
  | none => trivial
  | some p => exact h p.1 p.2 rfl

theorem keepsErrors_visit_list {α β : Type} {f : SemaState → α → Result β}
    (hf : ∀ s a, KeepsErrors s (f s a)) :
    ∀ (l : List α) (st : SemaState), KeepsErrors st (visit_list f st l) := by
  intro l
  induction l with
  | nil => intro st; exact List.prefix_refl _
  | cons a l ih =>
      intro st
      simp only [Sema.visit_list]
      refine keepsErrors_bind (hf st a) (fun b s₁ hs₁ => ?_)
      refine keepsErrors_bind (keepsErrors_congr hs₁ (ih s₁)) (fun bs s₂ hs₂ => ?_)
      exact hs₂

theorem keepsErrors_visit_option {α β : Type} {f : SemaState → α → Result β}
    (hf : ∀ s a, KeepsErrors s (f s a)) (st : SemaState) (o : Option α) :
    KeepsErrors st (visit_option f st o) := by
  cases o with
  | none => exact List.prefix_refl _
  | some a =>
      simp only [Sema.visit_option]
      exact keepsErrors_bind (hf st a) (fun b s₁ hs₁ => hs₁)

theorem keepsErrors_ok {α : Type} {st s₁ : SemaState} {r : Result α} {v : α}
    (h : KeepsErrors st r) (hr : r = .ok v s₁) : st.sema_err_ <+: s₁.sema_err_ := by
  subst hr; exact h

theorem prefix_error (st : SemaState) (m : String) : st.sema_err_ <+: (st.error m).sema_err_ :=
  List.prefix_append _ _

theorem prefix_ite_error (c : Prop) [Decidable c] (st : SemaState) (m : String) :
    st.sema_err_ <+: (if c then st.error m else st).sema_err_ := by
  split
  · exact prefix_error _ _
  · exact List.prefix_refl _

theorem prefix_ite_error_else (c : Prop) [Decidable c] (st : SemaState) (m : String) :
    st.sema_err_ <+: (if c then st else st.error m).sema_err_ := by
  split
  · exact List.prefix_refl _
  · exact prefix_error _ _

theorem do_store_symbol_errs (fuel : Nat) (st st₁ : SemaState) (symbol : String)
    (ptr : resolved_t) (b : Bool) (h : do_store_symbol fuel st symbol ptr = some (b, st₁)) :
    st₁.sema_err_ = st.sema_err_ := by
  rw [(do_store_symbol_eq fuel st st₁ symbol ptr b h).1]

theorem do_pop_scope_errs (st st₁ : SemaState) (h : do_pop_scope st = some st₁) :
    st₁.sema_err_ = st.sema_err_ := by
  rw [do_pop_scope_eq st st₁ h]

theorem do_remove_symbol_ref_errs (st st₁ : SemaState) (symbol : String) (ptr : resolved_t)
    (h : do_remove_symbol_ref st symbol ptr = some st₁) :
    st₁.sema_err_ = st.sema_err_ := by
  rw [do_remove_symbol_ref_eq st st₁ symbol ptr h]

theorem make_dataframe_fields_errs (fuel : Nat) :
    ∀ (l : List Nat) (st st₁ : SemaState) (body : List Nat),
      make_dataframe_fields fuel st l = some (body, st₁) → st₁.sema_err_ = st.sema_err_ := by
  intro l
  induction l with
  | nil =>
      intro st st₁ body h
      simp only [make_dataframe_fields, Option.some.injEq, Prod.mk.injEq] at h
      rw [← h.2]
  | cons b bs ih =>
      intro st st₁ body h
      simp only [make_dataframe_fields, SemaState.new_declaration] at h
      cases hs : do_store_symbol fuel
          { st with
            heap := { st.heap with
              decl := Function.update st.heap.decl st.next_decl
                ⟨(st.heap.decl b).name, .Array (st.heap.decl b).type, (st.heap.decl b).offset⟩ }
            next_decl := st.next_decl + 1 }
          (st.heap.decl b).name (.DeclRef st.next_decl) with
      | none => rw [hs] at h; simp at h
      | some p =>
          obtain ⟨x, st₂⟩ := p
          rw [hs] at h
          simp only at h
          cases hm : make_dataframe_fields fuel st₂ bs with
          | none => rw [hm] at h; simp at h
          | some q =>
              obtain ⟨body', st₃⟩ := q
              rw [hm] at h
              simp only [Option.some.injEq, Prod.mk.injEq] at h
              rw [← h.2, ih _ _ _ hm, do_store_symbol_errs _ _ _ _ _ _ hs]

theorem new_dataframe_errs (fuel : Nat) (st st₁ : SemaState) (name : String) (node : Nat)
    (t : datatype_t) (h : new_dataframe fuel st name node = some (t, st₁)) :
    st₁.sema_err_ = st.sema_err_ := by
  unfold new_dataframe at h
  simp only at h
  cases hf : make_dataframe_fields fuel (do_push_scope st) (st.heap.datadef node).body with
  | none => rw [hf] at h; simp at h
  | some p =>
      obtain ⟨body, st₂⟩ := p
      rw [hf] at h
      simp only at h
      cases hp : do_pop_scope st₂ with
      | none => rw [hp] at h; simp at h
      | some st₃ =>
          rw [hp] at h
          simp only [SemaState.new_DataDef] at h
          cases hs : do_store_symbol fuel
              { st₃ with
                heap := { st₃.heap with
                  datadef := Function.update st₃.heap.datadef st₃.next_datadef
                    ⟨name, body, (do_push_scope st).table.current_scope_⟩ }
                next_datadef := st₃.next_datadef + 1 }
              name (.DataRef st₃.next_datadef) with
          | none => rw [hs] at h; simp at h
          | some q =>
              obtain ⟨x, st₅⟩ := q
              rw [hs] at h
              simp only [Option.some.injEq, Prod.mk.injEq] at h
              rw [← h.2, do_store_symbol_errs _ _ _ _ _ _ hs]
              show st₃.sema_err_ = _
              rw [do_pop_scope_errs _ _ hp, make_dataframe_fields_errs _ _ _ _ _ hf]
              rfl

theorem make_dataframe_errs (fuel : Nat) (st st₁ : SemaState) (name : String)
    (t : datatype_t) (h : make_dataframe fuel st name = some (t, st₁)) :
    st₁.sema_err_ = st.sema_err_ := by
  unfold make_dataframe at h
  cases hu : get_underlying_udt fuel st name with
  | none => rw [hu] at h; simp at h
  | some o =>
      rw [hu] at h
      cases o with
      | none =>
          simp only [Option.some.injEq, Prod.mk.injEq] at h
          rw [← h.2]
      | some node =>
          simp only at h
          cases hf : find_symbol st.heap st.table fuel name with
          | none => rw [hf] at h; simp at h
          | some p =>
              obtain ⟨resolveds, flag⟩ := p
              rw [hf] at h
              simp only at h
              cases he : existing_dataframe st.heap fuel node resolveds with
              | none => rw [he] at h; simp at h
              | some o =>
                  rw [he] at h
                  cases o with
                  | none => exact new_dataframe_errs fuel st st₁ name node t h
                  | some ref =>
                      cases ref <;> simp at h
                      rw [← h.2]

theorem dataframe_up_front_errs (fuel : Nat) (st st₁ : SemaState) (s : String)
    (h : dataframe_up_front fuel st s = some st₁) : st₁.sema_err_ = st.sema_err_ := by
  unfold dataframe_up_front at h
  by_cases hc : first_char s = '!'
  · rw [if_pos hc] at h
    cases hm : make_dataframe fuel st s with
    | none => rw [hm] at h; simp at h
    | some p =>
        rw [hm] at h
        simp only [Option.some.injEq] at h
        rw [← h]
        exact make_dataframe_errs fuel st p.2 s p.1 hm
  · rw [if_neg hc] at h
    simp only [Option.some.injEq] at h
    rw [← h]

theorem visitId_grows (fuel : Nat) (st : SemaState) (s : String) :
    KeepsErrors st (visitId fuel st s) := by
  unfold visitId
  cases hd : dataframe_up_front fuel st s with
  | none => trivial
  | some st₁ =>
      simp only
      cases hf : find_symbol st₁.heap st₁.table fuel s with
      | none => trivial
      | some p =>
          simp only [KeepsErrors]
          rw [← dataframe_up_front_errs fuel st st₁ s hd]
          exact prefix_ite_error _ _ _

theorem fill_args_errs :
    ∀ (as : List datatype_t) (st st₁ : SemaState) (ds : List Nat) (ts : List datatype_t)
      (l : List Nat), fill_args st ds ts as = some (l, st₁) →
      st₁.sema_err_ = st.sema_err_ := by
  intro as
  induction as with
  | nil =>
      intro st st₁ ds ts l h
      simp only [fill_args, Option.some.injEq, Prod.mk.injEq] at h
      rw [← h.2]
  | cons a as ih =>
      intro st st₁ ds ts l h
      cases ds with
      | nil => simp [fill_args] at h
      | cons d ds =>
          cases ts with
          | nil => simp [fill_args] at h
          | cons t ts =>
              simp only [fill_args, SemaState.new_declaration] at h
              split at h
              · simp at h
              · rename_i new_args st₂ hr
                simp only [Option.some.injEq, Prod.mk.injEq] at h
                rw [← h.2, ih _ _ _ _ _ hr]

theorem call_generic_grows (vm : VVM) (fuel : Nat) (st st₁ : SemaState) (generic : Nat)
    (args : List datatype_t) (func : Option HIR.expr_t)
    (h : call_generic vm fuel st generic args = some (func, st₁)) :
    st.sema_err_ <+: st₁.sema_err_ := by
  unfold call_generic at h
  split at h
  · simp at h
  · simp only [Option.some.injEq, Prod.mk.injEq] at h; rw [← h.2]
  · simp only at h
    split at h
    · simp at h
    · split at h
      · split at h
        · simp at h
        · split at h
          · simp at h
          · rename_i new_args st₂ hfill
            simp only [SemaState.new_FunctionDef, SemaState.set_GenericFunctionDef,
              Option.some.injEq, Prod.mk.injEq] at h
            rw [← h.2]
            show st.sema_err_ <+: st₂.sema_err_
            rw [fill_args_errs _ _ _ _ _ _ hfill]
      · simp only [Option.some.injEq, Prod.mk.injEq] at h; rw [← h.2]
        exact prefix_error _ _

theorem function_call_tail_grows (vm : VVM) (fuel : Nat) (st : SemaState) (func : HIR.expr_t)
    (args : List HIR.expr_t) : KeepsErrors st (function_call_tail vm fuel st func args) := by
  unfold function_call_tail
  simp only
  split
  · trivial
  · rename_i func₁ st₁ hres
    show st.sema_err_ <+: st₁.sema_err_
    split at hres
    · split at hres
      · simp at hres
      · rename_i f' s' hc
        simp only [Option.some.injEq, Prod.mk.injEq] at hres
        rw [← hres.2]; exact call_generic_grows _ _ _ _ _ _ _ hc
      · rename_i s' hc
        simp only [Option.some.injEq, Prod.mk.injEq] at hres
        rw [← hres.2]; exact call_generic_grows _ _ _ _ _ _ _ hc
    · split at hres
      · split at hres
        · simp at hres
        · simp only [Option.some.injEq, Prod.mk.injEq] at hres; rw [← hres.2]
          exact prefix_error _ _
        · simp only [Option.some.injEq, Prod.mk.injEq] at hres; rw [← hres.2]
      · split at hres
        · simp at hres
        · simp only [Option.some.injEq, Prod.mk.injEq] at hres
          rw [← hres.2]; exact prefix_ite_error_else _ _ _

theorem member_tail_grows (st : SemaState) (value : HIR.expr_t) (member : String) :
    KeepsErrors st (member_tail st value member) := by
  unfold member_tail
  simp only
  split
  · trivial
  · simp only [KeepsErrors]
    exact (prefix_ite_error _ _ _).trans
      ((prefix_ite_error _ _ _).trans (prefix_ite_error _ _ _))

theorem list_check_grows (vm : VVM) (fuel : Nat) (expected : datatype_t) :
    ∀ (l : List HIR.expr_t) (st st₁ : SemaState),
      list_check vm fuel expected st l = some st₁ → st.sema_err_ <+: st₁.sema_err_ := by
  intro l
  induction l with
  | nil =>
      intro st st₁ h
      simp only [list_check, Option.some.injEq] at h
      rw [← h]
  | cons e es ih =>
      intro st st₁ h
      simp only [list_check] at h
      split at h
      · simp at h
      · exact ih _ _ h
      · exact (prefix_error _ _).trans (ih _ _ h)

theorem list_tail_grows (vm : VVM) (fuel : Nat) (st : SemaState) (values : List HIR.expr_t) :
    KeepsErrors st (list_tail vm fuel st values) := by
  unfold list_tail
  simp only
  split
  · trivial
  · rename_i st₁ hc
    have h1 := list_check_grows _ _ _ _ _ _ hc
    split
    · exact h1.trans (prefix_ite_error _ _ _)
    · exact h1

theorem declaration_tail_grows (env : Env) (fuel : Nat) (st st₁ : SemaState) (start : Nat)
    (name : String) (type : datatype_t) (value : Option datatype_t) (n : Nat)
    (h : declaration_tail env fuel st start name type value = some (n, st₁)) :
    st.sema_err_ <+: st₁.sema_err_ := by
  unfold declaration_tail at h
  cases hc : declaration_checks env.vm fuel st type value with
  | none => rw [hc] at h; simp at h
  | some p =>
      obtain ⟨t, st₃⟩ := p
      rw [hc] at h
      obtain ⟨new, hnew, -, -⟩ := declaration_checks_errors env.vm fuel st st₃ type t value hc
      subst hnew
      have h3 : st.sema_err_ <+: (st.errors new).sema_err_ := List.prefix_append _ _
      simp only [SemaState.new_declaration] at h
      split at h
      · split at h
        · simp at h
        · rename_i st₅ hs
          simp only [Option.some.injEq, Prod.mk.injEq] at h
          rw [← h.2, do_store_symbol_errs _ _ _ _ _ _ hs]
          exact h3
        · rename_i st₅ hs
          simp only [Option.some.injEq, Prod.mk.injEq] at h
          rw [← h.2]
          refine List.IsPrefix.trans ?_ (prefix_error _ _)
          rw [do_store_symbol_errs _ _ _ _ _ _ hs]
          exact h3
      · simp only [Option.some.injEq, Prod.mk.injEq] at h
        rw [← h.2]
        exact h3

theorem visitDeclaration_grows (env : Env) (fuel : Nat)
    (visit : SemaState → AST.expr_t → Result HIR.expr_t)
    (hv : ∀ s e, KeepsErrors s (visit s e)) (st : SemaState) (node : AST.declaration_t) :
    KeepsErrors st (visitDeclaration env fuel visit st node) := by
  unfold visitDeclaration
  simp only
  refine keepsErrors_bind (keepsErrors_congr (prefix_ite_error _ _ _)
    (keepsErrors_visit_option hv _ _)) (fun explicit_type s₂ hs₂ => ?_)
  have htyped : ∀ (p : datatype_t × SemaState),
      p = (match explicit_type with
        | some e =>
            if is_kind_type e.type then (get_underlying_type e.type, s₂)
            else
              (.null, s₂.error ("Error: declaration for " ++ node.name ++
                " has invalid type\n"))
        | none => (.null, s₂)) → st.sema_err_ <+: p.2.sema_err_ := by
    intro p hp
    rw [hp]
    split
    · split
      · exact hs₂
      · exact hs₂.trans (prefix_error _ _)
    · exact hs₂
  refine keepsErrors_bind (keepsErrors_congr (htyped _ rfl)
    (keepsErrors_visit_option hv _ _)) (fun value s₃ hs₃ => ?_)
  split
  · trivial
  · rename_i n s₄ ht
    show st.sema_err_ <+: s₄.sema_err_
    exact hs₃.trans (declaration_tail_grows _ _ _ _ _ _ _ _ _ ht)

theorem visit_fields_grows (env : Env) (fuel : Nat)
    (visit : SemaState → AST.expr_t → Result HIR.expr_t)
    (hv : ∀ s e, KeepsErrors s (visit s e)) :
    ∀ (l : List AST.declaration_t) (st : SemaState) (offset : Nat),
      KeepsErrors st (visit_fields env fuel visit st offset l) := by
  intro l
  induction l with
  | nil => intro st offset; exact List.prefix_refl _
  | cons b bs ih =>
      intro st offset
      simp only [visit_fields]
      refine keepsErrors_bind (visitDeclaration_grows env fuel visit hv st b)
        (fun d s₁ hs₁ => ?_)
      refine keepsErrors_bind (keepsErrors_congr (s := s₁.set_declaration d.ref _) hs₁ (ih _ _))
        (fun ds s₃ hs₃ => hs₃)

theorem visitDataDef_grows (env : Env) (fuel : Nat)
    (visit : SemaState → AST.expr_t → Result HIR.expr_t)
    (hv : ∀ s e, KeepsErrors s (visit s e)) (st : SemaState) (name : String)
    (body : List AST.declaration_t) :
    KeepsErrors st (visitDataDef env fuel visit st name body) := by
  unfold visitDataDef
  simp only [SemaState.new_DataDef]
  split
  · trivial
  · rename_i stored st₃ hs
    have h3 : st.sema_err_ <+: st₃.sema_err_ := by
      rw [do_store_symbol_errs _ _ _ _ _ _ hs]
      exact prefix_ite_error _ _ _
    refine keepsErrors_bind (keepsErrors_congr (s := do_push_scope _) ?_
      (visit_fields_grows env fuel visit hv _ _ _)) (fun fields s₆ hs₆ => ?_)
    · show st.sema_err_ <+: (if stored = true then st₃ else st₃.error _).sema_err_
      exact h3.trans (prefix_ite_error_else _ _ _)
    · split
      · trivial
      · rename_i st₇ hp
        have h7 : st.sema_err_ <+: st₇.sema_err_ := by
          rw [do_pop_scope_errs _ _ hp]; exact hs₆
        split
        · trivial
        · rename_i st₈ hr
          show st.sema_err_ <+: st₈.sema_err_
          split at hr
          · rw [do_remove_symbol_ref_errs _ _ _ _ hr]; exact h7
          · simp only [Option.some.injEq] at hr
            rw [← hr]; exact h7

theorem create_datatype_grows (env : Env) (fuel : Nat)
    (visit : SemaState → AST.expr_t → Result HIR.expr_t)
    (hv : ∀ s e, KeepsErrors s (visit s e)) (st : SemaState) (type_name type_def : String) :
    KeepsErrors st (create_datatype env fuel visit st type_name type_def) := by
  unfold create_datatype
  split
  · exact visitDataDef_grows env fuel visit hv st _ _
  · trivial

theorem anon_dataframe_grows (env : Env) (fuel : Nat)
    (visit : SemaState → AST.expr_t → Result HIR.expr_t)
    (hv : ∀ s e, KeepsErrors s (visit s e)) (st : SemaState) (ts : String) :
    KeepsErrors st (anon_dataframe env fuel visit st ts) := by
  unfold anon_dataframe
  simp only [anon_func_name]
  refine keepsErrors_bind (keepsErrors_congr (s := { st with counter := st.counter + 1 })
    (List.prefix_refl _) (create_datatype_grows env fuel visit hv _ _ _)) (fun _ s₂ hs₂ => ?_)
  exact keepsErrors_ofOption (fun v s h => by
    rw [make_dataframe_errs _ _ _ _ _ h]; exact hs₂)

theorem visitAlias_grows (visit : SemaState → AST.expr_t → Result HIR.expr_t)
    (hv : ∀ s e, KeepsErrors s (visit s e)) (st : SemaState) (node : AST.expr_t × String) :
    KeepsErrors st (visitAlias visit st node) := by
  unfold visitAlias
  simp only
  exact keepsErrors_bind (keepsErrors_congr (prefix_ite_error _ _ _) (hv _ _))
    (fun value s₂ hs₂ => hs₂)

theorem visit_cols_grows (visit : SemaState → AST.expr_t → Result HIR.expr_t)
    (hv : ∀ s e, KeepsErrors s (visit s e)) (by_empty : Bool) :
    ∀ (l : List (AST.expr_t × String)) (st : SemaState),
      KeepsErrors st (visit_cols visit by_empty st l) := by
  intro l
  induction l with
  | nil => intro st; exact List.prefix_refl _
  | cons c cs ih =>
      intro st
      simp only [visit_cols]
      refine keepsErrors_bind (visitAlias_grows visit hv st c) (fun col s₁ hs₁ => ?_)
      refine keepsErrors_bind (keepsErrors_congr ?_ (ih _)) (fun cols s₄ hs₄ => hs₄)
      exact hs₁.trans ((prefix_ite_error _ _ _).trans (prefix_ite_error _ _ _))

theorem visitQuery_grows (env : Env) (fuel : Nat)
    (visit : SemaState → AST.expr_t → Result HIR.expr_t)
    (hv : ∀ s e, KeepsErrors s (visit s e)) (st : SemaState) (table : AST.expr_t) (qt : Nat)
    (cols by_ : List (AST.expr_t × String)) (where_ : Option AST.expr_t) :
    KeepsErrors st (visitQuery env fuel visit st table qt cols by_ where_) := by
  unfold visitQuery
  refine keepsErrors_bind (hv st table) (fun table s₁ hs₁ => ?_)
  simp only
  refine keepsErrors_bind (keepsErrors_congr ?_
    (keepsErrors_visit_list (visitAlias_grows visit hv) _ _)) (fun by_ s₄ hs₄ => ?_)
  · show st.sema_err_ <+: (if _ then s₁ else s₁.error _).sema_err_
    exact hs₁.trans (prefix_ite_error_else _ _ _)
  refine keepsErrors_bind ?_ (fun by_type s₅ hs₅ => ?_)
  · split
    · exact hs₄
    · exact keepsErrors_congr hs₄ (anon_dataframe_grows env fuel visit hv _ _)
  refine keepsErrors_bind (keepsErrors_congr hs₅ (visit_cols_grows visit hv _ _ _))
    (fun cols s₆ hs₆ => ?_)
  refine keepsErrors_bind ?_ (fun type s₇ hs₇ => ?_)
  · split
    · exact keepsErrors_congr hs₆ (anon_dataframe_grows env fuel visit hv _ _)
    · simp only [KeepsErrors]
      exact hs₆.trans (prefix_ite_error _ _ _)
  refine keepsErrors_bind (keepsErrors_congr hs₇ (keepsErrors_visit_option hv _ _))
    (fun where_ s₈ hs₈ => ?_)
  show st.sema_err_ <+: (SemaState.set_preferred_scope _ none).sema_err_
  simp only [SemaState.set_preferred_scope]
  split
  · exact hs₈
  · exact hs₈.trans (prefix_ite_error_else _ _ _)

/-- The visitor of expressions only adds to the diagnostic stream. -/
theorem visit_expr_grows (env : Env) (fuel : Nat) :
    ∀ (depth : Nat) (st : SemaState) (node : AST.expr_t),
      KeepsErrors st (visit_expr env fuel depth st node) := by
  intro depth
  induction depth with
  | zero => intro st node; trivial
  | succ n ih =>
      intro st node
      cases node with
      | Id s => exact visitId_grows fuel st s
      | IntegerLiteral n => exact List.prefix_refl _
      | FloatingLiteral n => exact List.prefix_refl _
      | BoolLiteral b => exact List.prefix_refl _
      | Str s => exact List.prefix_refl _
      | Char c => exact List.prefix_refl _
      | Paren subexpr =>
          simp only [visit_expr]
          exact keepsErrors_bind (ih st subexpr) (fun v s hs => hs)
      | FunctionCall func args =>
          simp only [visit_expr]
          refine keepsErrors_bind (ih st func) (fun func s₁ hs₁ => ?_)
          refine keepsErrors_bind (keepsErrors_congr ?_ (keepsErrors_visit_list ih _ _))
            (fun args s₃ hs₃ => ?_)
          · exact hs₁.trans (prefix_ite_error_else _ _ _)
          · exact keepsErrors_congr hs₃ (function_call_tail_grows _ _ _ _ _)
      | Member value member =>
          simp only [visit_expr]
          exact keepsErrors_bind (ih st value)
            (fun value s₁ hs₁ => keepsErrors_congr hs₁ (member_tail_grows _ _ _))
      | List values =>
          simp only [visit_expr]
          exact keepsErrors_bind (keepsErrors_visit_list ih _ _)
            (fun values s₁ hs₁ => keepsErrors_congr hs₁ (list_tail_grows _ _ _ _))
      | Query table qt cols by_ where_ =>
          simp only [visit_expr]
          exact visitQuery_grows env fuel _ ih st table qt cols by_ where_
      | BinOp left op right =>
          simp only [visit_expr]
          refine keepsErrors_bind (ih st _) (fun result s₁ hs₁ => ?_)
          split
          · exact hs₁
          · trivial


/-! ## `visitDeclaration` stores exactly when it wrote no diagnostic -/

theorem result_bind_eq_ok {α β : Type} {r : Result α} {f : α → SemaState → Result β} {b : β}
    {s : SemaState} (h : r.bind f = .ok b s) : ∃ a s₁, r = .ok a s₁ ∧ f a s₁ = .ok b s := by
  cases r with
  | ok a s₁ => exact ⟨a, s₁, rfl, h⟩
  | throw m s₁ => simp [Result.bind] at h
  | stuck => simp [Result.bind] at h

theorem prefix_eq_iff_length {l₁ l₂ : List String} (h : l₁ <+: l₂) :
    l₂ = l₁ ↔ l₂.length = l₁.length :=
  ⟨fun he => by rw [he], fun hl => (h.eq_of_length hl.symm).symm⟩

theorem declaration_tail_after_visits (env : Env) (fuel : Nat) (st s₃ st' : SemaState)
    (name : String) (type : datatype_t) (value : Option datatype_t) (n : Nat)
    (hpre : st.sema_err_ <+: s₃.sema_err_)
    (ht : declaration_tail env fuel s₃ st.sema_err_.length name type value = some (n, st')) :
    s₃.sema_err_ <+: st'.sema_err_ ∧ n = s₃.next_decl ∧
    (st'.sema_err_ = st.sema_err_ →
      .DeclRef n ∈ st'.table.entries s₃.table.current_scope_ name ∧
      OnlyChanges s₃.table st'.table s₃.table.current_scope_ name) ∧
    (st'.sema_err_ ≠ st.sema_err_ → st'.table = s₃.table) ∧
    (st'.sema_err_ = st.sema_err_ ↔
      s₃.sema_err_ = st.sema_err_ ∧
      (declaration_type type value).is_null = false ∧
      is_void_type (declaration_type type value) = false ∧
      (∀ vt, value = some vt →
        is_same_type s₃.heap fuel (declaration_type type value) vt = some true) ∧
      ∃ table,
        store_symbol (s₃.new_declaration ⟨name, declaration_type type value, 0⟩).2.heap fuel
          s₃.table name (.DeclRef n) = some (true, table)) := by
  have hgrow := declaration_tail_grows _ _ _ _ _ _ _ _ _ ht
  obtain ⟨hn, hstored, hnot, hiff⟩ :=
    declaration_stored_iff_no_diagnostic env fuel s₃ st' st.sema_err_.length name type value n
      hpre.length_le ht
  have hall := hpre.trans hgrow
  have e1 := prefix_eq_iff_length hall
  have e3 := prefix_eq_iff_length hpre
  refine ⟨hgrow, hn, fun he => hstored (e1.mp he), fun hne => hnot (fun hl => hne (e1.mpr hl)),
    ?_⟩
  rw [e1, hiff, e3]

/-- C28 (as the code has it): `visitDeclaration`, for a visitor of
expressions that only adds to the diagnostic stream, when it returns.  With
`s₃` the state after the visits of the annotation and of the initializer:
the new declaration is stored, and is in the list of the current scope for
the name, exactly when
no diagnostic was written during the whole visit; when one was written the
table is the one of `s₃` (so the list of the current scope for the name is
what the visits of the sub-expressions left).  No diagnostic is written
exactly when the name does not begin with an upper-case letter, the type of
the annotation (if there is one) is a kind, the visits of the annotation and
the initializer wrote nothing, the type is determined and not void, the type
of the initializer is `is_same_type` with it, and the store returns true. -/
theorem visitDeclaration_stores_iff_no_diagnostic (env : Env) (fuel : Nat)
    (visit : SemaState → AST.expr_t → Result HIR.expr_t)
    (hvis : ∀ s e, KeepsErrors s (visit s e)) (st : SemaState) (node : AST.declaration_t)
    (d : HIR.declaration_t) (st' : SemaState)
    (h : visitDeclaration env fuel visit st node = .ok d st') :
    ∃ s₂ s₃,
      visit_option visit
          (if (first_char node.name).isUpper then
            st.error ("Error: value name " ++ node.name ++
              " must begin with lower-case letter\n")
           else st) node.explicit_type = .ok d.explicit_type s₂ ∧
      visit_option visit (annotation_state s₂ node.name d.explicit_type) node.value =
        .ok d.value s₃ ∧
      st.sema_err_ <+: s₃.sema_err_ ∧ s₃.sema_err_ <+: st'.sema_err_ ∧
      d.ref = s₃.next_decl ∧
      (st'.sema_err_ = st.sema_err_ →
        .DeclRef d.ref ∈ st'.table.entries s₃.table.current_scope_ node.name ∧
        OnlyChanges s₃.table st'.table s₃.table.current_scope_ node.name) ∧
      (st'.sema_err_ ≠ st.sema_err_ → st'.table = s₃.table) ∧
      (st'.sema_err_ = st.sema_err_ ↔
        (first_char node.name).isUpper = false ∧
        (∀ e, d.explicit_type = some e → is_kind_type e.type = true) ∧
        s₃.sema_err_ = st.sema_err_ ∧
        (declaration_type (annotation_type d.explicit_type)
          (d.value.map fun v => v.type)).is_null = false ∧
        is_void_type (declaration_type (annotation_type d.explicit_type)
          (d.value.map fun v => v.type)) = false ∧
        (∀ vt, (d.value.map fun v => v.type) = some vt →
          is_same_type s₃.heap fuel
            (declaration_type (annotation_type d.explicit_type)
              (d.value.map fun v => v.type)) vt = some true) ∧
        ∃ table,
          store_symbol
            (s₃.new_declaration ⟨node.name,
              declaration_type (annotation_type d.explicit_type)
                (d.value.map fun v => v.type), 0⟩).2.heap fuel
            s₃.table node.name (.DeclRef d.ref) = some (true, table)) := by
  unfold visitDeclaration at h
  simp only at h
  obtain ⟨et, s₂, he, h⟩ := result_bind_eq_ok h
  have key : ∃ v s₃ n s₄,
      visit_option visit (annotation_state s₂ node.name et) node.value = .ok v s₃ ∧
      declaration_tail env fuel s₃ st.sema_err_.length node.name (annotation_type et)
        (v.map fun v => v.type) = some (n, s₄) ∧
      d = ⟨n, et, v⟩ ∧ st' = s₄ := by
    cases et with
    | none =>
        simp only at h
        obtain ⟨v, s₃, hv, h⟩ := result_bind_eq_ok h
        split at h
        · simp at h
        · rename_i n s₄ ht
          simp only [Result.ok.injEq] at h
          exact ⟨v, s₃, n, s₄, hv, ht, h.1.symm, h.2.symm⟩
    | some e =>
        by_cases hk : is_kind_type e.type = true
        · simp only [hk, if_true] at h
          obtain ⟨v, s₃, hv, h⟩ := result_bind_eq_ok h
          split at h
          · simp at h
          · rename_i n s₄ ht
            simp only [Result.ok.injEq] at h
            exact ⟨v, s₃, n, s₄, by simpa [annotation_state, hk] using hv,
              by simpa [annotation_type, hk] using ht, h.1.symm, h.2.symm⟩
        · simp only [hk, if_false] at h
          obtain ⟨v, s₃, hv, h⟩ := result_bind_eq_ok h
          split at h
          · simp at h
          · rename_i n s₄ ht
            simp only [Result.ok.injEq] at h
            exact ⟨v, s₃, n, s₄, by simpa [annotation_state, hk] using hv,
              by simpa [annotation_type, hk] using ht, h.1.symm, h.2.symm⟩
  obtain ⟨v, s₃, n, s₄, hv, ht, rfl, rfl⟩ := key
  · have g1 : st.sema_err_ <+:
        (if (first_char node.name).isUpper then
          st.error ("Error: value name " ++ node.name ++
            " must begin with lower-case letter\n")
         else st).sema_err_ := prefix_ite_error _ _ _
    have g2 := keepsErrors_ok (keepsErrors_visit_option hvis _ _) he
    have g3 : s₂.sema_err_ <+: (annotation_state s₂ node.name et).sema_err_ := by
      cases et with
      | none => exact List.prefix_refl _
      | some e => exact prefix_ite_error_else _ _ _
    have g4 := keepsErrors_ok (keepsErrors_visit_option hvis _ _) hv
    have hpre : st.sema_err_ <+: s₃.sema_err_ := g1.trans (g2.trans (g3.trans g4))
    obtain ⟨hgrow, hn, hstored, hnot, hiff⟩ :=
      declaration_tail_after_visits env fuel st s₃ _ node.name _ _ n hpre ht
    refine ⟨s₂, s₃, he, hv, hpre, hgrow, hn, hstored, hnot, ?_⟩
    rw [hiff]
    constructor
    · rintro ⟨h3, rest⟩
      refine ⟨?_, ?_, h3, rest⟩
      · by_contra hup
        have hup' : (first_char node.name).isUpper = true := by simpa using hup
        rw [if_pos hup'] at g1 g2
        have l1 := g2.length_le
        have l2 := (g3.trans g4).length_le
        have l3 : s₃.sema_err_.length = st.sema_err_.length := by rw [h3]
        simp only [SemaState.error, List.length_append, List.length_singleton] at l1
        omega
      · intro e hes
        by_contra hk
        have hk' : is_kind_type e.type = false := by simpa using hk
        have l0 := (g1.trans g2).length_le
        have l4 := g4.length_le
        have l3 : s₃.sema_err_.length = st.sema_err_.length := by rw [h3]
        simp only at hes
        subst hes
        simp only [annotation_state, hk', Bool.false_eq_true, if_false, SemaState.error,
          List.length_append, List.length_singleton] at l4
        omega
    · rintro ⟨-, -, h3, rest⟩
      exact ⟨h3, rest⟩

/-- Two declarations at top level of `sampleState`.  `x: Int64` is analysed
without a diagnostic and the new declaration is the one reference of `x` in
the global scope; `X: Int64`, whose name begins with an upper-case letter,
is reported and the table is left as it was. -/
theorem visitDeclaration_stores_iff_no_diagnostic_witness :
    (∃ (d : HIR.declaration_t) (st' s₃ : SemaState), visitDeclaration sampleEnv 5 (visit_expr sampleEnv 5 9) sampleState
          ⟨"x", some (.Id "Int64"), none⟩ = .ok d st' ∧
      st'.sema_err_ = sampleState.sema_err_ ∧
      st'.table.entries 0 "x" = [.DeclRef d.ref] ∧
      .DeclRef d.ref ∈ st'.table.entries s₃.table.current_scope_ "x" ∧
      OnlyChanges s₃.table st'.table s₃.table.current_scope_ "x") ∧
    (∃ d st', visitDeclaration sampleEnv 5 (visit_expr sampleEnv 5 9) sampleState
          ⟨"X", some (.Id "Int64"), none⟩ = .ok d st' ∧
      st'.sema_err_ = ["Error: value name X must begin with lower-case letter\n"] ∧
      st'.table.entries 0 "X" = [] ∧ st'.table = sampleState.table) := by
  refine ⟨?_, ?_⟩
  · obtain ⟨s₂, s₃, -, -, -, -, -, hstored, -, -⟩ :=
      visitDeclaration_stores_iff_no_diagnostic sampleEnv 5 (visit_expr sampleEnv 5 9)
        (visit_expr_grows sampleEnv 5 9) sampleState ⟨"x", some (.Id "Int64"), none⟩ _ _ rfl
    exact ⟨_, _, s₃, rfl, rfl, rfl, hstored rfl⟩
  · exact ⟨_, _, rfl, rfl, rfl, rfl⟩


/-! ## The output type of `visitJoin` -/

theorem result_ok_of_isSome {α : Type} (r : Result α) (h : r.value?.isSome = true) :
    ∃ v s, r = .ok v s := by
  cases r with
  | ok v s => exact ⟨v, s, rfl⟩
  | throw m s => simp [Result.value?] at h
  | stuck => simp [Result.value?] at h

theorem join_on_nil (env : Env) (fuel : Nat)
    (visit : SemaState → AST.expr_t → Result HIR.expr_t) (st st₂ : SemaState) (bad_dfs : Bool)
    (left right : HIR.expr_t) (o : JoinOn)
    (h : join_on env fuel visit st bad_dfs left right [] = .ok o st₂) :
    o.right_on_type = .null := by
  simp only [join_on, List.isEmpty_nil, Bool.not_true, Bool.and_false, Bool.false_eq_true,
    if_false, Result.ok.injEq] at h
  rw [← h.1]

theorem join_asof_name (env : Env) (fuel : Nat)
    (visit : SemaState → AST.expr_t → Result HIR.expr_t) (st st₄ : SemaState) (bad_dfs : Bool)
    (left right : HIR.expr_t) (asof : Option (AST.expr_t × String)) (strict : Bool)
    (direction : direction_t) (within : Option HIR.expr_t) (a : JoinAsof)
    (h : join_asof env fuel visit st bad_dfs left right asof strict direction within =
      .ok a st₄) :
    a.right_asof_name = asof_name_of a.right_asof ∧ (asof = none → a.right_asof = none) := by
  unfold join_asof at h
  cases asof with
  | none =>
      simp only [Result.ok.injEq] at h
      rw [← h.1]
      exact ⟨rfl, fun _ => rfl⟩
  | some x =>
      simp only at h
      refine ⟨?_, fun hn => by simp at hn⟩
      by_cases hb : bad_dfs = true
      · rw [if_pos hb] at h
        simp only [Result.ok.injEq] at h
        rw [← h.1]
        rfl
      · rw [if_neg hb] at h
        obtain ⟨la, s₁, -, h⟩ := result_bind_eq_ok h
        obtain ⟨ra, s₂, -, h⟩ := result_bind_eq_ok h
        split at h
        · simp at h
        · obtain ⟨u, s₅, -, h⟩ := result_bind_eq_ok h
          simp only [Result.ok.injEq] at h
          rw [← h.1]
          rfl

theorem drop_columns_some (vm : VVM) (h : Heap) (orig_type drop_type : datatype_t)
    (extra ts : String) (hd : drop_columns vm h orig_type drop_type extra = some ts) :
    (∃ rdd, get_data_def h orig_type = some rdd) ∧
      (drop_type = .null ∨ (get_data_def h drop_type).isSome) := by
  unfold drop_columns at hd
  cases hr : get_data_def h orig_type with
  | none =>
      rw [hr] at hd
      split at hd <;> simp_all
  | some rdd =>
      refine ⟨⟨rdd, rfl⟩, ?_⟩
      cases drop_type with
      | null => exact Or.inl rfl
      | _ =>
          right
          cases hn : get_data_def h _ with
          | none =>
              simp only [datatype_t.is_null, hn, hr] at hd
              simp at hd
          | some dd => rfl

/-- C35 (as the code has it): the output type of a join that returns.  The
result holds the visited tables; the `on` type of right is null when there
is no `on` column, and there is no right `asof` alias when there is no
`asof`.  When the tables were reported, the remaining type and the output
type are null.  Otherwise `drop_columns` yields the rendering of exactly
those fields of right, in right's order, whose name is neither the name of a
field of right's `on` type nor the right `asof` name (the name of the right
`asof` alias, or of its value when the alias has none); these are all fields
of right when there is neither `on` nor `asof`; every field is rendered
`name: type` with one array layer removed.  The remaining type is the
anonymous Dataframe defined from that text, and the output type is the
anonymous Dataframe defined from the text of left's fields, a comma and a
blank, and the text of the kept fields of right; this text is the rendering
of left's fields followed by the kept fields of right when neither list is
empty. -/
theorem join_output_text (env : Env) (fuel : Nat)
    (visit : SemaState → AST.expr_t → Result HIR.expr_t) (st : SemaState)
    (left right : AST.expr_t) (on_ : List (AST.expr_t × String))
    (asof : Option (AST.expr_t × String)) (strict : Bool) (direction : direction_t)
    (within : Option AST.expr_t) (j : HIR.Join) (st' : SemaState)
    (h : visitJoin env fuel visit st left right on_ asof strict direction within =
      .ok j st') :
    ∃ tables st₁,
      join_tables env visit st left right = .ok tables st₁ ∧
      j.left = tables.1 ∧ j.right = tables.2.1 ∧
      (on_ = [] → j.right_on_type = .null) ∧
      (asof = none → j.right_asof = none) ∧
      (tables.2.2 = true → j.remaining_type = .null ∧ j.type = .null) ∧
      (tables.2.2 = false →
        ∃ st₄ st₅ rdd ldd,
          get_data_def st₄.heap j.right.type = some rdd ∧
          get_data_def st₅.heap j.left.type = some ldd ∧
          drop_columns env.vm st₄.heap j.right.type j.right_on_type
              (asof_name_of j.right_asof) =
            some (render_fields env.vm
              (kept_fields st₄.heap rdd j.right_on_type (asof_name_of j.right_asof))) ∧
          (on_ = [] → asof = none →
            kept_fields st₄.heap rdd j.right_on_type (asof_name_of j.right_asof) =
              fields_of st₄.heap rdd) ∧
          anon_dataframe env fuel visit st₄
              (render_fields env.vm
                (kept_fields st₄.heap rdd j.right_on_type (asof_name_of j.right_asof))) =
            .ok j.remaining_type st₅ ∧
          anon_dataframe env fuel visit st₅
              (render_fields env.vm (fields_of st₅.heap ldd) ++ ", " ++
                render_fields env.vm
                  (kept_fields st₄.heap rdd j.right_on_type (asof_name_of j.right_asof))) =
            .ok j.type st' ∧
          (fields_of st₅.heap ldd ≠ [] →
            kept_fields st₄.heap rdd j.right_on_type (asof_name_of j.right_asof) ≠ [] →
            render_fields env.vm (fields_of st₅.heap ldd) ++ ", " ++
                render_fields env.vm
                  (kept_fields st₄.heap rdd j.right_on_type (asof_name_of j.right_asof)) =
              render_fields env.vm (fields_of st₅.heap ldd ++
                kept_fields st₄.heap rdd j.right_on_type (asof_name_of j.right_asof)))) := by
  unfold visitJoin at h
  obtain ⟨tables, st₁, h1, h⟩ := result_bind_eq_ok h
  obtain ⟨o, st₂, h2, h⟩ := result_bind_eq_ok h
  obtain ⟨w, st₃, h3, h⟩ := result_bind_eq_ok h
  obtain ⟨a, st₄, h4, h⟩ := result_bind_eq_ok h
  obtain ⟨types, st₅, h5, h⟩ := result_bind_eq_ok h
  simp only [Result.ok.injEq] at h
  obtain ⟨rfl, rfl⟩ := h
  obtain ⟨hname, hnone⟩ := join_asof_name _ _ _ _ _ _ _ _ _ _ _ _ _ h4
  refine ⟨tables, st₁, h1, rfl, rfl, ?_, hnone, ?_, ?_⟩
  · intro hon
    subst hon
    exact join_on_nil _ _ _ _ _ _ _ _ _ h2
  · intro hb
    rw [hb] at h5
    simp only [join_types, if_true, Result.ok.injEq] at h5
    rw [← h5.1]
    exact ⟨rfl, rfl⟩
  · intro hb
    rw [hb] at h5
    unfold join_types at h5
    simp only [Bool.false_eq_true, if_false] at h5
    cases hd : drop_columns env.vm st₄.heap tables.2.1.type o.right_on_type
        a.right_asof_name with
    | none =>
        rw [hd] at h5
        simp at h5
    | some ts =>
        rw [hd] at h5
        simp only at h5
        obtain ⟨rem, s₅, hrem, h5⟩ := result_bind_eq_ok h5
        cases hl : get_type_string_datatype env.vm s₅.heap tables.1.type with
        | none =>
            rw [hl] at h5
            simp at h5
        | some lts =>
            rw [hl] at h5
            simp only at h5
            obtain ⟨full, s₆, hfull, h5⟩ := result_bind_eq_ok h5
            simp only [Result.ok.injEq] at h5
            obtain ⟨rfl, rfl⟩ := h5
            obtain ⟨⟨rdd, hr⟩, hon⟩ := drop_columns_some _ _ _ _ _ _ hd
            have hldd : ∃ ldd, get_data_def s₅.heap tables.1.type = some ldd := by
              unfold get_type_string_datatype at hl
              cases hg : get_data_def s₅.heap tables.1.type with
              | none =>
                  rw [hg] at hl
                  simp at hl
              | some ldd => exact ⟨ldd, rfl⟩
            obtain ⟨ldd, hldd⟩ := hldd
            have hdrop := drop_columns_eq env.vm st₄.heap tables.2.1.type o.right_on_type
              a.right_asof_name rdd hr hon
            have hts : ts = render_fields env.vm
                (kept_fields st₄.heap rdd o.right_on_type a.right_asof_name) := by
              rw [hd] at hdrop
              exact Option.some.inj hdrop
            subst hts
            obtain ⟨-, hall, hleft, -, htext⟩ :=
              join_types_text env fuel visit st₄ tables.1.type tables.2.1.type o.right_on_type
                a.right_asof_name ldd rdd rem s₅ hr hon hrem hldd
            have hlts : lts = render_fields env.vm (fields_of s₅.heap ldd) := by
              rw [hl] at hleft
              exact Option.some.inj hleft
            subst hlts
            simp only [← hname]
            refine ⟨st₄, s₅, rdd, ldd, hr, hldd, hd, ?_, hrem, hfull, htext⟩
            intro hon_ hasof
            subst hon_
            refine hall (join_on_nil _ _ _ _ _ _ _ _ _ h2) ?_
            rw [hname, hnone hasof]
            rfl

/-- The join of `l: !L` and `r: !R` of `asofTables` on `a` asof `t`: the
`on` type of right has the field `a`, the right `asof` name is `t`, right
keeps `c`, and the output type has the fields `a`, `t`, `b` of left followed
by `c`. -/
theorem join_output_text_witness :
    ∃ j st,
      visitJoin asofEnv 5 (visit_expr asofEnv 5 10) asofState (.Id "l") (.Id "r")
          [(.Id "a", "")] (some (.Id "t", "")) false .kBackward none = .ok j st ∧
      st.sema_err_ = [] ∧
      get_type_string_datatype sampleVM st.heap j.right_on_type = some "a: Int64" ∧
      asof_name_of j.right_asof = "t" ∧
      get_type_string_datatype sampleVM st.heap j.remaining_type = some "c: Float64" ∧
      get_type_string_datatype sampleVM st.heap j.type =
        some "a: Int64, t: Int64, b: String, c: Float64" ∧
      ∃ st₄ st₅ rdd ldd,
        anon_dataframe asofEnv 5 (visit_expr asofEnv 5 10) st₄
            (render_fields sampleVM
              (kept_fields st₄.heap rdd j.right_on_type (asof_name_of j.right_asof))) =
          .ok j.remaining_type st₅ ∧
        anon_dataframe asofEnv 5 (visit_expr asofEnv 5 10) st₅
            (render_fields sampleVM (fields_of st₅.heap ldd) ++ ", " ++
              render_fields sampleVM
                (kept_fields st₄.heap rdd j.right_on_type (asof_name_of j.right_asof))) =
          .ok j.type st := by
  obtain ⟨j, st, h⟩ :=
    result_ok_of_isSome
      (visitJoin asofEnv 5 (visit_expr asofEnv 5 10) asofState (.Id "l") (.Id "r")
        [(.Id "a", "")] (some (.Id "t", "")) false .kBackward none) (by decide!)
  have hF :
      (match visitJoin asofEnv 5 (visit_expr asofEnv 5 10) asofState (.Id "l") (.Id "r")
          [(.Id "a", "")] (some (.Id "t", "")) false .kBackward none with
        | .ok j st =>
            decide (st.sema_err_ = [] ∧
              get_type_string_datatype sampleVM st.heap j.right_on_type = some "a: Int64" ∧
              asof_name_of j.right_asof = "t" ∧
              get_type_string_datatype sampleVM st.heap j.remaining_type =
                some "c: Float64" ∧
              get_type_string_datatype sampleVM st.heap j.type =
                some "a: Int64, t: Int64, b: String, c: Float64")
        | _ => false) = true := by decide!
  have hB :
      (match join_tables asofEnv (visit_expr asofEnv 5 10) asofState (.Id "l") (.Id "r") with
        | .ok tables _ => !tables.2.2
        | _ => false) = true := by decide!
  obtain ⟨tables, st₁, ht, -, -, -, -, -, hfalse⟩ :=
    join_output_text asofEnv 5 (visit_expr asofEnv 5 10) asofState (.Id "l") (.Id "r")
      [(.Id "a", "")] (some (.Id "t", "")) false .kBackward none j st h
  rw [h] at hF
  rw [ht] at hB
  simp only [decide_eq_true_eq] at hF
  simp only [Bool.not_eq_true'] at hB
  obtain ⟨st₄, st₅, rdd, ldd, -, -, -, -, hrem, hfull, -⟩ := hfalse hB
  exact ⟨j, st, h, hF.1, hF.2.1, hF.2.2.1, hF.2.2.2.1, hF.2.2.2.2, st₄, st₅, rdd, ldd, hrem,
    hfull⟩

/-- The join of `l: !L` and `s: !S` of `asofTables` on `a` asof `t`: left
has the fields `a`, `t`, `b` and right keeps `b`, which has the name of a
field of left; the definition of the output type is reported and the output
type of the join is null, not a type with the fields `a`, `t`, `b`, `b`. -/
theorem join_clashing_names_null_type :
    ∃ j st,
      visitJoin asofEnv 5 (visit_expr asofEnv 5 10) asofState (.Id "l") (.Id "s")
          [(.Id "a", "")] (some (.Id "t", "")) false .kBackward none = .ok j st ∧
      asofState.sema_err_ = [] ∧
      get_type_string_datatype sampleVM st.heap j.left.type =
        some "a: Int64, t: Int64, b: String" ∧
      get_type_string_datatype sampleVM st.heap j.right.type =
        some "a: Int64, t: Int64, b: String" ∧
      get_type_string_datatype sampleVM st.heap j.right_on_type = some "a: Int64" ∧
      asof_name_of j.right_asof = "t" ∧
      get_type_string_datatype sampleVM st.heap j.remaining_type = some "b: String" ∧
      j.type.is_null = true ∧
      st.sema_err_ = ["Error: symbol b was already defined\n"] := by
  obtain ⟨j, st, h⟩ :=
    result_ok_of_isSome
      (visitJoin asofEnv 5 (visit_expr asofEnv 5 10) asofState (.Id "l") (.Id "s")
        [(.Id "a", "")] (some (.Id "t", "")) false .kBackward none) (by decide!)
  have hF :
      (match visitJoin asofEnv 5 (visit_expr asofEnv 5 10) asofState (.Id "l") (.Id "s")
          [(.Id "a", "")] (some (.Id "t", "")) false .kBackward none with
        | .ok j st =>
            decide (asofState.sema_err_ = [] ∧
              get_type_string_datatype sampleVM st.heap j.left.type =
                some "a: Int64, t: Int64, b: String" ∧
              get_type_string_datatype sampleVM st.heap j.right.type =
                some "a: Int64, t: Int64, b: String" ∧
              get_type_string_datatype sampleVM st.heap j.right_on_type = some "a: Int64" ∧
              asof_name_of j.right_asof = "t" ∧
              get_type_string_datatype sampleVM st.heap j.remaining_type =
                some "b: String" ∧
              j.type.is_null = true ∧
              st.sema_err_ = ["Error: symbol b was already defined\n"])
        | _ => false) = true := by decide!
  rw [h] at hF
  simp only [decide_eq_true_eq] at hF
  exact ⟨j, st, h, hF⟩


/-- The declaration `var Anon__0 = from t select sym` at top level of
`tradeTableState`, where no anonymous type was made yet.  The name begins
with an upper-case letter and is reported; the visit of the initializer
defines the anonymous type of the query under the name `Anon__0` in the
current scope, so the list of the declared name in the current scope is not
what it was before the declaration. -/
theorem anonymous_type_takes_declared_name :
    ∃ d st',
      visitDeclaration tradeEnv 5 (visit_expr tradeEnv 5 10) tradeTableState
          ⟨"Anon__0", none, some (.Query (.Id "t") 0 [(.Id "sym", "")] [] none)⟩ =
        .ok d st' ∧
      tradeTableState.sema_err_ = [] ∧
      st'.sema_err_ = ["Error: value name Anon__0 must begin with lower-case letter\n"] ∧
      tradeTableState.table.current_scope_ = 0 ∧ st'.table.current_scope_ = 0 ∧
      tradeTableState.table.entries 0 "Anon__0" = [] ∧
      st'.table.entries 0 "Anon__0" = [.DataRef 2] :=
  ⟨_, _, rfl, rfl, rfl, rfl, rfl, rfl, rfl⟩

end Sema
